import Mathlib

/-!
# AES (software path) of Botan: `src/lib/block/aes/aes.cpp`

A shallow embedding of the bitsliced AES implementation: the constant-time
S-box circuit, the word-level S-box wrappers, the forward round, the T-table
decryption round, the key schedule and the block pipelines.

Machine integers are natural numbers; every place where the C++ code truncates
(a `uint8_t` cast, a `uint32_t` shift, a `word` shift or complement) carries an
explicit reduction.  The width of Botan's `word` type is the parameter `wbits`
(32 or 64 in Botan's builds), the cache line size reported by `CPUID` is the
parameter `cls`.
-/

namespace Botan

/-! ## Helpers of `loadstor.h` and `rotate.h` -/

/-- Modelled from the spec: `get_byte(n, x)` of `loadstor.h` is missing from the
sources; it is byte `n` of a 32-bit word under big-endian numbering (byte 0 is
the most significant byte), returned as a `uint8_t`. -/
def get_byte (n : Nat) (x : Nat) : Nat := (x >>> (8 * (3 - n))) % 256

/-- Modelled from the spec: `make_uint32(i0, i1, i2, i3)` of `loadstor.h` is
missing from the sources; it concatenates four bytes, `i0` most significant. -/
def make_uint32 (i0 i1 i2 i3 : Nat) : Nat :=
  (i0 <<< 24) ||| (i1 <<< 16) ||| (i2 <<< 8) ||| i3

/-- Modelled from the spec: `rotl<n>` of `rotate.h` is missing from the sources;
it is the left rotation of a 32-bit word. -/
def rotl (n : Nat) (x : Nat) : Nat := ((x <<< n) % 2 ^ 32) ||| (x >>> (32 - n))

/-- Modelled from the spec: `rotr<n>` of `rotate.h` is missing from the sources;
it is the right rotation of a 32-bit word. -/
def rotr (n : Nat) (x : Nat) : Nat := (x >>> n) ||| ((x <<< (32 - n)) % 2 ^ 32)

/-- Modelled from the spec: `load_be<uint32_t>(in, off)` of `loadstor.h` is
missing from the sources; it reads the big-endian 32-bit word number `off` of a
byte buffer. -/
def load_be (inp : List Nat) (off : Nat) : Nat :=
  make_uint32 (inp.getD (4 * off) 0) (inp.getD (4 * off + 1) 0)
    (inp.getD (4 * off + 2) 0) (inp.getD (4 * off + 3) 0)

/-- Modelled from the spec: `store_be(x, out)` of `loadstor.h` is missing from
the sources; it writes a 32-bit word as four bytes, most significant first. -/
def store_be (x : Nat) : List Nat :=
  [get_byte 0 x, get_byte 1 x, get_byte 2 x, get_byte 3 x]

/-! ## Tables -/

/-- The forward S-box table `SE`. -/
def SE_table : List Nat := [
  0x63, 0x7C, 0x77, 0x7B, 0xF2, 0x6B, 0x6F, 0xC5, 0x30, 0x01, 0x67, 0x2B,
  0xFE, 0xD7, 0xAB, 0x76, 0xCA, 0x82, 0xC9, 0x7D, 0xFA, 0x59, 0x47, 0xF0,
  0xAD, 0xD4, 0xA2, 0xAF, 0x9C, 0xA4, 0x72, 0xC0, 0xB7, 0xFD, 0x93, 0x26,
  0x36, 0x3F, 0xF7, 0xCC, 0x34, 0xA5, 0xE5, 0xF1, 0x71, 0xD8, 0x31, 0x15,
  0x04, 0xC7, 0x23, 0xC3, 0x18, 0x96, 0x05, 0x9A, 0x07, 0x12, 0x80, 0xE2,
  0xEB, 0x27, 0xB2, 0x75, 0x09, 0x83, 0x2C, 0x1A, 0x1B, 0x6E, 0x5A, 0xA0,
  0x52, 0x3B, 0xD6, 0xB3, 0x29, 0xE3, 0x2F, 0x84, 0x53, 0xD1, 0x00, 0xED,
  0x20, 0xFC, 0xB1, 0x5B, 0x6A, 0xCB, 0xBE, 0x39, 0x4A, 0x4C, 0x58, 0xCF,
  0xD0, 0xEF, 0xAA, 0xFB, 0x43, 0x4D, 0x33, 0x85, 0x45, 0xF9, 0x02, 0x7F,
  0x50, 0x3C, 0x9F, 0xA8, 0x51, 0xA3, 0x40, 0x8F, 0x92, 0x9D, 0x38, 0xF5,
  0xBC, 0xB6, 0xDA, 0x21, 0x10, 0xFF, 0xF3, 0xD2, 0xCD, 0x0C, 0x13, 0xEC,
  0x5F, 0x97, 0x44, 0x17, 0xC4, 0xA7, 0x7E, 0x3D, 0x64, 0x5D, 0x19, 0x73,
  0x60, 0x81, 0x4F, 0xDC, 0x22, 0x2A, 0x90, 0x88, 0x46, 0xEE, 0xB8, 0x14,
  0xDE, 0x5E, 0x0B, 0xDB, 0xE0, 0x32, 0x3A, 0x0A, 0x49, 0x06, 0x24, 0x5C,
  0xC2, 0xD3, 0xAC, 0x62, 0x91, 0x95, 0xE4, 0x79, 0xE7, 0xC8, 0x37, 0x6D,
  0x8D, 0xD5, 0x4E, 0xA9, 0x6C, 0x56, 0xF4, 0xEA, 0x65, 0x7A, 0xAE, 0x08,
  0xBA, 0x78, 0x25, 0x2E, 0x1C, 0xA6, 0xB4, 0xC6, 0xE8, 0xDD, 0x74, 0x1F,
  0x4B, 0xBD, 0x8B, 0x8A, 0x70, 0x3E, 0xB5, 0x66, 0x48, 0x03, 0xF6, 0x0E,
  0x61, 0x35, 0x57, 0xB9, 0x86, 0xC1, 0x1D, 0x9E, 0xE1, 0xF8, 0x98, 0x11,
  0x69, 0xD9, 0x8E, 0x94, 0x9B, 0x1E, 0x87, 0xE9, 0xCE, 0x55, 0x28, 0xDF,
  0x8C, 0xA1, 0x89, 0x0D, 0xBF, 0xE6, 0x42, 0x68, 0x41, 0x99, 0x2D, 0x0F,
  0xB0, 0x54, 0xBB, 0x16 ]

/-- The inverse S-box table `SD`. -/
def SD_table : List Nat := [
  0x52, 0x09, 0x6A, 0xD5, 0x30, 0x36, 0xA5, 0x38, 0xBF, 0x40, 0xA3, 0x9E,
  0x81, 0xF3, 0xD7, 0xFB, 0x7C, 0xE3, 0x39, 0x82, 0x9B, 0x2F, 0xFF, 0x87,
  0x34, 0x8E, 0x43, 0x44, 0xC4, 0xDE, 0xE9, 0xCB, 0x54, 0x7B, 0x94, 0x32,
  0xA6, 0xC2, 0x23, 0x3D, 0xEE, 0x4C, 0x95, 0x0B, 0x42, 0xFA, 0xC3, 0x4E,
  0x08, 0x2E, 0xA1, 0x66, 0x28, 0xD9, 0x24, 0xB2, 0x76, 0x5B, 0xA2, 0x49,
  0x6D, 0x8B, 0xD1, 0x25, 0x72, 0xF8, 0xF6, 0x64, 0x86, 0x68, 0x98, 0x16,
  0xD4, 0xA4, 0x5C, 0xCC, 0x5D, 0x65, 0xB6, 0x92, 0x6C, 0x70, 0x48, 0x50,
  0xFD, 0xED, 0xB9, 0xDA, 0x5E, 0x15, 0x46, 0x57, 0xA7, 0x8D, 0x9D, 0x84,
  0x90, 0xD8, 0xAB, 0x00, 0x8C, 0xBC, 0xD3, 0x0A, 0xF7, 0xE4, 0x58, 0x05,
  0xB8, 0xB3, 0x45, 0x06, 0xD0, 0x2C, 0x1E, 0x8F, 0xCA, 0x3F, 0x0F, 0x02,
  0xC1, 0xAF, 0xBD, 0x03, 0x01, 0x13, 0x8A, 0x6B, 0x3A, 0x91, 0x11, 0x41,
  0x4F, 0x67, 0xDC, 0xEA, 0x97, 0xF2, 0xCF, 0xCE, 0xF0, 0xB4, 0xE6, 0x73,
  0x96, 0xAC, 0x74, 0x22, 0xE7, 0xAD, 0x35, 0x85, 0xE2, 0xF9, 0x37, 0xE8,
  0x1C, 0x75, 0xDF, 0x6E, 0x47, 0xF1, 0x1A, 0x71, 0x1D, 0x29, 0xC5, 0x89,
  0x6F, 0xB7, 0x62, 0x0E, 0xAA, 0x18, 0xBE, 0x1B, 0xFC, 0x56, 0x3E, 0x4B,
  0xC6, 0xD2, 0x79, 0x20, 0x9A, 0xDB, 0xC0, 0xFE, 0x78, 0xCD, 0x5A, 0xF4,
  0x1F, 0xDD, 0xA8, 0x33, 0x88, 0x07, 0xC7, 0x31, 0xB1, 0x12, 0x10, 0x59,
  0x27, 0x80, 0xEC, 0x5F, 0x60, 0x51, 0x7F, 0xA9, 0x19, 0xB5, 0x4A, 0x0D,
  0x2D, 0xE5, 0x7A, 0x9F, 0x93, 0xC9, 0x9C, 0xEF, 0xA0, 0xE0, 0x3B, 0x4D,
  0xAE, 0x2A, 0xF5, 0xB0, 0xC8, 0xEB, 0xBB, 0x3C, 0x83, 0x53, 0x99, 0x61,
  0x17, 0x2B, 0x04, 0x7E, 0xBA, 0x77, 0xD6, 0x26, 0xE1, 0x69, 0x14, 0x63,
  0x55, 0x21, 0x0C, 0x7D ]


/-- The lookup `SE[i]`. -/
def SE (i : Nat) : Nat := SE_table.getD i 0

/-- The lookup `SD[i]`. -/
def SD (i : Nat) : Nat := SD_table.getD i 0

/-! ## GF(2^8) byte primitives -/

def xtime (s : Nat) : Nat := ((s <<< 1) % 256) ^^^ ((s >>> 7) * 0x1B)
def xtime4 (s : Nat) : Nat := xtime (xtime s)
def xtime8 (s : Nat) : Nat := xtime (xtime (xtime s))

def xtime3 (s : Nat) : Nat := xtime s ^^^ s
def xtime9 (s : Nat) : Nat := xtime8 s ^^^ s
def xtime11 (s : Nat) : Nat := xtime8 s ^^^ xtime s ^^^ s
def xtime13 (s : Nat) : Nat := xtime8 s ^^^ xtime4 s ^^^ s
def xtime14 (s : Nat) : Nat := xtime8 s ^^^ xtime4 s ^^^ xtime s

/-! ## The bitsliced S-box -/

/-- The array `word V[8]` of slice words. -/
structure Slices where
  v0 : Nat
  v1 : Nat
  v2 : Nat
  v3 : Nat
  v4 : Nat
  v5 : Nat
  v6 : Nat
  v7 : Nat
deriving DecidableEq, Repr

/-- The complement `~x` of a `word` of `wbits` bits. -/
def word_not (wbits : Nat) (x : Nat) : Nat := (2 ^ wbits - 1) ^^^ x

/-- The circuit `AES_SBOX(word V[8])`. -/
def AES_SBOX (wbits : Nat) (V : Slices) : Slices :=
  let I0 := V.v0
  let I1 := V.v1
  let I2 := V.v2
  let I3 := V.v3
  let I4 := V.v4
  let I5 := V.v5
  let I6 := V.v6
  let I7 := V.v7
  let T1 := I0 ^^^ I3
  let T2 := I0 ^^^ I5
  let T3 := I0 ^^^ I6
  let T4 := I3 ^^^ I5
  let T5 := I4 ^^^ I6
  let T6 := T1 ^^^ T5
  let T7 := I1 ^^^ I2
  let T8 := I7 ^^^ T6
  let T9 := I7 ^^^ T7
  let T10 := T6 ^^^ T7
  let T11 := I1 ^^^ I5
  let T12 := I2 ^^^ I5
  let T13 := T3 ^^^ T4
  let T14 := T6 ^^^ T11
  let T15 := T5 ^^^ T11
  let T16 := T5 ^^^ T12
  let T17 := T9 ^^^ T16
  let T18 := I3 ^^^ I7
  let T19 := T7 ^^^ T18
  let T20 := T1 ^^^ T19
  let T21 := I6 ^^^ I7
  let T22 := T7 ^^^ T21
  let T23 := T2 ^^^ T22
  let T24 := T2 ^^^ T10
  let T25 := T20 ^^^ T17
  let T26 := T3 ^^^ T16
  let T27 := T1 ^^^ T12
  let D := I7
  let M1 := T13 &&& T6
  let M2 := T23 &&& T8
  let M3 := T14 ^^^ M1
  let M4 := T19 &&& D
  let M5 := M4 ^^^ M1
  let M6 := T3 &&& T16
  let M7 := T22 &&& T9
  let M8 := T26 ^^^ M6
  let M9 := T20 &&& T17
  let M10 := M9 ^^^ M6
  let M11 := T1 &&& T15
  let M12 := T4 &&& T27
  let M13 := M12 ^^^ M11
  let M14 := T2 &&& T10
  let M15 := M14 ^^^ M11
  let M16 := M3 ^^^ M2
  let M17 := M5 ^^^ T24
  let M18 := M8 ^^^ M7
  let M19 := M10 ^^^ M15
  let M20 := M16 ^^^ M13
  let M21 := M17 ^^^ M15
  let M22 := M18 ^^^ M13
  let M23 := M19 ^^^ T25
  let M24 := M22 ^^^ M23
  let M25 := M22 &&& M20
  let M26 := M21 ^^^ M25
  let M27 := M20 ^^^ M21
  let M28 := M23 ^^^ M25
  let M29 := M28 &&& M27
  let M30 := M26 &&& M24
  let M31 := M20 &&& M23
  let M32 := M27 &&& M31
  let M33 := M27 ^^^ M25
  let M34 := M21 &&& M22
  let M35 := M24 &&& M34
  let M36 := M24 ^^^ M25
  let M37 := M21 ^^^ M29
  let M38 := M32 ^^^ M33
  let M39 := M23 ^^^ M30
  let M40 := M35 ^^^ M36
  let M41 := M38 ^^^ M40
  let M42 := M37 ^^^ M39
  let M43 := M37 ^^^ M38
  let M44 := M39 ^^^ M40
  let M45 := M42 ^^^ M41
  let M46 := M44 &&& T6
  let M47 := M40 &&& T8
  let M48 := M39 &&& D
  let M49 := M43 &&& T16
  let M50 := M38 &&& T9
  let M51 := M37 &&& T17
  let M52 := M42 &&& T15
  let M53 := M45 &&& T27
  let M54 := M41 &&& T10
  let M55 := M44 &&& T13
  let M56 := M40 &&& T23
  let M57 := M39 &&& T19
  let M58 := M43 &&& T3
  let M59 := M38 &&& T22
  let M60 := M37 &&& T20
  let M61 := M42 &&& T1
  let M62 := M45 &&& T4
  let M63 := M41 &&& T2
  let L0 := M61 ^^^ M62
  let L1 := M50 ^^^ M56
  let L2 := M46 ^^^ M48
  let L3 := M47 ^^^ M55
  let L4 := M54 ^^^ M58
  let L5 := M49 ^^^ M61
  let L6 := M62 ^^^ L5
  let L7 := M46 ^^^ L3
  let L8 := M51 ^^^ M59
  let L9 := M52 ^^^ M53
  let L10 := M53 ^^^ L4
  let L11 := M60 ^^^ L2
  let L12 := M48 ^^^ M51
  let L13 := M50 ^^^ L0
  let L14 := M52 ^^^ M61
  let L15 := M55 ^^^ L1
  let L16 := M56 ^^^ L0
  let L17 := M57 ^^^ L1
  let L18 := M58 ^^^ L8
  let L19 := M63 ^^^ L4
  let L20 := L0 ^^^ L1
  let L21 := L1 ^^^ L7
  let L22 := L3 ^^^ L12
  let L23 := L18 ^^^ L2
  let L24 := L15 ^^^ L9
  let L25 := L6 ^^^ L10
  let L26 := L7 ^^^ L9
  let L27 := L8 ^^^ L10
  let L28 := L11 ^^^ L14
  let L29 := L11 ^^^ L17
  let S0 := L6 ^^^ L24
  let S1 := word_not wbits (L16 ^^^ L26)
  let S2 := word_not wbits (L19 ^^^ L28)
  let S3 := L6 ^^^ L21
  let S4 := L20 ^^^ L22
  let S5 := L25 ^^^ L29
  let S6 := word_not wbits (L13 ^^^ L27)
  let S7 := word_not wbits (L6 ^^^ L23)
  Slices.mk S0 S1 S2 S3 S4 S5 S6 S7

def bit_permute_step (x m shift : Nat) : Nat :=
  let t := ((x >>> shift) ^^^ x) &&& m
  ((x ^^^ t) ^^^ ((t <<< shift) % 2 ^ 32)) % 2 ^ 32

def SE_word_ref (x : Nat) : Nat :=
  make_uint32 (SE (get_byte 0 x)) (SE (get_byte 1 x)) (SE (get_byte 2 x)) (SE (get_byte 3 x))

def SE_word (wbits : Nat) (x : Nat) : Nat :=
  let x := bit_permute_step x 0x00aa00aa 7
  let x := bit_permute_step x 0x0000cccc 14
  let x := bit_permute_step x 0x00f000f0 4
  let x := bit_permute_step x 0x0000ff00 8
  let I := Slices.mk ((x >>> 28) &&& 0xF) ((x >>> 24) &&& 0xF) ((x >>> 20) &&& 0xF)
    ((x >>> 16) &&& 0xF) ((x >>> 12) &&& 0xF) ((x >>> 8) &&& 0xF) ((x >>> 4) &&& 0xF)
    ((x >>> 0) &&& 0xF)
  let I := AES_SBOX wbits I
  let x := 0
  let x := [I.v0, I.v1, I.v2, I.v3, I.v4, I.v5, I.v6, I.v7].foldl
    (fun (x : Nat) (Ii : Nat) => ((x <<< 4) + (Ii &&& 0xF)) % 2 ^ 32) x
  let x := bit_permute_step x 0x0a0a0a0a 3
  let x := bit_permute_step x 0x00cc00cc 6
  let x := bit_permute_step x 0x0000f0f0 12
  let x := bit_permute_step x 0x0000ff00 8
  x

/-- The body of one packing loop of `SE_word_x4` / `SE_word_x8`: every slice
word is shifted left by one and receives one bit of byte `i / 8` of `B`. -/
def pack_step (wbits : Nat) (I : Slices) (B : Nat) (i : Nat) : Slices :=
  Slices.mk
    (((I.v0 <<< 1) % 2 ^ wbits) ||| ((B >>> (7 + i)) &&& 1))
    (((I.v1 <<< 1) % 2 ^ wbits) ||| ((B >>> (6 + i)) &&& 1))
    (((I.v2 <<< 1) % 2 ^ wbits) ||| ((B >>> (5 + i)) &&& 1))
    (((I.v3 <<< 1) % 2 ^ wbits) ||| ((B >>> (4 + i)) &&& 1))
    (((I.v4 <<< 1) % 2 ^ wbits) ||| ((B >>> (3 + i)) &&& 1))
    (((I.v5 <<< 1) % 2 ^ wbits) ||| ((B >>> (2 + i)) &&& 1))
    (((I.v6 <<< 1) % 2 ^ wbits) ||| ((B >>> (1 + i)) &&& 1))
    (((I.v7 <<< 1) % 2 ^ wbits) ||| ((B >>> (0 + i)) &&& 1))

/-- One push `Z = (Z << 1) | ((I >> k) & 1)` into a `uint32_t`. -/
def push_bit (Z : Nat) (Ij : Nat) (k : Nat) : Nat :=
  ((Z <<< 1) ||| ((Ij >>> k) &&& 1)) % 2 ^ 32

/-- The body of one unpacking loop of `SE_word_x4` / `SE_word_x8`: the eight
pushes of bit `k` of the slice words `I[0]`, ..., `I[7]`. -/
def unpack_step (I : Slices) (Z : Nat) (k : Nat) : Nat :=
  let Z := push_bit Z I.v0 k
  let Z := push_bit Z I.v1 k
  let Z := push_bit Z I.v2 k
  let Z := push_bit Z I.v3 k
  let Z := push_bit Z I.v4 k
  let Z := push_bit Z I.v5 k
  let Z := push_bit Z I.v6 k
  let Z := push_bit Z I.v7 k
  Z

/-- The four words `B0`, ..., `B3` of one block state. -/
structure Words4 where
  b0 : Nat
  b1 : Nat
  b2 : Nat
  b3 : Nat
deriving DecidableEq, Repr

def SE_word_x4 (wbits : Nat) (B : Words4) : Words4 :=
  let I := Slices.mk 0 0 0 0 0 0 0 0
  let I := [0, 8, 16, 24].foldl (fun (I : Slices) (i : Nat) => pack_step wbits I B.b0 i) I
  let I := [0, 8, 16, 24].foldl (fun (I : Slices) (i : Nat) => pack_step wbits I B.b1 i) I
  let I := [0, 8, 16, 24].foldl (fun (I : Slices) (i : Nat) => pack_step wbits I B.b2 i) I
  let I := [0, 8, 16, 24].foldl (fun (I : Slices) (i : Nat) => pack_step wbits I B.b3 i) I
  let I := AES_SBOX wbits I
  let Z3 := [0, 1, 2, 3].foldl (fun (Z : Nat) (i : Nat) => unpack_step I Z (0 + i)) 0
  let Z2 := [0, 1, 2, 3].foldl (fun (Z : Nat) (i : Nat) => unpack_step I Z (4 + i)) 0
  let Z1 := [0, 1, 2, 3].foldl (fun (Z : Nat) (i : Nat) => unpack_step I Z (8 + i)) 0
  let Z0 := [0, 1, 2, 3].foldl (fun (Z : Nat) (i : Nat) => unpack_step I Z (12 + i)) 0
  Words4.mk Z0 Z1 Z2 Z3

/-- The eight words `B0`, ..., `B7` handled by `SE_word_x8`. -/
structure Words8 where
  b0 : Nat
  b1 : Nat
  b2 : Nat
  b3 : Nat
  b4 : Nat
  b5 : Nat
  b6 : Nat
  b7 : Nat
deriving DecidableEq, Repr

def SE_word_x8 (wbits : Nat) (B : Words8) : Words8 :=
  let I := Slices.mk 0 0 0 0 0 0 0 0
  let I := [0, 8, 16, 24].foldl (fun (I : Slices) (i : Nat) => pack_step wbits I B.b0 i) I
  let I := [0, 8, 16, 24].foldl (fun (I : Slices) (i : Nat) => pack_step wbits I B.b1 i) I
  let I := [0, 8, 16, 24].foldl (fun (I : Slices) (i : Nat) => pack_step wbits I B.b2 i) I
  let I := [0, 8, 16, 24].foldl (fun (I : Slices) (i : Nat) => pack_step wbits I B.b3 i) I
  let I := [0, 8, 16, 24].foldl (fun (I : Slices) (i : Nat) => pack_step wbits I B.b4 i) I
  let I := [0, 8, 16, 24].foldl (fun (I : Slices) (i : Nat) => pack_step wbits I B.b5 i) I
  let I := [0, 8, 16, 24].foldl (fun (I : Slices) (i : Nat) => pack_step wbits I B.b6 i) I
  let I := [0, 8, 16, 24].foldl (fun (I : Slices) (i : Nat) => pack_step wbits I B.b7 i) I
  let I := AES_SBOX wbits I
  let Z7 := [0, 1, 2, 3].foldl (fun (Z : Nat) (i : Nat) => unpack_step I Z (0 + i)) 0
  let Z6 := [0, 1, 2, 3].foldl (fun (Z : Nat) (i : Nat) => unpack_step I Z (4 + i)) 0
  let Z5 := [0, 1, 2, 3].foldl (fun (Z : Nat) (i : Nat) => unpack_step I Z (8 + i)) 0
  let Z4 := [0, 1, 2, 3].foldl (fun (Z : Nat) (i : Nat) => unpack_step I Z (12 + i)) 0
  let Z3 := [0, 1, 2, 3].foldl (fun (Z : Nat) (i : Nat) => unpack_step I Z (16 + i)) 0
  let Z2 := [0, 1, 2, 3].foldl (fun (Z : Nat) (i : Nat) => unpack_step I Z ((4 + 16) + i)) 0
  let Z1 := [0, 1, 2, 3].foldl (fun (Z : Nat) (i : Nat) => unpack_step I Z ((8 + 16) + i)) 0
  let Z0 := [0, 1, 2, 3].foldl (fun (Z : Nat) (i : Nat) => unpack_step I Z ((12 + 16) + i)) 0
  Words8.mk Z0 Z1 Z2 Z3 Z4 Z5 Z6 Z7

/-! ## Round transforms -/

def xtime_32 (s : Nat) : Nat :=
  let hb := (s >>> 7) &&& 0x01010101
  let shifted := ((s <<< 1) % 2 ^ 32) &&& 0xFEFEFEFE
  let carry := (hb <<< 4) ||| (hb <<< 3) ||| (hb <<< 1) ||| hb
  shifted ^^^ carry

def aes_enc_round (V0 V1 V2 V3 : Nat) : Nat :=
  let s := make_uint32 (get_byte 0 V0) (get_byte 1 V1) (get_byte 2 V2) (get_byte 3 V3)
  let xtime_s := xtime_32 s
  let xtime3_s := xtime_s ^^^ s
  let Z0 := make_uint32 (get_byte 0 xtime_s) (get_byte 0 V0) (get_byte 0 V0) (get_byte 0 xtime3_s)
  let Z1 := make_uint32 (get_byte 1 xtime3_s) (get_byte 1 xtime_s) (get_byte 1 V1) (get_byte 1 V1)
  let Z2 := make_uint32 (get_byte 2 V2) (get_byte 2 xtime3_s) (get_byte 2 xtime_s) (get_byte 2 V2)
  let Z3 := make_uint32 (get_byte 3 V3) (get_byte 3 V3) (get_byte 3 xtime3_s) (get_byte 3 xtime_s)
  Z0 ^^^ Z1 ^^^ Z2 ^^^ Z3

/-- The four-word overload of `aes_enc_r`. -/
def aes_enc_r (wbits : Nat) (B : Words4) (K0 K1 K2 K3 : Nat) : Words4 :=
  let S := SE_word_x4 wbits B
  let T0 := aes_enc_round S.b0 S.b1 S.b2 S.b3
  let T1 := aes_enc_round S.b1 S.b2 S.b3 S.b0
  let T2 := aes_enc_round S.b2 S.b3 S.b0 S.b1
  let T3 := aes_enc_round S.b3 S.b0 S.b1 S.b2
  Words4.mk (T0 ^^^ K0) (T1 ^^^ K1) (T2 ^^^ K2) (T3 ^^^ K3)

/-- The eight-word overload of `aes_enc_r`. -/
def aes_enc_r_x8 (wbits : Nat) (B : Words8) (K0 K1 K2 K3 : Nat) : Words8 :=
  let S := SE_word_x8 wbits B
  let T0 := aes_enc_round S.b0 S.b1 S.b2 S.b3
  let T1 := aes_enc_round S.b1 S.b2 S.b3 S.b0
  let T2 := aes_enc_round S.b2 S.b3 S.b0 S.b1
  let T3 := aes_enc_round S.b3 S.b0 S.b1 S.b2
  let T4 := aes_enc_round S.b4 S.b5 S.b6 S.b7
  let T5 := aes_enc_round S.b5 S.b6 S.b7 S.b4
  let T6 := aes_enc_round S.b6 S.b7 S.b4 S.b5
  let T7 := aes_enc_round S.b7 S.b4 S.b5 S.b6
  Words8.mk (T0 ^^^ K0) (T1 ^^^ K1) (T2 ^^^ K2) (T3 ^^^ K3)
    (T4 ^^^ K0) (T5 ^^^ K1) (T6 ^^^ K2) (T7 ^^^ K3)

/-- The table built by the constructor of `TD_Table`. -/
def TD_table : List Nat :=
  (List.range 256).map (fun i =>
    let s := SD i
    make_uint32 (xtime14 s) (xtime9 s) (xtime13 s) (xtime11 s))

/-- The lookup `TD[i]` in the table returned by `AES_TD()`. -/
def AES_TD (i : Nat) : Nat := TD_table.getD i 0

/-- The macro `AES_T(T, K, V0, V1, V2, V3)`. -/
def AES_T (T : Nat → Nat) (K V0 V1 V2 V3 : Nat) : Nat :=
  K ^^^ T (get_byte 0 V0) ^^^
    rotr 8 (T (get_byte 1 V1)) ^^^
    rotr 16 (T (get_byte 2 V2)) ^^^
    rotr 24 (T (get_byte 3 V3))

/-! ## Failures -/

/-- The ways in which a call can fail to return normally. -/
inductive AesError where
  /-- `BOTAN_ARG_CHECK` failed (`Invalid_Argument`). -/
  | invalid_argument
  /-- `BOTAN_ASSERT` failed. -/
  | assertion_failure
  /-- a loop whose exit test can never become true. -/
  | nontermination
  /-- `Invalid_Key_Length`, thrown by `set_key`. -/
  | invalid_key_length
  /-- `Key_Not_Set`, thrown by `verify_key_set`. -/
  | key_not_set
deriving DecidableEq, Repr

deriving instance DecidableEq for Except

/-- A prefetch loop `for(i = start; i < 256; i += step) Z |= T[i]`, run with
`fuel` iterations at its disposal; `none` when the fuel does not suffice. -/
def prefetch (T : Nat → Nat) (step : Nat) : Nat → Nat → Nat → Option Nat
  | 0, _, _ => none
  | fuel + 1, i, Z =>
    if i < 256 then prefetch T step fuel (i + step) (Z ||| T i) else some Z

/-! ## Encryption -/

/-- The loop `for(r = 2*4; r < EK.size(); r += 2*4)` of the one-block path;
`fuel` bounds the number of iterations (`EK.size()` always suffices). -/
def enc_rounds (wbits : Nat) (EK : List Nat) : Nat → Nat → Words4 → Words4
  | 0, _, B => B
  | fuel + 1, r, B =>
    if r < EK.length then
      let B := aes_enc_r wbits B (EK.getD r 0) (EK.getD (r + 1) 0) (EK.getD (r + 2) 0)
        (EK.getD (r + 3) 0)
      let B := aes_enc_r wbits B (EK.getD (r + 4) 0) (EK.getD (r + 5) 0) (EK.getD (r + 6) 0)
        (EK.getD (r + 7) 0)
      enc_rounds wbits EK fuel (r + 2 * 4) B
    else B

/-- The loop `for(r = 2*4; r < EK.size(); r += 2*4)` of the two-block path. -/
def enc_rounds_x8 (wbits : Nat) (EK : List Nat) : Nat → Nat → Words8 → Words8
  | 0, _, B => B
  | fuel + 1, r, B =>
    if r < EK.length then
      let B := aes_enc_r_x8 wbits B (EK.getD r 0) (EK.getD (r + 1) 0) (EK.getD (r + 2) 0)
        (EK.getD (r + 3) 0)
      let B := aes_enc_r_x8 wbits B (EK.getD (r + 4) 0) (EK.getD (r + 5) 0) (EK.getD (r + 6) 0)
        (EK.getD (r + 7) 0)
      enc_rounds_x8 wbits EK fuel (r + 2 * 4) B
    else B

/-- The final-round byte placement of one block: the sixteen stores
`out[k] = get_byte(r, B_c) ^ ME[k]`. -/
def enc_final (B : Words4) (ME : List Nat) : List Nat :=
  [ get_byte 0 B.b0 ^^^ ME.getD 0 0,
    get_byte 1 B.b1 ^^^ ME.getD 1 0,
    get_byte 2 B.b2 ^^^ ME.getD 2 0,
    get_byte 3 B.b3 ^^^ ME.getD 3 0,
    get_byte 0 B.b1 ^^^ ME.getD 4 0,
    get_byte 1 B.b2 ^^^ ME.getD 5 0,
    get_byte 2 B.b3 ^^^ ME.getD 6 0,
    get_byte 3 B.b0 ^^^ ME.getD 7 0,
    get_byte 0 B.b2 ^^^ ME.getD 8 0,
    get_byte 1 B.b3 ^^^ ME.getD 9 0,
    get_byte 2 B.b0 ^^^ ME.getD 10 0,
    get_byte 3 B.b1 ^^^ ME.getD 11 0,
    get_byte 0 B.b3 ^^^ ME.getD 12 0,
    get_byte 1 B.b0 ^^^ ME.getD 13 0,
    get_byte 2 B.b1 ^^^ ME.getD 14 0,
    get_byte 3 B.b2 ^^^ ME.getD 15 0 ]

/-- The body of the loop `while(blocks >= 2)`: the 32 bytes written to `out`
for the two blocks at the head of `inp`. -/
def encrypt_two_blocks (wbits : Nat) (inp : List Nat) (EK ME : List Nat) : List Nat :=
  let B := Words8.mk (load_be inp 0) (load_be inp 1) (load_be inp 2) (load_be inp 3)
    (load_be inp 4) (load_be inp 5) (load_be inp 6) (load_be inp 7)
  let B := Words8.mk (B.b0 ^^^ EK.getD 0 0) (B.b1 ^^^ EK.getD 1 0) (B.b2 ^^^ EK.getD 2 0)
    (B.b3 ^^^ EK.getD 3 0) (B.b4 ^^^ EK.getD 0 0) (B.b5 ^^^ EK.getD 1 0)
    (B.b6 ^^^ EK.getD 2 0) (B.b7 ^^^ EK.getD 3 0)
  let B := aes_enc_r_x8 wbits B (EK.getD 4 0) (EK.getD 5 0) (EK.getD 6 0) (EK.getD 7 0)
  let B := enc_rounds_x8 wbits EK EK.length (2 * 4) B
  let B := SE_word_x8 wbits B
  enc_final (Words4.mk B.b0 B.b1 B.b2 B.b3) ME ++ enc_final (Words4.mk B.b4 B.b5 B.b6 B.b7) ME

/-- The body of the loop `for(i = 0; i < blocks; ++i)`: the 16 bytes written to
`out + 16*i` for the block at `in + 16*i`. -/
def encrypt_one_block (wbits : Nat) (inp : List Nat) (i : Nat) (EK ME : List Nat) : List Nat :=
  let inp := inp.drop (16 * i)
  let B := Words4.mk (load_be inp 0) (load_be inp 1) (load_be inp 2) (load_be inp 3)
  let B := Words4.mk (B.b0 ^^^ EK.getD 0 0) (B.b1 ^^^ EK.getD 1 0) (B.b2 ^^^ EK.getD 2 0)
    (B.b3 ^^^ EK.getD 3 0)
  let B := aes_enc_r wbits B (EK.getD 4 0) (EK.getD 5 0) (EK.getD 6 0) (EK.getD 7 0)
  let B := enc_rounds wbits EK EK.length (2 * 4) B
  let B := SE_word_x4 wbits B
  enc_final B ME

/-- The two loops of `aes_encrypt_n`: pairs of blocks while `blocks >= 2`
(`in += 32; out += 32; blocks -= 2`), then the remaining blocks one at a time.
The result is the sequence of bytes written to `out`. -/
def encrypt_loop (wbits : Nat) (EK ME : List Nat) : Nat → List Nat → List Nat
  | blocks + 2, inp =>
    encrypt_two_blocks wbits inp EK ME ++ encrypt_loop wbits EK ME blocks (inp.drop 32)
  | blocks, inp =>
    ((List.range blocks).map (fun i => encrypt_one_block wbits inp i EK ME)).flatten

def aes_encrypt_n (wbits : Nat) (inp : List Nat) (blocks : Nat) (EK ME : List Nat) :
    Except AesError (List Nat) :=
  if EK.length ≠ 0 ∧ ME.length = 16 then
    Except.ok (encrypt_loop wbits EK ME blocks inp)
  else
    Except.error AesError.assertion_failure

/-! ## Decryption -/

/-- The loop `for(r = 2*4; r < DK.size(); r += 2*4)` of `aes_decrypt_n`. -/
def dec_rounds (DK : List Nat) : Nat → Nat → Words4 → Words4
  | 0, _, B => B
  | fuel + 1, r, B =>
    if r < DK.length then
      let T0 := AES_T AES_TD (DK.getD r 0) B.b0 B.b3 B.b2 B.b1
      let T1 := AES_T AES_TD (DK.getD (r + 1) 0) B.b1 B.b0 B.b3 B.b2
      let T2 := AES_T AES_TD (DK.getD (r + 2) 0) B.b2 B.b1 B.b0 B.b3
      let T3 := AES_T AES_TD (DK.getD (r + 3) 0) B.b3 B.b2 B.b1 B.b0
      let B0 := AES_T AES_TD (DK.getD (r + 4) 0) T0 T3 T2 T1
      let B1 := AES_T AES_TD (DK.getD (r + 5) 0) T1 T0 T3 T2
      let B2 := AES_T AES_TD (DK.getD (r + 6) 0) T2 T1 T0 T3
      let B3 := AES_T AES_TD (DK.getD (r + 7) 0) T3 T2 T1 T0
      dec_rounds DK fuel (r + 2 * 4) (Words4.mk B0 B1 B2 B3)
    else B

/-- The final-round byte placement of `aes_decrypt_n`. -/
def dec_final (B : Words4) (MD : List Nat) : List Nat :=
  [ SD (get_byte 0 B.b0) ^^^ MD.getD 0 0,
    SD (get_byte 1 B.b3) ^^^ MD.getD 1 0,
    SD (get_byte 2 B.b2) ^^^ MD.getD 2 0,
    SD (get_byte 3 B.b1) ^^^ MD.getD 3 0,
    SD (get_byte 0 B.b1) ^^^ MD.getD 4 0,
    SD (get_byte 1 B.b0) ^^^ MD.getD 5 0,
    SD (get_byte 2 B.b3) ^^^ MD.getD 6 0,
    SD (get_byte 3 B.b2) ^^^ MD.getD 7 0,
    SD (get_byte 0 B.b2) ^^^ MD.getD 8 0,
    SD (get_byte 1 B.b1) ^^^ MD.getD 9 0,
    SD (get_byte 2 B.b0) ^^^ MD.getD 10 0,
    SD (get_byte 3 B.b3) ^^^ MD.getD 11 0,
    SD (get_byte 0 B.b3) ^^^ MD.getD 12 0,
    SD (get_byte 1 B.b2) ^^^ MD.getD 13 0,
    SD (get_byte 2 B.b1) ^^^ MD.getD 14 0,
    SD (get_byte 3 B.b0) ^^^ MD.getD 15 0 ]

/-- The body of the block loop of `aes_decrypt_n` for the block at the head of
`inp`; `Z` is the value left by the prefetch preamble. -/
def decrypt_one_block (inp : List Nat) (Z : Nat) (DK MD : List Nat) : List Nat :=
  let T0 := load_be inp 0 ^^^ DK.getD 0 0
  let T1 := load_be inp 1 ^^^ DK.getD 1 0
  let T2 := load_be inp 2 ^^^ DK.getD 2 0
  let T3 := load_be inp 3 ^^^ DK.getD 3 0
  let T0 := T0 ^^^ Z
  let B0 := AES_T AES_TD (DK.getD 4 0) T0 T3 T2 T1
  let B1 := AES_T AES_TD (DK.getD 5 0) T1 T0 T3 T2
  let B2 := AES_T AES_TD (DK.getD 6 0) T2 T1 T0 T3
  let B3 := AES_T AES_TD (DK.getD 7 0) T3 T2 T1 T0
  let B := dec_rounds DK DK.length (2 * 4) (Words4.mk B0 B1 B2 B3)
  dec_final B MD

/-- The block loop `for(i = 0; i != blocks; ++i)` of `aes_decrypt_n`
(`in += 16; out += 16`). -/
def decrypt_loop (Z : Nat) (DK MD : List Nat) : Nat → List Nat → List Nat
  | 0, _ => []
  | blocks + 1, inp =>
    decrypt_one_block inp Z DK MD ++ decrypt_loop Z DK MD blocks (inp.drop 16)

/-- The prefetch preamble of `aes_decrypt_n` for cache line size `cls`: the
value of `Z` after `Z &= TD[99]`, or `none` when a loop never exits. -/
def decrypt_prefetch (cls : Nat) : Option Nat :=
  match prefetch AES_TD (cls / 4) 257 0 0 with
  | none => none
  | some Z =>
    match prefetch SD cls 257 0 Z with
    | none => none
    | some Z => some (Z &&& AES_TD 99)

def aes_decrypt_n (cls : Nat) (inp : List Nat) (blocks : Nat) (DK MD : List Nat) :
    Except AesError (List Nat) :=
  if DK.length ≠ 0 ∧ MD.length = 16 then
    match decrypt_prefetch cls with
    | none => Except.error AesError.nontermination
    | some Z => Except.ok (decrypt_loop Z DK MD blocks inp)
  else
    Except.error AesError.assertion_failure

/-! ## Key schedule -/

/-- The round constants `RC`. -/
def RC_table : List Nat :=
  [ 0x01000000, 0x02000000, 0x04000000, 0x08000000, 0x10000000,
    0x20000000, 0x40000000, 0x80000000, 0x1B000000, 0x36000000 ]

/-- The lookup `RC[i]`. -/
def RC (i : Nat) : Nat := RC_table.getD i 0

/-- The body of the loop `for(j = 1; j != X; ++j)` of the key expansion. -/
def expand_inner (wbits X i : Nat) (XEK : List Nat) (j : Nat) : List Nat :=
  let XEK := XEK.set (i + j) (XEK.getD (i + j - X) 0)
  if X = 8 ∧ j = 4 then
    XEK.set (i + j) (XEK.getD (i + j) 0 ^^^ SE_word wbits (XEK.getD (i + j - 1) 0))
  else
    XEK.set (i + j) (XEK.getD (i + j) 0 ^^^ XEK.getD (i + j - 1) 0)

/-- The loop `for(i = X; i < 4*(rounds+1); i += X)` of the key expansion;
`fuel` bounds the number of iterations. -/
def expand_loop (wbits X bound : Nat) : Nat → Nat → List Nat → List Nat
  | 0, _, XEK => XEK
  | fuel + 1, i, XEK =>
    if i < bound then
      let XEK := XEK.set i
        (XEK.getD (i - X) 0 ^^^ RC ((i - X) / X) ^^^ SE_word wbits (rotl 8 (XEK.getD (i - 1) 0)))
      let XEK := (List.range' 1 (X - 1)).foldl (expand_inner wbits X i) XEK
      expand_loop wbits X bound fuel (i + X) XEK
    else XEK

/-- The loop `for(i = 4; i != length + 24; i += 4)` that applies `SE_word_x4`
to the quartets of `XDK`; `none` when the fuel does not suffice. -/
def xdk_sbox_loop (wbits stop : Nat) : Nat → Nat → List Nat → Option (List Nat)
  | 0, _, _ => none
  | fuel + 1, i, XDK =>
    if i ≠ stop then
      let S := SE_word_x4 wbits
        (Words4.mk (XDK.getD i 0) (XDK.getD (i + 1) 0) (XDK.getD (i + 2) 0) (XDK.getD (i + 3) 0))
      let XDK := (((XDK.set i S.b0).set (i + 1) S.b1).set (i + 2) S.b2).set (i + 3) S.b3
      xdk_sbox_loop wbits stop fuel (i + 4) XDK
    else some XDK

/-- The four buffers filled by `aes_key_schedule`. -/
structure KeyData where
  EK : List Nat
  DK : List Nat
  ME : List Nat
  MD : List Nat
deriving DecidableEq, Repr

/-- The expanded key `XEK` of `aes_key_schedule`, after the two loops that
fill it; `Z` is the value left by the prefetch preamble. -/
def key_expansion (wbits : Nat) (key : List Nat) (length : Nat) (Z : Nat) : List Nat :=
  let rounds := (length / 4) + 6
  let X := length / 4
  let XEK := List.replicate (length + 32) 0
  let XEK := (List.range X).foldl (fun (XEK : List Nat) (i : Nat) =>
    XEK.set i (Z ^^^ load_be key i)) XEK
  expand_loop wbits X (4 * (rounds + 1)) (4 * (rounds + 1)) X XEK

/-- The function `aes_key_schedule` for a `word` of `wbits` bits and cache line
size `cls` (the byte reversal for ARMv8 hardware is not part of the base path). -/
def aes_key_schedule (wbits cls : Nat) (key : List Nat) (length : Nat) :
    Except AesError KeyData :=
  let rounds := (length / 4) + 6
  let X := length / 4
  if ¬ (X = 4 ∨ X = 6 ∨ X = 8) then Except.error AesError.invalid_argument else
  match prefetch AES_TD (cls / 4) 257 0 0 with
  | none => Except.error AesError.nontermination
  | some Z =>
    let Z := Z &&& AES_TD 99
    let XEK := key_expansion wbits key length Z
    let XDK := List.replicate (length + 32) 0
    let XDK := (List.range' 0 (rounds + 1) 4).foldl (fun (XDK : List Nat) (i : Nat) =>
      (((XDK.set i (XEK.getD (4 * rounds - i) 0)).set (i + 1) (XEK.getD (4 * rounds - i + 1) 0)).set
        (i + 2) (XEK.getD (4 * rounds - i + 2) 0)).set (i + 3) (XEK.getD
            (4 * rounds - i + 3) 0)) XDK
    match xdk_sbox_loop wbits (length + 24) (length + 24) 4 XDK with
    | none => Except.error AesError.nontermination
    | some XDK =>
      let XDK := (List.range' 4 (length + 24 - 4)).foldl (fun (XDK : List Nat) (i : Nat) =>
        XDK.set i (AES_T AES_TD 0 (XDK.getD i 0) (XDK.getD i 0) (XDK.getD i 0) (XDK.getD i 0))) XDK
      let ME := (List.range 4).flatMap (fun i => store_be (XEK.getD (i + 4 * rounds) 0))
      let MD := (List.range 4).flatMap (fun i => store_be (XEK.getD i 0))
      Except.ok (KeyData.mk (XEK.take (length + 24)) (XDK.take (length + 24)) ME MD)

/-! ## The S-box circuit, lane by lane -/

/-- One bit lane of the eight slice words. -/
structure Lane where
  v0 : Bool
  v1 : Bool
  v2 : Bool
  v3 : Bool
  v4 : Bool
  v5 : Bool
  v6 : Bool
  v7 : Bool
deriving DecidableEq, Repr

/-- Bit lane `k` of the slice words `V`. -/
def Slices.lane (V : Slices) (k : Nat) : Lane :=
  Lane.mk (V.v0.testBit k) (V.v1.testBit k) (V.v2.testBit k) (V.v3.testBit k)
    (V.v4.testBit k) (V.v5.testBit k) (V.v6.testBit k) (V.v7.testBit k)

/-- The lane holding the bits of the byte `b`, most significant bit in `v0`. -/
def Lane.ofByte (b : Nat) : Lane :=
  Lane.mk (b.testBit 7) (b.testBit 6) (b.testBit 5) (b.testBit 4)
    (b.testBit 3) (b.testBit 2) (b.testBit 1) (b.testBit 0)

/-- The gates of `AES_SBOX` acting on a single bit lane. -/
def AES_SBOX_lane (V : Lane) : Lane :=
  let I0 := V.v0
  let I1 := V.v1
  let I2 := V.v2
  let I3 := V.v3
  let I4 := V.v4
  let I5 := V.v5
  let I6 := V.v6
  let I7 := V.v7
  let T1 := xor I0 I3
  let T2 := xor I0 I5
  let T3 := xor I0 I6
  let T4 := xor I3 I5
  let T5 := xor I4 I6
  let T6 := xor T1 T5
  let T7 := xor I1 I2
  let T8 := xor I7 T6
  let T9 := xor I7 T7
  let T10 := xor T6 T7
  let T11 := xor I1 I5
  let T12 := xor I2 I5
  let T13 := xor T3 T4
  let T14 := xor T6 T11
  let T15 := xor T5 T11
  let T16 := xor T5 T12
  let T17 := xor T9 T16
  let T18 := xor I3 I7
  let T19 := xor T7 T18
  let T20 := xor T1 T19
  let T21 := xor I6 I7
  let T22 := xor T7 T21
  let T23 := xor T2 T22
  let T24 := xor T2 T10
  let T25 := xor T20 T17
  let T26 := xor T3 T16
  let T27 := xor T1 T12
  let D := I7
  let M1 := T13 && T6
  let M2 := T23 && T8
  let M3 := xor T14 M1
  let M4 := T19 && D
  let M5 := xor M4 M1
  let M6 := T3 && T16
  let M7 := T22 && T9
  let M8 := xor T26 M6
  let M9 := T20 && T17
  let M10 := xor M9 M6
  let M11 := T1 && T15
  let M12 := T4 && T27
  let M13 := xor M12 M11
  let M14 := T2 && T10
  let M15 := xor M14 M11
  let M16 := xor M3 M2
  let M17 := xor M5 T24
  let M18 := xor M8 M7
  let M19 := xor M10 M15
  let M20 := xor M16 M13
  let M21 := xor M17 M15
  let M22 := xor M18 M13
  let M23 := xor M19 T25
  let M24 := xor M22 M23
  let M25 := M22 && M20
  let M26 := xor M21 M25
  let M27 := xor M20 M21
  let M28 := xor M23 M25
  let M29 := M28 && M27
  let M30 := M26 && M24
  let M31 := M20 && M23
  let M32 := M27 && M31
  let M33 := xor M27 M25
  let M34 := M21 && M22
  let M35 := M24 && M34
  let M36 := xor M24 M25
  let M37 := xor M21 M29
  let M38 := xor M32 M33
  let M39 := xor M23 M30
  let M40 := xor M35 M36
  let M41 := xor M38 M40
  let M42 := xor M37 M39
  let M43 := xor M37 M38
  let M44 := xor M39 M40
  let M45 := xor M42 M41
  let M46 := M44 && T6
  let M47 := M40 && T8
  let M48 := M39 && D
  let M49 := M43 && T16
  let M50 := M38 && T9
  let M51 := M37 && T17
  let M52 := M42 && T15
  let M53 := M45 && T27
  let M54 := M41 && T10
  let M55 := M44 && T13
  let M56 := M40 && T23
  let M57 := M39 && T19
  let M58 := M43 && T3
  let M59 := M38 && T22
  let M60 := M37 && T20
  let M61 := M42 && T1
  let M62 := M45 && T4
  let M63 := M41 && T2
  let L0 := xor M61 M62
  let L1 := xor M50 M56
  let L2 := xor M46 M48
  let L3 := xor M47 M55
  let L4 := xor M54 M58
  let L5 := xor M49 M61
  let L6 := xor M62 L5
  let L7 := xor M46 L3
  let L8 := xor M51 M59
  let L9 := xor M52 M53
  let L10 := xor M53 L4
  let L11 := xor M60 L2
  let L12 := xor M48 M51
  let L13 := xor M50 L0
  let L14 := xor M52 M61
  let L15 := xor M55 L1
  let L16 := xor M56 L0
  let L17 := xor M57 L1
  let L18 := xor M58 L8
  let L19 := xor M63 L4
  let L20 := xor L0 L1
  let L21 := xor L1 L7
  let L22 := xor L3 L12
  let L23 := xor L18 L2
  let L24 := xor L15 L9
  let L25 := xor L6 L10
  let L26 := xor L7 L9
  let L27 := xor L8 L10
  let L28 := xor L11 L14
  let L29 := xor L11 L17
  let S0 := xor L6 L24
  let S1 := !(xor L16 L26)
  let S2 := !(xor L19 L28)
  let S3 := xor L6 L21
  let S4 := xor L20 L22
  let S5 := xor L25 L29
  let S6 := !(xor L13 L27)
  let S7 := !(xor L6 L23)
  Lane.mk S0 S1 S2 S3 S4 S5 S6 S7

/-! ## Auxiliary accessors used in the statements -/

/-- The word `B[i]` of a four-word state. -/
def Words4.get (B : Words4) (i : Nat) : Nat :=
  match i with
  | 0 => B.b0
  | 1 => B.b1
  | 2 => B.b2
  | _ => B.b3

/-- The word `B[i]` of an eight-word state. -/
def Words8.get (B : Words8) (i : Nat) : Nat :=
  match i with
  | 0 => B.b0
  | 1 => B.b1
  | 2 => B.b2
  | 3 => B.b3
  | 4 => B.b4
  | 5 => B.b5
  | 6 => B.b6
  | _ => B.b7

/-- The first block `B0`, ..., `B3` of a two-block state. -/
def Words8.lo (B : Words8) : Words4 := Words4.mk B.b0 B.b1 B.b2 B.b3

/-- The second block `B4`, ..., `B7` of a two-block state. -/
def Words8.hi (B : Words8) : Words4 := Words4.mk B.b4 B.b5 B.b6 B.b7

/-! ## Bytes as bit vectors, columns as byte vectors -/

/-- The action of `xtime` on the bits of a byte. -/
def xtime_lane (L : Lane) : Lane :=
  Lane.mk L.v1 L.v2 L.v3 (xor L.v4 L.v0) (xor L.v5 L.v0) L.v6 (xor L.v7 L.v0) L.v0

/-- The bitwise exclusive or of two lanes. -/
def Lane.add (L M : Lane) : Lane :=
  Lane.mk (xor L.v0 M.v0) (xor L.v1 M.v1) (xor L.v2 M.v2) (xor L.v3 M.v3)
    (xor L.v4 M.v4) (xor L.v5 M.v5) (xor L.v6 M.v6) (xor L.v7 M.v7)

/-- One column of MixColumns: the product of the matrix
`[2 3 1 1; 1 2 3 1; 1 1 2 3; 3 1 1 2]` with the column `(a, b, c, d)`, as a word. -/
def mix_column (a b c d : Nat) : Nat :=
  make_uint32 (xtime a ^^^ xtime3 b ^^^ c ^^^ d) (a ^^^ xtime b ^^^ xtime3 c ^^^ d)
    (a ^^^ b ^^^ xtime c ^^^ xtime3 d) (xtime3 a ^^^ b ^^^ c ^^^ xtime d)

/-- One column of InvMixColumns: the product of the matrix
`[0E 0B 0D 09; 09 0E 0B 0D; 0D 09 0E 0B; 0B 0D 09 0E]` with the column
`(a, b, c, d)`, as a word. -/
def inv_mix_column (a b c d : Nat) : Nat :=
  make_uint32 (xtime14 a ^^^ xtime11 b ^^^ xtime13 c ^^^ xtime9 d)
    (xtime9 a ^^^ xtime14 b ^^^ xtime11 c ^^^ xtime13 d)
    (xtime13 a ^^^ xtime9 b ^^^ xtime14 c ^^^ xtime11 d)
    (xtime11 a ^^^ xtime13 b ^^^ xtime9 c ^^^ xtime14 d)

/-- InvMixColumns applied to the four bytes of a word. -/
def inv_mix_word (K : Nat) : Nat :=
  inv_mix_column (get_byte 0 K) (get_byte 1 K) (get_byte 2 K) (get_byte 3 K)

/-- SubBytes followed by ShiftRows on the four column words of a state. -/
def sub_shift (B : Words4) : Words4 :=
  Words4.mk
    (make_uint32 (SE (get_byte 0 B.b0)) (SE (get_byte 1 B.b1)) (SE (get_byte 2 B.b2))
      (SE (get_byte 3 B.b3)))
    (make_uint32 (SE (get_byte 0 B.b1)) (SE (get_byte 1 B.b2)) (SE (get_byte 2 B.b3))
      (SE (get_byte 3 B.b0)))
    (make_uint32 (SE (get_byte 0 B.b2)) (SE (get_byte 1 B.b3)) (SE (get_byte 2 B.b0))
      (SE (get_byte 3 B.b1)))
    (make_uint32 (SE (get_byte 0 B.b3)) (SE (get_byte 1 B.b0)) (SE (get_byte 2 B.b1))
      (SE (get_byte 3 B.b2)))

/-- One T-table round of `aes_decrypt_n`: the four `AES_T` expressions that the
source writes inline, twice per loop iteration. -/
def dec_round (T : Words4) (D0 D1 D2 D3 : Nat) : Words4 :=
  Words4.mk (AES_T AES_TD D0 T.b0 T.b3 T.b2 T.b1) (AES_T AES_TD D1 T.b1 T.b0 T.b3 T.b2)
    (AES_T AES_TD D2 T.b2 T.b1 T.b0 T.b3) (AES_T AES_TD D3 T.b3 T.b2 T.b1 T.b0)

/-! ## The key schedule in closed form -/

/-- The decryption schedule `DK` for a 16-byte key, in terms of the expanded
key `W`: the last round key, then InvMixColumns of the round keys 9, ..., 1. -/
def DK_16 (W : List Nat) : List Nat :=
  [
    W.getD 40 0, W.getD 41 0, W.getD 42 0, W.getD 43 0, inv_mix_word (W.getD 36 0),
    inv_mix_word (W.getD 37 0), inv_mix_word (W.getD 38 0), inv_mix_word (W.getD 39 0),
    inv_mix_word (W.getD 32 0), inv_mix_word (W.getD 33 0), inv_mix_word (W.getD 34 0),
    inv_mix_word (W.getD 35 0), inv_mix_word (W.getD 28 0), inv_mix_word (W.getD 29 0),
    inv_mix_word (W.getD 30 0), inv_mix_word (W.getD 31 0), inv_mix_word (W.getD 24 0),
    inv_mix_word (W.getD 25 0), inv_mix_word (W.getD 26 0), inv_mix_word (W.getD 27 0),
    inv_mix_word (W.getD 20 0), inv_mix_word (W.getD 21 0), inv_mix_word (W.getD 22 0),
    inv_mix_word (W.getD 23 0), inv_mix_word (W.getD 16 0), inv_mix_word (W.getD 17 0),
    inv_mix_word (W.getD 18 0), inv_mix_word (W.getD 19 0), inv_mix_word (W.getD 12 0),
    inv_mix_word (W.getD 13 0), inv_mix_word (W.getD 14 0), inv_mix_word (W.getD 15 0),
    inv_mix_word (W.getD 8 0), inv_mix_word (W.getD 9 0), inv_mix_word (W.getD 10 0),
    inv_mix_word (W.getD 11 0), inv_mix_word (W.getD 4 0), inv_mix_word (W.getD 5 0),
    inv_mix_word (W.getD 6 0), inv_mix_word (W.getD 7 0) ]

/-- The final-round mask `ME` for a 16-byte key: the bytes of the last round key. -/
def ME_16 (W : List Nat) : List Nat :=
  [
    get_byte 0 (W.getD 40 0), get_byte 1 (W.getD 40 0), get_byte 2 (W.getD 40 0),
    get_byte 3 (W.getD 40 0), get_byte 0 (W.getD 41 0), get_byte 1 (W.getD 41 0),
    get_byte 2 (W.getD 41 0), get_byte 3 (W.getD 41 0), get_byte 0 (W.getD 42 0),
    get_byte 1 (W.getD 42 0), get_byte 2 (W.getD 42 0), get_byte 3 (W.getD 42 0),
    get_byte 0 (W.getD 43 0), get_byte 1 (W.getD 43 0), get_byte 2 (W.getD 43 0),
    get_byte 3 (W.getD 43 0) ]

/-- The decryption schedule `DK` for a 24-byte key, in terms of the expanded
key `W`: the last round key, then InvMixColumns of the round keys 11, ..., 1. -/
def DK_24 (W : List Nat) : List Nat :=
  [
    W.getD 48 0, W.getD 49 0, W.getD 50 0, W.getD 51 0, inv_mix_word (W.getD 44 0),
    inv_mix_word (W.getD 45 0), inv_mix_word (W.getD 46 0), inv_mix_word (W.getD 47 0),
    inv_mix_word (W.getD 40 0), inv_mix_word (W.getD 41 0), inv_mix_word (W.getD 42 0),
    inv_mix_word (W.getD 43 0), inv_mix_word (W.getD 36 0), inv_mix_word (W.getD 37 0),
    inv_mix_word (W.getD 38 0), inv_mix_word (W.getD 39 0), inv_mix_word (W.getD 32 0),
    inv_mix_word (W.getD 33 0), inv_mix_word (W.getD 34 0), inv_mix_word (W.getD 35 0),
    inv_mix_word (W.getD 28 0), inv_mix_word (W.getD 29 0), inv_mix_word (W.getD 30 0),
    inv_mix_word (W.getD 31 0), inv_mix_word (W.getD 24 0), inv_mix_word (W.getD 25 0),
    inv_mix_word (W.getD 26 0), inv_mix_word (W.getD 27 0), inv_mix_word (W.getD 20 0),
    inv_mix_word (W.getD 21 0), inv_mix_word (W.getD 22 0), inv_mix_word (W.getD 23 0),
    inv_mix_word (W.getD 16 0), inv_mix_word (W.getD 17 0), inv_mix_word (W.getD 18 0),
    inv_mix_word (W.getD 19 0), inv_mix_word (W.getD 12 0), inv_mix_word (W.getD 13 0),
    inv_mix_word (W.getD 14 0), inv_mix_word (W.getD 15 0), inv_mix_word (W.getD 8 0),
    inv_mix_word (W.getD 9 0), inv_mix_word (W.getD 10 0), inv_mix_word (W.getD 11 0),
    inv_mix_word (W.getD 4 0), inv_mix_word (W.getD 5 0), inv_mix_word (W.getD 6 0),
    inv_mix_word (W.getD 7 0) ]

/-- The final-round mask `ME` for a 24-byte key: the bytes of the last round key. -/
def ME_24 (W : List Nat) : List Nat :=
  [
    get_byte 0 (W.getD 48 0), get_byte 1 (W.getD 48 0), get_byte 2 (W.getD 48 0),
    get_byte 3 (W.getD 48 0), get_byte 0 (W.getD 49 0), get_byte 1 (W.getD 49 0),
    get_byte 2 (W.getD 49 0), get_byte 3 (W.getD 49 0), get_byte 0 (W.getD 50 0),
    get_byte 1 (W.getD 50 0), get_byte 2 (W.getD 50 0), get_byte 3 (W.getD 50 0),
    get_byte 0 (W.getD 51 0), get_byte 1 (W.getD 51 0), get_byte 2 (W.getD 51 0),
    get_byte 3 (W.getD 51 0) ]

/-- The decryption schedule `DK` for a 32-byte key, in terms of the expanded
key `W`: the last round key, then InvMixColumns of the round keys 13, ..., 1. -/
def DK_32 (W : List Nat) : List Nat :=
  [
    W.getD 56 0, W.getD 57 0, W.getD 58 0, W.getD 59 0, inv_mix_word (W.getD 52 0),
    inv_mix_word (W.getD 53 0), inv_mix_word (W.getD 54 0), inv_mix_word (W.getD 55 0),
    inv_mix_word (W.getD 48 0), inv_mix_word (W.getD 49 0), inv_mix_word (W.getD 50 0),
    inv_mix_word (W.getD 51 0), inv_mix_word (W.getD 44 0), inv_mix_word (W.getD 45 0),
    inv_mix_word (W.getD 46 0), inv_mix_word (W.getD 47 0), inv_mix_word (W.getD 40 0),
    inv_mix_word (W.getD 41 0), inv_mix_word (W.getD 42 0), inv_mix_word (W.getD 43 0),
    inv_mix_word (W.getD 36 0), inv_mix_word (W.getD 37 0), inv_mix_word (W.getD 38 0),
    inv_mix_word (W.getD 39 0), inv_mix_word (W.getD 32 0), inv_mix_word (W.getD 33 0),
    inv_mix_word (W.getD 34 0), inv_mix_word (W.getD 35 0), inv_mix_word (W.getD 28 0),
    inv_mix_word (W.getD 29 0), inv_mix_word (W.getD 30 0), inv_mix_word (W.getD 31 0),
    inv_mix_word (W.getD 24 0), inv_mix_word (W.getD 25 0), inv_mix_word (W.getD 26 0),
    inv_mix_word (W.getD 27 0), inv_mix_word (W.getD 20 0), inv_mix_word (W.getD 21 0),
    inv_mix_word (W.getD 22 0), inv_mix_word (W.getD 23 0), inv_mix_word (W.getD 16 0),
    inv_mix_word (W.getD 17 0), inv_mix_word (W.getD 18 0), inv_mix_word (W.getD 19 0),
    inv_mix_word (W.getD 12 0), inv_mix_word (W.getD 13 0), inv_mix_word (W.getD 14 0),
    inv_mix_word (W.getD 15 0), inv_mix_word (W.getD 8 0), inv_mix_word (W.getD 9 0),
    inv_mix_word (W.getD 10 0), inv_mix_word (W.getD 11 0), inv_mix_word (W.getD 4 0),
    inv_mix_word (W.getD 5 0), inv_mix_word (W.getD 6 0), inv_mix_word (W.getD 7 0) ]

/-- The final-round mask `ME` for a 32-byte key: the bytes of the last round key. -/
def ME_32 (W : List Nat) : List Nat :=
  [
    get_byte 0 (W.getD 56 0), get_byte 1 (W.getD 56 0), get_byte 2 (W.getD 56 0),
    get_byte 3 (W.getD 56 0), get_byte 0 (W.getD 57 0), get_byte 1 (W.getD 57 0),
    get_byte 2 (W.getD 57 0), get_byte 3 (W.getD 57 0), get_byte 0 (W.getD 58 0),
    get_byte 1 (W.getD 58 0), get_byte 2 (W.getD 58 0), get_byte 3 (W.getD 58 0),
    get_byte 0 (W.getD 59 0), get_byte 1 (W.getD 59 0), get_byte 2 (W.getD 59 0),
    get_byte 3 (W.getD 59 0) ]

/-- The final-round mask `MD`: the bytes of the first round key. -/
def MD_of (W : List Nat) : List Nat :=
  [
    get_byte 0 (W.getD 0 0), get_byte 1 (W.getD 0 0), get_byte 2 (W.getD 0 0),
    get_byte 3 (W.getD 0 0), get_byte 0 (W.getD 1 0), get_byte 1 (W.getD 1 0),
    get_byte 2 (W.getD 1 0), get_byte 3 (W.getD 1 0), get_byte 0 (W.getD 2 0),
    get_byte 1 (W.getD 2 0), get_byte 2 (W.getD 2 0), get_byte 3 (W.getD 2 0),
    get_byte 0 (W.getD 3 0), get_byte 1 (W.getD 3 0), get_byte 2 (W.getD 3 0),
    get_byte 3 (W.getD 3 0) ]

/-! ## The field GF(2^8), written out from its definition -/

/-- The product of two polynomials over GF(2), each given by the bits of a
byte: bit `i` of `b` contributes `a * x^i`. -/
def poly_mul (a b : Nat) : Nat :=
  (List.range 8).foldl (fun acc i => if b.testBit i then acc ^^^ (a <<< i) else acc) 0

/-- The remainder of a polynomial of degree at most 14 modulo
`x^8 + x^4 + x^3 + x + 1` (`0x11B`): the terms of degree 14 down to 8 are
cancelled in turn. -/
def poly_mod (p : Nat) : Nat :=
  [14, 13, 12, 11, 10, 9, 8].foldl
    (fun acc i => if acc.testBit i then acc ^^^ (0x11B <<< (i - 8)) else acc) p

/-- The product in GF(2^8) = GF(2)[x] / (x^8 + x^4 + x^3 + x + 1), the field of
the specification; it is written from the definition of the field and not
from the `xtime` helpers of the source, to which it is compared. -/
def gf256_mul (a b : Nat) : Nat := poly_mod (poly_mul a b)

/-- The sum in GF(2^8) of the entries of a list: their bitwise exclusive or. -/
def xor_sum : List Nat → Nat
  | [] => 0
  | [x] => x
  | x :: xs => x ^^^ xor_sum xs

/-- The product of a matrix over GF(2^8), given by its rows, with a column. -/
def gf256_mat_vec (M : List (List Nat)) (v : List Nat) : List Nat :=
  M.map (fun row => xor_sum (List.zipWith gf256_mul row v))

/-- The MixColumns matrix `[2 3 1 1; 1 2 3 1; 1 1 2 3; 3 1 1 2]`. -/
def mix_matrix : List (List Nat) :=
  [[2, 3, 1, 1], [1, 2, 3, 1], [1, 1, 2, 3], [3, 1, 1, 2]]

/-- The InvMixColumns matrix `[0E 0B 0D 09; 09 0E 0B 0D; 0D 09 0E 0B; 0B 0D 09 0E]`. -/
def inv_mix_matrix : List (List Nat) :=
  [[0x0E, 0x0B, 0x0D, 0x09], [0x09, 0x0E, 0x0B, 0x0D], [0x0D, 0x09, 0x0E, 0x0B],
    [0x0B, 0x0D, 0x09, 0x0E]]

/-- The column of a word: its bytes 0, 1, 2, 3 are the rows 0, 1, 2, 3. -/
def column_of_word (K : Nat) : List Nat :=
  [get_byte 0 K, get_byte 1 K, get_byte 2 K, get_byte 3 K]

/-- The word of a column, row 0 in the most significant byte. -/
def word_of_column (v : List Nat) : Nat :=
  make_uint32 (v.getD 0 0) (v.getD 1 0) (v.getD 2 0) (v.getD 3 0)

/-- InvMixColumns of the specification on one column word. -/
def InvMixColumns_word (K : Nat) : Nat :=
  word_of_column (gf256_mat_vec inv_mix_matrix (column_of_word K))

/-- The column `c` of the state after SubBytes and ShiftRows, for the
column-major state whose byte (row `r`, column `c`) is byte `r` of `B_c`: row
`r` comes from column `c + r` (indices modulo 4). -/
def sub_shift_column (B : Words4) (c : Nat) : List Nat :=
  [SE (get_byte 0 (B.get (c % 4))), SE (get_byte 1 (B.get ((c + 1) % 4))),
    SE (get_byte 2 (B.get ((c + 2) % 4))), SE (get_byte 3 (B.get ((c + 3) % 4)))]

/-! ## The parallelism hint -/

/-- The hardware back ends compiled into the library: the macros
`BOTAN_HAS_AES_NI`, `BOTAN_HAS_AES_POWER8`, `BOTAN_HAS_AES_ARMV8` and
`BOTAN_HAS_AES_VPERM`. -/
structure Build where
  has_aes_ni : Bool
  has_aes_power8 : Bool
  has_aes_armv8 : Bool
  has_aes_vperm : Bool
deriving DecidableEq, Repr

/-- The answers of `CPUID::has_aes_ni()`, `CPUID::has_power_crypto()`,
`CPUID::has_arm_aes()` and `CPUID::has_vperm()` on the running processor. -/
structure CPUID where
  has_aes_ni : Bool
  has_power_crypto : Bool
  has_arm_aes : Bool
  has_vperm : Bool
deriving DecidableEq, Repr

def aes_parallelism (build : Build) (cpu : CPUID) : Nat :=
  if build.has_aes_ni && cpu.has_aes_ni then 4
  else if build.has_aes_power8 && cpu.has_power_crypto then 4
  else if build.has_aes_armv8 && cpu.has_arm_aes then 4
  else if build.has_aes_vperm && cpu.has_vperm then 2
  else 4

def aes_provider (build : Build) (cpu : CPUID) : String :=
  if build.has_aes_ni && cpu.has_aes_ni then "aesni"
  else if build.has_aes_power8 && cpu.has_power_crypto then "power8"
  else if build.has_aes_armv8 && cpu.has_arm_aes then "armv8"
  else if build.has_aes_vperm && cpu.has_vperm then "vperm"
  else "base"

/-! ## The key expansion of FIPS-197, as a recurrence -/

/-- The right-hand side of the recurrence of KeyExpansion for the word `i` of an
expanded key `W` with `X` key words, in the words of the specification:
`W[i-X] xor RC[i/X - 1] xor SubWord(rotl8(W[i-1]))` when `i mod X = 0`,
`W[i-X] xor SubWord(W[i-1])` when `X = 8` and `i mod X = 4`, and
`W[i-X] xor W[i-1]` otherwise. SubWord is `SE_word_ref`. -/
def KeyExpansion_word (X : Nat) (W : List Nat) (i : Nat) : Nat :=
  if i % X = 0 then
    W.getD (i - X) 0 ^^^ RC (i / X - 1) ^^^ SE_word_ref (rotl 8 (W.getD (i - 1) 0))
  else if X = 8 ∧ i % X = 4 then
    W.getD (i - X) 0 ^^^ SE_word_ref (W.getD (i - 1) 0)
  else
    W.getD (i - X) 0 ^^^ W.getD (i - 1) 0

/-- The high bytes of the round constants, as the specification lists them. -/
def Rcon_bytes : List Nat := [0x01, 0x02, 0x04, 0x08, 0x10, 0x20, 0x40, 0x80, 0x1B, 0x36]

/-! ## The key schedule on the caller's buffers -/

/-- The effect of `v.resize(n)` on a vector: the first `n` elements are kept
and new elements are zero. -/
def resize (v : List Nat) (n : Nat) : List Nat :=
  v.take n ++ List.replicate (n - v.length) 0

/-- The effect of `store_be(x, &v[off])`: the four bytes of `x` are written at
`v[off]`, ..., `v[off + 3]`, most significant first. -/
def store_be_at (v : List Nat) (off x : Nat) : List Nat :=
  (((v.set off (get_byte 0 x)).set (off + 1) (get_byte 1 x)).set (off + 2) (get_byte 2 x)).set
    (off + 3) (get_byte 3 x)

/-- Modelled from the spec: `copy_mem(out, in, n)` of `mem_ops.h` is missing from
the sources; it copies the first `n` elements of `in` over those of `out`. -/
def copy_mem (dst src : List Nat) (n : Nat) : List Nat :=
  (List.range n).foldl (fun (d : List Nat) (i : Nat) => d.set i (src.getD i 0)) dst

/-- The local vector `XDK` of `aes_key_schedule` after the loop that reverses
the order of the round keys of `XEK`. -/
def xdk_reverse (XEK : List Nat) (length : Nat) : List Nat :=
  let rounds := (length / 4) + 6
  (List.range' 0 (rounds + 1) 4).foldl (fun (XDK : List Nat) (i : Nat) =>
    (((XDK.set i (XEK.getD (4 * rounds - i) 0)).set (i + 1) (XEK.getD (4 * rounds - i + 1) 0)).set
      (i + 2) (XEK.getD (4 * rounds - i + 2) 0)).set (i + 3) (XEK.getD
          (4 * rounds - i + 3) 0)) (List.replicate (length + 32) 0)

/-- The loop `for(i = 4; i != length + 24; ++i) XDK[i] = AES_T(TD, 0, XDK[i], ...)`. -/
def xdk_inv_mix (XDK : List Nat) (length : Nat) : List Nat :=
  (List.range' 4 (length + 24 - 4)).foldl (fun (XDK : List Nat) (i : Nat) =>
    XDK.set i (AES_T AES_TD 0 (XDK.getD i 0) (XDK.getD i 0) (XDK.getD i 0) (XDK.getD i 0))) XDK

/-- The loop `for(i = 0; i != 4; ++i)` that stores the last round key into `ME`
and the first round key into `MD`; the state is the pair `(ME, MD)`. -/
def store_masks (XEK : List Nat) (rounds : Nat) (ME MD : List Nat) : List Nat × List Nat :=
  (List.range 4).foldl (fun (p : List Nat × List Nat) (i : Nat) =>
    (store_be_at p.1 (4 * i) (XEK.getD (i + 4 * rounds) 0),
      store_be_at p.2 (4 * i) (XEK.getD i 0))) (ME, MD)

/-- The function `aes_key_schedule` acting on the four vectors that it receives
by reference: the outcome of the call together with the contents of `EK`, `DK`,
`ME` and `MD` when control leaves the function (by return or by exception).
The statements are those of the source, in the order of the source. -/
def aes_key_schedule_refs (wbits cls : Nat) (key : List Nat) (length : Nat) (st : KeyData) :
    Except AesError Unit × KeyData :=
  let rounds := (length / 4) + 6
  let X := length / 4
  if ¬ (X = 4 ∨ X = 6 ∨ X = 8) then (Except.error AesError.invalid_argument, st) else
  match prefetch AES_TD (cls / 4) 257 0 0 with
  | none => (Except.error AesError.nontermination, st)
  | some Z =>
    let Z := Z &&& AES_TD 99
    let XEK := key_expansion wbits key length Z
    let XDK := xdk_reverse XEK length
    match xdk_sbox_loop wbits (length + 24) (length + 24) 4 XDK with
    | none => (Except.error AesError.nontermination, st)
    | some XDK =>
      let XDK := xdk_inv_mix XDK length
      let ME := resize st.ME 16
      let MD := resize st.MD 16
      let masks := store_masks XEK rounds ME MD
      let EK := resize st.EK (length + 24)
      let DK := resize st.DK (length + 24)
      let EK := copy_mem EK XEK EK.length
      let DK := copy_mem DK XDK DK.length
      (Except.ok (), KeyData.mk EK DK masks.1 masks.2)

/-! ## The cipher objects -/

/-- Modelled from the spec: `zap(vec)` of `secmem.h` is missing from the sources;
it wipes the vector and leaves it empty. -/
def zap (_v : List Nat) : List Nat := []

/-- Modelled from the spec: `verify_key_set(cond)` of `sym_algo.h` is missing
from the sources; it throws `Key_Not_Set` unless `cond` holds. -/
def verify_key_set (cond : Bool) : Except AesError Unit :=
  if cond then Except.ok () else Except.error AesError.key_not_set

/-- The state of an `AES_128`, `AES_192` or `AES_256` object: the members
`m_EK`, `m_DK`, `m_ME` and `m_MD`. The three classes have the same member
functions, word for word. -/
abbrev AES := KeyData

/-- A freshly constructed object: the four vectors are empty. -/
def AES.fresh : AES := KeyData.mk [] [] [] []

/-- The member `encrypt_n` on the base path (no hardware back end selected). -/
def AES.encrypt_n (wbits : Nat) (self : AES) (inp : List Nat) (blocks : Nat) :
    Except AesError (List Nat) :=
  match verify_key_set (!self.EK.isEmpty) with
  | Except.error e => Except.error e
  | Except.ok _ => aes_encrypt_n wbits inp blocks self.EK self.ME

/-- The member `decrypt_n` on the base path. -/
def AES.decrypt_n (cls : Nat) (self : AES) (inp : List Nat) (blocks : Nat) :
    Except AesError (List Nat) :=
  match verify_key_set (!self.DK.isEmpty) with
  | Except.error e => Except.error e
  | Except.ok _ => aes_decrypt_n cls inp blocks self.DK self.MD

/-- The member `key_schedule` on the base path: the outcome and the state of the
object afterwards. -/
def AES.key_schedule (wbits cls : Nat) (self : AES) (key : List Nat) (length : Nat) :
    Except AesError Unit × AES :=
  aes_key_schedule_refs wbits cls key length self

/-- The member `clear`. -/
def AES.clear (self : AES) : AES :=
  KeyData.mk (zap self.EK) (zap self.DK) (zap self.ME) (zap self.MD)

/-- Modelled from the spec: `set_key(key, length)` of `sym_algo.h` is missing
from the sources; it rejects a key whose length is not 16, 24 or 32 bytes with
`Invalid_Key_Length` and otherwise runs `key_schedule`. -/
def AES.set_key (wbits cls : Nat) (self : AES) (key : List Nat) (length : Nat) :
    Except AesError Unit × AES :=
  if length = 16 ∨ length = 24 ∨ length = 32 then AES.key_schedule wbits cls self key length
  else (Except.error AesError.invalid_key_length, self)

/-! ## Operation in place -/

/-- The stores `buf[off + k] = bytes[k]`, in increasing order of `k`. -/
def write_bytes (buf : List Nat) (off : Nat) : List Nat → List Nat
  | [] => buf
  | b :: bs => write_bytes (buf.set off b) (off + 1) bs

/-- The two loops of `aes_encrypt_n` when `out == in`: `buf` is the one buffer,
`off` the distance by which `in` and `out` have advanced. Each iteration loads
its block or pair of blocks from the buffer as it is then, and stores its
output bytes into the same positions. -/
def encrypt_loop_inplace (wbits : Nat) (EK ME : List Nat) : Nat → Nat → List Nat → List Nat
  | blocks + 2, off, buf =>
    encrypt_loop_inplace wbits EK ME blocks (off + 32)
      (write_bytes buf off (encrypt_two_blocks wbits (buf.drop off) EK ME))
  | blocks, off, buf =>
    (List.range blocks).foldl (fun (buf : List Nat) (i : Nat) =>
      write_bytes buf (off + 16 * i) (encrypt_one_block wbits (buf.drop off) i EK ME)) buf

/-- The function `aes_encrypt_n` called with `out == in`: the contents of the
buffer on return. -/
def aes_encrypt_n_inplace (wbits : Nat) (buf : List Nat) (blocks : Nat) (EK ME : List Nat) :
    Except AesError (List Nat) :=
  if EK.length ≠ 0 ∧ ME.length = 16 then
    Except.ok (encrypt_loop_inplace wbits EK ME blocks 0 buf)
  else
    Except.error AesError.assertion_failure

/-- The block loop of `aes_decrypt_n` when `out == in`. -/
def decrypt_loop_inplace (Z : Nat) (DK MD : List Nat) : Nat → Nat → List Nat → List Nat
  | 0, _, buf => buf
  | blocks + 1, off, buf =>
    decrypt_loop_inplace Z DK MD blocks (off + 16)
      (write_bytes buf off (decrypt_one_block (buf.drop off) Z DK MD))

/-- The function `aes_decrypt_n` called with `out == in`: the contents of the
buffer on return. -/
def aes_decrypt_n_inplace (cls : Nat) (buf : List Nat) (blocks : Nat) (DK MD : List Nat) :
    Except AesError (List Nat) :=
  if DK.length ≠ 0 ∧ MD.length = 16 then
    match decrypt_prefetch cls with
    | none => Except.error AesError.nontermination
    | some Z => Except.ok (decrypt_loop_inplace Z DK MD blocks 0 buf)
  else
    Except.error AesError.assertion_failure

/-! ## Instrumented runs -/

/-- One observable step of a run: an access to an element of one of the arrays
that `aes_encrypt_n` and `aes_decrypt_n` receive or of one of the tables `SE`,
`SD`, `TD`, with its index, or the outcome of a loop test; for
`aes_key_schedule` also an access to `key`, to the table `RC`, to the local
vectors `XEK` and `XDK` or to the masks `ME` and `MD`, and a subtraction of two
`size_t` with its operands. -/
inductive Access where
  | read_in (i : Nat)
  | write_out (i : Nat)
  | read_EK (i : Nat)
  | read_ME (i : Nat)
  | read_DK (i : Nat)
  | read_MD (i : Nat)
  | read_SE (i : Nat)
  | read_SD (i : Nat)
  | read_TD (i : Nat)
  | branch (taken : Bool)
  | read_key (i : Nat)
  | read_RC (i : Nat)
  | read_XEK (i : Nat)
  | write_XEK (i : Nat)
  | read_XDK (i : Nat)
  | write_XDK (i : Nat)
  | write_ME (i : Nat)
  | write_MD (i : Nat)
  | sub (a b : Nat)
deriving DecidableEq, Repr

/-- Whether a step indexes one of the tables `SE`, `SD` or `TD`. -/
def Access.is_table : Access → Bool
  | Access.read_SE _ => true
  | Access.read_SD _ => true
  | Access.read_TD _ => true
  | _ => false

/-- An instrumented run: its outcome and the steps it made, in order. -/
structure Tr (α : Type) where
  val : Except AesError α
  log : List Access

/-- A step-free run that returns `a`. -/
def Tr.ret {α : Type} (a : α) : Tr α := Tr.mk (Except.ok a) []

/-- A run that throws at once. -/
def Tr.fail {α : Type} (e : AesError) : Tr α := Tr.mk (Except.error e) []

/-- Sequencing: the steps of `x`, then, unless `x` threw, those of `f`. -/
def Tr.andThen {α β : Type} (x : Tr α) (f : α → Tr β) : Tr β :=
  match x.val with
  | Except.error e => Tr.mk (Except.error e) x.log
  | Except.ok a => Tr.mk (f a).val (x.log ++ (f a).log)

instance : Monad Tr where
  pure := Tr.ret
  bind := Tr.andThen

/-- The read `a[i]` of an array, recorded as the step `ev i`. -/
def Tr.index (ev : Nat → Access) (a : List Nat) (i : Nat) : Tr Nat :=
  Tr.mk (Except.ok (a.getD i 0)) [ev i]

/-- The read `T[i]` of a constant table, recorded as the step `ev i`. -/
def Tr.lookup (ev : Nat → Access) (T : Nat → Nat) (i : Nat) : Tr Nat :=
  Tr.mk (Except.ok (T i)) [ev i]

/-- The store `out[i] = v`; the run returns the byte stored. -/
def Tr.store (i v : Nat) : Tr Nat := Tr.mk (Except.ok v) [Access.write_out i]

/-- The evaluation of a loop test. -/
def Tr.test (c : Bool) : Tr Bool := Tr.mk (Except.ok c) [Access.branch c]

/-- The read of the big-endian word number `off` of `in + base`. -/
def load_be_tr (inp : List Nat) (base off : Nat) : Tr Nat := do
  let i0 ← Tr.index Access.read_in inp (base + 4 * off)
  let i1 ← Tr.index Access.read_in inp (base + 4 * off + 1)
  let i2 ← Tr.index Access.read_in inp (base + 4 * off + 2)
  let i3 ← Tr.index Access.read_in inp (base + 4 * off + 3)
  pure (make_uint32 i0 i1 i2 i3)

/-- The call `aes_enc_r(B0, B1, B2, B3, EK[r], EK[r+1], EK[r+2], EK[r+3])`. The
callees `aes_enc_r`, `SE_word_x4`, `SE_word_x8`, `AES_SBOX`, `aes_enc_round`
and `xtime_32` work on their arguments and locals alone: the only arrays they
index are their local `I` and `V`, at constants and loop counters, and their
only tests compare a loop counter with a constant; they make no step. -/
def aes_enc_r_tr (wbits : Nat) (B : Words4) (EK : List Nat) (r : Nat) : Tr Words4 := do
  let K0 ← Tr.index Access.read_EK EK r
  let K1 ← Tr.index Access.read_EK EK (r + 1)
  let K2 ← Tr.index Access.read_EK EK (r + 2)
  let K3 ← Tr.index Access.read_EK EK (r + 3)
  pure (aes_enc_r wbits B K0 K1 K2 K3)

/-- The call `aes_enc_r(B0, ..., B7, EK[r], EK[r+1], EK[r+2], EK[r+3])`. -/
def aes_enc_r_x8_tr (wbits : Nat) (B : Words8) (EK : List Nat) (r : Nat) : Tr Words8 := do
  let K0 ← Tr.index Access.read_EK EK r
  let K1 ← Tr.index Access.read_EK EK (r + 1)
  let K2 ← Tr.index Access.read_EK EK (r + 2)
  let K3 ← Tr.index Access.read_EK EK (r + 3)
  pure (aes_enc_r_x8 wbits B K0 K1 K2 K3)

/-- The loop `for(r = 2*4; r < EK.size(); r += 2*4)` of the one-block path. -/
def enc_rounds_tr (wbits : Nat) (EK : List Nat) : Nat → Nat → Words4 → Tr Words4
  | 0, _, B => pure B
  | fuel + 1, r, B => do
    let c ← Tr.test (decide (r < EK.length))
    if c then
      let B ← aes_enc_r_tr wbits B EK r
      let B ← aes_enc_r_tr wbits B EK (r + 4)
      enc_rounds_tr wbits EK fuel (r + 2 * 4) B
    else pure B

/-- The loop `for(r = 2*4; r < EK.size(); r += 2*4)` of the two-block path. -/
def enc_rounds_x8_tr (wbits : Nat) (EK : List Nat) : Nat → Nat → Words8 → Tr Words8
  | 0, _, B => pure B
  | fuel + 1, r, B => do
    let c ← Tr.test (decide (r < EK.length))
    if c then
      let B ← aes_enc_r_x8_tr wbits B EK r
      let B ← aes_enc_r_x8_tr wbits B EK (r + 4)
      enc_rounds_x8_tr wbits EK fuel (r + 2 * 4) B
    else pure B

/-- The statement `out[base + k] = byte ^ ME[k]`. -/
def enc_store_tr (ME : List Nat) (base k byte : Nat) : Tr Nat := do
  let m ← Tr.index Access.read_ME ME k
  Tr.store (base + k) (byte ^^^ m)

/-- The sixteen stores of the final round of one block. -/
def enc_final_tr (B : Words4) (ME : List Nat) (base : Nat) : Tr (List Nat) := do
  let o0 ← enc_store_tr ME base 0 (get_byte 0 B.b0)
  let o1 ← enc_store_tr ME base 1 (get_byte 1 B.b1)
  let o2 ← enc_store_tr ME base 2 (get_byte 2 B.b2)
  let o3 ← enc_store_tr ME base 3 (get_byte 3 B.b3)
  let o4 ← enc_store_tr ME base 4 (get_byte 0 B.b1)
  let o5 ← enc_store_tr ME base 5 (get_byte 1 B.b2)
  let o6 ← enc_store_tr ME base 6 (get_byte 2 B.b3)
  let o7 ← enc_store_tr ME base 7 (get_byte 3 B.b0)
  let o8 ← enc_store_tr ME base 8 (get_byte 0 B.b2)
  let o9 ← enc_store_tr ME base 9 (get_byte 1 B.b3)
  let o10 ← enc_store_tr ME base 10 (get_byte 2 B.b0)
  let o11 ← enc_store_tr ME base 11 (get_byte 3 B.b1)
  let o12 ← enc_store_tr ME base 12 (get_byte 0 B.b3)
  let o13 ← enc_store_tr ME base 13 (get_byte 1 B.b0)
  let o14 ← enc_store_tr ME base 14 (get_byte 2 B.b1)
  let o15 ← enc_store_tr ME base 15 (get_byte 3 B.b2)
  pure [o0, o1, o2, o3, o4, o5, o6, o7, o8, o9, o10, o11, o12, o13, o14, o15]

/-- The body of the loop `while(blocks >= 2)` for the two blocks at `in + base`. -/
def encrypt_two_blocks_tr (wbits : Nat) (inp : List Nat) (base : Nat) (EK ME : List Nat) :
    Tr (List Nat) := do
  let B0 ← load_be_tr inp base 0
  let B1 ← load_be_tr inp base 1
  let B2 ← load_be_tr inp base 2
  let B3 ← load_be_tr inp base 3
  let B4 ← load_be_tr inp base 4
  let B5 ← load_be_tr inp base 5
  let B6 ← load_be_tr inp base 6
  let B7 ← load_be_tr inp base 7
  let B0 := B0 ^^^ (← Tr.index Access.read_EK EK 0)
  let B1 := B1 ^^^ (← Tr.index Access.read_EK EK 1)
  let B2 := B2 ^^^ (← Tr.index Access.read_EK EK 2)
  let B3 := B3 ^^^ (← Tr.index Access.read_EK EK 3)
  let B4 := B4 ^^^ (← Tr.index Access.read_EK EK 0)
  let B5 := B5 ^^^ (← Tr.index Access.read_EK EK 1)
  let B6 := B6 ^^^ (← Tr.index Access.read_EK EK 2)
  let B7 := B7 ^^^ (← Tr.index Access.read_EK EK 3)
  let B ← aes_enc_r_x8_tr wbits (Words8.mk B0 B1 B2 B3 B4 B5 B6 B7) EK 4
  let B ← enc_rounds_x8_tr wbits EK EK.length (2 * 4) B
  let B := SE_word_x8 wbits B
  let lo ← enc_final_tr (Words4.mk B.b0 B.b1 B.b2 B.b3) ME base
  let hi ← enc_final_tr (Words4.mk B.b4 B.b5 B.b6 B.b7) ME (base + 16)
  pure (lo ++ hi)

/-- The body of the loop `for(i = 0; i < blocks; ++i)` for the block at
`in + base`. -/
def encrypt_one_block_tr (wbits : Nat) (inp : List Nat) (base : Nat) (EK ME : List Nat) :
    Tr (List Nat) := do
  let B0 ← load_be_tr inp base 0
  let B1 ← load_be_tr inp base 1
  let B2 ← load_be_tr inp base 2
  let B3 ← load_be_tr inp base 3
  let B0 := B0 ^^^ (← Tr.index Access.read_EK EK 0)
  let B1 := B1 ^^^ (← Tr.index Access.read_EK EK 1)
  let B2 := B2 ^^^ (← Tr.index Access.read_EK EK 2)
  let B3 := B3 ^^^ (← Tr.index Access.read_EK EK 3)
  let B ← aes_enc_r_tr wbits (Words4.mk B0 B1 B2 B3) EK 4
  let B ← enc_rounds_tr wbits EK EK.length (2 * 4) B
  let B := SE_word_x4 wbits B
  enc_final_tr B ME base

/-- The loop `for(i = 0; i < blocks; ++i)` of `aes_encrypt_n`, with `in` and `out`
advanced by `base`; `fuel` bounds the number of tests. -/
def encrypt_tail_tr (wbits : Nat) (inp : List Nat) (base blocks : Nat) (EK ME : List Nat) :
    Nat → Nat → Tr (List Nat)
  | 0, _ => Tr.fail AesError.nontermination
  | fuel + 1, i => do
    let c ← Tr.test (decide (i < blocks))
    if c then
      let o ← encrypt_one_block_tr wbits inp (base + 16 * i) EK ME
      let rest ← encrypt_tail_tr wbits inp base blocks EK ME fuel (i + 1)
      pure (o ++ rest)
    else pure []

/-- The two loops of `aes_encrypt_n`, with `in` and `out` advanced by `base`. -/
def encrypt_loop_tr (wbits : Nat) (inp : List Nat) (EK ME : List Nat) :
    Nat → Nat → Tr (List Nat)
  | blocks + 2, base => do
    let _ ← Tr.test (decide (blocks + 2 ≥ 2))
    let o ← encrypt_two_blocks_tr wbits inp base EK ME
    let rest ← encrypt_loop_tr wbits inp EK ME blocks (base + 32)
    pure (o ++ rest)
  | blocks, base => do
    let _ ← Tr.test (decide (blocks ≥ 2))
    encrypt_tail_tr wbits inp base blocks EK ME (blocks + 1) 0

/-- The function `aes_encrypt_n`, instrumented: the bytes written to `out` and
the steps of the run. -/
def aes_encrypt_n_tr (wbits : Nat) (inp : List Nat) (blocks : Nat) (EK ME : List Nat) :
    Tr (List Nat) :=
  if EK.length ≠ 0 ∧ ME.length = 16 then encrypt_loop_tr wbits inp EK ME blocks 0
  else Tr.fail AesError.assertion_failure

/-- A prefetch loop `for(i = start; i < 256; i += step) Z |= T[i]`, instrumented. -/
def prefetch_tr (ev : Nat → Access) (T : Nat → Nat) (step : Nat) : Nat → Nat → Nat → Tr Nat
  | 0, _, _ => Tr.fail AesError.nontermination
  | fuel + 1, i, Z => do
    let c ← Tr.test (decide (i < 256))
    if c then
      let t ← Tr.lookup ev T i
      prefetch_tr ev T step fuel (i + step) (Z ||| t)
    else pure Z

/-- The prefetch preamble of `aes_decrypt_n`, instrumented. -/
def decrypt_prefetch_tr (cls : Nat) : Tr Nat := do
  let Z ← prefetch_tr Access.read_TD AES_TD (cls / 4) 257 0 0
  let Z ← prefetch_tr Access.read_SD SD cls 257 0 Z
  let t ← Tr.lookup Access.read_TD AES_TD 99
  pure (Z &&& t)

/-- The macro `AES_T(TD, DK[r], V0, V1, V2, V3)`, instrumented. -/
def AES_T_tr (DK : List Nat) (r V0 V1 V2 V3 : Nat) : Tr Nat := do
  let K ← Tr.index Access.read_DK DK r
  let t0 ← Tr.lookup Access.read_TD AES_TD (get_byte 0 V0)
  let t1 ← Tr.lookup Access.read_TD AES_TD (get_byte 1 V1)
  let t2 ← Tr.lookup Access.read_TD AES_TD (get_byte 2 V2)
  let t3 ← Tr.lookup Access.read_TD AES_TD (get_byte 3 V3)
  pure (K ^^^ t0 ^^^ rotr 8 t1 ^^^ rotr 16 t2 ^^^ rotr 24 t3)

/-- Four `AES_T` expressions with the round key words `DK[r]`, ..., `DK[r+3]`. -/
def dec_round_tr (DK : List Nat) (r : Nat) (T : Words4) : Tr Words4 := do
  let B0 ← AES_T_tr DK r T.b0 T.b3 T.b2 T.b1
  let B1 ← AES_T_tr DK (r + 1) T.b1 T.b0 T.b3 T.b2
  let B2 ← AES_T_tr DK (r + 2) T.b2 T.b1 T.b0 T.b3
  let B3 ← AES_T_tr DK (r + 3) T.b3 T.b2 T.b1 T.b0
  pure (Words4.mk B0 B1 B2 B3)

/-- The loop `for(r = 2*4; r < DK.size(); r += 2*4)` of `aes_decrypt_n`. -/
def dec_rounds_tr (DK : List Nat) : Nat → Nat → Words4 → Tr Words4
  | 0, _, B => pure B
  | fuel + 1, r, B => do
    let c ← Tr.test (decide (r < DK.length))
    if c then
      let T ← dec_round_tr DK r B
      let B ← dec_round_tr DK (r + 4) T
      dec_rounds_tr DK fuel (r + 2 * 4) B
    else pure B

/-- The statement `out[base + k] = SD[idx] ^ MD[k]`. -/
def dec_store_tr (MD : List Nat) (base k idx : Nat) : Tr Nat := do
  let s ← Tr.lookup Access.read_SD SD idx
  let m ← Tr.index Access.read_MD MD k
  Tr.store (base + k) (s ^^^ m)

/-- The sixteen stores of the final round of `aes_decrypt_n`. -/
def dec_final_tr (B : Words4) (MD : List Nat) (base : Nat) : Tr (List Nat) := do
  let o0 ← dec_store_tr MD base 0 (get_byte 0 B.b0)
  let o1 ← dec_store_tr MD base 1 (get_byte 1 B.b3)
  let o2 ← dec_store_tr MD base 2 (get_byte 2 B.b2)
  let o3 ← dec_store_tr MD base 3 (get_byte 3 B.b1)
  let o4 ← dec_store_tr MD base 4 (get_byte 0 B.b1)
  let o5 ← dec_store_tr MD base 5 (get_byte 1 B.b0)
  let o6 ← dec_store_tr MD base 6 (get_byte 2 B.b3)
  let o7 ← dec_store_tr MD base 7 (get_byte 3 B.b2)
  let o8 ← dec_store_tr MD base 8 (get_byte 0 B.b2)
  let o9 ← dec_store_tr MD base 9 (get_byte 1 B.b1)
  let o10 ← dec_store_tr MD base 10 (get_byte 2 B.b0)
  let o11 ← dec_store_tr MD base 11 (get_byte 3 B.b3)
  let o12 ← dec_store_tr MD base 12 (get_byte 0 B.b3)
  let o13 ← dec_store_tr MD base 13 (get_byte 1 B.b2)
  let o14 ← dec_store_tr MD base 14 (get_byte 2 B.b1)
  let o15 ← dec_store_tr MD base 15 (get_byte 3 B.b0)
  pure [o0, o1, o2, o3, o4, o5, o6, o7, o8, o9, o10, o11, o12, o13, o14, o15]

/-- The body of the block loop of `aes_decrypt_n` for the block at `in + base`. -/
def decrypt_one_block_tr (inp : List Nat) (base Z : Nat) (DK MD : List Nat) :
    Tr (List Nat) := do
  let T0 := (← load_be_tr inp base 0) ^^^ (← Tr.index Access.read_DK DK 0)
  let T1 := (← load_be_tr inp base 1) ^^^ (← Tr.index Access.read_DK DK 1)
  let T2 := (← load_be_tr inp base 2) ^^^ (← Tr.index Access.read_DK DK 2)
  let T3 := (← load_be_tr inp base 3) ^^^ (← Tr.index Access.read_DK DK 3)
  let T0 := T0 ^^^ Z
  let B ← dec_round_tr DK 4 (Words4.mk T0 T1 T2 T3)
  let B ← dec_rounds_tr DK DK.length (2 * 4) B
  dec_final_tr B MD base

/-- The block loop `for(i = 0; i != blocks; ++i)` of `aes_decrypt_n`, with `in`
and `out` advanced by `base`. -/
def decrypt_loop_tr (inp : List Nat) (Z : Nat) (DK MD : List Nat) : Nat → Nat → Tr (List Nat)
  | 0, _ => do
    let _ ← Tr.test false
    pure []
  | blocks + 1, base => do
    let _ ← Tr.test true
    let o ← decrypt_one_block_tr inp base Z DK MD
    let rest ← decrypt_loop_tr inp Z DK MD blocks (base + 16)
    pure (o ++ rest)

/-- The function `aes_decrypt_n`, instrumented. -/
def aes_decrypt_n_tr (cls : Nat) (inp : List Nat) (blocks : Nat) (DK MD : List Nat) :
    Tr (List Nat) :=
  if DK.length ≠ 0 ∧ MD.length = 16 then do
    let Z ← decrypt_prefetch_tr cls
    decrypt_loop_tr inp Z DK MD blocks 0
  else Tr.fail AesError.assertion_failure

/-- The steps of the prefetch preamble of `aes_decrypt_n` for cache lines of 64
bytes, tests left out: `TD[0]`, `TD[16]`, ..., `TD[240]`, then `SD[0]`,
`SD[64]`, `SD[128]`, `SD[192]`, then `TD[99]`. -/
def preamble_reads_64 : List Access :=
  (List.range 16).map (fun k => Access.read_TD (16 * k)) ++
    (List.range 4).map (fun k => Access.read_SD (64 * k)) ++ [Access.read_TD 99]

/-! ## The steps of a run, as functions of the sizes alone -/

/-- The steps of `load_be_tr`: four reads of `in`. -/
def load_be_shape (base off : Nat) : List Access :=
  [Access.read_in (base + 4 * off), Access.read_in (base + 4 * off + 1),
    Access.read_in (base + 4 * off + 2), Access.read_in (base + 4 * off + 3)]

/-- The steps of a read of four consecutive round key words. -/
def round_key_shape (ev : Nat → Access) (r : Nat) : List Access :=
  [ev r, ev (r + 1), ev (r + 2), ev (r + 3)]

/-- The steps of the round loop of the encryption for a schedule of `len` words. -/
def enc_rounds_shape (len : Nat) : Nat → Nat → List Access
  | 0, _ => []
  | fuel + 1, r =>
    if r < len then
      Access.branch true :: (round_key_shape Access.read_EK r ++
        (round_key_shape Access.read_EK (r + 4) ++ enc_rounds_shape len fuel (r + 2 * 4)))
    else [Access.branch false]

/-- The steps of the sixteen stores of a final round: `mask[k]` is read, then
`out[base + k]` is written. -/
def enc_final_shape (base : Nat) : List Access :=
  (List.range 16).flatMap (fun k => [Access.read_ME k, Access.write_out (base + k)])

/-- The steps of `encrypt_one_block_tr` for a schedule of `len` words. -/
def encrypt_one_block_shape (len base : Nat) : List Access :=
  load_be_shape base 0 ++ (load_be_shape base 1 ++ (load_be_shape base 2 ++
    (load_be_shape base 3 ++ (round_key_shape Access.read_EK 0 ++
      (round_key_shape Access.read_EK 4 ++ (enc_rounds_shape len len (2 * 4) ++
        enc_final_shape base))))))

/-- The steps of `encrypt_two_blocks_tr` for a schedule of `len` words. -/
def encrypt_two_blocks_shape (len base : Nat) : List Access :=
  load_be_shape base 0 ++ (load_be_shape base 1 ++ (load_be_shape base 2 ++
    (load_be_shape base 3 ++ (load_be_shape base 4 ++ (load_be_shape base 5 ++
      (load_be_shape base 6 ++ (load_be_shape base 7 ++ (round_key_shape Access.read_EK 0 ++
        (round_key_shape Access.read_EK 0 ++ (round_key_shape Access.read_EK 4 ++
          (enc_rounds_shape len len (2 * 4) ++ (enc_final_shape base ++
            enc_final_shape (base + 16)))))))))))))

/-- The steps of `encrypt_tail_tr` for a schedule of `len` words. -/
def encrypt_tail_shape (len base blocks : Nat) : Nat → Nat → List Access
  | 0, _ => []
  | fuel + 1, i =>
    if i < blocks then
      Access.branch true :: (encrypt_one_block_shape len (base + 16 * i) ++
        encrypt_tail_shape len base blocks fuel (i + 1))
    else [Access.branch false]

/-- The steps of `encrypt_loop_tr` for a schedule of `len` words. -/
def encrypt_loop_shape (len : Nat) : Nat → Nat → List Access
  | blocks + 2, base =>
    Access.branch true :: (encrypt_two_blocks_shape len base ++
      encrypt_loop_shape len blocks (base + 32))
  | blocks, base =>
    Access.branch false :: encrypt_tail_shape len base blocks (blocks + 1) 0

/-- The steps of `aes_encrypt_n_tr` for `blocks` blocks, a schedule `EK` of `len`
words and a mask `ME` of `mlen` bytes. -/
def aes_encrypt_n_shape (blocks len mlen : Nat) : List Access :=
  if len ≠ 0 ∧ mlen = 16 then encrypt_loop_shape len blocks 0 else []

/-! ## Rounds, as the specification counts them -/

/-- The column `c` of the state after InvShiftRows and InvSubBytes, for the
column-major state whose byte (row `r`, column `c`) is byte `r` of `T_c`: row
`r` comes from column `c - r` (indices modulo 4). -/
def inv_shift_sub_column (T : Words4) (c : Nat) : List Nat :=
  [SD (get_byte 0 (T.get (c % 4))), SD (get_byte 1 (T.get ((c + 3) % 4))),
    SD (get_byte 2 (T.get ((c + 2) % 4))), SD (get_byte 3 (T.get ((c + 1) % 4)))]

/-- The words `B0`, ..., `B3` of the one-block path of `aes_encrypt_n` for the
block at `in + 16*i`, after the call of `SE_word_x4` of the final round and
before the sixteen stores. -/
def encrypt_final_words (wbits : Nat) (inp : List Nat) (i : Nat) (EK : List Nat) : Words4 :=
  let inp := inp.drop (16 * i)
  let B := Words4.mk (load_be inp 0) (load_be inp 1) (load_be inp 2) (load_be inp 3)
  let B := Words4.mk (B.b0 ^^^ EK.getD 0 0) (B.b1 ^^^ EK.getD 1 0) (B.b2 ^^^ EK.getD 2 0)
    (B.b3 ^^^ EK.getD 3 0)
  let B := aes_enc_r wbits B (EK.getD 4 0) (EK.getD 5 0) (EK.getD 6 0) (EK.getD 7 0)
  let B := enc_rounds wbits EK EK.length (2 * 4) B
  SE_word_x4 wbits B

/-- The words `B0`, ..., `B7` of the two-block path of `aes_encrypt_n` for the two
blocks at the head of `inp`, after the call of `SE_word_x8` of the final round
and before the thirty-two stores. -/
def encrypt_final_words_x8 (wbits : Nat) (inp : List Nat) (EK : List Nat) : Words8 :=
  let B := Words8.mk (load_be inp 0) (load_be inp 1) (load_be inp 2) (load_be inp 3)
    (load_be inp 4) (load_be inp 5) (load_be inp 6) (load_be inp 7)
  let B := Words8.mk (B.b0 ^^^ EK.getD 0 0) (B.b1 ^^^ EK.getD 1 0) (B.b2 ^^^ EK.getD 2 0)
    (B.b3 ^^^ EK.getD 3 0) (B.b4 ^^^ EK.getD 0 0) (B.b5 ^^^ EK.getD 1 0)
    (B.b6 ^^^ EK.getD 2 0) (B.b7 ^^^ EK.getD 3 0)
  let B := aes_enc_r_x8 wbits B (EK.getD 4 0) (EK.getD 5 0) (EK.getD 6 0) (EK.getD 7 0)
  let B := enc_rounds_x8 wbits EK EK.length (2 * 4) B
  SE_word_x8 wbits B

/-- One full forward round with the quartet `EK[4k]`, ..., `EK[4k+3]`. -/
def enc_full_round (wbits : Nat) (EK : List Nat) (B : Words4) (k : Nat) : Words4 :=
  aes_enc_r wbits B (EK.getD (4 * k) 0) (EK.getD (4 * k + 1) 0) (EK.getD (4 * k + 2) 0)
    (EK.getD (4 * k + 3) 0)

/-- One T-table round with the quartet `DK[4k]`, ..., `DK[4k+3]`. -/
def dec_full_round (DK : List Nat) (B : Words4) (k : Nat) : Words4 :=
  dec_round B (DK.getD (4 * k) 0) (DK.getD (4 * k + 1) 0) (DK.getD (4 * k + 2) 0)
    (DK.getD (4 * k + 3) 0)

/-- The encryption of one block in the words of the specification: the initial
xor with `EK[0..3]`, then `Nr - 1` full rounds with the quartets
`k = 1, ..., Nr - 1` in increasing order, then the final round. -/
def encrypt_block_rounds (wbits Nr : Nat) (block : List Nat) (EK ME : List Nat) : List Nat :=
  let B := Words4.mk (load_be block 0 ^^^ EK.getD 0 0) (load_be block 1 ^^^ EK.getD 1 0)
    (load_be block 2 ^^^ EK.getD 2 0) (load_be block 3 ^^^ EK.getD 3 0)
  let B := (List.range' 1 (Nr - 1)).foldl (enc_full_round wbits EK) B
  enc_final (SE_word_x4 wbits B) ME

/-- The decryption of one block in the words of the specification: the initial
xor with `DK[0..3]`, then `Nr - 1` T-table rounds with the quartets
`k = 1, ..., Nr - 1` in increasing order, then the final round with `SD`. -/
def decrypt_block_rounds (Nr : Nat) (block : List Nat) (DK MD : List Nat) : List Nat :=
  let T := Words4.mk (load_be block 0 ^^^ DK.getD 0 0) (load_be block 1 ^^^ DK.getD 1 0)
    (load_be block 2 ^^^ DK.getD 2 0) (load_be block 3 ^^^ DK.getD 3 0)
  let B := (List.range' 1 (Nr - 1)).foldl (dec_full_round DK) T
  dec_final B MD

/-- The index of a step that reads `EK`. -/
def Access.EK_index : Access → Option Nat
  | Access.read_EK i => some i
  | _ => none

/-- The big-endian serialisation of the four words `W[off]`, ..., `W[off+3]`. -/
def round_key_bytes (W : List Nat) (off : Nat) : List Nat :=
  (List.range 4).flatMap (fun c => store_be (W.getD (off + c) 0))

/-! ## The key schedule, instrumented -/

/-- The store `a[i] = v` into a vector, recorded as the step `ev i`; the run
returns the vector after the store. -/
def Tr.assign (ev : Nat → Access) (a : List Nat) (i v : Nat) : Tr (List Nat) :=
  Tr.mk (Except.ok (a.set i v)) [ev i]

/-- The subtraction `a - b` of two `size_t`, recorded with its operands. -/
def Tr.minus (a b : Nat) : Tr Nat := Tr.mk (Except.ok (a - b)) [Access.sub a b]

/-- A counted loop `for(i = a; i != b; ++i)` with `a ≤ b`, run over the list of
the values that `i` takes; `s` is the state that the body updates. The tests of
a counted loop are not recorded. -/
def Tr.forEach {σ : Type} (body : σ → Nat → Tr σ) : List Nat → σ → Tr σ
  | [], s => pure s
  | i :: l, s => do
    let s ← body s i
    Tr.forEach body l s

/-- The read `load_be<uint32_t>(key, off)`. -/
def load_key_tr (key : List Nat) (off : Nat) : Tr Nat := do
  let i0 ← Tr.index Access.read_key key (4 * off)
  let i1 ← Tr.index Access.read_key key (4 * off + 1)
  let i2 ← Tr.index Access.read_key key (4 * off + 2)
  let i3 ← Tr.index Access.read_key key (4 * off + 3)
  pure (make_uint32 i0 i1 i2 i3)

/-- The body `XEK[i] = Z ^ load_be<uint32_t>(key, i)` of the first loop of
`aes_key_schedule`. -/
def xek_init_tr (key : List Nat) (Z : Nat) (XEK : List Nat) (i : Nat) : Tr (List Nat) := do
  let w ← load_key_tr key i
  Tr.assign Access.write_XEK XEK i (Z ^^^ w)

/-- The body of the loop `for(j = 1; j != X; ++j)` of the key expansion:
`XEK[i+j] = XEK[i+j-X]`, then `XEK[i+j] ^= SE_word(XEK[i+j-1])` or
`XEK[i+j] ^= XEK[i+j-1]`. -/
def expand_inner_tr (wbits X i : Nat) (XEK : List Nat) (j : Nat) : Tr (List Nat) := do
  let w ← Tr.index Access.read_XEK XEK (← Tr.minus (i + j) X)
  let XEK ← Tr.assign Access.write_XEK XEK (i + j) w
  let c ← Tr.test (decide (X = 8 ∧ j = 4))
  if c then
    let p ← Tr.index Access.read_XEK XEK (← Tr.minus (i + j) 1)
    let v ← Tr.index Access.read_XEK XEK (i + j)
    Tr.assign Access.write_XEK XEK (i + j) (v ^^^ SE_word wbits p)
  else
    let p ← Tr.index Access.read_XEK XEK (← Tr.minus (i + j) 1)
    let v ← Tr.index Access.read_XEK XEK (i + j)
    Tr.assign Access.write_XEK XEK (i + j) (v ^^^ p)

/-- The loop `for(i = X; i < 4*(rounds+1); i += X)` of the key expansion; the run
fails when `fuel` tests do not reach the exit. -/
def expand_loop_tr (wbits X bound : Nat) : Nat → Nat → List Nat → Tr (List Nat)
  | 0, _, _ => Tr.fail AesError.nontermination
  | fuel + 1, i, XEK => do
    let c ← Tr.test (decide (i < bound))
    if c then
      let a ← Tr.index Access.read_XEK XEK (← Tr.minus i X)
      let rc ← Tr.lookup Access.read_RC RC ((← Tr.minus i X) / X)
      let b ← Tr.index Access.read_XEK XEK (← Tr.minus i 1)
      let XEK ← Tr.assign Access.write_XEK XEK i (a ^^^ rc ^^^ SE_word wbits (rotl 8 b))
      let XEK ← Tr.forEach (expand_inner_tr wbits X i) (List.range' 1 (X - 1)) XEK
      expand_loop_tr wbits X bound fuel (i + X) XEK
    else pure XEK

/-- The statement `XDK[i+k] = XEK[4*rounds-i+k]`. -/
def xdk_reverse_word_tr (rounds : Nat) (XEK : List Nat) (i : Nat) (XDK : List Nat) (k : Nat) :
    Tr (List Nat) := do
  let w ← Tr.index Access.read_XEK XEK ((← Tr.minus (4 * rounds) i) + k)
  Tr.assign Access.write_XDK XDK (i + k) w

/-- The loop `for(i = 0; i != 4*(rounds+1); i += 4)` that fills `XDK` with the
round keys of `XEK` in reverse order; the run fails when `fuel` tests do not
reach the exit. -/
def xdk_reverse_tr (rounds : Nat) (XEK : List Nat) : Nat → Nat → List Nat → Tr (List Nat)
  | 0, _, _ => Tr.fail AesError.nontermination
  | fuel + 1, i, XDK => do
    let c ← Tr.test (decide (i ≠ 4 * (rounds + 1)))
    if c then
      let XDK ← xdk_reverse_word_tr rounds XEK i XDK 0
      let XDK ← xdk_reverse_word_tr rounds XEK i XDK 1
      let XDK ← xdk_reverse_word_tr rounds XEK i XDK 2
      let XDK ← xdk_reverse_word_tr rounds XEK i XDK 3
      xdk_reverse_tr rounds XEK fuel (i + 4) XDK
    else pure XDK

/-- The loop `for(i = 4; i != length + 24; i += 4)` that applies `SE_word_x4` to
`XDK[i]`, ..., `XDK[i+3]`, passed by reference: they are read, then written. -/
def xdk_sbox_loop_tr (wbits stop : Nat) : Nat → Nat → List Nat → Tr (List Nat)
  | 0, _, _ => Tr.fail AesError.nontermination
  | fuel + 1, i, XDK => do
    let c ← Tr.test (decide (i ≠ stop))
    if c then
      let b0 ← Tr.index Access.read_XDK XDK i
      let b1 ← Tr.index Access.read_XDK XDK (i + 1)
      let b2 ← Tr.index Access.read_XDK XDK (i + 2)
      let b3 ← Tr.index Access.read_XDK XDK (i + 3)
      let S := SE_word_x4 wbits (Words4.mk b0 b1 b2 b3)
      let XDK ← Tr.assign Access.write_XDK XDK i S.b0
      let XDK ← Tr.assign Access.write_XDK XDK (i + 1) S.b1
      let XDK ← Tr.assign Access.write_XDK XDK (i + 2) S.b2
      let XDK ← Tr.assign Access.write_XDK XDK (i + 3) S.b3
      xdk_sbox_loop_tr wbits stop fuel (i + 4) XDK
    else pure XDK

/-- The body `XDK[i] = AES_T(TD, 0, XDK[i], XDK[i], XDK[i], XDK[i])`. -/
def xdk_inv_mix_tr (XDK : List Nat) (i : Nat) : Tr (List Nat) := do
  let t0 ← Tr.lookup Access.read_TD AES_TD (get_byte 0 (← Tr.index Access.read_XDK XDK i))
  let t1 ← Tr.lookup Access.read_TD AES_TD (get_byte 1 (← Tr.index Access.read_XDK XDK i))
  let t2 ← Tr.lookup Access.read_TD AES_TD (get_byte 2 (← Tr.index Access.read_XDK XDK i))
  let t3 ← Tr.lookup Access.read_TD AES_TD (get_byte 3 (← Tr.index Access.read_XDK XDK i))
  Tr.assign Access.write_XDK XDK i (0 ^^^ t0 ^^^ rotr 8 t1 ^^^ rotr 16 t2 ^^^ rotr 24 t3)

/-- The call `store_be(x, &v[off])`, recorded as four stores `ev off`, ...,
`ev (off + 3)`. -/
def store_be_tr (ev : Nat → Access) (v : List Nat) (off x : Nat) : Tr (List Nat) :=
  Tr.mk (Except.ok (store_be_at v off x)) [ev off, ev (off + 1), ev (off + 2), ev (off + 3)]

/-- The body of the loop `for(i = 0; i != 4; ++i)` that stores the last round
key into `ME` and the first round key into `MD`; the state is `(ME, MD)`. -/
def store_masks_tr (XEK : List Nat) (rounds : Nat) (p : List Nat × List Nat) (i : Nat) :
    Tr (List Nat × List Nat) := do
  let ME ← store_be_tr Access.write_ME p.1 (4 * i)
    (← Tr.index Access.read_XEK XEK (i + 4 * rounds))
  let MD ← store_be_tr Access.write_MD p.2 (4 * i) (← Tr.index Access.read_XEK XEK i)
  pure (ME, MD)

/-- The pair `v.resize(n); copy_mem(v.data(), src.data(), v.size())`: the first
`n` elements of `src` are read, each once, and become the contents of `v`. -/
def copy_mem_tr (ev : Nat → Access) (src : List Nat) (n : Nat) : Tr (List Nat) :=
  Tr.mk (Except.ok (src.take n)) ((List.range n).map ev)

/-- The prefetch preamble of `aes_key_schedule`, instrumented: the loop over
`TD`, then `Z &= TD[99]`. -/
def key_schedule_prefetch_tr (cls : Nat) : Tr Nat := do
  let Z ← prefetch_tr Access.read_TD AES_TD (cls / 4) 257 0 0
  let t ← Tr.lookup Access.read_TD AES_TD 99
  pure (Z &&& t)

/-- The function `aes_key_schedule`, instrumented: the four vectors that it
fills and the steps of the run. The callees `SE_word`, `SE_word_x4` and `rotl`
work on their arguments and locals alone and make no step. -/
def aes_key_schedule_tr (wbits cls : Nat) (key : List Nat) (length : Nat) : Tr KeyData :=
  let rounds := (length / 4) + 6
  let X := length / 4
  if ¬ (X = 4 ∨ X = 6 ∨ X = 8) then Tr.fail AesError.invalid_argument else do
    let Z ← key_schedule_prefetch_tr cls
    let XEK ← Tr.forEach (xek_init_tr key Z) (List.range X) (List.replicate (length + 32) 0)
    let XEK ← expand_loop_tr wbits X (4 * (rounds + 1)) (4 * (rounds + 1)) X XEK
    let XDK ← xdk_reverse_tr rounds XEK (rounds + 2) 0 (List.replicate (length + 32) 0)
    let XDK ← xdk_sbox_loop_tr wbits (length + 24) (length + 24) 4 XDK
    let XDK ← Tr.forEach xdk_inv_mix_tr (List.range' 4 (length + 24 - 4)) XDK
    let M ← Tr.forEach (store_masks_tr XEK rounds) (List.range 4)
      (List.replicate 16 0, List.replicate 16 0)
    let EK ← copy_mem_tr Access.read_XEK XEK (length + 24)
    let DK ← copy_mem_tr Access.read_XDK XDK (length + 24)
    pure (KeyData.mk EK DK M.1 M.2)

/-! ## The steps of the key schedule, as functions of the sizes -/

/-- The steps of a counted loop whose body makes the steps `sh s i` in state `s`
and leaves the state `f s i`. -/
def forEach_shape {σ : Type} (f : σ → Nat → σ) (sh : σ → Nat → List Access) :
    List Nat → σ → List Access
  | [], _ => []
  | i :: l, s => sh s i ++ forEach_shape f sh l (f s i)

/-- The steps of `xek_init_tr`. -/
def xek_init_shape (i : Nat) : List Access :=
  [Access.read_key (4 * i), Access.read_key (4 * i + 1), Access.read_key (4 * i + 2),
    Access.read_key (4 * i + 3), Access.write_XEK i]

/-- The steps of `expand_inner_tr`. -/
def expand_inner_shape (X i j : Nat) : List Access :=
  [Access.sub (i + j) X, Access.read_XEK (i + j - X), Access.write_XEK (i + j),
    Access.branch (decide (X = 8 ∧ j = 4)), Access.sub (i + j) 1, Access.read_XEK (i + j - 1),
    Access.read_XEK (i + j), Access.write_XEK (i + j)]

/-- The steps of `expand_loop_tr`. -/
def expand_loop_shape (X bound : Nat) : Nat → Nat → List Access
  | 0, _ => []
  | fuel + 1, i =>
    if i < bound then
      [Access.branch true, Access.sub i X, Access.read_XEK (i - X), Access.sub i X,
        Access.read_RC ((i - X) / X), Access.sub i 1, Access.read_XEK (i - 1),
        Access.write_XEK i] ++
        ((List.range' 1 (X - 1)).flatMap (expand_inner_shape X i) ++
          expand_loop_shape X bound fuel (i + X))
    else [Access.branch false]

/-- The steps of `xdk_reverse_word_tr`. -/
def xdk_reverse_word_shape (rounds i k : Nat) : List Access :=
  [Access.sub (4 * rounds) i, Access.read_XEK (4 * rounds - i + k), Access.write_XDK (i + k)]

/-- The steps of `xdk_reverse_tr`. -/
def xdk_reverse_shape (rounds : Nat) : Nat → Nat → List Access
  | 0, _ => []
  | fuel + 1, i =>
    if i ≠ 4 * (rounds + 1) then
      Access.branch true :: (xdk_reverse_word_shape rounds i 0 ++
        (xdk_reverse_word_shape rounds i 1 ++ (xdk_reverse_word_shape rounds i 2 ++
          (xdk_reverse_word_shape rounds i 3 ++ xdk_reverse_shape rounds fuel (i + 4)))))
    else [Access.branch false]

/-- The steps of `xdk_sbox_loop_tr`. -/
def xdk_sbox_loop_shape (stop : Nat) : Nat → Nat → List Access
  | 0, _ => []
  | fuel + 1, i =>
    if i ≠ stop then
      Access.branch true :: (round_key_shape Access.read_XDK i ++
        (round_key_shape Access.write_XDK i ++ xdk_sbox_loop_shape stop fuel (i + 4)))
    else [Access.branch false]

/-- The steps of `xdk_inv_mix_tr`: the indices into `TD` are bytes of `XDK[i]`. -/
def xdk_inv_mix_shape (XDK : List Nat) (i : Nat) : List Access :=
  [Access.read_XDK i, Access.read_TD (get_byte 0 (XDK.getD i 0)),
    Access.read_XDK i, Access.read_TD (get_byte 1 (XDK.getD i 0)),
    Access.read_XDK i, Access.read_TD (get_byte 2 (XDK.getD i 0)),
    Access.read_XDK i, Access.read_TD (get_byte 3 (XDK.getD i 0)), Access.write_XDK i]

/-- The steps of `store_masks_tr`. -/
def store_masks_shape (rounds i : Nat) : List Access :=
  Access.read_XEK (i + 4 * rounds) :: (round_key_shape Access.write_ME (4 * i) ++
    (Access.read_XEK i :: round_key_shape Access.write_MD (4 * i)))

/-- The steps of a prefetch loop `for(i = start; i < 256; i += step)`. -/
def prefetch_shape (ev : Nat → Access) (step : Nat) : Nat → Nat → List Access
  | 0, _ => []
  | fuel + 1, i =>
    if i < 256 then Access.branch true :: ev i :: prefetch_shape ev step fuel (i + step)
    else [Access.branch false]

/-- The steps of `aes_key_schedule_tr` from `Z &= TD[99]` to the end of the loop
that applies `SE_word_x4`: they depend on `length` alone. -/
def key_schedule_body_shape (length : Nat) : List Access :=
  let rounds := (length / 4) + 6
  let X := length / 4
  Access.read_TD 99 ::
    ((List.range X).flatMap xek_init_shape ++
      (expand_loop_shape X (4 * (rounds + 1)) (4 * (rounds + 1)) X ++
        (xdk_reverse_shape rounds (rounds + 2) 0 ++
          xdk_sbox_loop_shape (length + 24) (length + 24) 4)))

/-- The steps of `aes_key_schedule_tr` up to the end of the loop that applies
`SE_word_x4`: they depend on the sizes alone. -/
def key_schedule_head_shape (cls length : Nat) : List Access :=
  prefetch_shape Access.read_TD (cls / 4) 257 0 ++ key_schedule_body_shape length

/-- The steps of the last statements of `aes_key_schedule_tr`, which fill `ME`,
`MD`, `EK` and `DK`: they depend on `length` alone. -/
def key_schedule_store_shape (length : Nat) : List Access :=
  let rounds := (length / 4) + 6
  (List.range 4).flatMap (store_masks_shape rounds) ++
    ((List.range (length + 24)).map Access.read_XEK ++
      (List.range (length + 24)).map Access.read_XDK)

/-- The steps of `aes_key_schedule_tr` after the loop that applies `SE_word_x4`,
which left `XDK`. -/
def key_schedule_tail_shape (length : Nat) (XDK : List Nat) : List Access :=
  forEach_shape (fun (XDK : List Nat) (i : Nat) =>
      XDK.set i (AES_T AES_TD 0 (XDK.getD i 0) (XDK.getD i 0) (XDK.getD i 0) (XDK.getD i 0)))
    xdk_inv_mix_shape (List.range' 4 (length + 24 - 4)) XDK ++ key_schedule_store_shape length

/-! ## Indices in range -/

/-- Whether a step of `aes_key_schedule` for a key of `length` bytes is in range:
an index into `key` is below `length`, one into `XEK` or `XDK` below their size
`length + 32`, one into `RC` below 10, one into `TD` below 256, one into `ME` or
`MD` below 16, and a subtraction does not go below 0. -/
def Access.key_schedule_ok (length : Nat) : Access → Bool
  | Access.read_key i => decide (i < length)
  | Access.read_RC i => decide (i < 10)
  | Access.read_TD i => decide (i < 256)
  | Access.read_XEK i => decide (i < length + 32)
  | Access.write_XEK i => decide (i < length + 32)
  | Access.read_XDK i => decide (i < length + 32)
  | Access.write_XDK i => decide (i < length + 32)
  | Access.write_ME i => decide (i < 16)
  | Access.write_MD i => decide (i < 16)
  | Access.sub a b => decide (b ≤ a)
  | _ => true

/-- Whether a step of `aes_encrypt_n` or `aes_decrypt_n` that reads a round key
word or a mask byte is in range, for a schedule of `size` words and a mask of
`msize` bytes. -/
def Access.round_key_ok (size msize : Nat) : Access → Bool
  | Access.read_EK i => decide (i < size)
  | Access.read_DK i => decide (i < size)
  | Access.read_ME i => decide (i < msize)
  | Access.read_MD i => decide (i < msize)
  | _ => true

/-- The index of a step that reads `TD`. -/
def Access.TD_index : Access → Option Nat
  | Access.read_TD i => some i
  | _ => none

/-- The index of a step that reads `SD`. -/
def Access.SD_index : Access → Option Nat
  | Access.read_SD i => some i
  | _ => none

/-- The index of a step that writes `XEK`. -/
def Access.XEK_write_index : Access → Option Nat
  | Access.write_XEK i => some i
  | _ => none

/-- The ceiling of `a / b`, for `b > 0`. -/
def ceil_div (a b : Nat) : Nat := (a + b - 1) / b

/-! ## Bit-level lemmas and the S-box -/

theorem testBit_and_15 (a k : Nat) : (a &&& 0xF).testBit k = (decide (k < 4) && a.testBit k) := by
  have h : (0xF : Nat) = 2 ^ 4 - 1 := by norm_num
  rw [h, Nat.and_pow_two_sub_one_eq_mod, Nat.testBit_mod_two_pow]

theorem testBit_mod_256 (a k : Nat) : (a % 256).testBit k = (decide (k < 8) && a.testBit k) := by
  have h : (256 : Nat) = 2 ^ 8 := by norm_num
  rw [h, Nat.testBit_mod_two_pow]

theorem testBit_mod_2_32 (a k : Nat) :
    (a % 4294967296).testBit k = (decide (k < 32) && a.testBit k) := by
  have h : (4294967296 : Nat) = 2 ^ 32 := by norm_num
  rw [h, Nat.testBit_mod_two_pow]

theorem get_byte_testBit (n x i : Nat) :
    (get_byte n x).testBit i = (decide (i < 8) && x.testBit (8 * (3 - n) + i)) := by
  simp only [get_byte, testBit_mod_256, Nat.testBit_shiftRight]

theorem bit_permute_step_testBit (x m s i : Nat) :
    (bit_permute_step x m s).testBit i =
      (decide (i < 32) &&
        if m / 2 ^ i % 2 = 1 then
          (if s ≤ i ∧ m / 2 ^ (i - s) % 2 = 1 then
            xor (x.testBit (s + i)) (xor (x.testBit i) (x.testBit (i - s)))
          else x.testBit (s + i))
        else
          (if s ≤ i ∧ m / 2 ^ (i - s) % 2 = 1 then x.testBit (i - s) else x.testBit i)) := by
  simp only [bit_permute_step, Nat.testBit_mod_two_pow, Nat.testBit_xor, Nat.testBit_and,
    Nat.testBit_shiftRight, Nat.testBit_shiftLeft, ge_iff_le]
  rw [Nat.testBit_to_div_mod (x := m), Nat.testBit_to_div_mod (x := m)]
  by_cases h1 : i < 32 <;> by_cases h2 : m / 2 ^ i % 2 = 1 <;> by_cases h3 : s ≤ i <;>
    by_cases h4 : m / 2 ^ (i - s) % 2 = 1 <;>
    simp [h1, h2, h3, h4, Nat.add_sub_cancel'] <;>
    cases x.testBit i <;> cases x.testBit (s + i) <;> cases x.testBit (i - s) <;> rfl

theorem SE_word_in_lane (x k : Nat) (hk : k < 4) :
    let X := bit_permute_step (bit_permute_step (bit_permute_step
        (bit_permute_step x 0x00aa00aa 7) 0x0000cccc 14) 0x00f000f0 4) 0x0000ff00 8
    (Slices.mk ((X >>> 28) &&& 0xF) ((X >>> 24) &&& 0xF) ((X >>> 20) &&& 0xF)
    ((X >>> 16) &&& 0xF) ((X >>> 12) &&& 0xF) ((X >>> 8) &&& 0xF) ((X >>> 4) &&& 0xF)
    ((X >>> 0) &&& 0xF)).lane k = Lane.ofByte (get_byte (3 - k) x) := by
  intro X
  interval_cases k <;>
  simp [-Nat.testBit_zero, -Nat.testBit_and, X, Slices.lane, Lane.ofByte, get_byte_testBit,
      testBit_and_15, Nat.testBit_shiftRight, bit_permute_step_testBit]

theorem shl4_add (y a : Nat) : (y <<< 4) + (a &&& 0xF) = (y <<< 4) ||| (a &&& 0xF) := by
  have h : a &&& 0xF < 2 ^ 4 := Nat.and_lt_two_pow a (by norm_num)
  rw [Nat.shiftLeft_eq, Nat.mul_comm]
  exact Nat.mul_add_lt_is_or h y

theorem SE_word_out_lane (J : Slices) (n : Nat) (hn : n < 4) :
    let Y := [J.v0, J.v1, J.v2, J.v3, J.v4, J.v5, J.v6, J.v7].foldl
      (fun (x : Nat) (Ii : Nat) => ((x <<< 4) + (Ii &&& 0xF)) % 2 ^ 32) 0
    let R := bit_permute_step (bit_permute_step (bit_permute_step
        (bit_permute_step Y 0x0a0a0a0a 3) 0x00cc00cc 6) 0x0000f0f0 12) 0x0000ff00 8
    Lane.ofByte (get_byte n R) = J.lane (3 - n) := by
  intro Y R
  interval_cases n <;>
  simp [-Nat.testBit_zero, -Nat.testBit_and, Y, R, Slices.lane, Lane.ofByte, get_byte_testBit,
      testBit_and_15, Nat.testBit_shiftRight, bit_permute_step_testBit, shl4_add, testBit_mod_2_32]

theorem AES_SBOX_lane_eq (wbits : Nat) (V : Slices) (k : Nat) (hk : k < wbits) :
    (AES_SBOX wbits V).lane k = AES_SBOX_lane (V.lane k) := by
  simp only [AES_SBOX, AES_SBOX_lane, Slices.lane, word_not, Nat.testBit_xor, Nat.testBit_and,
    Nat.testBit_two_pow_sub_one, hk, decide_True, Bool.true_xor, Bool.not_eq_not]

theorem AES_SBOX_lane_table : ∀ b < 256, AES_SBOX_lane (Lane.ofByte b) = Lane.ofByte (SE b) := by
  decide!

theorem AES_SBOX_lane_byte (wbits : Nat) (V : Slices) (k b : Nat) (hk : k < wbits)
    (hb : b < 256) (h : V.lane k = Lane.ofByte b) :
    (AES_SBOX wbits V).lane k = Lane.ofByte (SE b) := by
  rw [AES_SBOX_lane_eq wbits V k hk, h, AES_SBOX_lane_table b hb]

theorem SE_lt_of_lt : ∀ b < 256, SE b < 256 := by decide!

theorem SE_lt (b : Nat) : SE b < 256 := by
  by_cases h : b < 256
  · exact SE_lt_of_lt b h
  · have h2 : SE b = 0 := by
      unfold SE
      apply List.getD_eq_default
      have hl : SE_table.length = 256 := by decide!
      omega
    omega

theorem get_byte_lt (n x : Nat) : get_byte n x < 256 := Nat.mod_lt _ (by norm_num)

theorem testBit_of_lt_256 {b : Nat} (h : b < 256) (i : Nat) : b.testBit (i + 8) = false := by
  apply Nat.testBit_lt_two_pow
  calc b < 2 ^ 8 := by simpa using h
    _ ≤ 2 ^ (i + 8) := Nat.pow_le_pow_right (by norm_num) (by omega)

theorem byte_ext {a b : Nat} (ha : a < 256) (hb : b < 256)
    (h : Lane.ofByte a = Lane.ofByte b) : a = b := by
  apply Nat.eq_of_testBit_eq
  intro i
  by_cases hi : i < 8
  · simp only [Lane.ofByte, Lane.mk.injEq] at h
    obtain ⟨h7, h6, h5, h4, h3, h2, h1, h0⟩ := h
    interval_cases i <;> assumption
  · obtain ⟨j, rfl⟩ : ∃ j, i = j + 8 := ⟨i - 8, by omega⟩
    rw [testBit_of_lt_256 ha, testBit_of_lt_256 hb]

theorem testBit_of_lt_2_32 {a : Nat} (h : a < 2 ^ 32) (i : Nat) (hi : 32 ≤ i) :
    a.testBit i = false := by
  apply Nat.testBit_lt_two_pow
  exact Nat.lt_of_lt_of_le h (Nat.pow_le_pow_right (by norm_num) hi)

theorem word_ext_lanes {a b : Nat} (ha : a < 2 ^ 32) (hb : b < 2 ^ 32)
    (h : ∀ n < 4, Lane.ofByte (get_byte n a) = Lane.ofByte (get_byte n b)) : a = b := by
  apply Nat.eq_of_testBit_eq
  intro i
  by_cases hi : i < 32
  · have h0 := h 0 (by norm_num)
    have h1 := h 1 (by norm_num)
    have h2 := h 2 (by norm_num)
    have h3 := h 3 (by norm_num)
    simp only [Lane.ofByte, Lane.mk.injEq, get_byte_testBit] at h0 h1 h2 h3
    simp at h0 h1 h2 h3
    interval_cases i <;> simp [h0, h1, h2, h3]
  · rw [testBit_of_lt_2_32 ha i (by omega), testBit_of_lt_2_32 hb i (by omega)]

theorem bit_permute_step_lt (x m s : Nat) : bit_permute_step x m s < 2 ^ 32 :=
  Nat.mod_lt _ (by norm_num)

theorem make_uint32_lt {a b c d : Nat} (ha : a < 256) (hb : b < 256) (hc : c < 256)
    (hd : d < 256) : make_uint32 a b c d < 2 ^ 32 := by
  unfold make_uint32
  have h1 : a <<< 24 < 2 ^ 32 := by rw [Nat.shiftLeft_eq]; omega
  have h2 : b <<< 16 < 2 ^ 32 := by rw [Nat.shiftLeft_eq]; omega
  have h3 : c <<< 8 < 2 ^ 32 := by rw [Nat.shiftLeft_eq]; omega
  have h4 : d < 2 ^ 32 := by omega
  exact Nat.or_lt_two_pow (Nat.or_lt_two_pow (Nat.or_lt_two_pow h1 h2) h3) h4

theorem get_byte_make_uint32 {a b c d : Nat} (ha : a < 256) (hb : b < 256) (hc : c < 256)
    (hd : d < 256) :
    get_byte 0 (make_uint32 a b c d) = a ∧ get_byte 1 (make_uint32 a b c d) = b ∧
    get_byte 2 (make_uint32 a b c d) = c ∧ get_byte 3 (make_uint32 a b c d) = d := by
  have ta := testBit_of_lt_256 ha
  have tb := testBit_of_lt_256 hb
  have tc := testBit_of_lt_256 hc
  have td := testBit_of_lt_256 hd
  refine ⟨?_, ?_, ?_, ?_⟩ <;>
  · apply byte_ext (get_byte_lt _ _) (by assumption)
    simp [-Nat.testBit_zero, Lane.ofByte, get_byte_testBit, make_uint32, ta, tb, tc, td]

theorem SE_word_lt (wbits x : Nat) : SE_word wbits x < 2 ^ 32 := by
  unfold SE_word
  exact bit_permute_step_lt _ _ _

theorem SE_word_ref_lt (x : Nat) : SE_word_ref x < 2 ^ 32 :=
  make_uint32_lt (SE_lt _) (SE_lt _) (SE_lt _) (SE_lt _)

theorem get_byte_SE_word_ref (x n : Nat) (hn : n < 4) :
    get_byte n (SE_word_ref x) = SE (get_byte n x) := by
  obtain ⟨h0, h1, h2, h3⟩ := get_byte_make_uint32 (SE_lt (get_byte 0 x)) (SE_lt (get_byte 1 x))
    (SE_lt (get_byte 2 x)) (SE_lt (get_byte 3 x))
  unfold SE_word_ref
  interval_cases n <;> assumption

theorem SE_word_eq_ref (wbits x : Nat) (hw : 4 ≤ wbits) : SE_word wbits x = SE_word_ref x := by
  apply word_ext_lanes (SE_word_lt _ _) (SE_word_ref_lt _)
  intro n hn
  rw [get_byte_SE_word_ref x n hn]
  unfold SE_word
  simp only []
  rw [SE_word_out_lane _ n hn]
  apply AES_SBOX_lane_byte _ _ _ _ (by omega) (get_byte_lt _ _)
  have h := SE_word_in_lane x (3 - n) (by omega)
  have e : 3 - (3 - n) = n := by omega
  rw [e] at h
  exact h



theorem testBit_mod_2 (a k : Nat) : (a % 2).testBit k = (decide (k < 1) && a.testBit k) := by
  have h : a % 2 = a % 2 ^ 1 := by norm_num
  rw [h, Nat.testBit_mod_two_pow]

theorem pack_bit_testBit (wbits I B c k : Nat) :
    (((I <<< 1) % 2 ^ wbits) ||| ((B >>> c) &&& 1)).testBit k =
      if k = 0 then B.testBit c else (decide (k < wbits) && I.testBit (k - 1)) := by
  rcases k with _ | k
  · simp [-Nat.testBit_zero, Nat.and_one_is_mod, testBit_mod_2, Nat.testBit_shiftRight]
  · simp [Nat.and_one_is_mod, testBit_mod_2, Nat.testBit_shiftRight]

theorem pack_step_lane_zero (wbits : Nat) (I : Slices) (B i : Nat) :
    (pack_step wbits I B i).lane 0 = Lane.ofByte (B >>> i) := by
  simp only [pack_step, Slices.lane, Lane.ofByte, pack_bit_testBit, if_true, Nat.testBit_shiftRight,
      Lane.mk.injEq]
  refine ⟨?_, ?_, ?_, ?_, ?_, ?_, ?_, ?_⟩ <;> congr 1 <;> omega

theorem pack_step_lane_succ (wbits : Nat) (I : Slices) (B i k : Nat) (hk : k + 1 < wbits) :
    (pack_step wbits I B i).lane (k + 1) = I.lane k := by
  simp only [pack_step, Slices.lane, pack_bit_testBit]
  simp [hk]

theorem Lane.ofByte_mod (x : Nat) : Lane.ofByte (x % 256) = Lane.ofByte x := by
  simp [-Nat.testBit_zero, Lane.ofByte, testBit_mod_256]

theorem Lane.ofByte_get_byte (n x : Nat) : Lane.ofByte (get_byte n x) = Lane.ofByte (x >>> (8 *
    (3 - n))) := by
  unfold get_byte
  exact Lane.ofByte_mod _

theorem SE_word_x4_in_lane (wbits : Nat) (hw : 16 ≤ wbits) (B : Words4) (k : Nat) (hk : k < 16) :
    let I := Slices.mk 0 0 0 0 0 0 0 0
    let I := [0, 8, 16, 24].foldl (fun (I : Slices) (i : Nat) => pack_step wbits I B.b0 i) I
    let I := [0, 8, 16, 24].foldl (fun (I : Slices) (i : Nat) => pack_step wbits I B.b1 i) I
    let I := [0, 8, 16, 24].foldl (fun (I : Slices) (i : Nat) => pack_step wbits I B.b2 i) I
    let I := [0, 8, 16, 24].foldl (fun (I : Slices) (i : Nat) => pack_step wbits I B.b3 i) I
    I.lane k = Lane.ofByte (get_byte (k % 4) (B.get (3 - k / 4))) := by
  have h1 : ∀ (I : Slices) (B i j : Nat),
      j + 1 < 16 → (pack_step wbits I B i).lane (j + 1) = I.lane j :=
    fun I B i j hj => pack_step_lane_succ wbits I B i j (by omega)
  interval_cases k <;>
  simp [Lane.ofByte_get_byte, Words4.get, h1, pack_step_lane_zero]

theorem push_bit_testBit (Z Ij k p : Nat) :
    (push_bit Z Ij k).testBit p =
      (decide (p < 32) && if p = 0 then Ij.testBit k else Z.testBit (p - 1)) := by
  unfold push_bit
  rcases p with _ | p
  · simp [-Nat.testBit_zero, Nat.and_one_is_mod, testBit_mod_2, Nat.testBit_shiftRight,
      testBit_mod_2_32]
  · simp [Nat.and_one_is_mod, testBit_mod_2, Nat.testBit_shiftRight, testBit_mod_2_32]

theorem unpack_step_low (J : Slices) (Z k : Nat) :
    Lane.ofByte (get_byte 3 (unpack_step J Z k)) = J.lane k := by
  simp [-Nat.testBit_zero, unpack_step, Lane.ofByte, Slices.lane, get_byte_testBit,
      push_bit_testBit]

theorem unpack_step_high (J : Slices) (Z k n : Nat) (hn : n < 3) :
    get_byte n (unpack_step J Z k) = get_byte (n + 1) Z := by
  apply byte_ext (get_byte_lt _ _) (get_byte_lt _ _)
  interval_cases n <;>
  simp [-Nat.testBit_zero, unpack_step, Lane.ofByte, get_byte_testBit, push_bit_testBit]

theorem SE_word_x4_out_lane (J : Slices) (off n : Nat) (hn : n < 4) :
    Lane.ofByte (get_byte n ([0, 1, 2,
        3].foldl (fun (Z : Nat) (i : Nat) => unpack_step J Z (off + i)) 0))
      = J.lane (off + n) := by
  simp only [List.foldl_cons, List.foldl_nil]
  interval_cases n
  · rw [unpack_step_high _ _ _ 0 (by norm_num), unpack_step_high _ _ _ 1 (by norm_num),
      unpack_step_high _ _ _ 2 (by norm_num), unpack_step_low]
  · rw [unpack_step_high _ _ _ 1 (by norm_num), unpack_step_high _ _ _ 2 (by norm_num),
      unpack_step_low]
  · rw [unpack_step_high _ _ _ 2 (by norm_num), unpack_step_low]
  · rw [unpack_step_low]

theorem unpack_step_lt (J : Slices) (Z k : Nat) : unpack_step J Z k < 2 ^ 32 := by
  unfold unpack_step push_bit
  exact Nat.mod_lt _ (by norm_num)

theorem unpack_fold_lt (J : Slices) (off : Nat) :
    [0, 1, 2, 3].foldl (fun (Z : Nat) (i : Nat) => unpack_step J Z (off + i)) 0 < 2 ^ 32 := by
  simp only [List.foldl_cons, List.foldl_nil]
  exact unpack_step_lt _ _ _

theorem SE_word_x4_eq_ref (wbits : Nat) (hw : 16 ≤ wbits) (B : Words4) :
    SE_word_x4 wbits B =
      Words4.mk (SE_word_ref B.b0) (SE_word_ref B.b1) (SE_word_ref B.b2) (SE_word_ref B.b3) := by
  unfold SE_word_x4
  simp only [Words4.mk.injEq]
  refine ⟨?_, ?_, ?_, ?_⟩ <;>
  · apply word_ext_lanes (unpack_fold_lt _ _) (SE_word_ref_lt _)
    intro n hn
    rw [get_byte_SE_word_ref _ n hn, SE_word_x4_out_lane _ _ n hn]
    apply AES_SBOX_lane_byte _ _ _ _ (by omega) (get_byte_lt _ _)
    have h := SE_word_x4_in_lane wbits hw B
    interval_cases n
    · exact h _ (by norm_num)
    · exact h _ (by norm_num)
    · exact h _ (by norm_num)
    · exact h _ (by norm_num)


theorem SE_word_x8_in_lane (wbits : Nat) (hw : 32 ≤ wbits) (B : Words8) (k : Nat) (hk : k < 32) :
    let I := Slices.mk 0 0 0 0 0 0 0 0
    let I := [0, 8, 16, 24].foldl (fun (I : Slices) (i : Nat) => pack_step wbits I B.b0 i) I
    let I := [0, 8, 16, 24].foldl (fun (I : Slices) (i : Nat) => pack_step wbits I B.b1 i) I
    let I := [0, 8, 16, 24].foldl (fun (I : Slices) (i : Nat) => pack_step wbits I B.b2 i) I
    let I := [0, 8, 16, 24].foldl (fun (I : Slices) (i : Nat) => pack_step wbits I B.b3 i) I
    let I := [0, 8, 16, 24].foldl (fun (I : Slices) (i : Nat) => pack_step wbits I B.b4 i) I
    let I := [0, 8, 16, 24].foldl (fun (I : Slices) (i : Nat) => pack_step wbits I B.b5 i) I
    let I := [0, 8, 16, 24].foldl (fun (I : Slices) (i : Nat) => pack_step wbits I B.b6 i) I
    let I := [0, 8, 16, 24].foldl (fun (I : Slices) (i : Nat) => pack_step wbits I B.b7 i) I
    I.lane k = Lane.ofByte (get_byte (k % 4) (B.get (7 - k / 4))) := by
  have h1 : ∀ (I : Slices) (B i j : Nat),
      j + 1 < 32 → (pack_step wbits I B i).lane (j + 1) = I.lane j :=
    fun I B i j hj => pack_step_lane_succ wbits I B i j (by omega)
  interval_cases k <;>
  simp [Lane.ofByte_get_byte, Words8.get, h1, pack_step_lane_zero]

theorem SE_word_x8_eq_ref (wbits : Nat) (hw : 32 ≤ wbits) (B : Words8) :
    SE_word_x8 wbits B =
      Words8.mk (SE_word_ref B.b0) (SE_word_ref B.b1) (SE_word_ref B.b2) (SE_word_ref B.b3)
        (SE_word_ref B.b4) (SE_word_ref B.b5) (SE_word_ref B.b6) (SE_word_ref B.b7) := by
  unfold SE_word_x8
  simp only [Words8.mk.injEq]
  refine ⟨?_, ?_, ?_, ?_, ?_, ?_, ?_, ?_⟩ <;>
  · apply word_ext_lanes (unpack_fold_lt _ _) (SE_word_ref_lt _)
    intro n hn
    rw [get_byte_SE_word_ref _ n hn, SE_word_x4_out_lane _ _ n hn]
    apply AES_SBOX_lane_byte _ _ _ _ (by omega) (get_byte_lt _ _)
    have h := SE_word_x8_in_lane wbits hw B
    interval_cases n
    · exact h _ (by norm_num)
    · exact h _ (by norm_num)
    · exact h _ (by norm_num)
    · exact h _ (by norm_num)

/-! ## Independence of the word width and of the cache line size -/

theorem SE_word_wbits (wbits : Nat) (hw : 4 ≤ wbits) : SE_word wbits = SE_word 32 := by
  funext x
  rw [SE_word_eq_ref wbits x hw, SE_word_eq_ref 32 x (by norm_num)]

theorem SE_word_x4_wbits (wbits : Nat) (hw : 16 ≤ wbits) : SE_word_x4 wbits = SE_word_x4 32 := by
  funext B
  rw [SE_word_x4_eq_ref wbits hw B, SE_word_x4_eq_ref 32 (by norm_num) B]

theorem SE_word_x8_wbits (wbits : Nat) (hw : 32 ≤ wbits) : SE_word_x8 wbits = SE_word_x8 32 := by
  funext B
  rw [SE_word_x8_eq_ref wbits hw B, SE_word_x8_eq_ref 32 (by norm_num) B]

theorem aes_enc_r_wbits (wbits : Nat) (hw : 16 ≤ wbits) : aes_enc_r wbits = aes_enc_r 32 := by
  funext B K0 K1 K2 K3
  unfold aes_enc_r
  rw [SE_word_x4_wbits wbits hw]

theorem aes_enc_r_x8_wbits (wbits : Nat) (hw : 32 ≤ wbits) :
    aes_enc_r_x8 wbits = aes_enc_r_x8 32 := by
  funext B K0 K1 K2 K3
  unfold aes_enc_r_x8
  rw [SE_word_x8_wbits wbits hw]

theorem enc_rounds_wbits (wbits : Nat) (hw : 16 ≤ wbits) (EK : List Nat) (fuel r : Nat)
    (B : Words4) : enc_rounds wbits EK fuel r B = enc_rounds 32 EK fuel r B := by
  induction fuel generalizing r B with
  | zero => rfl
  | succ fuel ih =>
    simp only [enc_rounds, aes_enc_r_wbits wbits hw]
    split
    · exact ih _ _
    · rfl

theorem enc_rounds_x8_wbits (wbits : Nat) (hw : 32 ≤ wbits) (EK : List Nat) (fuel r : Nat)
    (B : Words8) : enc_rounds_x8 wbits EK fuel r B = enc_rounds_x8 32 EK fuel r B := by
  induction fuel generalizing r B with
  | zero => rfl
  | succ fuel ih =>
    simp only [enc_rounds_x8, aes_enc_r_x8_wbits wbits hw]
    split
    · exact ih _ _
    · rfl

theorem encrypt_one_block_wbits (wbits : Nat) (hw : 16 ≤ wbits) :
    encrypt_one_block wbits = encrypt_one_block 32 := by
  funext inp i EK ME
  simp only [encrypt_one_block, aes_enc_r_wbits wbits hw, enc_rounds_wbits wbits hw,
    SE_word_x4_wbits wbits hw]

theorem encrypt_two_blocks_wbits (wbits : Nat) (hw : 32 ≤ wbits) :
    encrypt_two_blocks wbits = encrypt_two_blocks 32 := by
  funext inp EK ME
  simp only [encrypt_two_blocks, aes_enc_r_x8_wbits wbits hw, enc_rounds_x8_wbits wbits hw,
    SE_word_x8_wbits wbits hw]

theorem encrypt_loop_wbits (wbits : Nat) (hw : 32 ≤ wbits) (EK ME : List Nat) (blocks : Nat)
    (inp : List Nat) : encrypt_loop wbits EK ME blocks inp = encrypt_loop 32 EK ME blocks inp := by
  induction blocks using Nat.strong_induction_on generalizing inp with
  | _ blocks ih =>
    match blocks with
    | 0 => simp only [encrypt_loop, encrypt_one_block_wbits wbits (by omega)]
    | 1 => simp only [encrypt_loop, encrypt_one_block_wbits wbits (by omega)]
    | b + 2 =>
      simp only [encrypt_loop, encrypt_two_blocks_wbits wbits hw]
      rw [ih b (by omega)]

theorem aes_encrypt_n_wbits (wbits : Nat) (hw : 32 ≤ wbits) :
    aes_encrypt_n wbits = aes_encrypt_n 32 := by
  funext inp blocks EK ME
  simp only [aes_encrypt_n, encrypt_loop_wbits wbits hw]

theorem prefetch_some (T : Nat → Nat) (step : Nat) (hs : 0 < step) (fuel i Z : Nat)
    (hf : 0 < fuel) (h : 256 < i + fuel) : ∃ Z', prefetch T step fuel i Z = some Z' := by
  induction fuel generalizing i Z with
  | zero => omega
  | succ fuel ih =>
    simp only [prefetch]
    split
    · exact ih _ _ (by omega) (by omega)
    · exact ⟨Z, rfl⟩

theorem AES_TD_99 : AES_TD 99 = 0 := by decide!

theorem expand_inner_wbits (wbits : Nat) (hw : 4 ≤ wbits) :
    expand_inner wbits = expand_inner 32 := by
  funext X i XEK j
  simp only [expand_inner, SE_word_wbits wbits hw]

theorem expand_loop_wbits (wbits : Nat) (hw : 4 ≤ wbits) (X bound fuel i : Nat)
    (XEK : List Nat) :
    expand_loop wbits X bound fuel i XEK = expand_loop 32 X bound fuel i XEK := by
  induction fuel generalizing i XEK with
  | zero => rfl
  | succ fuel ih =>
    simp only [expand_loop, SE_word_wbits wbits hw, expand_inner_wbits wbits hw]
    split
    · exact ih _ _
    · rfl

theorem key_expansion_wbits (wbits : Nat) (hw : 4 ≤ wbits) :
    key_expansion wbits = key_expansion 32 := by
  funext key length Z
  simp only [key_expansion, expand_loop_wbits wbits hw]

theorem xdk_sbox_loop_wbits (wbits : Nat) (hw : 16 ≤ wbits) (stop fuel i : Nat)
    (XDK : List Nat) :
    xdk_sbox_loop wbits stop fuel i XDK = xdk_sbox_loop 32 stop fuel i XDK := by
  induction fuel generalizing i XDK with
  | zero => rfl
  | succ fuel ih =>
    simp only [xdk_sbox_loop, SE_word_x4_wbits wbits hw]
    split
    · exact ih _ _
    · rfl

theorem aes_key_schedule_params (wbits cls : Nat) (hw : 32 ≤ wbits) (hc : 4 ≤ cls)
    (key : List Nat) (length : Nat) :
    aes_key_schedule wbits cls key length = aes_key_schedule 32 64 key length := by
  obtain ⟨Z1, h1⟩ := prefetch_some AES_TD (cls / 4) (by omega) 257 0 0 (by norm_num) (by norm_num)
  obtain ⟨Z2, h2⟩ := prefetch_some AES_TD (64 / 4) (by norm_num) 257 0 0 (by norm_num) (by norm_num)
  simp only [aes_key_schedule, h1, h2, AES_TD_99, Nat.and_zero,
      key_expansion_wbits wbits (by omega),
    xdk_sbox_loop_wbits wbits (by omega)]


/-! ## The two-block path against the one-block path -/

theorem SE_word_x8_lo (wbits : Nat) (hw : 32 ≤ wbits) (B : Words8) :
    (SE_word_x8 wbits B).lo = SE_word_x4 wbits B.lo := by
  rw [SE_word_x8_eq_ref wbits hw, SE_word_x4_eq_ref wbits (by omega)]
  rfl

theorem SE_word_x8_hi (wbits : Nat) (hw : 32 ≤ wbits) (B : Words8) :
    (SE_word_x8 wbits B).hi = SE_word_x4 wbits B.hi := by
  rw [SE_word_x8_eq_ref wbits hw, SE_word_x4_eq_ref wbits (by omega)]
  rfl

theorem aes_enc_r_x8_lo (wbits : Nat) (hw : 32 ≤ wbits) (B : Words8) (K0 K1 K2 K3 : Nat) :
    (aes_enc_r_x8 wbits B K0 K1 K2 K3).lo = aes_enc_r wbits B.lo K0 K1 K2 K3 := by
  unfold aes_enc_r_x8 aes_enc_r
  rw [SE_word_x8_eq_ref wbits hw, SE_word_x4_eq_ref wbits (by omega)]
  rfl

theorem aes_enc_r_x8_hi (wbits : Nat) (hw : 32 ≤ wbits) (B : Words8) (K0 K1 K2 K3 : Nat) :
    (aes_enc_r_x8 wbits B K0 K1 K2 K3).hi = aes_enc_r wbits B.hi K0 K1 K2 K3 := by
  unfold aes_enc_r_x8 aes_enc_r
  rw [SE_word_x8_eq_ref wbits hw, SE_word_x4_eq_ref wbits (by omega)]
  rfl

theorem enc_rounds_x8_lo (wbits : Nat) (hw : 32 ≤ wbits) (EK : List Nat) (fuel r : Nat)
    (B : Words8) :
    (enc_rounds_x8 wbits EK fuel r B).lo = enc_rounds wbits EK fuel r B.lo := by
  induction fuel generalizing r B with
  | zero => rfl
  | succ fuel ih =>
    simp only [enc_rounds_x8, enc_rounds]
    split
    · rw [ih, aes_enc_r_x8_lo wbits hw, aes_enc_r_x8_lo wbits hw]
    · rfl

theorem enc_rounds_x8_hi (wbits : Nat) (hw : 32 ≤ wbits) (EK : List Nat) (fuel r : Nat)
    (B : Words8) :
    (enc_rounds_x8 wbits EK fuel r B).hi = enc_rounds wbits EK fuel r B.hi := by
  induction fuel generalizing r B with
  | zero => rfl
  | succ fuel ih =>
    simp only [enc_rounds_x8, enc_rounds]
    split
    · rw [ih, aes_enc_r_x8_hi wbits hw, aes_enc_r_x8_hi wbits hw]
    · rfl

theorem getD_drop (l : List Nat) (n i d : Nat) : (l.drop n).getD i d = l.getD (n + i) d := by
  simp only [List.getD_eq_getElem?_getD, List.getElem?_drop]

theorem load_be_drop (inp : List Nat) (k off : Nat) :
    load_be (inp.drop (4 * k)) off = load_be inp (k + off) := by
  simp only [load_be, getD_drop]
  have e0 : 4 * k + 4 * off = 4 * (k + off) := by omega
  have e1 : 4 * k + (4 * off + 1) = 4 * (k + off) + 1 := by omega
  have e2 : 4 * k + (4 * off + 2) = 4 * (k + off) + 2 := by omega
  have e3 : 4 * k + (4 * off + 3) = 4 * (k + off) + 3 := by omega
  rw [e0, e1, e2, e3]

theorem encrypt_two_blocks_eq (wbits : Nat) (hw : 32 ≤ wbits) (inp EK ME : List Nat) :
    encrypt_two_blocks wbits inp EK ME =
      encrypt_one_block wbits inp 0 EK ME ++ encrypt_one_block wbits inp 1 EK ME := by
  have h4 := load_be_drop inp 4
  simp only [Nat.reduceMul, Nat.reduceAdd] at h4
  unfold encrypt_two_blocks encrypt_one_block
  simp only [Nat.mul_zero, Nat.mul_one, List.drop_zero, h4]
  congr 1
  · congr 1
    exact (SE_word_x8_lo wbits hw _).trans (by
      rw [enc_rounds_x8_lo wbits hw, aes_enc_r_x8_lo wbits hw]; rfl)
  · congr 1
    exact (SE_word_x8_hi wbits hw _).trans (by
      rw [enc_rounds_x8_hi wbits hw, aes_enc_r_x8_hi wbits hw]; rfl)

theorem encrypt_one_block_drop (wbits : Nat) (inp : List Nat) (k i : Nat) (EK ME : List Nat) :
    encrypt_one_block wbits (inp.drop (16 * k)) i EK ME =
      encrypt_one_block wbits inp (k + i) EK ME := by
  unfold encrypt_one_block
  simp only [List.drop_drop, Nat.mul_add]

theorem flatten_map_range_succ {α : Type} (f : Nat → List α) (n : Nat) :
    ((List.range (n + 1)).map f).flatten =
      f 0 ++ ((List.range n).map (fun i => f (i + 1))).flatten := by
  rw [List.range_succ_eq_map]
  simp only [List.map_cons, List.map_map, List.flatten_cons]
  rfl

theorem encrypt_loop_eq (wbits : Nat) (hw : 32 ≤ wbits) (EK ME : List Nat) (blocks : Nat)
    (inp : List Nat) :
    encrypt_loop wbits EK ME blocks inp =
      ((List.range blocks).map (fun i => encrypt_one_block wbits inp i EK ME)).flatten := by
  induction blocks using Nat.strong_induction_on generalizing inp with
  | _ blocks ih =>
    match blocks with
    | 0 => simp only [encrypt_loop]
    | 1 => simp only [encrypt_loop]
    | b + 2 =>
      simp only [encrypt_loop]
      rw [ih b (by omega), encrypt_two_blocks_eq wbits hw, flatten_map_range_succ,
        flatten_map_range_succ, List.append_assoc]
      have h2 : (fun i => encrypt_one_block wbits (List.drop 32 inp) i EK ME) =
          (fun i => encrypt_one_block wbits inp (i + 1 + 1) EK ME) := by
        funext i
        have h := encrypt_one_block_drop wbits inp 2 i EK ME
        simp only [Nat.reduceMul] at h
        rw [h]
        have e : 2 + i = i + 1 + 1 := by omega
        rw [e]
      rw [h2]

theorem flatten_map_range_length {α : Type} (f : Nat → List α) (hf : ∀ i, (f i).length = 16)
    (n : Nat) : ((List.range n).map f).flatten.length = 16 * n := by
  induction n generalizing f with
  | zero => rfl
  | succ n ih =>
    rw [flatten_map_range_succ, List.length_append, hf 0, ih (fun i => f (i + 1)) (fun i => hf _)]
    omega

theorem flatten_map_range_block {α : Type} (f : Nat → List α) (hf : ∀ i, (f i).length = 16)
    (n i : Nat) (hi : i < n) :
    (((List.range n).map f).flatten.drop (16 * i)).take 16 = f i := by
  induction i generalizing f n with
  | zero =>
    obtain ⟨m, rfl⟩ : ∃ m, n = m + 1 := ⟨n - 1, by omega⟩
    rw [flatten_map_range_succ, Nat.mul_zero, List.drop_zero, List.take_left' (hf 0)]
  | succ j ih =>
    obtain ⟨m, rfl⟩ : ∃ m, n = m + 1 := ⟨n - 1, by omega⟩
    rw [flatten_map_range_succ]
    have e : 16 * (j + 1) = (f 0).length + 16 * j := by rw [hf 0]; omega
    rw [e, List.drop_append]
    exact ih (fun i => f (i + 1)) (fun i => hf _) m (by omega)

theorem encrypt_one_block_length (wbits : Nat) (inp : List Nat) (i : Nat) (EK ME : List Nat) :
    (encrypt_one_block wbits inp i EK ME).length = 16 := rfl

theorem getD_take (l : List Nat) (n i d : Nat) (h : i < n) :
    (l.take n).getD i d = l.getD i d := by
  simp only [List.getD_eq_getElem?_getD, List.getElem?_take_of_lt h]

theorem load_be_take16 (inp : List Nat) (off : Nat) (h : off < 4) :
    load_be (inp.take 16) off = load_be inp off := by
  unfold load_be
  rw [getD_take _ _ _ _ (by omega), getD_take _ _ _ _ (by omega), getD_take _ _ _ _ (by omega),
    getD_take _ _ _ _ (by omega)]

theorem encrypt_one_block_take (wbits : Nat) (inp : List Nat) (i : Nat) (EK ME : List Nat) :
    encrypt_one_block wbits ((inp.drop (16 * i)).take 16) 0 EK ME =
      encrypt_one_block wbits inp i EK ME := by
  unfold encrypt_one_block
  simp only [Nat.mul_zero, List.drop_zero]
  rw [load_be_take16 _ 0 (by norm_num), load_be_take16 _ 1 (by norm_num),
    load_be_take16 _ 2 (by norm_num), load_be_take16 _ 3 (by norm_num)]

theorem aes_encrypt_n_one (wbits : Nat) (inp EK ME : List Nat) (hEK : EK.length ≠ 0)
    (hME : ME.length = 16) :
    aes_encrypt_n wbits inp 1 EK ME = Except.ok (encrypt_one_block wbits inp 0 EK ME) := by
  unfold aes_encrypt_n
  rw [if_pos ⟨hEK, hME⟩]
  simp only [encrypt_loop, List.range_succ, List.range_zero, List.nil_append, List.map_cons,
    List.map_nil, List.flatten_cons, List.flatten_nil, List.append_nil]

theorem aes_encrypt_n_blocks (wbits : Nat) (hw : 32 ≤ wbits) (inp : List Nat) (n : Nat)
    (EK ME : List Nat) (hEK : EK.length ≠ 0) (hME : ME.length = 16) :
    aes_encrypt_n wbits inp n EK ME =
      Except.ok ((List.range n).map (fun i => encrypt_one_block wbits inp i EK ME)).flatten := by
  unfold aes_encrypt_n
  rw [if_pos ⟨hEK, hME⟩, encrypt_loop_eq wbits hw]


/-! ## Multiplication in GF(2^8) -/

theorem xtime_lane_table : ∀ b < 256, Lane.ofByte (xtime b) = xtime_lane (Lane.ofByte b) := by
  decide!

theorem xtime_lt_table : ∀ b < 256, xtime b < 256 := by decide!

theorem xtime_lt {x : Nat} (hx : x < 256) : xtime x < 256 := xtime_lt_table x hx

theorem xor_lt_256 {x y : Nat} (hx : x < 256) (hy : y < 256) : x ^^^ y < 256 :=
  Nat.xor_lt_two_pow (n := 8) hx hy

theorem Lane.ofByte_xor (x y : Nat) : Lane.ofByte (x
    ^^^ y) = (Lane.ofByte x).add (Lane.ofByte y) := by
  simp only [Lane.ofByte, Lane.add, Nat.testBit_xor]

theorem xtime_lane_xor (L M : Lane) : xtime_lane (L.add M) = (xtime_lane L).add (xtime_lane M) := by
  rcases L with ⟨a0, a1, a2, a3, a4, a5, a6, a7⟩
  rcases M with ⟨b0, b1, b2, b3, b4, b5, b6, b7⟩
  simp only [xtime_lane, Lane.add, Lane.mk.injEq, true_and]
  refine ⟨?_, ?_, ?_⟩ <;> (cases a0 <;> cases b0 <;> simp)

theorem xtime_xor {x y : Nat} (hx : x < 256) (hy : y < 256) :
    xtime (x ^^^ y) = xtime x ^^^ xtime y := by
  apply byte_ext (xtime_lt (xor_lt_256 hx hy)) (xor_lt_256 (xtime_lt hx) (xtime_lt hy))
  rw [xtime_lane_table _ (xor_lt_256 hx hy), Lane.ofByte_xor, xtime_lane_xor, Lane.ofByte_xor,
    xtime_lane_table _ hx, xtime_lane_table _ hy]

theorem xtime4_lt {x : Nat} (hx : x < 256) : xtime4 x < 256 := xtime_lt (xtime_lt hx)
theorem xtime8_lt {x : Nat} (hx : x < 256) : xtime8 x < 256 := xtime_lt (xtime_lt (xtime_lt hx))
theorem xtime3_lt {x : Nat} (hx : x < 256) : xtime3 x < 256 := xor_lt_256 (xtime_lt hx) hx
theorem xtime9_lt {x : Nat} (hx : x < 256) : xtime9 x < 256 := xor_lt_256 (xtime8_lt hx) hx
theorem xtime11_lt {x : Nat} (hx : x < 256) : xtime11 x < 256 :=
  xor_lt_256 (xor_lt_256 (xtime8_lt hx) (xtime_lt hx)) hx
theorem xtime13_lt {x : Nat} (hx : x < 256) : xtime13 x < 256 :=
  xor_lt_256 (xor_lt_256 (xtime8_lt hx) (xtime4_lt hx)) hx
theorem xtime14_lt {x : Nat} (hx : x < 256) : xtime14 x < 256 :=
  xor_lt_256 (xor_lt_256 (xtime8_lt hx) (xtime4_lt hx)) (xtime_lt hx)

theorem xtime4_xor {x y : Nat} (hx : x < 256) (hy : y < 256) :
    xtime4 (x ^^^ y) = xtime4 x ^^^ xtime4 y := by
  unfold xtime4
  rw [xtime_xor hx hy, xtime_xor (xtime_lt hx) (xtime_lt hy)]

theorem xtime8_xor {x y : Nat} (hx : x < 256) (hy : y < 256) :
    xtime8 (x ^^^ y) = xtime8 x ^^^ xtime8 y := by
  unfold xtime8
  rw [xtime_xor hx hy, xtime_xor (xtime_lt hx) (xtime_lt hy),
    xtime_xor (xtime_lt (xtime_lt hx)) (xtime_lt (xtime_lt hy))]

theorem xtime3_xor {x y : Nat} (hx : x < 256) (hy : y < 256) :
    xtime3 (x ^^^ y) = xtime3 x ^^^ xtime3 y := by
  unfold xtime3
  rw [xtime_xor hx hy]
  ac_rfl

theorem xtime9_xor {x y : Nat} (hx : x < 256) (hy : y < 256) :
    xtime9 (x ^^^ y) = xtime9 x ^^^ xtime9 y := by
  unfold xtime9
  rw [xtime8_xor hx hy]
  ac_rfl

theorem xtime11_xor {x y : Nat} (hx : x < 256) (hy : y < 256) :
    xtime11 (x ^^^ y) = xtime11 x ^^^ xtime11 y := by
  unfold xtime11
  rw [xtime8_xor hx hy, xtime_xor hx hy]
  ac_rfl

theorem xtime13_xor {x y : Nat} (hx : x < 256) (hy : y < 256) :
    xtime13 (x ^^^ y) = xtime13 x ^^^ xtime13 y := by
  unfold xtime13
  rw [xtime8_xor hx hy, xtime4_xor hx hy]
  ac_rfl

theorem xtime14_xor {x y : Nat} (hx : x < 256) (hy : y < 256) :
    xtime14 (x ^^^ y) = xtime14 x ^^^ xtime14 y := by
  unfold xtime14
  rw [xtime8_xor hx hy, xtime4_xor hx hy, xtime_xor hx hy]
  ac_rfl

/-- The sixteen products of a row of the InvMixColumns matrix with a column of
the MixColumns matrix, on every byte. -/
theorem inv_mix_mix_table : ∀ a < 256,
    (xtime14 (xtime a) ^^^ xtime11 a ^^^ xtime13 a ^^^ xtime9 (xtime3 a) = a ∧
     xtime14 (xtime3 a) ^^^ xtime11 (xtime a) ^^^ xtime13 a ^^^ xtime9 a = 0 ∧
     xtime14 a ^^^ xtime11 (xtime3 a) ^^^ xtime13 (xtime a) ^^^ xtime9 a = 0 ∧
     xtime14 a ^^^ xtime11 a ^^^ xtime13 (xtime3 a) ^^^ xtime9 (xtime a) = 0) ∧
    (xtime9 (xtime a) ^^^ xtime14 a ^^^ xtime11 a ^^^ xtime13 (xtime3 a) = 0 ∧
     xtime9 (xtime3 a) ^^^ xtime14 (xtime a) ^^^ xtime11 a ^^^ xtime13 a = a ∧
     xtime9 a ^^^ xtime14 (xtime3 a) ^^^ xtime11 (xtime a) ^^^ xtime13 a = 0 ∧
     xtime9 a ^^^ xtime14 a ^^^ xtime11 (xtime3 a) ^^^ xtime13 (xtime a) = 0) ∧
    (xtime13 (xtime a) ^^^ xtime9 a ^^^ xtime14 a ^^^ xtime11 (xtime3 a) = 0 ∧
     xtime13 (xtime3 a) ^^^ xtime9 (xtime a) ^^^ xtime14 a ^^^ xtime11 a = 0 ∧
     xtime13 a ^^^ xtime9 (xtime3 a) ^^^ xtime14 (xtime a) ^^^ xtime11 a = a ∧
     xtime13 a ^^^ xtime9 a ^^^ xtime14 (xtime3 a) ^^^ xtime11 (xtime a) = 0) ∧
    (xtime11 (xtime a) ^^^ xtime13 a ^^^ xtime9 a ^^^ xtime14 (xtime3 a) = 0 ∧
     xtime11 (xtime3 a) ^^^ xtime13 (xtime a) ^^^ xtime9 a ^^^ xtime14 a = 0 ∧
     xtime11 a ^^^ xtime13 (xtime3 a) ^^^ xtime9 (xtime a) ^^^ xtime14 a = 0 ∧
     xtime11 a ^^^ xtime13 a ^^^ xtime9 (xtime3 a) ^^^ xtime14 (xtime a) = a) := by
  decide!

theorem lin4 {f : Nat → Nat}
    (hf : ∀ {x y : Nat}, x < 256 → y < 256 → f (x ^^^ y) = f x ^^^ f y)
    {w x y z : Nat} (hw : w < 256) (hx : x < 256) (hy : y < 256) (hz : z < 256) :
    f (w ^^^ x ^^^ y ^^^ z) = f w ^^^ f x ^^^ f y ^^^ f z := by
  rw [hf (xor_lt_256 (xor_lt_256 hw hx) hy) hz, hf (xor_lt_256 hw hx) hy, hf hw hx]

theorem inv_mix_mix_row0 {a b c d : Nat} (ha : a < 256) (hb : b < 256) (hc : c < 256)
    (hd : d < 256) :
    xtime14 (xtime a ^^^ xtime3 b ^^^ c ^^^ d) ^^^
      xtime11 (a ^^^ xtime b ^^^ xtime3 c ^^^ d) ^^^
      xtime13 (a ^^^ b ^^^ xtime c ^^^ xtime3 d) ^^^
      xtime9 (xtime3 a ^^^ b ^^^ c ^^^ xtime d) = a := by
  rw [lin4 xtime14_xor (xtime_lt ha) (xtime3_lt hb) hc hd,
      lin4 xtime11_xor ha (xtime_lt hb) (xtime3_lt hc) hd,
      lin4 xtime13_xor ha hb (xtime_lt hc) (xtime3_lt hd),
      lin4 xtime9_xor (xtime3_lt ha) hb hc (xtime_lt hd)]
  have e : (xtime14 (xtime a) ^^^ xtime14 (xtime3 b) ^^^ xtime14 c ^^^ xtime14 d)
      ^^^ (xtime11 a ^^^ xtime11 (xtime b) ^^^ xtime11 (xtime3 c) ^^^ xtime11 d)
      ^^^ (xtime13 a ^^^ xtime13 b ^^^ xtime13 (xtime c) ^^^ xtime13 (xtime3 d))
      ^^^ (xtime9 (xtime3 a) ^^^ xtime9 b ^^^ xtime9 c ^^^ xtime9 (xtime d)) =
      (xtime14 (xtime a) ^^^ xtime11 a ^^^ xtime13 a ^^^ xtime9 (xtime3 a))
          ^^^ (xtime14 (xtime3 b) ^^^ xtime11 (xtime b) ^^^ xtime13 b ^^^ xtime9 b)
          ^^^ (xtime14 c ^^^ xtime11 (xtime3 c) ^^^ xtime13 (xtime c) ^^^ xtime9 c)
          ^^^ (xtime14 d ^^^ xtime11 d ^^^ xtime13 (xtime3 d) ^^^ xtime9 (xtime d)) := by
    ac_rfl
  rw [e]
  obtain ⟨ta, -, -, -⟩ := inv_mix_mix_table a ha
  obtain ⟨tb, -, -, -⟩ := inv_mix_mix_table b hb
  obtain ⟨tc, -, -, -⟩ := inv_mix_mix_table c hc
  obtain ⟨td, -, -, -⟩ := inv_mix_mix_table d hd
  rw [ta.1, tb.2.1, tc.2.2.1, td.2.2.2]
  simp only [Nat.xor_zero, Nat.zero_xor]

theorem inv_mix_mix_row1 {a b c d : Nat} (ha : a < 256) (hb : b < 256) (hc : c < 256)
    (hd : d < 256) :
    xtime9 (xtime a ^^^ xtime3 b ^^^ c ^^^ d) ^^^
      xtime14 (a ^^^ xtime b ^^^ xtime3 c ^^^ d) ^^^
      xtime11 (a ^^^ b ^^^ xtime c ^^^ xtime3 d) ^^^
      xtime13 (xtime3 a ^^^ b ^^^ c ^^^ xtime d) = b := by
  rw [lin4 xtime9_xor (xtime_lt ha) (xtime3_lt hb) hc hd,
      lin4 xtime14_xor ha (xtime_lt hb) (xtime3_lt hc) hd,
      lin4 xtime11_xor ha hb (xtime_lt hc) (xtime3_lt hd),
      lin4 xtime13_xor (xtime3_lt ha) hb hc (xtime_lt hd)]
  have e : (xtime9 (xtime a) ^^^ xtime9 (xtime3 b) ^^^ xtime9 c ^^^ xtime9 d) ^^^ (xtime14 a
      ^^^ xtime14 (xtime b) ^^^ xtime14 (xtime3 c) ^^^ xtime14 d) ^^^ (xtime11 a
      ^^^ xtime11 b ^^^ xtime11 (xtime c) ^^^ xtime11 (xtime3 d)) ^^^ (xtime13 (xtime3 a)
      ^^^ xtime13 b ^^^ xtime13 c ^^^ xtime13 (xtime d)) =
      (xtime9 (xtime a) ^^^ xtime14 a ^^^ xtime11 a ^^^ xtime13 (xtime3 a))
          ^^^ (xtime9 (xtime3 b) ^^^ xtime14 (xtime b) ^^^ xtime11 b ^^^ xtime13 b)
          ^^^ (xtime9 c ^^^ xtime14 (xtime3 c) ^^^ xtime11 (xtime c) ^^^ xtime13 c)
          ^^^ (xtime9 d ^^^ xtime14 d ^^^ xtime11 (xtime3 d) ^^^ xtime13 (xtime d)) := by
    ac_rfl
  rw [e]
  obtain ⟨-, ta, -, -⟩ := inv_mix_mix_table a ha
  obtain ⟨-, tb, -, -⟩ := inv_mix_mix_table b hb
  obtain ⟨-, tc, -, -⟩ := inv_mix_mix_table c hc
  obtain ⟨-, td, -, -⟩ := inv_mix_mix_table d hd
  rw [ta.1, tb.2.1, tc.2.2.1, td.2.2.2]
  simp only [Nat.xor_zero, Nat.zero_xor]

theorem inv_mix_mix_row2 {a b c d : Nat} (ha : a < 256) (hb : b < 256) (hc : c < 256)
    (hd : d < 256) :
    xtime13 (xtime a ^^^ xtime3 b ^^^ c ^^^ d) ^^^
      xtime9 (a ^^^ xtime b ^^^ xtime3 c ^^^ d) ^^^
      xtime14 (a ^^^ b ^^^ xtime c ^^^ xtime3 d) ^^^
      xtime11 (xtime3 a ^^^ b ^^^ c ^^^ xtime d) = c := by
  rw [lin4 xtime13_xor (xtime_lt ha) (xtime3_lt hb) hc hd,
      lin4 xtime9_xor ha (xtime_lt hb) (xtime3_lt hc) hd,
      lin4 xtime14_xor ha hb (xtime_lt hc) (xtime3_lt hd),
      lin4 xtime11_xor (xtime3_lt ha) hb hc (xtime_lt hd)]
  have e : (xtime13 (xtime a) ^^^ xtime13 (xtime3 b) ^^^ xtime13 c ^^^ xtime13 d)
      ^^^ (xtime9 a ^^^ xtime9 (xtime b) ^^^ xtime9 (xtime3 c) ^^^ xtime9 d) ^^^ (xtime14 a
      ^^^ xtime14 b ^^^ xtime14 (xtime c) ^^^ xtime14 (xtime3 d)) ^^^ (xtime11 (xtime3 a)
      ^^^ xtime11 b ^^^ xtime11 c ^^^ xtime11 (xtime d)) =
      (xtime13 (xtime a) ^^^ xtime9 a ^^^ xtime14 a ^^^ xtime11 (xtime3 a))
          ^^^ (xtime13 (xtime3 b) ^^^ xtime9 (xtime b) ^^^ xtime14 b ^^^ xtime11 b)
          ^^^ (xtime13 c ^^^ xtime9 (xtime3 c) ^^^ xtime14 (xtime c) ^^^ xtime11 c)
          ^^^ (xtime13 d ^^^ xtime9 d ^^^ xtime14 (xtime3 d) ^^^ xtime11 (xtime d)) := by
    ac_rfl
  rw [e]
  obtain ⟨-, -, ta, -⟩ := inv_mix_mix_table a ha
  obtain ⟨-, -, tb, -⟩ := inv_mix_mix_table b hb
  obtain ⟨-, -, tc, -⟩ := inv_mix_mix_table c hc
  obtain ⟨-, -, td, -⟩ := inv_mix_mix_table d hd
  rw [ta.1, tb.2.1, tc.2.2.1, td.2.2.2]
  simp only [Nat.xor_zero, Nat.zero_xor]

theorem inv_mix_mix_row3 {a b c d : Nat} (ha : a < 256) (hb : b < 256) (hc : c < 256)
    (hd : d < 256) :
    xtime11 (xtime a ^^^ xtime3 b ^^^ c ^^^ d) ^^^
      xtime13 (a ^^^ xtime b ^^^ xtime3 c ^^^ d) ^^^
      xtime9 (a ^^^ b ^^^ xtime c ^^^ xtime3 d) ^^^
      xtime14 (xtime3 a ^^^ b ^^^ c ^^^ xtime d) = d := by
  rw [lin4 xtime11_xor (xtime_lt ha) (xtime3_lt hb) hc hd,
      lin4 xtime13_xor ha (xtime_lt hb) (xtime3_lt hc) hd,
      lin4 xtime9_xor ha hb (xtime_lt hc) (xtime3_lt hd),
      lin4 xtime14_xor (xtime3_lt ha) hb hc (xtime_lt hd)]
  have e : (xtime11 (xtime a) ^^^ xtime11 (xtime3 b) ^^^ xtime11 c ^^^ xtime11 d)
      ^^^ (xtime13 a ^^^ xtime13 (xtime b) ^^^ xtime13 (xtime3 c) ^^^ xtime13 d)
      ^^^ (xtime9 a ^^^ xtime9 b ^^^ xtime9 (xtime c) ^^^ xtime9 (xtime3 d))
      ^^^ (xtime14 (xtime3 a) ^^^ xtime14 b ^^^ xtime14 c ^^^ xtime14 (xtime d)) =
      (xtime11 (xtime a) ^^^ xtime13 a ^^^ xtime9 a ^^^ xtime14 (xtime3 a))
          ^^^ (xtime11 (xtime3 b) ^^^ xtime13 (xtime b) ^^^ xtime9 b ^^^ xtime14 b)
          ^^^ (xtime11 c ^^^ xtime13 (xtime3 c) ^^^ xtime9 (xtime c) ^^^ xtime14 c)
          ^^^ (xtime11 d ^^^ xtime13 d ^^^ xtime9 (xtime3 d) ^^^ xtime14 (xtime d)) := by
    ac_rfl
  rw [e]
  obtain ⟨-, -, -, ta⟩ := inv_mix_mix_table a ha
  obtain ⟨-, -, -, tb⟩ := inv_mix_mix_table b hb
  obtain ⟨-, -, -, tc⟩ := inv_mix_mix_table c hc
  obtain ⟨-, -, -, td⟩ := inv_mix_mix_table d hd
  rw [ta.1, tb.2.1, tc.2.2.1, td.2.2.2]
  simp only [Nat.xor_zero, Nat.zero_xor]


/-! ## Words as vectors of four bytes -/

theorem word_ext_bytes {a b : Nat} (ha : a < 2 ^ 32) (hb : b < 2 ^ 32)
    (h : ∀ n < 4, get_byte n a = get_byte n b) : a = b :=
  word_ext_lanes ha hb (fun n hn => by rw [h n hn])

theorem get_byte_xor (n x y : Nat) : get_byte n (x ^^^ y) = get_byte n x ^^^ get_byte n y := by
  apply byte_ext (get_byte_lt _ _) (xor_lt_256 (get_byte_lt _ _) (get_byte_lt _ _))
  simp only [Lane.ofByte, get_byte_testBit, Nat.testBit_xor]
  simp

theorem make_uint32_xor {a b c d a' b' c' d' : Nat} (ha : a < 256) (hb : b < 256)
    (hc : c < 256) (hd : d < 256) (ha' : a' < 256) (hb' : b' < 256) (hc' : c' < 256)
    (hd' : d' < 256) :
    make_uint32 a b c d ^^^ make_uint32 a' b' c' d' =
      make_uint32 (a ^^^ a') (b ^^^ b') (c ^^^ c') (d ^^^ d') := by
  obtain ⟨p0, p1, p2, p3⟩ := get_byte_make_uint32 ha hb hc hd
  obtain ⟨q0, q1, q2, q3⟩ := get_byte_make_uint32 ha' hb' hc' hd'
  obtain ⟨r0, r1, r2, r3⟩ := get_byte_make_uint32 (xor_lt_256 ha ha') (xor_lt_256 hb hb')
    (xor_lt_256 hc hc') (xor_lt_256 hd hd')
  apply word_ext_bytes
    (Nat.xor_lt_two_pow (make_uint32_lt ha hb hc hd) (make_uint32_lt ha' hb' hc' hd'))
    (make_uint32_lt (xor_lt_256 ha ha') (xor_lt_256 hb hb') (xor_lt_256 hc hc')
      (xor_lt_256 hd hd'))
  intro n hn
  rw [get_byte_xor]
  interval_cases n
  · rw [p0, q0, r0]
  · rw [p1, q1, r1]
  · rw [p2, q2, r2]
  · rw [p3, q3, r3]

theorem make_uint32_get_byte {x : Nat} (hx : x < 2 ^ 32) :
    make_uint32 (get_byte 0 x) (get_byte 1 x) (get_byte 2 x) (get_byte 3 x) = x := by
  obtain ⟨p0, p1, p2, p3⟩ := get_byte_make_uint32 (get_byte_lt 0 x) (get_byte_lt 1 x)
    (get_byte_lt 2 x) (get_byte_lt 3 x)
  apply word_ext_bytes
    (make_uint32_lt (get_byte_lt 0 x) (get_byte_lt 1 x) (get_byte_lt 2 x) (get_byte_lt 3 x)) hx
  intro n hn
  interval_cases n
  · rw [p0]
  · rw [p1]
  · rw [p2]
  · rw [p3]

theorem testBit_add_32 {x : Nat} (hx : x < 2 ^ 32) (i : Nat) : x.testBit (i + 32) = false :=
  testBit_of_lt_2_32 hx _ (by omega)

theorem get_byte_rotr {x : Nat} (hx : x < 2 ^ 32) :
    (get_byte 0 (rotr 8 x) = get_byte 3 x ∧ get_byte 1 (rotr 8 x) = get_byte 0 x ∧
      get_byte 2 (rotr 8 x) = get_byte 1 x ∧ get_byte 3 (rotr 8 x) = get_byte 2 x) ∧
    (get_byte 0 (rotr 16 x) = get_byte 2 x ∧ get_byte 1 (rotr 16 x) = get_byte 3 x ∧
      get_byte 2 (rotr 16 x) = get_byte 0 x ∧ get_byte 3 (rotr 16 x) = get_byte 1 x) ∧
    (get_byte 0 (rotr 24 x) = get_byte 1 x ∧ get_byte 1 (rotr 24 x) = get_byte 2 x ∧
      get_byte 2 (rotr 24 x) = get_byte 3 x ∧ get_byte 3 (rotr 24 x) = get_byte 0 x) := by
  have t := testBit_add_32 hx
  refine ⟨⟨?_, ?_, ?_, ?_⟩, ⟨?_, ?_, ?_, ?_⟩, ⟨?_, ?_, ?_, ?_⟩⟩ <;>
  · apply byte_ext (get_byte_lt _ _) (get_byte_lt _ _)
    simp [-Nat.testBit_zero, Lane.ofByte, get_byte_testBit, rotr, testBit_mod_2_32, t]

theorem rotr_lt (n : Nat) {x : Nat} (hx : x < 2 ^ 32) : rotr n x < 2 ^ 32 := by
  unfold rotr
  apply Nat.or_lt_two_pow
  · rw [Nat.shiftRight_eq_div_pow]
    exact Nat.lt_of_le_of_lt (Nat.div_le_self _ _) hx
  · exact Nat.mod_lt _ (by norm_num)

theorem rotr_make_uint32 {a b c d : Nat} (ha : a < 256) (hb : b < 256) (hc : c < 256)
    (hd : d < 256) :
    rotr 8 (make_uint32 a b c d) = make_uint32 d a b c ∧
    rotr 16 (make_uint32 a b c d) = make_uint32 c d a b ∧
    rotr 24 (make_uint32 a b c d) = make_uint32 b c d a := by
  have hx := make_uint32_lt ha hb hc hd
  obtain ⟨p0, p1, p2, p3⟩ := get_byte_make_uint32 ha hb hc hd
  obtain ⟨⟨r0, r1, r2, r3⟩, ⟨s0, s1, s2, s3⟩, ⟨t0, t1, t2, t3⟩⟩ := get_byte_rotr hx
  refine ⟨?_, ?_, ?_⟩
  · obtain ⟨q0, q1, q2, q3⟩ := get_byte_make_uint32 hd ha hb hc
    apply word_ext_bytes (rotr_lt _ hx) (make_uint32_lt hd ha hb hc)
    intro n hn
    interval_cases n
    · rw [r0, q0, p3]
    · rw [r1, q1, p0]
    · rw [r2, q2, p1]
    · rw [r3, q3, p2]
  · obtain ⟨q0, q1, q2, q3⟩ := get_byte_make_uint32 hc hd ha hb
    apply word_ext_bytes (rotr_lt _ hx) (make_uint32_lt hc hd ha hb)
    intro n hn
    interval_cases n
    · rw [s0, q0, p2]
    · rw [s1, q1, p3]
    · rw [s2, q2, p0]
    · rw [s3, q3, p1]
  · obtain ⟨q0, q1, q2, q3⟩ := get_byte_make_uint32 hb hc hd ha
    apply word_ext_bytes (rotr_lt _ hx) (make_uint32_lt hb hc hd ha)
    intro n hn
    interval_cases n
    · rw [t0, q0, p1]
    · rw [t1, q1, p2]
    · rw [t2, q2, p3]
    · rw [t3, q3, p0]

theorem SD_lt_of_lt : ∀ b < 256, SD b < 256 := by decide!

theorem SD_lt (b : Nat) : SD b < 256 := by
  by_cases h : b < 256
  · exact SD_lt_of_lt b h
  · have h2 : SD b = 0 := by
      unfold SD
      apply List.getD_eq_default
      have hl : SD_table.length = 256 := by decide!
      omega
    omega

theorem SD_SE_of_lt : ∀ b < 256, SD (SE b) = b := by decide!

theorem AES_TD_eq (i : Nat) (hi : i < 256) :
    AES_TD i = make_uint32 (xtime14 (SD i)) (xtime9 (SD i)) (xtime13 (SD i)) (xtime11 (SD i)) := by
  unfold AES_TD TD_table
  rw [List.getD_eq_getElem?_getD, List.getElem?_map, List.getElem?_range hi]
  rfl

theorem AES_T_eq (K V0 V1 V2 V3 : Nat) :
    AES_T AES_TD K V0 V1 V2 V3 =
      K ^^^ inv_mix_column (SD (get_byte 0 V0)) (SD (get_byte 1 V1)) (SD (get_byte 2 V2))
        (SD (get_byte 3 V3)) := by
  unfold AES_T inv_mix_column
  rw [AES_TD_eq _ (get_byte_lt _ _), AES_TD_eq _ (get_byte_lt _ _), AES_TD_eq _ (get_byte_lt _ _),
    AES_TD_eq _ (get_byte_lt _ _)]
  have h0 := SD_lt (get_byte 0 V0)
  have h1 := SD_lt (get_byte 1 V1)
  have h2 := SD_lt (get_byte 2 V2)
  have h3 := SD_lt (get_byte 3 V3)
  rw [(rotr_make_uint32 (xtime14_lt h1) (xtime9_lt h1) (xtime13_lt h1) (xtime11_lt h1)).1,
    (rotr_make_uint32 (xtime14_lt h2) (xtime9_lt h2) (xtime13_lt h2) (xtime11_lt h2)).2.1,
    (rotr_make_uint32 (xtime14_lt h3) (xtime9_lt h3) (xtime13_lt h3) (xtime11_lt h3)).2.2]
  rw [Nat.xor_assoc, Nat.xor_assoc, Nat.xor_assoc]
  congr 1
  rw [← Nat.xor_assoc, ← Nat.xor_assoc]
  rw [make_uint32_xor (xtime14_lt h0) (xtime9_lt h0) (xtime13_lt h0) (xtime11_lt h0)
      (xtime11_lt h1) (xtime14_lt h1) (xtime9_lt h1) (xtime13_lt h1),
    make_uint32_xor (xor_lt_256 (xtime14_lt h0) (xtime11_lt h1))
      (xor_lt_256 (xtime9_lt h0) (xtime14_lt h1)) (xor_lt_256 (xtime13_lt h0) (xtime9_lt h1))
      (xor_lt_256 (xtime11_lt h0) (xtime13_lt h1))
      (xtime13_lt h2) (xtime11_lt h2) (xtime14_lt h2) (xtime9_lt h2),
    make_uint32_xor
      (xor_lt_256 (xor_lt_256 (xtime14_lt h0) (xtime11_lt h1)) (xtime13_lt h2))
      (xor_lt_256 (xor_lt_256 (xtime9_lt h0) (xtime14_lt h1)) (xtime11_lt h2))
      (xor_lt_256 (xor_lt_256 (xtime13_lt h0) (xtime9_lt h1)) (xtime14_lt h2))
      (xor_lt_256 (xor_lt_256 (xtime11_lt h0) (xtime13_lt h1)) (xtime9_lt h2))
      (xtime9_lt h3) (xtime13_lt h3) (xtime11_lt h3) (xtime14_lt h3)]

/-! ## The forward round -/

theorem get_byte_xtime_32 (s n : Nat) (hn : n < 4) :
    get_byte n (xtime_32 s) = xtime (get_byte n s) := by
  apply byte_ext (get_byte_lt _ _) (xtime_lt (get_byte_lt _ _))
  rw [xtime_lane_table _ (get_byte_lt _ _)]
  interval_cases n <;>
  simp [-Nat.testBit_zero, Lane.ofByte, xtime_lane, get_byte_testBit, xtime_32, testBit_mod_2_32,
    Nat.testBit_to_div_mod (x := 16843009), Nat.testBit_to_div_mod (x := 4278124286)]

theorem aes_enc_round_eq (V0 V1 V2 V3 : Nat) :
    aes_enc_round V0 V1 V2 V3 =
      mix_column (get_byte 0 V0) (get_byte 1 V1) (get_byte 2 V2) (get_byte 3 V3) := by
  have ha := get_byte_lt 0 V0
  have hb := get_byte_lt 1 V1
  have hc := get_byte_lt 2 V2
  have hd := get_byte_lt 3 V3
  obtain ⟨p0, p1, p2, p3⟩ := get_byte_make_uint32 ha hb hc hd
  unfold aes_enc_round mix_column xtime3
  simp only [get_byte_xor, get_byte_xtime_32 _ 0 (by norm_num), get_byte_xtime_32 _ 1 (by norm_num),
    get_byte_xtime_32 _ 2 (by norm_num), get_byte_xtime_32 _ 3 (by norm_num), p0, p1, p2, p3]
  have hxa := xtime_lt ha
  have hxb := xtime_lt hb
  have hxc := xtime_lt hc
  have hxd := xtime_lt hd
  have h3a := xor_lt_256 hxa ha
  have h3b := xor_lt_256 hxb hb
  have h3c := xor_lt_256 hxc hc
  have h3d := xor_lt_256 hxd hd
  rw [make_uint32_xor hxa ha ha h3a h3b hxb hb hb,
    make_uint32_xor (xor_lt_256 hxa h3b) (xor_lt_256 ha hxb) (xor_lt_256 ha hb)
      (xor_lt_256 h3a hb) hc h3c hxc hc,
    make_uint32_xor (xor_lt_256 (xor_lt_256 hxa h3b) hc) (xor_lt_256 (xor_lt_256 ha hxb) h3c)
      (xor_lt_256 (xor_lt_256 ha hb) hxc) (xor_lt_256 (xor_lt_256 h3a hb) hc) hd hd h3d hxd]

theorem aes_enc_r_eq (wbits : Nat) (hw : 16 ≤ wbits) (B : Words4) (K0 K1 K2 K3 : Nat) :
    aes_enc_r wbits B K0 K1 K2 K3 =
      Words4.mk
        (mix_column (SE (get_byte 0 B.b0)) (SE (get_byte 1 B.b1)) (SE (get_byte 2 B.b2))
          (SE (get_byte 3 B.b3)) ^^^ K0)
        (mix_column (SE (get_byte 0 B.b1)) (SE (get_byte 1 B.b2)) (SE (get_byte 2 B.b3))
          (SE (get_byte 3 B.b0)) ^^^ K1)
        (mix_column (SE (get_byte 0 B.b2)) (SE (get_byte 1 B.b3)) (SE (get_byte 2 B.b0))
          (SE (get_byte 3 B.b1)) ^^^ K2)
        (mix_column (SE (get_byte 0 B.b3)) (SE (get_byte 1 B.b0)) (SE (get_byte 2 B.b1))
          (SE (get_byte 3 B.b2)) ^^^ K3) := by
  unfold aes_enc_r
  simp only [SE_word_x4_eq_ref wbits hw, aes_enc_round_eq,
    get_byte_SE_word_ref _ 0 (by norm_num), get_byte_SE_word_ref _ 1 (by norm_num),
    get_byte_SE_word_ref _ 2 (by norm_num), get_byte_SE_word_ref _ 3 (by norm_num)]

/-! ## The inverse round undoes the forward round -/

theorem inv_mix_column_xor {x0 x1 x2 x3 y0 y1 y2 y3 : Nat} (hx0 : x0 < 256) (hx1 : x1 < 256)
    (hx2 : x2 < 256) (hx3 : x3 < 256) (hy0 : y0 < 256) (hy1 : y1 < 256) (hy2 : y2 < 256)
    (hy3 : y3 < 256) :
    inv_mix_column (x0 ^^^ y0) (x1 ^^^ y1) (x2 ^^^ y2) (x3 ^^^ y3) =
      inv_mix_column x0 x1 x2 x3 ^^^ inv_mix_column y0 y1 y2 y3 := by
  have b4 : ∀ {p q r s : Nat}, p < 256 → q < 256 → r < 256 → s < 256 →
      p ^^^ q ^^^ r ^^^ s < 256 :=
    fun hp hq hr hs => xor_lt_256 (xor_lt_256 (xor_lt_256 hp hq) hr) hs
  unfold inv_mix_column
  rw [make_uint32_xor
    (b4 (xtime14_lt hx0) (xtime11_lt hx1) (xtime13_lt hx2) (xtime9_lt hx3))
    (b4 (xtime9_lt hx0) (xtime14_lt hx1) (xtime11_lt hx2) (xtime13_lt hx3))
    (b4 (xtime13_lt hx0) (xtime9_lt hx1) (xtime14_lt hx2) (xtime11_lt hx3))
    (b4 (xtime11_lt hx0) (xtime13_lt hx1) (xtime9_lt hx2) (xtime14_lt hx3))
    (b4 (xtime14_lt hy0) (xtime11_lt hy1) (xtime13_lt hy2) (xtime9_lt hy3))
    (b4 (xtime9_lt hy0) (xtime14_lt hy1) (xtime11_lt hy2) (xtime13_lt hy3))
    (b4 (xtime13_lt hy0) (xtime9_lt hy1) (xtime14_lt hy2) (xtime11_lt hy3))
    (b4 (xtime11_lt hy0) (xtime13_lt hy1) (xtime9_lt hy2) (xtime14_lt hy3))]
  simp only [xtime14_xor hx0 hy0, xtime14_xor hx1 hy1, xtime14_xor hx2 hy2, xtime14_xor hx3 hy3,
    xtime11_xor hx0 hy0, xtime11_xor hx1 hy1, xtime11_xor hx2 hy2, xtime11_xor hx3 hy3,
    xtime13_xor hx0 hy0, xtime13_xor hx1 hy1, xtime13_xor hx2 hy2, xtime13_xor hx3 hy3,
    xtime9_xor hx0 hy0, xtime9_xor hx1 hy1, xtime9_xor hx2 hy2, xtime9_xor hx3 hy3]
  congr 1 <;> ac_rfl

theorem inv_mix_column_mix_column {a b c d : Nat} (ha : a < 256) (hb : b < 256) (hc : c < 256)
    (hd : d < 256) :
    inv_mix_word (mix_column a b c d) = make_uint32 a b c d := by
  have hxa := xtime_lt ha
  have hxb := xtime_lt hb
  have hxc := xtime_lt hc
  have hxd := xtime_lt hd
  have h3a := xtime3_lt ha
  have h3b := xtime3_lt hb
  have h3c := xtime3_lt hc
  have h3d := xtime3_lt hd
  have b4 : ∀ {p q r s : Nat}, p < 256 → q < 256 → r < 256 → s < 256 →
      p ^^^ q ^^^ r ^^^ s < 256 :=
    fun hp hq hr hs => xor_lt_256 (xor_lt_256 (xor_lt_256 hp hq) hr) hs
  obtain ⟨p0, p1, p2, p3⟩ := get_byte_make_uint32 (b4 hxa h3b hc hd) (b4 ha hxb h3c hd)
    (b4 ha hb hxc h3d) (b4 h3a hb hc hxd)
  unfold inv_mix_word
  unfold mix_column
  rw [p0, p1, p2, p3]
  unfold inv_mix_column
  rw [inv_mix_mix_row0 ha hb hc hd, inv_mix_mix_row1 ha hb hc hd, inv_mix_mix_row2 ha hb hc hd,
    inv_mix_mix_row3 ha hb hc hd]

theorem mix_column_lt {a b c d : Nat} (ha : a < 256) (hb : b < 256) (hc : c < 256)
    (hd : d < 256) : mix_column a b c d < 2 ^ 32 := by
  have b4 : ∀ {p q r s : Nat}, p < 256 → q < 256 → r < 256 → s < 256 →
      p ^^^ q ^^^ r ^^^ s < 256 :=
    fun hp hq hr hs => xor_lt_256 (xor_lt_256 (xor_lt_256 hp hq) hr) hs
  exact make_uint32_lt (b4 (xtime_lt ha) (xtime3_lt hb) hc hd) (b4 ha (xtime_lt hb)
      (xtime3_lt hc) hd)
    (b4 ha hb (xtime_lt hc) (xtime3_lt hd)) (b4 (xtime3_lt ha) hb hc (xtime_lt hd))

theorem inv_mix_word_xor (x y : Nat) :
    inv_mix_word (x ^^^ y) = inv_mix_word x ^^^ inv_mix_word y := by
  unfold inv_mix_word
  simp only [get_byte_xor]
  exact inv_mix_column_xor (get_byte_lt _ _) (get_byte_lt _ _) (get_byte_lt _ _) (get_byte_lt _ _)
    (get_byte_lt _ _) (get_byte_lt _ _) (get_byte_lt _ _) (get_byte_lt _ _)

/-- The column identity behind the equivalent inverse cipher: the T-table
lookups on the S-boxed bytes of `mix_column a b c d ^^^ K`, keyed with
`inv_mix_word K`, give back the column `(a, b, c, d)`. -/
theorem inv_round_column {a b c d : Nat} (ha : a < 256) (hb : b < 256) (hc : c < 256)
    (hd : d < 256) (K : Nat) :
    inv_mix_word K ^^^
      inv_mix_column (SD (SE (get_byte 0 (mix_column a b c d ^^^ K))))
        (SD (SE (get_byte 1 (mix_column a b c d ^^^ K))))
        (SD (SE (get_byte 2 (mix_column a b c d ^^^ K))))
        (SD (SE (get_byte 3 (mix_column a b c d ^^^ K)))) = make_uint32 a b c d := by
  rw [SD_SE_of_lt _ (get_byte_lt _ _), SD_SE_of_lt _ (get_byte_lt _ _),
    SD_SE_of_lt _ (get_byte_lt _ _), SD_SE_of_lt _ (get_byte_lt _ _)]
  have h : inv_mix_column (get_byte 0 (mix_column a b c d ^^^ K))
      (get_byte 1 (mix_column a b c d ^^^ K)) (get_byte 2 (mix_column a b c d ^^^ K))
      (get_byte 3 (mix_column a b c d ^^^ K)) = inv_mix_word (mix_column a b c d ^^^ K) := rfl
  rw [h, inv_mix_word_xor, inv_mix_column_mix_column ha hb hc hd,
      Nat.xor_comm (make_uint32 a b c d),
    ← Nat.xor_assoc, Nat.xor_self, Nat.zero_xor]

theorem dec_round_sub_shift_enc_r (wbits : Nat) (hw : 16 ≤ wbits) (B : Words4)
    (K0 K1 K2 K3 : Nat) :
    dec_round (sub_shift (aes_enc_r wbits B K0 K1 K2 K3)) (inv_mix_word K0) (inv_mix_word K1)
      (inv_mix_word K2) (inv_mix_word K3) = sub_shift B := by
  rw [aes_enc_r_eq wbits hw]
  unfold dec_round
  simp only [AES_T_eq]
  unfold sub_shift
  simp only [(get_byte_make_uint32 (SE_lt _) (SE_lt _) (SE_lt _) (SE_lt _)).1,
    (get_byte_make_uint32 (SE_lt _) (SE_lt _) (SE_lt _) (SE_lt _)).2.1,
    (get_byte_make_uint32 (SE_lt _) (SE_lt _) (SE_lt _) (SE_lt _)).2.2.1,
    (get_byte_make_uint32 (SE_lt _) (SE_lt _) (SE_lt _) (SE_lt _)).2.2.2,
    inv_round_column (SE_lt _) (SE_lt _) (SE_lt _) (SE_lt _)]

/-! ## The key schedule, unrolled -/

theorem inv_mix_word_eq_AES_T (K : Nat) :
    AES_T AES_TD 0 (SE_word_ref K) (SE_word_ref K) (SE_word_ref K) (SE_word_ref K) =
      inv_mix_word K := by
  rw [AES_T_eq, get_byte_SE_word_ref _ 0 (by norm_num), get_byte_SE_word_ref _ 1 (by norm_num),
    get_byte_SE_word_ref _ 2 (by norm_num), get_byte_SE_word_ref _ 3 (by norm_num),
    SD_SE_of_lt _ (get_byte_lt _ _), SD_SE_of_lt _ (get_byte_lt _ _),
    SD_SE_of_lt _ (get_byte_lt _ _), SD_SE_of_lt _ (get_byte_lt _ _), Nat.zero_xor]
  rfl

set_option maxHeartbeats 4000000 in
set_option maxRecDepth 100000 in
theorem aes_key_schedule_16 (wbits cls : Nat) (hw : 16 ≤ wbits) (hc : 4 ≤ cls) (key : List Nat) :
    aes_key_schedule wbits cls key 16 =
      Except.ok (KeyData.mk ((key_expansion wbits key 16 0).take 40)
        (DK_16 (key_expansion wbits key 16 0)) (ME_16 (key_expansion wbits key 16 0))
        (MD_of (key_expansion wbits key 16 0))) := by
  obtain ⟨Z1, h1⟩ := prefetch_some AES_TD (cls / 4) (by omega) 257 0 0 (by norm_num) (by norm_num)
  simp only [aes_key_schedule, h1, AES_TD_99, Nat.and_zero]
  generalize key_expansion wbits key 16 0 = W
  simp [List.range', xdk_sbox_loop, SE_word_x4_eq_ref wbits hw, inv_mix_word_eq_AES_T,
      List.replicate,
    DK_16, ME_16, MD_of, store_be, List.range_succ, List.flatMap_cons, List.flatMap_append]

set_option maxHeartbeats 4000000 in
set_option maxRecDepth 100000 in
theorem aes_key_schedule_24 (wbits cls : Nat) (hw : 16 ≤ wbits) (hc : 4 ≤ cls) (key : List Nat) :
    aes_key_schedule wbits cls key 24 =
      Except.ok (KeyData.mk ((key_expansion wbits key 24 0).take 48)
        (DK_24 (key_expansion wbits key 24 0)) (ME_24 (key_expansion wbits key 24 0))
        (MD_of (key_expansion wbits key 24 0))) := by
  obtain ⟨Z1, h1⟩ := prefetch_some AES_TD (cls / 4) (by omega) 257 0 0 (by norm_num) (by norm_num)
  simp only [aes_key_schedule, h1, AES_TD_99, Nat.and_zero]
  generalize key_expansion wbits key 24 0 = W
  simp [List.range', xdk_sbox_loop, SE_word_x4_eq_ref wbits hw, inv_mix_word_eq_AES_T,
      List.replicate,
    DK_24, ME_24, MD_of, store_be, List.range_succ, List.flatMap_cons, List.flatMap_append]

set_option maxHeartbeats 4000000 in
set_option maxRecDepth 100000 in
theorem aes_key_schedule_32 (wbits cls : Nat) (hw : 16 ≤ wbits) (hc : 4 ≤ cls) (key : List Nat) :
    aes_key_schedule wbits cls key 32 =
      Except.ok (KeyData.mk ((key_expansion wbits key 32 0).take 56)
        (DK_32 (key_expansion wbits key 32 0)) (ME_32 (key_expansion wbits key 32 0))
        (MD_of (key_expansion wbits key 32 0))) := by
  obtain ⟨Z1, h1⟩ := prefetch_some AES_TD (cls / 4) (by omega) 257 0 0 (by norm_num) (by norm_num)
  simp only [aes_key_schedule, h1, AES_TD_99, Nat.and_zero]
  generalize key_expansion wbits key 32 0 = W
  simp [List.range', xdk_sbox_loop, SE_word_x4_eq_ref wbits hw, inv_mix_word_eq_AES_T,
      List.replicate,
    DK_32, ME_32, MD_of, store_be, List.range_succ, List.flatMap_cons, List.flatMap_append]

/-! ## Decryption undoes encryption, one block -/

theorem dec_rounds_succ (DK : List Nat) (fuel r : Nat) (B : Words4) :
    dec_rounds DK (fuel + 1) r B =
      if r < DK.length then
        dec_rounds DK fuel (r + 2 * 4)
          (dec_round
            (dec_round B (DK.getD r 0) (DK.getD (r + 1) 0) (DK.getD (r + 2) 0) (DK.getD (r + 3) 0))
            (DK.getD (r + 4) 0) (DK.getD (r + 5) 0) (DK.getD (r + 6) 0) (DK.getD (r + 7) 0))
      else B := rfl

theorem decrypt_one_block_eq (c : List Nat) (Z : Nat) (DK MD : List Nat) :
    decrypt_one_block c Z DK MD =
      dec_final (dec_rounds DK DK.length (2 * 4)
        (dec_round
          (Words4.mk (load_be c 0 ^^^ DK.getD 0 0 ^^^ Z) (load_be c 1 ^^^ DK.getD 1 0)
            (load_be c 2 ^^^ DK.getD 2 0) (load_be c 3 ^^^ DK.getD 3 0))
          (DK.getD 4 0) (DK.getD 5 0) (DK.getD 6 0) (DK.getD 7 0))) MD := rfl

theorem dec_round_bytes (T U : Words4) (D0 D1 D2 D3 : Nat)
    (h0 : ∀ n < 4, get_byte n T.b0 = get_byte n U.b0)
    (h1 : ∀ n < 4, get_byte n T.b1 = get_byte n U.b1)
    (h2 : ∀ n < 4, get_byte n T.b2 = get_byte n U.b2)
    (h3 : ∀ n < 4, get_byte n T.b3 = get_byte n U.b3) :
    dec_round T D0 D1 D2 D3 = dec_round U D0 D1 D2 D3 := by
  unfold dec_round AES_T
  rw [h0 0 (by norm_num), h0 1 (by norm_num), h0 2 (by norm_num), h0 3 (by norm_num),
    h1 0 (by norm_num), h1 1 (by norm_num), h1 2 (by norm_num), h1 3 (by norm_num),
    h2 0 (by norm_num), h2 1 (by norm_num), h2 2 (by norm_num), h2 3 (by norm_num),
    h3 0 (by norm_num), h3 1 (by norm_num), h3 2 (by norm_num), h3 3 (by norm_num)]

/-- The sixteen bytes of four words, most significant byte first. -/
theorem enc_final_load (wbits : Nat) (hw : 16 ≤ wbits) (B : Words4) (M0 M1 M2 M3 : Nat) (n : Nat)
    (hn : n < 4) :
    let c := enc_final (SE_word_x4 wbits B)
      [get_byte 0 M0, get_byte 1 M0, get_byte 2 M0, get_byte 3 M0,
       get_byte 0 M1, get_byte 1 M1, get_byte 2 M1, get_byte 3 M1,
       get_byte 0 M2, get_byte 1 M2, get_byte 2 M2, get_byte 3 M2,
       get_byte 0 M3, get_byte 1 M3, get_byte 2 M3, get_byte 3 M3]
    get_byte n (load_be c 0 ^^^ M0) = get_byte n (sub_shift B).b0 ∧
    get_byte n (load_be c 1 ^^^ M1) = get_byte n (sub_shift B).b1 ∧
    get_byte n (load_be c 2 ^^^ M2) = get_byte n (sub_shift B).b2 ∧
    get_byte n (load_be c 3 ^^^ M3) = get_byte n (sub_shift B).b3 := by
  intro c
  have hb : ∀ x j y, SE x ^^^ get_byte j y < 256 :=
    fun x j y => xor_lt_256 (SE_lt _) (get_byte_lt _ _)
  simp only [c, enc_final, load_be, SE_word_x4_eq_ref wbits hw, sub_shift, get_byte_xor,
    Nat.mul_zero, Nat.mul_one, Nat.zero_add, Nat.reduceMul, Nat.reduceAdd, List.getD_cons_zero,
    List.getD_cons_succ,
    (get_byte_make_uint32 (hb _ _ _) (hb _ _ _) (hb _ _ _) (hb _ _ _)).1,
    (get_byte_make_uint32 (hb _ _ _) (hb _ _ _) (hb _ _ _) (hb _ _ _)).2.1,
    (get_byte_make_uint32 (hb _ _ _) (hb _ _ _) (hb _ _ _) (hb _ _ _)).2.2.1,
    (get_byte_make_uint32 (hb _ _ _) (hb _ _ _) (hb _ _ _) (hb _ _ _)).2.2.2,
    (get_byte_make_uint32 (SE_lt _) (SE_lt _) (SE_lt _) (SE_lt _)).1,
    (get_byte_make_uint32 (SE_lt _) (SE_lt _) (SE_lt _) (SE_lt _)).2.1,
    (get_byte_make_uint32 (SE_lt _) (SE_lt _) (SE_lt _) (SE_lt _)).2.2.1,
    (get_byte_make_uint32 (SE_lt _) (SE_lt _) (SE_lt _) (SE_lt _)).2.2.2,
    get_byte_SE_word_ref _ 0 (by norm_num), get_byte_SE_word_ref _ 1 (by norm_num),
    get_byte_SE_word_ref _ 2 (by norm_num), get_byte_SE_word_ref _ 3 (by norm_num)]
  interval_cases n <;>
  simp only [(get_byte_make_uint32 (hb _ _ _) (hb _ _ _) (hb _ _ _) (hb _ _ _)).1,
    (get_byte_make_uint32 (hb _ _ _) (hb _ _ _) (hb _ _ _) (hb _ _ _)).2.1,
    (get_byte_make_uint32 (hb _ _ _) (hb _ _ _) (hb _ _ _) (hb _ _ _)).2.2.1,
    (get_byte_make_uint32 (hb _ _ _) (hb _ _ _) (hb _ _ _) (hb _ _ _)).2.2.2,
    (get_byte_make_uint32 (SE_lt _) (SE_lt _) (SE_lt _) (SE_lt _)).1,
    (get_byte_make_uint32 (SE_lt _) (SE_lt _) (SE_lt _) (SE_lt _)).2.1,
    (get_byte_make_uint32 (SE_lt _) (SE_lt _) (SE_lt _) (SE_lt _)).2.2.1,
    (get_byte_make_uint32 (SE_lt _) (SE_lt _) (SE_lt _) (SE_lt _)).2.2.2,
    Nat.xor_cancel_right, and_self]

theorem dec_final_sub_shift (P0 P1 P2 P3 M0 M1 M2 M3 : Nat) :
    dec_final (sub_shift (Words4.mk (P0 ^^^ M0) (P1 ^^^ M1) (P2 ^^^ M2) (P3 ^^^ M3)))
      [get_byte 0 M0, get_byte 1 M0, get_byte 2 M0, get_byte 3 M0,
       get_byte 0 M1, get_byte 1 M1, get_byte 2 M1, get_byte 3 M1,
       get_byte 0 M2, get_byte 1 M2, get_byte 2 M2, get_byte 3 M2,
       get_byte 0 M3, get_byte 1 M3, get_byte 2 M3, get_byte 3 M3] =
      [get_byte 0 P0, get_byte 1 P0, get_byte 2 P0, get_byte 3 P0,
       get_byte 0 P1, get_byte 1 P1, get_byte 2 P1, get_byte 3 P1,
       get_byte 0 P2, get_byte 1 P2, get_byte 2 P2, get_byte 3 P2,
       get_byte 0 P3, get_byte 1 P3, get_byte 2 P3, get_byte 3 P3] := by
  simp only [dec_final, sub_shift, List.getD_cons_zero, List.getD_cons_succ,
    (get_byte_make_uint32 (SE_lt _) (SE_lt _) (SE_lt _) (SE_lt _)).1,
    (get_byte_make_uint32 (SE_lt _) (SE_lt _) (SE_lt _) (SE_lt _)).2.1,
    (get_byte_make_uint32 (SE_lt _) (SE_lt _) (SE_lt _) (SE_lt _)).2.2.1,
    (get_byte_make_uint32 (SE_lt _) (SE_lt _) (SE_lt _) (SE_lt _)).2.2.2,
    SD_SE_of_lt _ (get_byte_lt _ _),
    SD_SE_of_lt _ (xor_lt_256 (get_byte_lt _ _) (get_byte_lt _ _)), get_byte_xor,
    Nat.xor_cancel_right]

theorem store_load_16 (p : List Nat) (hp : p.length = 16) (hb : ∀ b ∈ p, b < 256) :
    [get_byte 0 (load_be p 0), get_byte 1 (load_be p 0), get_byte 2 (load_be p 0),
     get_byte 3 (load_be p 0), get_byte 0 (load_be p 1), get_byte 1 (load_be p 1),
     get_byte 2 (load_be p 1), get_byte 3 (load_be p 1), get_byte 0 (load_be p 2),
     get_byte 1 (load_be p 2), get_byte 2 (load_be p 2), get_byte 3 (load_be p 2),
     get_byte 0 (load_be p 3), get_byte 1 (load_be p 3), get_byte 2 (load_be p 3),
     get_byte 3 (load_be p 3)] = p := by
  rcases p with _ | ⟨p0, _ | ⟨p1, _ | ⟨p2, _ | ⟨p3, _ | ⟨p4, _ | ⟨p5, _ | ⟨p6, _ | ⟨p7, _ | ⟨p8,
      _ | ⟨p9, _ | ⟨p10, _ | ⟨p11, _ | ⟨p12, _ | ⟨p13, _ | ⟨p14, _ | ⟨p15, _ | ⟨q,
      r⟩⟩⟩⟩⟩⟩⟩⟩⟩⟩⟩⟩⟩⟩⟩⟩⟩
  all_goals (simp only [List.length_cons, List.length_nil] at hp)
  all_goals (try omega)
  simp only [List.mem_cons, List.mem_nil_iff, or_false, forall_eq_or_imp, forall_eq] at hb
  obtain ⟨h0, h1, h2, h3, h4, h5, h6, h7, h8, h9, h10, h11, h12, h13, h14, h15⟩ := hb
  simp only [load_be, Nat.mul_zero, Nat.mul_one, Nat.zero_add, Nat.reduceMul, Nat.reduceAdd,
    List.getD_cons_zero, List.getD_cons_succ,
    (get_byte_make_uint32 h0 h1 h2 h3).1, (get_byte_make_uint32 h0 h1 h2 h3).2.1,
    (get_byte_make_uint32 h0 h1 h2 h3).2.2.1, (get_byte_make_uint32 h0 h1 h2 h3).2.2.2,
    (get_byte_make_uint32 h4 h5 h6 h7).1, (get_byte_make_uint32 h4 h5 h6 h7).2.1,
    (get_byte_make_uint32 h4 h5 h6 h7).2.2.1, (get_byte_make_uint32 h4 h5 h6 h7).2.2.2,
    (get_byte_make_uint32 h8 h9 h10 h11).1, (get_byte_make_uint32 h8 h9 h10 h11).2.1,
    (get_byte_make_uint32 h8 h9 h10 h11).2.2.1, (get_byte_make_uint32 h8 h9 h10 h11).2.2.2,
    (get_byte_make_uint32 h12 h13 h14 h15).1, (get_byte_make_uint32 h12 h13 h14 h15).2.1,
    (get_byte_make_uint32 h12 h13 h14 h15).2.2.1, (get_byte_make_uint32 h12 h13 h14 h15).2.2.2]

theorem dec_first_round (wbits : Nat) (hw : 16 ≤ wbits) (B : Words4)
    (M0 M1 M2 M3 D0 D1 D2 D3 : Nat) :
    dec_round
      (Words4.mk
        (load_be (enc_final (SE_word_x4 wbits B)
          [get_byte 0 M0, get_byte 1 M0, get_byte 2 M0, get_byte 3 M0,
           get_byte 0 M1, get_byte 1 M1, get_byte 2 M1, get_byte 3 M1,
           get_byte 0 M2, get_byte 1 M2, get_byte 2 M2, get_byte 3 M2,
           get_byte 0 M3, get_byte 1 M3, get_byte 2 M3, get_byte 3 M3]) 0 ^^^ M0 ^^^ 0)
        (load_be (enc_final (SE_word_x4 wbits B)
          [get_byte 0 M0, get_byte 1 M0, get_byte 2 M0, get_byte 3 M0,
           get_byte 0 M1, get_byte 1 M1, get_byte 2 M1, get_byte 3 M1,
           get_byte 0 M2, get_byte 1 M2, get_byte 2 M2, get_byte 3 M2,
           get_byte 0 M3, get_byte 1 M3, get_byte 2 M3, get_byte 3 M3]) 1 ^^^ M1)
        (load_be (enc_final (SE_word_x4 wbits B)
          [get_byte 0 M0, get_byte 1 M0, get_byte 2 M0, get_byte 3 M0,
           get_byte 0 M1, get_byte 1 M1, get_byte 2 M1, get_byte 3 M1,
           get_byte 0 M2, get_byte 1 M2, get_byte 2 M2, get_byte 3 M2,
           get_byte 0 M3, get_byte 1 M3, get_byte 2 M3, get_byte 3 M3]) 2 ^^^ M2)
        (load_be (enc_final (SE_word_x4 wbits B)
          [get_byte 0 M0, get_byte 1 M0, get_byte 2 M0, get_byte 3 M0,
           get_byte 0 M1, get_byte 1 M1, get_byte 2 M1, get_byte 3 M1,
           get_byte 0 M2, get_byte 1 M2, get_byte 2 M2, get_byte 3 M2,
           get_byte 0 M3, get_byte 1 M3, get_byte 2 M3, get_byte 3 M3]) 3 ^^^ M3))
      D0 D1 D2 D3 = dec_round (sub_shift B) D0 D1 D2 D3 := by
  apply dec_round_bytes
  · intro n hn
    rw [Nat.xor_zero]
    exact (enc_final_load wbits hw B M0 M1 M2 M3 n hn).1
  · intro n hn
    exact (enc_final_load wbits hw B M0 M1 M2 M3 n hn).2.1
  · intro n hn
    exact (enc_final_load wbits hw B M0 M1 M2 M3 n hn).2.2.1
  · intro n hn
    exact (enc_final_load wbits hw B M0 M1 M2 M3 n hn).2.2.2


set_option maxHeartbeats 1000000 in
set_option maxRecDepth 100000 in
theorem round_trip_block_16 (wbits : Nat) (hw : 16 ≤ wbits) (W p : List Nat)
    (hW : W.length = 48) (hp : p.length = 16) (hb : ∀ b ∈ p, b < 256) :
    decrypt_one_block (encrypt_one_block wbits p 0 (W.take 40) (ME_16 W)) 0 (DK_16 W)
      (MD_of W) = p := by
  have hlenE : (W.take 40).length = 40 := by rw [List.length_take, hW]; rfl
  have hlenD : (DK_16 W).length = 40 := rfl
  have hget : ∀ i, i < 40 → (W.take 40).getD i 0 = W.getD i 0 :=
    fun i hi => getD_take W 40 i 0 hi
  rw [decrypt_one_block_eq, hlenD]
  simp only [encrypt_one_block, hlenE, enc_rounds, Nat.mul_zero, List.drop_zero, Nat.reduceMul,
    Nat.reduceAdd, Nat.reduceLT, if_true, if_false, hget _ (by norm_num : (0 : Nat) < 40)]
  simp only [hget, Nat.reduceLT]
  simp only [dec_rounds_succ, hlenD, Nat.reduceMul, Nat.reduceAdd, Nat.reduceLT, if_true, if_false]
  simp only [DK_16, ME_16, List.getD_cons_zero, List.getD_cons_succ, dec_first_round wbits hw,
    dec_round_sub_shift_enc_r wbits hw, MD_of, dec_final_sub_shift, store_load_16 p hp hb]

set_option maxHeartbeats 1000000 in
set_option maxRecDepth 100000 in
theorem round_trip_block_24 (wbits : Nat) (hw : 16 ≤ wbits) (W p : List Nat)
    (hW : W.length = 56) (hp : p.length = 16) (hb : ∀ b ∈ p, b < 256) :
    decrypt_one_block (encrypt_one_block wbits p 0 (W.take 48) (ME_24 W)) 0 (DK_24 W)
      (MD_of W) = p := by
  have hlenE : (W.take 48).length = 48 := by rw [List.length_take, hW]; rfl
  have hlenD : (DK_24 W).length = 48 := rfl
  have hget : ∀ i, i < 48 → (W.take 48).getD i 0 = W.getD i 0 :=
    fun i hi => getD_take W 48 i 0 hi
  rw [decrypt_one_block_eq, hlenD]
  simp only [encrypt_one_block, hlenE, enc_rounds, Nat.mul_zero, List.drop_zero, Nat.reduceMul,
    Nat.reduceAdd, Nat.reduceLT, if_true, if_false, hget _ (by norm_num : (0 : Nat) < 48)]
  simp only [hget, Nat.reduceLT]
  simp only [dec_rounds_succ, hlenD, Nat.reduceMul, Nat.reduceAdd, Nat.reduceLT, if_true, if_false]
  simp only [DK_24, ME_24, List.getD_cons_zero, List.getD_cons_succ, dec_first_round wbits hw,
    dec_round_sub_shift_enc_r wbits hw, MD_of, dec_final_sub_shift, store_load_16 p hp hb]

set_option maxHeartbeats 1000000 in
set_option maxRecDepth 100000 in
theorem round_trip_block_32 (wbits : Nat) (hw : 16 ≤ wbits) (W p : List Nat)
    (hW : W.length = 64) (hp : p.length = 16) (hb : ∀ b ∈ p, b < 256) :
    decrypt_one_block (encrypt_one_block wbits p 0 (W.take 56) (ME_32 W)) 0 (DK_32 W)
      (MD_of W) = p := by
  have hlenE : (W.take 56).length = 56 := by rw [List.length_take, hW]; rfl
  have hlenD : (DK_32 W).length = 56 := rfl
  have hget : ∀ i, i < 56 → (W.take 56).getD i 0 = W.getD i 0 :=
    fun i hi => getD_take W 56 i 0 hi
  rw [decrypt_one_block_eq, hlenD]
  simp only [encrypt_one_block, hlenE, enc_rounds, Nat.mul_zero, List.drop_zero, Nat.reduceMul,
    Nat.reduceAdd, Nat.reduceLT, if_true, if_false, hget _ (by norm_num : (0 : Nat) < 56)]
  simp only [hget, Nat.reduceLT]
  simp only [dec_rounds_succ, hlenD, Nat.reduceMul, Nat.reduceAdd, Nat.reduceLT, if_true, if_false]
  simp only [DK_32, ME_32, List.getD_cons_zero, List.getD_cons_succ, dec_first_round wbits hw,
    dec_round_sub_shift_enc_r wbits hw, MD_of, dec_final_sub_shift, store_load_16 p hp hb]

/-! ## Decryption undoes encryption, any number of blocks -/

theorem foldl_length_eq (f : List Nat → Nat → List Nat)
    (hf : ∀ l i, (f l i).length = l.length) (is : List Nat) (l : List Nat) :
    (is.foldl f l).length = l.length := by
  induction is generalizing l with
  | nil => rfl
  | cons i is ih => rw [List.foldl_cons, ih, hf]

theorem expand_inner_length (wbits X i : Nat) (XEK : List Nat) (j : Nat) :
    (expand_inner wbits X i XEK j).length = XEK.length := by
  unfold expand_inner
  split <;> simp only [List.length_set]

theorem expand_loop_length (wbits X bound fuel i : Nat) (XEK : List Nat) :
    (expand_loop wbits X bound fuel i XEK).length = XEK.length := by
  induction fuel generalizing i XEK with
  | zero => rfl
  | succ fuel ih =>
    simp only [expand_loop]
    split
    · rw [ih, foldl_length_eq _ (fun l j => expand_inner_length wbits X i l j), List.length_set]
    · rfl

theorem key_expansion_length (wbits : Nat) (key : List Nat) (length Z : Nat) :
    (key_expansion wbits key length Z).length = length + 32 := by
  unfold key_expansion
  simp only []
  rw [expand_loop_length, foldl_length_eq _ (fun l i => List.length_set _ _ _),
      List.length_replicate]

theorem decrypt_prefetch_eq (cls : Nat) (hc : 4 ≤ cls) : decrypt_prefetch cls = some 0 := by
  obtain ⟨Z1, h1⟩ := prefetch_some AES_TD (cls / 4) (by omega) 257 0 0 (by norm_num) (by norm_num)
  obtain ⟨Z2, h2⟩ := prefetch_some SD cls (by omega) 257 0 Z1 (by norm_num) (by norm_num)
  simp only [decrypt_prefetch, h1, h2, AES_TD_99, Nat.and_zero]

theorem getD_append_left (l r : List Nat) (i d : Nat) (h : i < l.length) :
    (l ++ r).getD i d = l.getD i d := by
  simp only [List.getD_eq_getElem?_getD, List.getElem?_append_left h]

theorem load_be_append (c r : List Nat) (hc : c.length = 16) (k : Nat) (hk : k < 4) :
    load_be (c ++ r) k = load_be c k := by
  unfold load_be
  rw [getD_append_left _ _ _ _ (by omega), getD_append_left _ _ _ _ (by omega),
    getD_append_left _ _ _ _ (by omega), getD_append_left _ _ _ _ (by omega)]

theorem decrypt_one_block_append (c r : List Nat) (hc : c.length = 16) (Z : Nat)
    (DK MD : List Nat) : decrypt_one_block (c ++ r) Z DK MD = decrypt_one_block c Z DK MD := by
  unfold decrypt_one_block
  rw [load_be_append c r hc 0 (by norm_num), load_be_append c r hc 1 (by norm_num),
    load_be_append c r hc 2 (by norm_num), load_be_append c r hc 3 (by norm_num)]

theorem round_trip_loop (wbits : Nat) (EK ME DK MD : List Nat)
    (H : ∀ p : List Nat, p.length = 16 → (∀ b ∈ p, b < 256) →
      decrypt_one_block (encrypt_one_block wbits p 0 EK ME) 0 DK MD = p)
    (n : Nat) (inp : List Nat) (hi : inp.length = 16 * n) (hb : ∀ b ∈ inp, b < 256) :
    decrypt_loop 0 DK MD n
      ((List.range n).map (fun i => encrypt_one_block wbits inp i EK ME)).flatten = inp := by
  induction n generalizing inp with
  | zero =>
    have h0 : inp = [] := List.length_eq_zero.mp (by omega)
    rw [h0]
    rfl
  | succ n ih =>
    rw [flatten_map_range_succ]
    simp only [decrypt_loop]
    rw [decrypt_one_block_append _ _ (encrypt_one_block_length _ _ _ _ _),
      List.drop_left' (encrypt_one_block_length _ _ _ _ _)]
    have h1 : (fun i => encrypt_one_block wbits inp (i + 1) EK ME) =
        (fun i => encrypt_one_block wbits (inp.drop 16) i EK ME) := by
      funext i
      have h := encrypt_one_block_drop wbits inp 1 i EK ME
      simp only [Nat.mul_one] at h
      rw [h, Nat.add_comm]
    rw [h1, ih (inp.drop 16) (by rw [List.length_drop]; omega)
      (fun b hb' => hb b (List.mem_of_mem_drop hb'))]
    have h2 := encrypt_one_block_take wbits inp 0 EK ME
    simp only [Nat.mul_zero, List.drop_zero] at h2
    rw [← h2, H (inp.take 16) (by rw [List.length_take]; omega)
      (fun b hb' => hb b (List.mem_of_mem_take hb'))]
    exact List.take_append_drop 16 inp

theorem aes_round_trip_of (wbits cls : Nat) (hw : 32 ≤ wbits) (hc : 4 ≤ cls)
    (EK DK ME MD : List Nat) (hE : EK.length ≠ 0) (hME : ME.length = 16) (hD : DK.length ≠ 0)
    (hMD : MD.length = 16)
    (H : ∀ p : List Nat, p.length = 16 → (∀ b ∈ p, b < 256) →
      decrypt_one_block (encrypt_one_block wbits p 0 EK ME) 0 DK MD = p)
    (n : Nat) (inp : List Nat) (hi : inp.length = 16 * n) (hb : ∀ b ∈ inp, b < 256) :
    ∃ ct, aes_encrypt_n wbits inp n EK ME = Except.ok ct ∧
      aes_decrypt_n cls ct n DK MD = Except.ok inp := by
  refine ⟨_, aes_encrypt_n_blocks wbits hw inp n EK ME hE hME, ?_⟩
  unfold aes_decrypt_n
  rw [if_pos ⟨hD, hMD⟩, decrypt_prefetch_eq cls hc]
  simp only []
  rw [round_trip_loop wbits EK ME DK MD H n inp hi hb]

theorem MD_of_length (W : List Nat) : (MD_of W).length = 16 := rfl

theorem ME_16_length (W : List Nat) : (ME_16 W).length = 16 := rfl

theorem DK_16_length (W : List Nat) : (DK_16 W).length = 40 := rfl

theorem aes_round_trip_16 (wbits cls : Nat) (hw : 32 ≤ wbits) (hc : 4 ≤ cls) (key : List Nat)
    (n : Nat) (inp : List Nat) (hi : inp.length = 16 * n) (hb : ∀ b ∈ inp, b < 256) :
    ∃ kd ct, aes_key_schedule wbits cls key 16 = Except.ok kd ∧
      aes_encrypt_n wbits inp n kd.EK kd.ME = Except.ok ct ∧
      aes_decrypt_n cls ct n kd.DK kd.MD = Except.ok inp := by
  have hW := key_expansion_length wbits key 16 0
  have hE : ((key_expansion wbits key 16 0).take 40).length ≠ 0 := by
    rw [List.length_take, hW]
    decide
  have hD : (DK_16 (key_expansion wbits key 16 0)).length ≠ 0 := by
    rw [DK_16_length]
    decide
  have hw16 : 16 ≤ wbits := by omega
  have H : ∀ p : List Nat, p.length = 16 → (∀ b ∈ p, b < 256) →
      decrypt_one_block (encrypt_one_block wbits p 0 ((key_expansion wbits key 16 0).take 40)
        (ME_16 (key_expansion wbits key 16 0))) 0 (DK_16 (key_expansion wbits key 16 0))
        (MD_of (key_expansion wbits key 16 0)) = p :=
    fun p hp hpb => round_trip_block_16 wbits hw16 (key_expansion wbits key 16 0) p hW hp hpb
  have hks := aes_key_schedule_16 wbits cls hw16 hc key
  generalize key_expansion wbits key 16 0 = W at hks hW hE hD H
  obtain ⟨ct, h1, h2⟩ := aes_round_trip_of wbits cls hw hc (W.take 40) (DK_16 W) (ME_16 W)
    (MD_of W) hE (ME_16_length W) hD (MD_of_length W) H n inp hi hb
  exact ⟨KeyData.mk (W.take 40) (DK_16 W) (ME_16 W) (MD_of W), ct, hks, h1, h2⟩

theorem ME_24_length (W : List Nat) : (ME_24 W).length = 16 := rfl

theorem DK_24_length (W : List Nat) : (DK_24 W).length = 48 := rfl

theorem aes_round_trip_24 (wbits cls : Nat) (hw : 32 ≤ wbits) (hc : 4 ≤ cls) (key : List Nat)
    (n : Nat) (inp : List Nat) (hi : inp.length = 16 * n) (hb : ∀ b ∈ inp, b < 256) :
    ∃ kd ct, aes_key_schedule wbits cls key 24 = Except.ok kd ∧
      aes_encrypt_n wbits inp n kd.EK kd.ME = Except.ok ct ∧
      aes_decrypt_n cls ct n kd.DK kd.MD = Except.ok inp := by
  have hW := key_expansion_length wbits key 24 0
  have hE : ((key_expansion wbits key 24 0).take 48).length ≠ 0 := by
    rw [List.length_take, hW]
    decide
  have hD : (DK_24 (key_expansion wbits key 24 0)).length ≠ 0 := by
    rw [DK_24_length]
    decide
  have hw16 : 16 ≤ wbits := by omega
  have H : ∀ p : List Nat, p.length = 16 → (∀ b ∈ p, b < 256) →
      decrypt_one_block (encrypt_one_block wbits p 0 ((key_expansion wbits key 24 0).take 48)
        (ME_24 (key_expansion wbits key 24 0))) 0 (DK_24 (key_expansion wbits key 24 0))
        (MD_of (key_expansion wbits key 24 0)) = p :=
    fun p hp hpb => round_trip_block_24 wbits hw16 (key_expansion wbits key 24 0) p hW hp hpb
  have hks := aes_key_schedule_24 wbits cls hw16 hc key
  generalize key_expansion wbits key 24 0 = W at hks hW hE hD H
  obtain ⟨ct, h1, h2⟩ := aes_round_trip_of wbits cls hw hc (W.take 48) (DK_24 W) (ME_24 W)
    (MD_of W) hE (ME_24_length W) hD (MD_of_length W) H n inp hi hb
  exact ⟨KeyData.mk (W.take 48) (DK_24 W) (ME_24 W) (MD_of W), ct, hks, h1, h2⟩

theorem ME_32_length (W : List Nat) : (ME_32 W).length = 16 := rfl

theorem DK_32_length (W : List Nat) : (DK_32 W).length = 56 := rfl

theorem aes_round_trip_32 (wbits cls : Nat) (hw : 32 ≤ wbits) (hc : 4 ≤ cls) (key : List Nat)
    (n : Nat) (inp : List Nat) (hi : inp.length = 16 * n) (hb : ∀ b ∈ inp, b < 256) :
    ∃ kd ct, aes_key_schedule wbits cls key 32 = Except.ok kd ∧
      aes_encrypt_n wbits inp n kd.EK kd.ME = Except.ok ct ∧
      aes_decrypt_n cls ct n kd.DK kd.MD = Except.ok inp := by
  have hW := key_expansion_length wbits key 32 0
  have hE : ((key_expansion wbits key 32 0).take 56).length ≠ 0 := by
    rw [List.length_take, hW]
    decide
  have hD : (DK_32 (key_expansion wbits key 32 0)).length ≠ 0 := by
    rw [DK_32_length]
    decide
  have hw16 : 16 ≤ wbits := by omega
  have H : ∀ p : List Nat, p.length = 16 → (∀ b ∈ p, b < 256) →
      decrypt_one_block (encrypt_one_block wbits p 0 ((key_expansion wbits key 32 0).take 56)
        (ME_32 (key_expansion wbits key 32 0))) 0 (DK_32 (key_expansion wbits key 32 0))
        (MD_of (key_expansion wbits key 32 0)) = p :=
    fun p hp hpb => round_trip_block_32 wbits hw16 (key_expansion wbits key 32 0) p hW hp hpb
  have hks := aes_key_schedule_32 wbits cls hw16 hc key
  generalize key_expansion wbits key 32 0 = W at hks hW hE hD H
  obtain ⟨ct, h1, h2⟩ := aes_round_trip_of wbits cls hw hc (W.take 56) (DK_32 W) (ME_32 W)
    (MD_of W) hE (ME_32_length W) hD (MD_of_length W) H n inp hi hb
  exact ⟨KeyData.mk (W.take 56) (DK_32 W) (ME_32 W) (MD_of W), ct, hks, h1, h2⟩

/-! ## Operation in place: the buffer after the call -/

theorem drop_drop_of_eq (l : List Nat) (a b c : Nat) (h : a + b = c) :
    (l.drop a).drop b = l.drop c := by
  subst h
  rw [List.drop_drop, Nat.add_comm]

theorem drop_append_len (A B : List Nat) (k n : Nat) (h : A.length = k) :
    (A ++ B).drop (k + n) = B.drop n := by
  subst h
  exact List.drop_append n

theorem write_bytes_append (bytes : List Nat) :
    ∀ (pre mid post : List Nat), mid.length = bytes.length →
      write_bytes (pre ++ (mid ++ post)) pre.length bytes = pre ++ (bytes ++ post) := by
  induction bytes with
  | nil =>
    intro pre mid post h
    have : mid = [] := List.length_eq_zero.mp h
    subst this
    rfl
  | cons b bs ih =>
    intro pre mid post h
    match mid, h with
    | m :: ms, h =>
      have h1 : ms.length = bs.length := by simpa using h
      have e : (pre ++ (m :: ms ++ post)).set pre.length b = (pre ++ [b]) ++ (ms ++ post) := by
        rw [List.set_append_right _ _ (Nat.le_refl _)]
        simp
      have e2 : pre.length + 1 = (pre ++ [b]).length := by simp
      show write_bytes ((pre ++ (m :: ms ++ post)).set pre.length b) (pre.length + 1) bs = _
      rw [e, e2, ih (pre ++ [b]) ms post h1]
      simp

theorem write_bytes_eq (buf : List Nat) (off : Nat) (bytes : List Nat)
    (h : off + bytes.length ≤ buf.length) :
    write_bytes buf off bytes = buf.take off ++ (bytes ++ buf.drop (off + bytes.length)) := by
  have hb : buf = buf.take off ++ ((buf.drop off).take bytes.length ++
      buf.drop (off + bytes.length)) := by
    rw [← List.drop_drop, List.take_append_drop, List.take_append_drop]
  have hl : (buf.take off).length = off := by
    rw [List.length_take]; omega
  have hm : ((buf.drop off).take bytes.length).length = bytes.length := by
    rw [List.length_take, List.length_drop]; omega
  have := write_bytes_append bytes (buf.take off) ((buf.drop off).take bytes.length)
    (buf.drop (off + bytes.length)) hm
  rw [hl, ← hb] at this
  exact this

theorem encrypt_two_blocks_length (wbits : Nat) (inp EK ME : List Nat) :
    (encrypt_two_blocks wbits inp EK ME).length = 32 := rfl

theorem decrypt_one_block_length (inp : List Nat) (Z : Nat) (DK MD : List Nat) :
    (decrypt_one_block inp Z DK MD).length = 16 := rfl

theorem encrypt_one_block_congr (wbits : Nat) (inp inp2 : List Nat) (i : Nat) (EK ME : List Nat)
    (h : inp.drop (16 * i) = inp2.drop (16 * i)) :
    encrypt_one_block wbits inp i EK ME = encrypt_one_block wbits inp2 i EK ME := by
  unfold encrypt_one_block
  rw [h]

theorem encrypt_tail_inplace (wbits : Nat) (EK ME : List Nat) (off : Nat) (buf : List Nat)
    (n : Nat) (h : off + 16 * n ≤ buf.length) :
    (List.range n).foldl (fun (b : List Nat) (i : Nat) =>
      write_bytes b (off + 16 * i) (encrypt_one_block wbits (b.drop off) i EK ME)) buf =
    buf.take off ++ (((List.range n).map (fun i =>
      encrypt_one_block wbits (buf.drop off) i EK ME)).flatten ++ buf.drop (off + 16 * n)) := by
  induction n with
  | zero => simp
  | succ n ih =>
    rw [List.range_succ, List.foldl_append, ih (by omega)]
    simp only [List.foldl_cons, List.foldl_nil, List.map_append, List.map_cons, List.map_nil,
      List.flatten_append, List.flatten_cons, List.flatten_nil, List.append_nil]
    set outs := ((List.range n).map (fun i =>
      encrypt_one_block wbits (buf.drop off) i EK ME)).flatten with houts
    have hlen : outs.length = 16 * n := by
      rw [houts]
      clear houts ih h
      induction n with
      | zero => rfl
      | succ n ih =>
        rw [List.range_succ, List.map_append, List.flatten_append, List.length_append, ih]
        simp only [List.map_cons, List.map_nil, List.flatten_cons, List.flatten_nil,
          List.append_nil, encrypt_one_block_length]
        omega
    have hto : (buf.take off).length = off := by rw [List.length_take]; omega
    have hdrop : (buf.take off ++ (outs ++ buf.drop (off + 16 * n))).drop off =
        outs ++ buf.drop (off + 16 * n) := List.drop_left' hto
    have hblk : encrypt_one_block wbits
        ((buf.take off ++ (outs ++ buf.drop (off + 16 * n))).drop off) n EK ME =
        encrypt_one_block wbits (buf.drop off) n EK ME := by
      apply encrypt_one_block_congr
      rw [hdrop, List.drop_left' hlen, List.drop_drop]
    rw [hblk]
    set blk := encrypt_one_block wbits (buf.drop off) n EK ME with hblkdef
    have hbl : blk.length = 16 := encrypt_one_block_length _ _ _ _ _
    have e0 : (buf.drop (off + 16 * n)).drop 16 = buf.drop (off + 16 * (n + 1)) :=
      drop_drop_of_eq buf _ _ _ (by omega)
    have e1 : buf.take off ++ (outs ++ buf.drop (off + 16 * n)) =
        (buf.take off ++ outs) ++ ((buf.drop (off + 16 * n)).take 16 ++
          buf.drop (off + 16 * (n + 1))) := by
      rw [← e0, List.take_append_drop, List.append_assoc]
    have e2 : off + 16 * n = (buf.take off ++ outs).length := by
      rw [List.length_append, hto, hlen]
    rw [e1, e2, write_bytes_append blk _ _ _ (by
      rw [List.length_take, List.length_drop, hbl]; omega)]
    simp only [List.append_assoc]

theorem encrypt_loop_inplace_eq (wbits : Nat) (EK ME : List Nat) (blocks : Nat) :
    ∀ (off : Nat) (buf : List Nat), off + 16 * blocks ≤ buf.length →
    encrypt_loop_inplace wbits EK ME blocks off buf =
      buf.take off ++ (encrypt_loop wbits EK ME blocks (buf.drop off) ++
        buf.drop (off + 16 * blocks)) := by
  induction blocks using Nat.strong_induction_on with
  | _ blocks ih =>
    intro off buf h
    match blocks, ih, h with
    | 0, _, _ =>
      simp [encrypt_loop_inplace, encrypt_loop]
    | 1, _, h =>
      have := encrypt_tail_inplace wbits EK ME off buf 1 h
      simpa [encrypt_loop_inplace, encrypt_loop] using this
    | blocks + 2, ih, h =>
      have hl := encrypt_two_blocks_length wbits (buf.drop off) EK ME
      have hs1 : encrypt_loop_inplace wbits EK ME (blocks + 2) off buf =
          encrypt_loop_inplace wbits EK ME blocks (off + 32)
            (write_bytes buf off (encrypt_two_blocks wbits (buf.drop off) EK ME)) := rfl
      have hs2 : encrypt_loop wbits EK ME (blocks + 2) (buf.drop off) =
          encrypt_two_blocks wbits (buf.drop off) EK ME ++
            encrypt_loop wbits EK ME blocks ((buf.drop off).drop 32) := rfl
      rw [hs1, hs2]
      generalize encrypt_two_blocks wbits (buf.drop off) EK ME = two at hl
      have hw := write_bytes_eq buf off two (by rw [hl]; omega)
      rw [hl] at hw
      have hto : (buf.take off).length = off := by rw [List.length_take]; omega
      have e4 : (buf.take off ++ two).length = off + 32 := by rw [List.length_append, hto, hl]
      have e3 : buf.take off ++ (two ++ buf.drop (off + 32)) =
          (buf.take off ++ two) ++ buf.drop (off + 32) := by rw [List.append_assoc]
      rw [hw, e3]
      generalize hA : buf.take off ++ two = A at e4
      rw [ih blocks (by omega) (off + 32) _ (by
        simp only [List.length_append, e4, List.length_drop]; omega)]
      rw [List.take_left' e4, List.drop_left' e4, drop_append_len A _ _ _ e4,
        drop_drop_of_eq buf (off + 32) (16 * blocks) (off + 16 * (blocks + 2)) (by omega),
        drop_drop_of_eq buf off 32 (off + 32) rfl, ← hA]
      simp only [List.append_assoc]

theorem decrypt_loop_inplace_eq (Z : Nat) (DK MD : List Nat) (blocks : Nat) :
    ∀ (off : Nat) (buf : List Nat), off + 16 * blocks ≤ buf.length →
    decrypt_loop_inplace Z DK MD blocks off buf =
      buf.take off ++ (decrypt_loop Z DK MD blocks (buf.drop off) ++
        buf.drop (off + 16 * blocks)) := by
  induction blocks with
  | zero =>
    intro off buf _
    simp [decrypt_loop_inplace, decrypt_loop]
  | succ blocks ih =>
    intro off buf h
    have hl := decrypt_one_block_length (buf.drop off) Z DK MD
    have hs1 : decrypt_loop_inplace Z DK MD (blocks + 1) off buf =
        decrypt_loop_inplace Z DK MD blocks (off + 16)
          (write_bytes buf off (decrypt_one_block (buf.drop off) Z DK MD)) := rfl
    have hs2 : decrypt_loop Z DK MD (blocks + 1) (buf.drop off) =
        decrypt_one_block (buf.drop off) Z DK MD ++
          decrypt_loop Z DK MD blocks ((buf.drop off).drop 16) := rfl
    rw [hs1, hs2]
    generalize decrypt_one_block (buf.drop off) Z DK MD = one at hl
    have hw := write_bytes_eq buf off one (by rw [hl]; omega)
    rw [hl] at hw
    have hto : (buf.take off).length = off := by rw [List.length_take]; omega
    have e4 : (buf.take off ++ one).length = off + 16 := by rw [List.length_append, hto, hl]
    have e3 : buf.take off ++ (one ++ buf.drop (off + 16)) =
        (buf.take off ++ one) ++ buf.drop (off + 16) := by rw [List.append_assoc]
    rw [hw, e3]
    generalize hA : buf.take off ++ one = A at e4
    rw [ih (off + 16) _ (by
      simp only [List.length_append, e4, List.length_drop]; omega)]
    rw [List.take_left' e4, List.drop_left' e4, drop_append_len A _ _ _ e4,
      drop_drop_of_eq buf (off + 16) (16 * blocks) (off + 16 * (blocks + 1)) (by omega),
      drop_drop_of_eq buf off 16 (off + 16) rfl, ← hA]
    simp only [List.append_assoc]

theorem aes_encrypt_n_inplace_eq (wbits : Nat) (buf : List Nat) (n : Nat) (EK ME : List Nat)
    (h : 16 * n ≤ buf.length) :
    aes_encrypt_n_inplace wbits buf n EK ME =
      (aes_encrypt_n wbits buf n EK ME).map (fun out => out ++ buf.drop (16 * n)) := by
  unfold aes_encrypt_n_inplace aes_encrypt_n
  by_cases hk : EK.length ≠ 0 ∧ ME.length = 16
  · rw [if_pos hk, if_pos hk, encrypt_loop_inplace_eq wbits EK ME n 0 buf (by omega)]
    simp [Except.map]
  · rw [if_neg hk, if_neg hk]
    rfl

theorem aes_decrypt_n_inplace_eq (cls : Nat) (buf : List Nat) (n : Nat) (DK MD : List Nat)
    (h : 16 * n ≤ buf.length) :
    aes_decrypt_n_inplace cls buf n DK MD =
      (aes_decrypt_n cls buf n DK MD).map (fun out => out ++ buf.drop (16 * n)) := by
  unfold aes_decrypt_n_inplace aes_decrypt_n
  by_cases hk : DK.length ≠ 0 ∧ MD.length = 16
  · rw [if_pos hk, if_pos hk]
    cases decrypt_prefetch cls with
    | none => rfl
    | some Z =>
      simp only []
      rw [decrypt_loop_inplace_eq Z DK MD n 0 buf (by omega)]
      simp [Except.map]
  · rw [if_neg hk, if_neg hk]
    rfl

/-! ## Instrumented runs: outcome and steps -/

theorem Tr.bind_eq {α β : Type} (x : Tr α) (f : α → Tr β) : (x >>= f) = Tr.andThen x f := rfl

theorem Tr.pure_eq {α : Type} (a : α) : (pure a : Tr α) = Tr.mk (Except.ok a) [] := rfl

theorem Tr.andThen_ok {α β : Type} (a : α) (l : List Access) (f : α → Tr β) :
    Tr.andThen (Tr.mk (Except.ok a) l) f = Tr.mk (f a).val (l ++ (f a).log) := rfl

theorem Tr.andThen_error {α β : Type} (e : AesError) (l : List Access) (f : α → Tr β) :
    Tr.andThen (Tr.mk (Except.error e) l) f = Tr.mk (Except.error e) l := rfl

theorem load_be_tr_eq (inp : List Nat) (base off : Nat) :
    load_be_tr inp base off =
      Tr.mk (Except.ok (load_be (inp.drop base) off)) (load_be_shape base off) := by
  simp only [load_be_tr, Tr.bind_eq, Tr.pure_eq, Tr.index, Tr.andThen_ok, load_be, getD_drop,
    Nat.add_assoc, load_be_shape, List.cons_append, List.nil_append]

theorem aes_enc_r_tr_eq (wbits : Nat) (B : Words4) (EK : List Nat) (r : Nat) :
    aes_enc_r_tr wbits B EK r =
      Tr.mk (Except.ok (aes_enc_r wbits B (EK.getD r 0) (EK.getD (r + 1) 0) (EK.getD (r + 2) 0)
        (EK.getD (r + 3) 0))) (round_key_shape Access.read_EK r) := rfl

theorem aes_enc_r_x8_tr_eq (wbits : Nat) (B : Words8) (EK : List Nat) (r : Nat) :
    aes_enc_r_x8_tr wbits B EK r =
      Tr.mk (Except.ok (aes_enc_r_x8 wbits B (EK.getD r 0) (EK.getD (r + 1) 0)
        (EK.getD (r + 2) 0) (EK.getD (r + 3) 0))) (round_key_shape Access.read_EK r) := rfl

theorem enc_rounds_tr_eq (wbits : Nat) (EK : List Nat) (fuel : Nat) :
    ∀ (r : Nat) (B : Words4), enc_rounds_tr wbits EK fuel r B =
      Tr.mk (Except.ok (enc_rounds wbits EK fuel r B)) (enc_rounds_shape EK.length fuel r) := by
  induction fuel with
  | zero => intro r B; rfl
  | succ fuel ih =>
    intro r B
    by_cases h : r < EK.length
    · simp only [enc_rounds_tr, enc_rounds, enc_rounds_shape, Tr.bind_eq, Tr.test, Tr.andThen_ok,
        h, decide_True, if_true, aes_enc_r_tr_eq, ih, List.cons_append, List.nil_append]
    · simp only [enc_rounds_tr, enc_rounds, enc_rounds_shape, Tr.bind_eq, Tr.test, Tr.andThen_ok,
        h, decide_False, if_false, Tr.pure_eq, Bool.false_eq_true, List.append_nil]

theorem enc_rounds_x8_tr_eq (wbits : Nat) (EK : List Nat) (fuel : Nat) :
    ∀ (r : Nat) (B : Words8), enc_rounds_x8_tr wbits EK fuel r B =
      Tr.mk (Except.ok (enc_rounds_x8 wbits EK fuel r B)) (enc_rounds_shape EK.length fuel r) := by
  induction fuel with
  | zero => intro r B; rfl
  | succ fuel ih =>
    intro r B
    by_cases h : r < EK.length
    · simp only [enc_rounds_x8_tr, enc_rounds_x8, enc_rounds_shape, Tr.bind_eq, Tr.test,
        Tr.andThen_ok, h, decide_True, if_true, aes_enc_r_x8_tr_eq, ih, List.cons_append,
        List.nil_append]
    · simp only [enc_rounds_x8_tr, enc_rounds_x8, enc_rounds_shape, Tr.bind_eq, Tr.test,
        Tr.andThen_ok, h, decide_False, if_false, Tr.pure_eq, Bool.false_eq_true,
        List.append_nil]

theorem enc_final_tr_eq (B : Words4) (ME : List Nat) (base : Nat) :
    enc_final_tr B ME base = Tr.mk (Except.ok (enc_final B ME)) (enc_final_shape base) := rfl

theorem encrypt_one_block_tr_eq (wbits : Nat) (inp : List Nat) (base : Nat) (EK ME : List Nat) :
    encrypt_one_block_tr wbits inp base EK ME =
      Tr.mk (Except.ok (encrypt_one_block wbits (inp.drop base) 0 EK ME))
        (encrypt_one_block_shape EK.length base) := by
  simp only [encrypt_one_block_tr, Tr.bind_eq, load_be_tr_eq, Tr.index, aes_enc_r_tr_eq,
    enc_rounds_tr_eq, enc_final_tr_eq, Tr.andThen_ok, encrypt_one_block, Nat.mul_zero,
    List.drop_zero, encrypt_one_block_shape, round_key_shape, List.cons_append, List.nil_append,
    Nat.zero_add, Nat.reduceAdd]

theorem encrypt_two_blocks_tr_eq (wbits : Nat) (inp : List Nat) (base : Nat) (EK ME : List Nat) :
    encrypt_two_blocks_tr wbits inp base EK ME =
      Tr.mk (Except.ok (encrypt_two_blocks wbits (inp.drop base) EK ME))
        (encrypt_two_blocks_shape EK.length base) := by
  simp only [encrypt_two_blocks_tr, Tr.bind_eq, Tr.pure_eq, load_be_tr_eq, Tr.index,
    aes_enc_r_x8_tr_eq, enc_rounds_x8_tr_eq, enc_final_tr_eq, Tr.andThen_ok, encrypt_two_blocks,
    encrypt_two_blocks_shape, round_key_shape, List.cons_append, List.nil_append,
    List.append_nil, Nat.zero_add, Nat.reduceAdd]


theorem encrypt_one_block_base (wbits : Nat) (inp : List Nat) (base i : Nat) (EK ME : List Nat) :
    encrypt_one_block wbits (inp.drop (base + 16 * i)) 0 EK ME =
      encrypt_one_block wbits (inp.drop base) i EK ME := by
  unfold encrypt_one_block
  rw [drop_drop_of_eq inp base (16 * i) _ rfl, Nat.mul_zero, List.drop_zero]

theorem encrypt_tail_tr_eq (wbits : Nat) (inp : List Nat) (base blocks : Nat) (EK ME : List Nat)
    (fuel : Nat) :
    ∀ i, blocks - i < fuel → encrypt_tail_tr wbits inp base blocks EK ME fuel i =
      Tr.mk (Except.ok ((List.range' i (blocks - i)).map (fun j =>
        encrypt_one_block wbits (inp.drop base) j EK ME)).flatten)
        (encrypt_tail_shape EK.length base blocks fuel i) := by
  induction fuel with
  | zero => intro i h; omega
  | succ fuel ih =>
    intro i hf
    by_cases h : i < blocks
    · have e : blocks - i = (blocks - (i + 1)) + 1 := by omega
      rw [e, List.range'_succ]
      simp only [encrypt_tail_tr, encrypt_tail_shape, Tr.bind_eq, Tr.test, Tr.andThen_ok, h,
        decide_True, if_true, encrypt_one_block_tr_eq, ih (i + 1) (by omega), Tr.pure_eq,
        List.cons_append, List.nil_append, List.append_nil, encrypt_one_block_base,
        List.map_cons, List.flatten_cons]
    · have e : blocks - i = 0 := by omega
      rw [e]
      simp only [encrypt_tail_tr, encrypt_tail_shape, Tr.bind_eq, Tr.test, Tr.andThen_ok, h,
        decide_False, if_false, Tr.pure_eq, Bool.false_eq_true, List.append_nil, List.range'_zero,
        List.map_nil, List.flatten_nil]

theorem encrypt_loop_tr_eq (wbits : Nat) (inp : List Nat) (EK ME : List Nat) (blocks : Nat) :
    ∀ base, encrypt_loop_tr wbits inp EK ME blocks base =
      Tr.mk (Except.ok (encrypt_loop wbits EK ME blocks (inp.drop base)))
        (encrypt_loop_shape EK.length blocks base) := by
  induction blocks using Nat.strong_induction_on with
  | _ blocks ih =>
    intro base
    match blocks, ih with
    | 0, _ =>
      simp only [encrypt_loop_tr, encrypt_loop, encrypt_loop_shape, Tr.bind_eq, Tr.test,
        Tr.andThen_ok, encrypt_tail_tr_eq wbits inp base 0 EK ME 1 0 (by omega),
        List.cons_append, List.nil_append, Nat.sub_zero, List.range'_zero, List.range_zero,
        List.map_nil, List.flatten_nil, Nat.zero_add]
      rfl
    | 1, _ =>
      simp only [encrypt_loop_tr, encrypt_loop, encrypt_loop_shape, Tr.bind_eq, Tr.test,
        Tr.andThen_ok, encrypt_tail_tr_eq wbits inp base 1 EK ME 2 0 (by omega),
        List.cons_append, List.nil_append, Nat.sub_zero, List.range_eq_range', Nat.reduceAdd]
      rfl
    | blocks + 2, ih =>
      have hd : decide (blocks + 2 ≥ 2) = true := decide_eq_true (by omega)
      simp only [encrypt_loop_tr, encrypt_loop, encrypt_loop_shape, Tr.bind_eq, Tr.test,
        Tr.andThen_ok, encrypt_two_blocks_tr_eq, ih blocks (by omega), Tr.pure_eq,
        List.cons_append, List.nil_append, List.append_nil,
        drop_drop_of_eq inp base 32 (base + 32) rfl, hd]

theorem aes_encrypt_n_tr_eq (wbits : Nat) (inp : List Nat) (blocks : Nat) (EK ME : List Nat) :
    aes_encrypt_n_tr wbits inp blocks EK ME =
      Tr.mk (aes_encrypt_n wbits inp blocks EK ME)
        (aes_encrypt_n_shape blocks EK.length ME.length) := by
  unfold aes_encrypt_n_tr aes_encrypt_n aes_encrypt_n_shape
  by_cases h : EK.length ≠ 0 ∧ ME.length = 16
  · rw [if_pos h, if_pos h, if_pos h, encrypt_loop_tr_eq, List.drop_zero]
  · rw [if_neg h, if_neg h, if_neg h]
    rfl

theorem load_be_shape_no_table (base off : Nat) :
    ∀ a ∈ load_be_shape base off, Access.is_table a = false := by
  simp [load_be_shape, Access.is_table]

theorem round_key_shape_no_table (r : Nat) :
    ∀ a ∈ round_key_shape Access.read_EK r, Access.is_table a = false := by
  simp [round_key_shape, Access.is_table]

theorem enc_final_shape_no_table (base : Nat) :
    ∀ a ∈ enc_final_shape base, Access.is_table a = false := by
  intro a h
  simp only [enc_final_shape, List.mem_flatMap, List.mem_cons, List.mem_singleton,
    List.not_mem_nil, or_false] at h
  obtain ⟨k, _, hk⟩ := h
  rcases hk with rfl | rfl <;> rfl

theorem enc_rounds_shape_no_table (len fuel : Nat) :
    ∀ r, ∀ a ∈ enc_rounds_shape len fuel r, Access.is_table a = false := by
  induction fuel with
  | zero => intro r a h; simp [enc_rounds_shape] at h
  | succ fuel ih =>
    intro r a h
    unfold enc_rounds_shape at h
    split at h
    · simp only [List.mem_cons, List.mem_append] at h
      rcases h with rfl | h | h | h
      · rfl
      · exact round_key_shape_no_table _ a h
      · exact round_key_shape_no_table _ a h
      · exact ih _ a h
    · simp only [List.mem_singleton] at h
      subst h
      rfl

theorem encrypt_one_block_shape_no_table (len base : Nat) :
    ∀ a ∈ encrypt_one_block_shape len base, Access.is_table a = false := by
  intro a h
  simp only [encrypt_one_block_shape, List.mem_append] at h
  rcases h with h | h | h | h | h | h | h | h
  · exact load_be_shape_no_table _ _ a h
  · exact load_be_shape_no_table _ _ a h
  · exact load_be_shape_no_table _ _ a h
  · exact load_be_shape_no_table _ _ a h
  · exact round_key_shape_no_table _ a h
  · exact round_key_shape_no_table _ a h
  · exact enc_rounds_shape_no_table _ _ _ a h
  · exact enc_final_shape_no_table _ a h

theorem encrypt_two_blocks_shape_no_table (len base : Nat) :
    ∀ a ∈ encrypt_two_blocks_shape len base, Access.is_table a = false := by
  intro a h
  simp only [encrypt_two_blocks_shape, List.mem_append] at h
  rcases h with h | h | h | h | h | h | h | h | h | h | h | h | h | h
  · exact load_be_shape_no_table _ _ a h
  · exact load_be_shape_no_table _ _ a h
  · exact load_be_shape_no_table _ _ a h
  · exact load_be_shape_no_table _ _ a h
  · exact load_be_shape_no_table _ _ a h
  · exact load_be_shape_no_table _ _ a h
  · exact load_be_shape_no_table _ _ a h
  · exact load_be_shape_no_table _ _ a h
  · exact round_key_shape_no_table _ a h
  · exact round_key_shape_no_table _ a h
  · exact round_key_shape_no_table _ a h
  · exact enc_rounds_shape_no_table _ _ _ a h
  · exact enc_final_shape_no_table _ a h
  · exact enc_final_shape_no_table _ a h

theorem encrypt_tail_shape_no_table (len base blocks fuel : Nat) :
    ∀ i, ∀ a ∈ encrypt_tail_shape len base blocks fuel i, Access.is_table a = false := by
  induction fuel with
  | zero => intro i a h; simp [encrypt_tail_shape] at h
  | succ fuel ih =>
    intro i a h
    unfold encrypt_tail_shape at h
    split at h
    · simp only [List.mem_cons, List.mem_append] at h
      rcases h with rfl | h | h
      · rfl
      · exact encrypt_one_block_shape_no_table _ _ a h
      · exact ih _ a h
    · simp only [List.mem_singleton] at h
      subst h
      rfl

theorem encrypt_loop_shape_no_table (len blocks : Nat) :
    ∀ base, ∀ a ∈ encrypt_loop_shape len blocks base, Access.is_table a = false := by
  induction blocks using Nat.strong_induction_on with
  | _ blocks ih =>
    intro base a h
    match blocks, ih, h with
    | 0, _, h =>
      simp only [encrypt_loop_shape, List.mem_cons] at h
      rcases h with rfl | h
      · rfl
      · exact encrypt_tail_shape_no_table _ _ _ _ _ a h
    | 1, _, h =>
      simp only [encrypt_loop_shape, List.mem_cons] at h
      rcases h with rfl | h
      · rfl
      · exact encrypt_tail_shape_no_table _ _ _ _ _ a h
    | blocks + 2, ih, h =>
      simp only [encrypt_loop_shape, List.mem_cons, List.mem_append] at h
      rcases h with rfl | h | h
      · rfl
      · exact encrypt_two_blocks_shape_no_table _ _ a h
      · exact ih blocks (by omega) _ a h

theorem aes_encrypt_n_shape_no_table (blocks len mlen : Nat) :
    ∀ a ∈ aes_encrypt_n_shape blocks len mlen, Access.is_table a = false := by
  intro a h
  unfold aes_encrypt_n_shape at h
  split at h
  · exact encrypt_loop_shape_no_table _ _ _ a h
  · simp at h

theorem Tr.val_andThen {α β : Type} (x : Tr α) (f : α → Tr β) :
    (Tr.andThen x f).val = x.val.bind (fun a => (f a).val) := by
  unfold Tr.andThen
  cases x.val <;> rfl

theorem Tr.log_andThen_of_val {α β : Type} (x : Tr α) (f : α → Tr β) (a : α)
    (h : x.val = Except.ok a) : (Tr.andThen x f).log = x.log ++ (f a).log := by
  unfold Tr.andThen
  rw [h]

theorem Except.bind_ok_eq {ε α β : Type} (a : α) (g : α → Except ε β) :
    (Except.ok a : Except ε α).bind g = g a := rfl

theorem load_be_tr_val (inp : List Nat) (base off : Nat) :
    (load_be_tr inp base off).val = Except.ok (load_be (inp.drop base) off) := by
  rw [load_be_tr_eq]

theorem AES_T_tr_val (DK : List Nat) (r V0 V1 V2 V3 : Nat) :
    (AES_T_tr DK r V0 V1 V2 V3).val = Except.ok (AES_T AES_TD (DK.getD r 0) V0 V1 V2 V3) := rfl

theorem dec_round_tr_val (DK : List Nat) (r : Nat) (T : Words4) :
    (dec_round_tr DK r T).val = Except.ok (dec_round T (DK.getD r 0) (DK.getD (r + 1) 0)
      (DK.getD (r + 2) 0) (DK.getD (r + 3) 0)) := rfl

theorem dec_rounds_tr_val (DK : List Nat) (fuel : Nat) :
    ∀ (r : Nat) (B : Words4),
      (dec_rounds_tr DK fuel r B).val = Except.ok (dec_rounds DK fuel r B) := by
  induction fuel with
  | zero => intro r B; rfl
  | succ fuel ih =>
    intro r B
    by_cases h : r < DK.length
    · simp only [dec_rounds_tr, dec_rounds, Tr.bind_eq, Tr.val_andThen, Tr.test, h, decide_True,
        if_true, dec_round_tr_val, ih, Except.bind_ok_eq, dec_round, Nat.add_assoc,
        Nat.reduceAdd]
    · simp only [dec_rounds_tr, dec_rounds, Tr.bind_eq, Tr.val_andThen, Tr.test, h, decide_False,
        if_false, Tr.pure_eq, Bool.false_eq_true, Except.bind_ok_eq]

theorem dec_final_tr_val (B : Words4) (MD : List Nat) (base : Nat) :
    (dec_final_tr B MD base).val = Except.ok (dec_final B MD) := rfl

theorem decrypt_one_block_tr_val (inp : List Nat) (base Z : Nat) (DK MD : List Nat) :
    (decrypt_one_block_tr inp base Z DK MD).val =
      Except.ok (decrypt_one_block (inp.drop base) Z DK MD) := by
  simp only [decrypt_one_block_tr, Tr.bind_eq, Tr.val_andThen, load_be_tr_val, Tr.index,
    dec_round_tr_val, dec_rounds_tr_val, dec_final_tr_val, Except.bind_ok_eq, decrypt_one_block,
    dec_round, Nat.reduceAdd]

theorem decrypt_loop_tr_val (inp : List Nat) (Z : Nat) (DK MD : List Nat) (blocks : Nat) :
    ∀ base, (decrypt_loop_tr inp Z DK MD blocks base).val =
      Except.ok (decrypt_loop Z DK MD blocks (inp.drop base)) := by
  induction blocks with
  | zero => intro base; rfl
  | succ blocks ih =>
    intro base
    simp only [decrypt_loop_tr, decrypt_loop, Tr.bind_eq, Tr.val_andThen, Tr.test,
      decrypt_one_block_tr_val, ih, Except.bind_ok_eq, Tr.pure_eq,
      drop_drop_of_eq inp base 16 (base + 16) rfl]

theorem prefetch_tr_val (ev : Nat → Access) (T : Nat → Nat) (step fuel : Nat) :
    ∀ (i Z : Nat), (prefetch_tr ev T step fuel i Z).val =
      match prefetch T step fuel i Z with
      | none => Except.error AesError.nontermination
      | some z => Except.ok z := by
  induction fuel with
  | zero => intro i Z; rfl
  | succ fuel ih =>
    intro i Z
    by_cases h : i < 256
    · simp only [prefetch_tr, prefetch, Tr.bind_eq, Tr.val_andThen, Tr.test, Tr.lookup, h,
        decide_True, if_true, ih, Except.bind_ok_eq]
    · simp only [prefetch_tr, prefetch, Tr.bind_eq, Tr.val_andThen, Tr.test, h, decide_False,
        if_false, Tr.pure_eq, Bool.false_eq_true, Except.bind_ok_eq]

theorem decrypt_prefetch_tr_val (cls : Nat) :
    (decrypt_prefetch_tr cls).val =
      match decrypt_prefetch cls with
      | none => Except.error AesError.nontermination
      | some Z => Except.ok Z := by
  simp only [decrypt_prefetch_tr, decrypt_prefetch, Tr.bind_eq, Tr.val_andThen, prefetch_tr_val,
    Tr.lookup, Tr.pure_eq]
  cases prefetch AES_TD (cls / 4) 257 0 0 with
  | none => rfl
  | some Z1 =>
    simp only [Except.bind_ok_eq]
    cases prefetch SD cls 257 0 Z1 with
    | none => rfl
    | some Z2 => rfl

theorem aes_decrypt_n_tr_val (cls : Nat) (inp : List Nat) (blocks : Nat) (DK MD : List Nat) :
    (aes_decrypt_n_tr cls inp blocks DK MD).val = aes_decrypt_n cls inp blocks DK MD := by
  unfold aes_decrypt_n_tr aes_decrypt_n
  by_cases h : DK.length ≠ 0 ∧ MD.length = 16
  · rw [if_pos h, if_pos h]
    simp only [Tr.bind_eq, Tr.val_andThen, decrypt_prefetch_tr_val]
    cases decrypt_prefetch cls with
    | none => rfl
    | some Z =>
      simp only [Except.bind_ok_eq, decrypt_loop_tr_val, List.drop_zero]
  · rw [if_neg h, if_neg h]
    rfl

theorem decrypt_prefetch_tr_64_val : (decrypt_prefetch_tr 64).val = Except.ok 0 := by
  rw [decrypt_prefetch_tr_val, decrypt_prefetch_eq 64 (by norm_num)]

theorem aes_decrypt_n_tr_log_64 (inp : List Nat) (blocks : Nat) (DK MD : List Nat) :
    (aes_decrypt_n_tr 64 inp blocks DK MD).log =
      if DK.length ≠ 0 ∧ MD.length = 16 then
        (decrypt_prefetch_tr 64).log ++ (decrypt_loop_tr inp 0 DK MD blocks 0).log
      else [] := by
  unfold aes_decrypt_n_tr
  by_cases h : DK.length ≠ 0 ∧ MD.length = 16
  · rw [if_pos h, if_pos h, Tr.bind_eq,
      Tr.log_andThen_of_val _ _ 0 decrypt_prefetch_tr_64_val]
  · rw [if_neg h, if_neg h]
    rfl

theorem decrypt_prefetch_tr_64_log :
    (decrypt_prefetch_tr 64).log.filter Access.is_table = preamble_reads_64 := by
  decide

theorem preamble_reads_64_TD : ∀ s, s < 16 → ∃ i, Access.read_TD i ∈ preamble_reads_64 ∧
    i / 16 = s := by
  intro s hs
  refine ⟨16 * s, ?_, by omega⟩
  interval_cases s <;> decide

theorem preamble_reads_64_SD : ∀ s, s < 4 → ∃ i, Access.read_SD i ∈ preamble_reads_64 ∧
    i / 64 = s := by
  intro s hs
  refine ⟨64 * s, ?_, by omega⟩
  interval_cases s <;> decide

/-! ## The key schedule on the caller's buffers -/

theorem resize_length (v : List Nat) (n : Nat) : (resize v n).length = n := by
  unfold resize
  rw [List.length_append, List.length_take, List.length_replicate]
  omega

theorem store_be_at_length (v : List Nat) (off x : Nat) :
    (store_be_at v off x).length = v.length := by
  simp only [store_be_at, List.length_set]

theorem copy_mem_length (dst src : List Nat) (n : Nat) :
    (copy_mem dst src n).length = dst.length :=
  foldl_length_eq _ (fun _ _ => List.length_set _ _ _) _ _

theorem store_masks_length (XEK : List Nat) (rounds : Nat) (ME MD : List Nat) :
    (store_masks XEK rounds ME MD).1.length = ME.length ∧
      (store_masks XEK rounds ME MD).2.length = MD.length := by
  simp only [store_masks, List.range, List.range.loop, List.foldl_cons, List.foldl_nil,
    store_be_at_length, and_self]

theorem foldl_set_range (f : Nat → Nat) (n : Nat) :
    ∀ dst : List Nat, n ≤ dst.length →
      (List.range n).foldl (fun (d : List Nat) (i : Nat) => d.set i (f i)) dst =
        (List.range n).map f ++ dst.drop n := by
  induction n with
  | zero => intro dst _; rfl
  | succ n ih =>
    intro dst h
    rw [List.range_succ, List.foldl_append, ih dst (by omega), List.foldl_cons, List.foldl_nil,
      List.set_append_right _ _ (by simp), List.map_append, List.append_assoc]
    congr 1
    rw [List.length_map, List.length_range, Nat.sub_self, List.drop_eq_getElem_cons (by omega)]
    rfl

theorem map_getD_range (src : List Nat) (n : Nat) (h : n ≤ src.length) :
    (List.range n).map (fun i => src.getD i 0) = src.take n := by
  apply List.ext_getElem
  · rw [List.length_map, List.length_range, List.length_take]
    omega
  · intro i h1 h2
    rw [List.getElem_map, List.getElem_range, List.getElem_take]
    rw [List.length_map, List.length_range] at h1
    exact List.getD_eq_getElem _ _ (by omega)

theorem copy_mem_eq (dst src : List Nat) (n : Nat) (hd : dst.length = n) (hs : n ≤ src.length) :
    copy_mem dst src n = src.take n := by
  unfold copy_mem
  rw [foldl_set_range _ n dst (by omega), map_getD_range src n hs, List.drop_of_length_le (by omega),
    List.append_nil]

theorem length_16_cases (l : List Nat) (h : l.length = 16) :
    ∃ a0 a1 a2 a3 a4 a5 a6 a7 a8 a9 a10 a11 a12 a13 a14 a15 : Nat,
      l = [a0, a1, a2, a3, a4, a5, a6, a7, a8, a9, a10, a11, a12, a13, a14, a15] := by
  rcases l with _ | ⟨a0, l⟩
  · simp at h
  rcases l with _ | ⟨a1, l⟩
  · simp at h
  rcases l with _ | ⟨a2, l⟩
  · simp at h
  rcases l with _ | ⟨a3, l⟩
  · simp at h
  rcases l with _ | ⟨a4, l⟩
  · simp at h
  rcases l with _ | ⟨a5, l⟩
  · simp at h
  rcases l with _ | ⟨a6, l⟩
  · simp at h
  rcases l with _ | ⟨a7, l⟩
  · simp at h
  rcases l with _ | ⟨a8, l⟩
  · simp at h
  rcases l with _ | ⟨a9, l⟩
  · simp at h
  rcases l with _ | ⟨a10, l⟩
  · simp at h
  rcases l with _ | ⟨a11, l⟩
  · simp at h
  rcases l with _ | ⟨a12, l⟩
  · simp at h
  rcases l with _ | ⟨a13, l⟩
  · simp at h
  rcases l with _ | ⟨a14, l⟩
  · simp at h
  rcases l with _ | ⟨a15, l⟩
  · simp at h
  rcases l with _ | ⟨b, l⟩
  · exact ⟨a0, a1, a2, a3, a4, a5, a6, a7, a8, a9, a10, a11, a12, a13, a14, a15, rfl⟩
  · simp at h

theorem store_masks_eq (XEK : List Nat) (rounds : Nat) (ME MD : List Nat) (hE : ME.length = 16)
    (hD : MD.length = 16) :
    store_masks XEK rounds ME MD =
      ((List.range 4).flatMap (fun i => store_be (XEK.getD (i + 4 * rounds) 0)),
        (List.range 4).flatMap (fun i => store_be (XEK.getD i 0))) := by
  obtain ⟨a0, a1, a2, a3, a4, a5, a6, a7, a8, a9, a10, a11, a12, a13, a14, a15, rfl⟩ :=
    length_16_cases ME hE
  obtain ⟨b0, b1, b2, b3, b4, b5, b6, b7, b8, b9, b10, b11, b12, b13, b14, b15, rfl⟩ :=
    length_16_cases MD hD
  simp [store_masks, store_be_at, store_be, List.range, List.range.loop, List.flatMap]

theorem xdk_sbox_loop_length (wbits stop fuel : Nat) :
    ∀ (i : Nat) (XDK R : List Nat), xdk_sbox_loop wbits stop fuel i XDK = some R →
      R.length = XDK.length := by
  induction fuel with
  | zero => intro i XDK R h; simp [xdk_sbox_loop] at h
  | succ fuel ih =>
    intro i XDK R h
    unfold xdk_sbox_loop at h
    split at h
    · rw [ih _ _ _ h]
      simp only [List.length_set]
    · cases h
      rfl

theorem xdk_reverse_length (XEK : List Nat) (length : Nat) :
    (xdk_reverse XEK length).length = length + 32 := by
  unfold xdk_reverse
  simp only []
  rw [foldl_length_eq _ (fun _ _ => by simp only [List.length_set]), List.length_replicate]

theorem xdk_inv_mix_length (XDK : List Nat) (length : Nat) :
    (xdk_inv_mix XDK length).length = XDK.length :=
  foldl_length_eq _ (fun _ _ => List.length_set _ _ _) _ _

/-- The outcome of `aes_key_schedule` on the caller's buffers is that of the
function that returns the four buffers, and on success so are the buffers. -/
theorem aes_key_schedule_refs_eq (wbits cls : Nat) (key : List Nat) (length : Nat)
    (st : KeyData) :
    aes_key_schedule_refs wbits cls key length st =
      match aes_key_schedule wbits cls key length with
      | Except.error e => (Except.error e, st)
      | Except.ok kd => (Except.ok (), kd) := by
  unfold aes_key_schedule_refs aes_key_schedule
  simp only []
  split
  · rfl
  · cases prefetch AES_TD (cls / 4) 257 0 0 with
    | none => rfl
    | some Z =>
      simp only []
      have e1 : (List.range' 0 (length / 4 + 6 + 1) 4).foldl (fun (XDK : List Nat) (i : Nat) =>
          (((XDK.set i ((key_expansion wbits key length (Z &&& AES_TD 99)).getD
            (4 * (length / 4 + 6) - i) 0)).set (i + 1)
            ((key_expansion wbits key length (Z &&& AES_TD 99)).getD
              (4 * (length / 4 + 6) - i + 1) 0)).set (i + 2)
            ((key_expansion wbits key length (Z &&& AES_TD 99)).getD
              (4 * (length / 4 + 6) - i + 2) 0)).set (i + 3)
            ((key_expansion wbits key length (Z &&& AES_TD 99)).getD
              (4 * (length / 4 + 6) - i + 3) 0)) (List.replicate (length + 32) 0) =
          xdk_reverse (key_expansion wbits key length (Z &&& AES_TD 99)) length := rfl
      rw [e1]
      have hr := xdk_reverse_length (key_expansion wbits key length (Z &&& AES_TD 99)) length
      cases hx : xdk_sbox_loop wbits (length + 24) (length + 24) 4
          (xdk_reverse (key_expansion wbits key length (Z &&& AES_TD 99)) length) with
      | none => rfl
      | some XDK =>
        simp only []
        have hl := xdk_sbox_loop_length _ _ _ _ _ _ hx
        rw [hr] at hl
        have e2 : (List.range' 4 (length + 24 - 4)).foldl (fun (XDK : List Nat) (i : Nat) =>
            XDK.set i (AES_T AES_TD 0 (XDK.getD i 0) (XDK.getD i 0) (XDK.getD i 0)
              (XDK.getD i 0))) XDK = xdk_inv_mix XDK length := rfl
        rw [e2, store_masks_eq _ _ _ _ (resize_length _ _) (resize_length _ _), resize_length,
          resize_length,
          copy_mem_eq _ _ _ (resize_length _ _) (by rw [key_expansion_length]; omega),
          copy_mem_eq _ _ _ (resize_length _ _) (by rw [xdk_inv_mix_length, hl]; omega)]

/-- A call of `aes_key_schedule` that throws leaves the four buffers as they were. -/
theorem aes_key_schedule_refs_error (wbits cls : Nat) (key : List Nat) (length : Nat)
    (st : KeyData) (e : AesError)
    (h : (aes_key_schedule_refs wbits cls key length st).1 = Except.error e) :
    (aes_key_schedule_refs wbits cls key length st).2 = st := by
  rw [aes_key_schedule_refs_eq] at h ⊢
  cases hk : aes_key_schedule wbits cls key length with
  | error e2 => rfl
  | ok kd =>
    rw [hk] at h
    cases h

/-- After a key schedule that returned normally the four buffers have the sizes
that `aes_encrypt_n` and `aes_decrypt_n` assert. -/
theorem key_schedule_ok_lengths (wbits cls : Nat) (key : List Nat) (length : Nat) (st : KeyData)
    (h : (aes_key_schedule_refs wbits cls key length st).1 = Except.ok ()) :
    (aes_key_schedule_refs wbits cls key length st).2.EK.length ≠ 0 ∧
    (aes_key_schedule_refs wbits cls key length st).2.DK.length ≠ 0 ∧
    (aes_key_schedule_refs wbits cls key length st).2.ME.length = 16 ∧
    (aes_key_schedule_refs wbits cls key length st).2.MD.length = 16 := by
  unfold aes_key_schedule_refs at h ⊢
  simp only [] at h ⊢
  split at h
  · cases h
  · rename_i hX
    rw [if_neg hX]
    cases hp : prefetch AES_TD (cls / 4) 257 0 0 with
    | none =>
      rw [hp] at h
      cases h
    | some Z =>
      rw [hp] at h
      simp only [] at h ⊢
      cases hx : xdk_sbox_loop wbits (length + 24) (length + 24) 4
          (xdk_reverse (key_expansion wbits key length (Z &&& AES_TD 99)) length) with
      | none =>
        rw [hx] at h
        cases h
      | some XDK =>
        simp only []
        refine ⟨?_, ?_, ?_, ?_⟩
        · rw [copy_mem_length, resize_length]
          omega
        · rw [copy_mem_length, resize_length]
          omega
        · rw [(store_masks_length _ _ _ _).1, resize_length]
        · rw [(store_masks_length _ _ _ _).2, resize_length]

theorem AES.encrypt_n_keyed (wbits : Nat) (self : AES) (inp : List Nat) (n : Nat)
    (hEK : self.EK.length ≠ 0) (hME : self.ME.length = 16) :
    AES.encrypt_n wbits self inp n = Except.ok (encrypt_loop wbits self.EK self.ME n inp) := by
  have he : self.EK.isEmpty = false := by
    cases hE : self.EK with
    | nil => rw [hE] at hEK; simp at hEK
    | cons a l => rfl
  unfold AES.encrypt_n verify_key_set aes_encrypt_n
  rw [he]
  simp only [Bool.not_false, if_true]
  rw [if_pos ⟨hEK, hME⟩]

theorem AES.decrypt_n_keyed (cls : Nat) (hc : 4 ≤ cls) (self : AES) (inp : List Nat) (n : Nat)
    (hDK : self.DK.length ≠ 0) (hMD : self.MD.length = 16) :
    AES.decrypt_n cls self inp n = Except.ok (decrypt_loop 0 self.DK self.MD n inp) := by
  have he : self.DK.isEmpty = false := by
    cases hD : self.DK with
    | nil => rw [hD] at hDK; simp at hDK
    | cons a l => rfl
  unfold AES.decrypt_n verify_key_set aes_decrypt_n
  rw [he]
  simp only [Bool.not_false, if_true]
  rw [if_pos ⟨hDK, hMD⟩, decrypt_prefetch_eq cls hc]

theorem key_schedule_16_ok (wbits cls : Nat) (hw : 16 ≤ wbits) (hc : 4 ≤ cls) (self : AES)
    (key : List Nat) : (AES.key_schedule wbits cls self key 16).1 = Except.ok () := by
  unfold AES.key_schedule
  rw [aes_key_schedule_refs_eq, aes_key_schedule_16 wbits cls hw hc key]

/-! ## The forward key expansion satisfies the recurrence of FIPS-197 -/

theorem getD_set_same (l : List Nat) (i v : Nat) (h : i < l.length) :
    (l.set i v).getD i 0 = v := by
  simp [List.getD_eq_getElem?_getD, List.getElem?_set, h]

theorem getD_set_other (l : List Nat) (i j v : Nat) (h : i ≠ j) :
    (l.set i v).getD j 0 = l.getD j 0 := by
  simp [List.getD_eq_getElem?_getD, List.getElem?_set, h]

/-- The word written by one iteration of the inner loop. -/
theorem expand_inner_eq (wbits X i : Nat) (L : List Nat) (j : Nat) (hj : 1 ≤ j)
    (hl : i + j < L.length) :
    expand_inner wbits X i L j = L.set (i + j) (L.getD (i + j - X) 0 ^^^
      (if X = 8 ∧ j = 4 then SE_word wbits (L.getD (i + j - 1) 0) else L.getD (i + j - 1) 0)) := by
  unfold expand_inner
  simp only []
  have h1 : (L.set (i + j) (L.getD (i + j - X) 0)).getD (i + j) 0 = L.getD (i + j - X) 0 :=
    getD_set_same _ _ _ hl
  have h2 : (L.set (i + j) (L.getD (i + j - X) 0)).getD (i + j - 1) 0 = L.getD (i + j - 1) 0 :=
    getD_set_other _ _ _ _ (by omega)
  rw [h1, h2]
  split <;> rw [List.set_set]

/-- The inner loop, run for `J` iterations on `L1`: what it leaves in the list. -/
theorem expand_inner_fold (wbits X i : Nat) (L1 : List Nat) (hX : 1 ≤ X) (J : Nat) :
    i + J < L1.length →
    ((List.range' 1 J).foldl (expand_inner wbits X i) L1).length = L1.length ∧
    (∀ k, (k ≤ i ∨ i + J < k) →
      ((List.range' 1 J).foldl (expand_inner wbits X i) L1).getD k 0 = L1.getD k 0) ∧
    (∀ j, 1 ≤ j → j ≤ J →
      ((List.range' 1 J).foldl (expand_inner wbits X i) L1).getD (i + j) 0 =
        ((List.range' 1 J).foldl (expand_inner wbits X i) L1).getD (i + j - X) 0 ^^^
        (if X = 8 ∧ j = 4 then
          SE_word wbits (((List.range' 1 J).foldl (expand_inner wbits X i) L1).getD (i + j - 1) 0)
        else ((List.range' 1 J).foldl (expand_inner wbits X i) L1).getD (i + j - 1) 0)) := by
  induction J with
  | zero =>
    intro _
    refine ⟨rfl, fun _ _ => rfl, fun j h1 h2 => by omega⟩
  | succ J ih =>
    intro hroom
    obtain ⟨hlen, hout, hrec⟩ := ih (by omega)
    rw [List.range'_concat, Nat.one_mul, List.foldl_append, List.foldl_cons, List.foldl_nil]
    generalize (List.range' 1 J).foldl (expand_inner wbits X i) L1 = F at hlen hout hrec
    rw [expand_inner_eq wbits X i F (1 + J) (by omega) (by omega)]
    have hidx : i + (1 + J) < F.length := by omega
    refine ⟨by rw [List.length_set, hlen], ?_, ?_⟩
    · intro k hk
      rw [getD_set_other _ _ _ _ (by omega)]
      exact hout k (by omega)
    · intro j h1 h2
      by_cases hjJ : j ≤ J
      · rw [getD_set_other _ _ (i + j) _ (by omega), getD_set_other _ _ (i + j - X) _ (by omega),
          getD_set_other _ _ (i + j - 1) _ (by omega)]
        exact hrec j h1 hjJ
      · have hj : j = 1 + J := by omega
        subst hj
        rw [getD_set_same _ _ _ hidx, getD_set_other _ _ (i + (1 + J) - X) _ (by omega),
          getD_set_other _ _ (i + (1 + J) - 1) _ (by omega)]

/-- One iteration of the outer loop at index `i`, a multiple of `X`. -/
theorem expand_step (wbits X i : Nat) (hw : 4 ≤ wbits) (L : List Nat) (hX : 1 ≤ X) (hi : X ≤ i)
    (hm : i % X = 0) (hroom : i + X ≤ L.length) :
    ∀ G, G = (List.range' 1 (X - 1)).foldl (expand_inner wbits X i)
        (L.set i (L.getD (i - X) 0 ^^^ RC ((i - X) / X) ^^^
          SE_word wbits (rotl 8 (L.getD (i - 1) 0)))) →
      G.length = L.length ∧ (∀ k, k < i → G.getD k 0 = L.getD k 0) ∧
      (∀ k, i ≤ k → k < i + X → G.getD k 0 = KeyExpansion_word X G k) := by
  intro G hG
  have hin := expand_inner_fold wbits X i (L.set i (L.getD (i - X) 0 ^^^ RC ((i - X) / X) ^^^
    SE_word wbits (rotl 8 (L.getD (i - 1) 0)))) hX (X - 1) (by rw [List.length_set]; omega)
  rw [← hG] at hin
  obtain ⟨hlen, hout, hrec⟩ := hin
  rw [List.length_set] at hlen
  have hlow : ∀ k, k < i → G.getD k 0 = L.getD k 0 := by
    intro k hk
    rw [hout k (by omega), getD_set_other _ _ _ _ (by omega)]
  refine ⟨hlen, hlow, ?_⟩
  intro k hk1 hk2
  by_cases hki : k = i
  · subst hki
    have hq : (k - X) / X = k / X - 1 := by
      obtain ⟨q, hq⟩ := Nat.dvd_of_mod_eq_zero hm
      subst hq
      have hq1 : 1 ≤ q := by
        rcases q with _ | q
        · omega
        · omega
      rw [Nat.mul_div_cancel_left _ (by omega : 0 < X)]
      have : X * q - X = X * (q - 1) := by
        rw [Nat.mul_sub, Nat.mul_one]
      rw [this, Nat.mul_div_cancel_left _ (by omega : 0 < X)]
    unfold KeyExpansion_word
    rw [if_pos hm, hout k (by omega), getD_set_same _ _ _ (by omega), hlow (k - X) (by omega),
      hlow (k - 1) (by omega), hq, SE_word_eq_ref wbits _ hw]
  · obtain ⟨j, hj⟩ : ∃ j, k = i + j := ⟨k - i, by omega⟩
    subst hj
    have hj1 : 1 ≤ j := by omega
    have hj2 : j ≤ X - 1 := by omega
    have hmod : (i + j) % X = j := by
      rw [Nat.add_mod, hm, Nat.zero_add, Nat.mod_mod, Nat.mod_eq_of_lt (by omega)]
    unfold KeyExpansion_word
    rw [hmod, if_neg (by omega), hrec j hj1 hj2]
    by_cases h8 : X = 8 ∧ j = 4
    · rw [if_pos h8, if_pos h8, SE_word_eq_ref wbits _ hw]
    · rw [if_neg h8, if_neg h8]

/-- The words of key expansion depend on the two earlier words alone. -/
theorem KeyExpansion_word_congr (X : Nat) (R G : List Nat) (k : Nat) (hX : 1 ≤ X) (hk : X ≤ k)
    (h : ∀ m, m < k → R.getD m 0 = G.getD m 0) :
    KeyExpansion_word X R k = KeyExpansion_word X G k := by
  unfold KeyExpansion_word
  rw [h (k - X) (by omega), h (k - 1) (by omega)]

/-- The outer loop: what it leaves in the list, given room for every iteration
and fuel to reach the bound. -/
theorem expand_loop_spec (wbits X bound : Nat) (hw : 4 ≤ wbits) (hX : 1 ≤ X) (fuel : Nat) :
    ∀ (i : Nat) (L : List Nat), X ≤ i → i % X = 0 →
      (∀ m, i ≤ m → m < bound → m % X = 0 → m + X ≤ L.length) →
      bound ≤ i + fuel * X →
      (expand_loop wbits X bound fuel i L).length = L.length ∧
      (∀ k, k < i → (expand_loop wbits X bound fuel i L).getD k 0 = L.getD k 0) ∧
      (∀ k, i ≤ k → k < bound → (expand_loop wbits X bound fuel i L).getD k 0 =
        KeyExpansion_word X (expand_loop wbits X bound fuel i L) k) := by
  induction fuel with
  | zero =>
    intro i L _ _ _ hf
    refine ⟨rfl, fun _ _ => rfl, fun k h1 h2 => by omega⟩
  | succ fuel ih =>
    intro i L hi hm hroom hf
    unfold expand_loop
    by_cases hb : i < bound
    · rw [if_pos hb]
      simp only []
      obtain ⟨hGl, hGlow, hGrec⟩ := expand_step wbits X i hw L hX hi hm (hroom i (Nat.le_refl _) hb hm)
        _ rfl
      generalize (List.range' 1 (X - 1)).foldl (expand_inner wbits X i)
        (L.set i (L.getD (i - X) 0 ^^^ RC ((i - X) / X) ^^^
          SE_word wbits (rotl 8 (L.getD (i - 1) 0)))) = G at hGl hGlow hGrec
      obtain ⟨hRl, hRlow, hRrec⟩ := ih (i + X) G (by omega)
        (by rw [Nat.add_mod_right]; exact hm)
        (fun m h1 h2 h3 => by rw [hGl]; exact hroom m (by omega) h2 h3)
        (by rw [Nat.succ_mul] at hf; omega)
      generalize expand_loop wbits X bound fuel (i + X) G = R at hRl hRlow hRrec
      refine ⟨by rw [hRl, hGl], ?_, ?_⟩
      · intro k hk
        rw [hRlow k (by omega), hGlow k hk]
      · intro k hk1 hk2
        by_cases hk3 : k < i + X
        · rw [hRlow k hk3, hGrec k hk1 hk3]
          exact (KeyExpansion_word_congr X R G k hX (by omega)
            (fun m hm2 => hRlow m (by omega))).symm
        · exact hRrec k (by omega) hk2
    · rw [if_neg hb]
      refine ⟨rfl, fun _ _ => rfl, fun k h1 h2 => by omega⟩

theorem getD_replicate_zero (n k : Nat) : (List.replicate n 0).getD k 0 = 0 := by
  simp only [List.getD_eq_getElem?_getD, List.getElem?_replicate]
  split <;> rfl

/-- The expanded key starts with the words of the key and continues by the
recurrence of FIPS-197. -/
theorem key_expansion_spec (wbits : Nat) (hw : 4 ≤ wbits) (key : List Nat) (length : Nat)
    (hlen : length = 16 ∨ length = 24 ∨ length = 32) :
    (∀ i, i < length / 4 → (key_expansion wbits key length 0).getD i 0 = load_be key i) ∧
    (∀ i, length / 4 ≤ i → i < 4 * (length / 4 + 6 + 1) →
      (key_expansion wbits key length 0).getD i 0 =
        KeyExpansion_word (length / 4) (key_expansion wbits key length 0) i) := by
  have hX : 1 ≤ length / 4 := by omega
  have hinit : ∀ L0, L0 = (List.range (length / 4)).foldl (fun (XEK : List Nat) (i : Nat) =>
      XEK.set i (0 ^^^ load_be key i)) (List.replicate (length + 32) 0) →
      L0.length = length + 32 ∧ ∀ i, i < length / 4 → L0.getD i 0 = load_be key i := by
    intro L0 h0
    rw [foldl_set_range (fun i => 0 ^^^ load_be key i) _ _
      (by rw [List.length_replicate]; omega)] at h0
    subst h0
    refine ⟨?_, ?_⟩
    · rw [List.length_append, List.length_map, List.length_range, List.length_drop,
        List.length_replicate]
      omega
    · intro i hi
      rw [getD_append_left _ _ _ _ (by rw [List.length_map, List.length_range]; exact hi)]
      simp [List.getD_eq_getElem?_getD, hi]
  obtain ⟨h0l, h0⟩ := hinit _ rfl
  have hloop := expand_loop_spec wbits (length / 4) (4 * (length / 4 + 6 + 1)) hw hX
    (4 * (length / 4 + 6 + 1)) (length / 4) _ (Nat.le_refl _) (Nat.mod_self _)
    (fun m _ h2 h3 => by
      rw [h0l]
      obtain ⟨q, hq⟩ := Nat.dvd_of_mod_eq_zero h3
      rcases hlen with h | h | h <;> subst h <;> norm_num at hq h2 ⊢ <;> omega)
    (by
      have : 4 * (length / 4 + 6 + 1) * 1 ≤ 4 * (length / 4 + 6 + 1) * (length / 4) :=
        Nat.mul_le_mul_left _ hX
      omega)
  obtain ⟨_, hlow, hrec⟩ := hloop
  refine ⟨fun i hi => ?_, fun i h1 h2 => ?_⟩
  · unfold key_expansion
    simp only []
    rw [hlow i hi, h0 i hi]
  · unfold key_expansion
    simp only []
    exact hrec i h1 h2

/-! ## The `xtime` helpers and the field of the specification -/

theorem gf256_mul_xtime_table : ∀ s, s < 256 →
    gf256_mul 1 s = s ∧ gf256_mul 2 s = xtime s ∧ gf256_mul 3 s = xtime3 s ∧
    gf256_mul 9 s = xtime9 s ∧ gf256_mul 11 s = xtime11 s ∧
    gf256_mul 13 s = xtime13 s ∧ gf256_mul 14 s = xtime14 s := by
  decide!

theorem gf256_mat_vec_4 (m00 m01 m02 m03 m10 m11 m12 m13 m20 m21 m22 m23 m30 m31 m32 m33 : Nat)
    (a b c d : Nat) :
    gf256_mat_vec [[m00, m01, m02, m03], [m10, m11, m12, m13], [m20, m21, m22, m23],
        [m30, m31, m32, m33]] [a, b, c, d] =
      [gf256_mul m00 a ^^^ (gf256_mul m01 b ^^^ (gf256_mul m02 c ^^^ gf256_mul m03 d)),
        gf256_mul m10 a ^^^ (gf256_mul m11 b ^^^ (gf256_mul m12 c ^^^ gf256_mul m13 d)),
        gf256_mul m20 a ^^^ (gf256_mul m21 b ^^^ (gf256_mul m22 c ^^^ gf256_mul m23 d)),
        gf256_mul m30 a ^^^ (gf256_mul m31 b ^^^ (gf256_mul m32 c ^^^ gf256_mul m33 d))] := rfl

theorem gf256_mat_vec_mix (a b c d : Nat) (ha : a < 256) (hb : b < 256) (hc : c < 256)
    (hd : d < 256) :
    gf256_mat_vec mix_matrix [a, b, c, d] =
      [xtime a ^^^ xtime3 b ^^^ c ^^^ d, a ^^^ xtime b ^^^ xtime3 c ^^^ d,
        a ^^^ b ^^^ xtime c ^^^ xtime3 d, xtime3 a ^^^ b ^^^ c ^^^ xtime d] := by
  obtain ⟨a1, a2, a3, -⟩ := gf256_mul_xtime_table a ha
  obtain ⟨b1, b2, b3, -⟩ := gf256_mul_xtime_table b hb
  obtain ⟨c1, c2, c3, -⟩ := gf256_mul_xtime_table c hc
  obtain ⟨d1, d2, d3, -⟩ := gf256_mul_xtime_table d hd
  unfold mix_matrix
  rw [gf256_mat_vec_4, a1, a2, a3, b1, b2, b3, c1, c2, c3, d1, d2, d3]
  simp only [Nat.xor_assoc]

theorem mix_column_eq_ref (a b c d : Nat) (ha : a < 256) (hb : b < 256) (hc : c < 256)
    (hd : d < 256) :
    mix_column a b c d = word_of_column (gf256_mat_vec mix_matrix [a, b, c, d]) := by
  rw [gf256_mat_vec_mix a b c d ha hb hc hd]
  rfl

theorem gf256_mat_vec_inv_mix (a b c d : Nat) (ha : a < 256) (hb : b < 256) (hc : c < 256)
    (hd : d < 256) :
    gf256_mat_vec inv_mix_matrix [a, b, c, d] =
      [xtime14 a ^^^ xtime11 b ^^^ xtime13 c ^^^ xtime9 d,
        xtime9 a ^^^ xtime14 b ^^^ xtime11 c ^^^ xtime13 d,
        xtime13 a ^^^ xtime9 b ^^^ xtime14 c ^^^ xtime11 d,
        xtime11 a ^^^ xtime13 b ^^^ xtime9 c ^^^ xtime14 d] := by
  obtain ⟨-, -, -, a9, a11, a13, a14⟩ := gf256_mul_xtime_table a ha
  obtain ⟨-, -, -, b9, b11, b13, b14⟩ := gf256_mul_xtime_table b hb
  obtain ⟨-, -, -, c9, c11, c13, c14⟩ := gf256_mul_xtime_table c hc
  obtain ⟨-, -, -, d9, d11, d13, d14⟩ := gf256_mul_xtime_table d hd
  unfold inv_mix_matrix
  rw [gf256_mat_vec_4, a9, a11, a13, a14, b9, b11, b13, b14, c9, c11, c13, c14, d9, d11, d13, d14]
  simp only [Nat.xor_assoc]

theorem inv_mix_column_eq_ref (a b c d : Nat) (ha : a < 256) (hb : b < 256) (hc : c < 256)
    (hd : d < 256) :
    inv_mix_column a b c d = word_of_column (gf256_mat_vec inv_mix_matrix [a, b, c, d]) := by
  rw [gf256_mat_vec_inv_mix a b c d ha hb hc hd]
  rfl

theorem inv_mix_word_eq_ref (K : Nat) : inv_mix_word K = InvMixColumns_word K :=
  inv_mix_column_eq_ref _ _ _ _ (get_byte_lt _ _) (get_byte_lt _ _) (get_byte_lt _ _)
    (get_byte_lt _ _)

theorem DK_16_getD (W : List Nat) (r c : Nat) (h1 : 1 ≤ r) (h2 : r ≤ 9) (h3 : c < 4) :
    (DK_16 W).getD (4 * r + c) 0 = inv_mix_word (W.getD (4 * (10 - r) + c) 0) := by
  interval_cases r <;> interval_cases c <;> rfl

theorem DK_24_getD (W : List Nat) (r c : Nat) (h1 : 1 ≤ r) (h2 : r ≤ 11) (h3 : c < 4) :
    (DK_24 W).getD (4 * r + c) 0 = inv_mix_word (W.getD (4 * (12 - r) + c) 0) := by
  interval_cases r <;> interval_cases c <;> rfl

theorem DK_32_getD (W : List Nat) (r c : Nat) (h1 : 1 ≤ r) (h2 : r ≤ 13) (h3 : c < 4) :
    (DK_32 W).getD (4 * r + c) 0 = inv_mix_word (W.getD (4 * (14 - r) + c) 0) := by
  interval_cases r <;> interval_cases c <;> rfl

/-- The byte `r` of a column word is the row `r` of the column. -/
theorem get_byte_word_of_column (a b c d : Nat) (ha : a < 256) (hb : b < 256) (hc : c < 256)
    (hd : d < 256) (r : Nat) (hr : r < 4) :
    get_byte r (word_of_column [a, b, c, d]) = [a, b, c, d].getD r 0 := by
  obtain ⟨p0, p1, p2, p3⟩ := get_byte_make_uint32 ha hb hc hd
  unfold word_of_column
  interval_cases r <;> assumption

/-- The rows of the product with the MixColumns matrix are bytes. -/
theorem gf256_mat_vec_mix_bytes (a b c d : Nat) (ha : a < 256) (hb : b < 256) (hc : c < 256)
    (hd : d < 256) (r : Nat) (hr : r < 4) :
    get_byte r (word_of_column (gf256_mat_vec mix_matrix [a, b, c, d])) =
      (gf256_mat_vec mix_matrix [a, b, c, d]).getD r 0 := by
  have b4 : ∀ {p q r s : Nat}, p < 256 → q < 256 → r < 256 → s < 256 →
      p ^^^ q ^^^ r ^^^ s < 256 :=
    fun hp hq hr hs => xor_lt_256 (xor_lt_256 (xor_lt_256 hp hq) hr) hs
  rw [gf256_mat_vec_mix a b c d ha hb hc hd]
  exact get_byte_word_of_column _ _ _ _ (b4 (xtime_lt ha) (xtime3_lt hb) hc hd)
    (b4 ha (xtime_lt hb) (xtime3_lt hc) hd) (b4 ha hb (xtime_lt hc) (xtime3_lt hd))
    (b4 (xtime3_lt ha) hb hc (xtime_lt hd)) r hr

theorem sub_shift_column_0 (B : Words4) : sub_shift_column B 0 =
    [SE (get_byte 0 B.b0), SE (get_byte 1 B.b1), SE (get_byte 2 B.b2), SE (get_byte 3 B.b3)] := rfl

theorem sub_shift_column_1 (B : Words4) : sub_shift_column B 1 =
    [SE (get_byte 0 B.b1), SE (get_byte 1 B.b2), SE (get_byte 2 B.b3), SE (get_byte 3 B.b0)] := rfl

theorem sub_shift_column_2 (B : Words4) : sub_shift_column B 2 =
    [SE (get_byte 0 B.b2), SE (get_byte 1 B.b3), SE (get_byte 2 B.b0), SE (get_byte 3 B.b1)] := rfl

theorem sub_shift_column_3 (B : Words4) : sub_shift_column B 3 =
    [SE (get_byte 0 B.b3), SE (get_byte 1 B.b0), SE (get_byte 2 B.b1), SE (get_byte 3 B.b2)] := rfl

/-- One column of a forward round, in the field of the specification. -/
theorem aes_enc_r_column (wbits : Nat) (hw : 16 ≤ wbits) (B : Words4) (K0 K1 K2 K3 : Nat)
    (c : Nat) (hc : c < 4) :
    (aes_enc_r wbits B K0 K1 K2 K3).get c =
      (Words4.mk K0 K1 K2 K3).get c ^^^
        word_of_column (gf256_mat_vec mix_matrix (sub_shift_column B c)) := by
  rw [aes_enc_r_eq wbits hw]
  interval_cases c
  · rw [sub_shift_column_0, ← mix_column_eq_ref _ _ _ _ (SE_lt _) (SE_lt _) (SE_lt _) (SE_lt _)]
    exact Nat.xor_comm _ _
  · rw [sub_shift_column_1, ← mix_column_eq_ref _ _ _ _ (SE_lt _) (SE_lt _) (SE_lt _) (SE_lt _)]
    exact Nat.xor_comm _ _
  · rw [sub_shift_column_2, ← mix_column_eq_ref _ _ _ _ (SE_lt _) (SE_lt _) (SE_lt _) (SE_lt _)]
    exact Nat.xor_comm _ _
  · rw [sub_shift_column_3, ← mix_column_eq_ref _ _ _ _ (SE_lt _) (SE_lt _) (SE_lt _) (SE_lt _)]
    exact Nat.xor_comm _ _

/-- The rows of the column of a forward round are the bytes of the output word. -/
theorem aes_enc_r_column_bytes (B : Words4) (c : Nat) (hc : c < 4) (r : Nat) (hr : r < 4) :
    get_byte r (word_of_column (gf256_mat_vec mix_matrix (sub_shift_column B c))) =
      (gf256_mat_vec mix_matrix (sub_shift_column B c)).getD r 0 := by
  interval_cases c
  · rw [sub_shift_column_0]
    exact gf256_mat_vec_mix_bytes _ _ _ _ (SE_lt _) (SE_lt _) (SE_lt _) (SE_lt _) r hr
  · rw [sub_shift_column_1]
    exact gf256_mat_vec_mix_bytes _ _ _ _ (SE_lt _) (SE_lt _) (SE_lt _) (SE_lt _) r hr
  · rw [sub_shift_column_2]
    exact gf256_mat_vec_mix_bytes _ _ _ _ (SE_lt _) (SE_lt _) (SE_lt _) (SE_lt _) r hr
  · rw [sub_shift_column_3]
    exact gf256_mat_vec_mix_bytes _ _ _ _ (SE_lt _) (SE_lt _) (SE_lt _) (SE_lt _) r hr

/-! ## Rounds in sequence, final-round placement, buffer sizes -/

theorem enc_rounds_eq_foldl (wbits : Nat) (EK : List Nat) (n : Nat) :
    ∀ (fuel k0 : Nat) (B : Words4), n ≤ fuel → EK.length = 4 * k0 + 8 * n →
      enc_rounds wbits EK fuel (4 * k0) B =
        (List.range' k0 (2 * n)).foldl (enc_full_round wbits EK) B := by
  induction n with
  | zero =>
    intro fuel k0 B _ hl
    cases fuel with
    | zero => rfl
    | succ f =>
      unfold enc_rounds
      rw [if_neg (by omega)]
      rfl
  | succ n ih =>
    intro fuel k0 B hf hl
    cases fuel with
    | zero => omega
    | succ f =>
      have e2 : 2 * (n + 1) = (2 * n + 1) + 1 := by omega
      have e3 : 4 * (k0 + 1) = 4 * k0 + 4 := by omega
      have e4 : k0 + 1 + 1 = k0 + 2 := by omega
      unfold enc_rounds
      rw [if_pos (by omega), e2, List.range'_succ, List.range'_succ, List.foldl_cons,
        List.foldl_cons, e4]
      simp only []
      have e : 4 * k0 + 2 * 4 = 4 * (k0 + 2) := by omega
      rw [e, ih f (k0 + 2) _ (by omega) (by omega)]
      simp only [enc_full_round, e3, Nat.add_assoc, Nat.reduceAdd]

theorem dec_rounds_eq_foldl (DK : List Nat) (n : Nat) :
    ∀ (fuel k0 : Nat) (B : Words4), n ≤ fuel → DK.length = 4 * k0 + 8 * n →
      dec_rounds DK fuel (4 * k0) B = (List.range' k0 (2 * n)).foldl (dec_full_round DK) B := by
  induction n with
  | zero =>
    intro fuel k0 B _ hl
    cases fuel with
    | zero => rfl
    | succ f =>
      rw [dec_rounds_succ, if_neg (by omega)]
      rfl
  | succ n ih =>
    intro fuel k0 B hf hl
    cases fuel with
    | zero => omega
    | succ f =>
      have e2 : 2 * (n + 1) = (2 * n + 1) + 1 := by omega
      have e3 : 4 * (k0 + 1) = 4 * k0 + 4 := by omega
      have e4 : k0 + 1 + 1 = k0 + 2 := by omega
      have e : 4 * k0 + 2 * 4 = 4 * (k0 + 2) := by omega
      rw [dec_rounds_succ, if_pos (by omega), e2, List.range'_succ, List.range'_succ,
        List.foldl_cons, List.foldl_cons, e4, e, ih f (k0 + 2) _ (by omega) (by omega)]
      simp only [dec_full_round, e3, Nat.add_assoc, Nat.reduceAdd]

/-- The one-block path with a schedule of `4 (2n + 2)` words runs `2n + 1` full
rounds, with the quartets 1, ..., `2n + 1` in this order. -/
theorem encrypt_one_block_eq_rounds (wbits : Nat) (inp : List Nat) (i : Nat) (EK ME : List Nat)
    (n : Nat) (hl : EK.length = 4 * (2 * n + 2)) :
    encrypt_one_block wbits inp i EK ME =
      encrypt_block_rounds wbits (2 * n + 2) (inp.drop (16 * i)) EK ME := by
  have h := enc_rounds_eq_foldl wbits EK n EK.length 2
    (aes_enc_r wbits (Words4.mk (load_be (inp.drop (16 * i)) 0 ^^^ EK.getD 0 0)
      (load_be (inp.drop (16 * i)) 1 ^^^ EK.getD 1 0)
      (load_be (inp.drop (16 * i)) 2 ^^^ EK.getD 2 0)
      (load_be (inp.drop (16 * i)) 3 ^^^ EK.getD 3 0))
      (EK.getD 4 0) (EK.getD 5 0) (EK.getD 6 0) (EK.getD 7 0)) (by omega) (by omega)
  have e : 2 * n + 2 - 1 = 2 * n + 1 := by omega
  unfold encrypt_one_block encrypt_block_rounds
  simp only []
  rw [e, List.range'_succ, List.foldl_cons]
  simp only [Nat.reduceMul, Nat.reduceAdd] at h ⊢
  rw [h]
  rfl

/-- The block loop body of `aes_decrypt_n` with a schedule of `4 (2n + 2)` words
runs `2n + 1` T-table rounds, with the quartets 1, ..., `2n + 1` in this order. -/
theorem decrypt_one_block_eq_rounds (block : List Nat) (DK MD : List Nat) (n : Nat)
    (hl : DK.length = 4 * (2 * n + 2)) :
    decrypt_one_block block 0 DK MD = decrypt_block_rounds (2 * n + 2) block DK MD := by
  have h := dec_rounds_eq_foldl DK n DK.length 2
    (dec_round (Words4.mk (load_be block 0 ^^^ DK.getD 0 0 ^^^ 0) (load_be block 1 ^^^ DK.getD 1 0)
      (load_be block 2 ^^^ DK.getD 2 0) (load_be block 3 ^^^ DK.getD 3 0))
      (DK.getD 4 0) (DK.getD 5 0) (DK.getD 6 0) (DK.getD 7 0)) (by omega) (by omega)
  have e : 2 * n + 2 - 1 = 2 * n + 1 := by omega
  rw [decrypt_one_block_eq]
  unfold decrypt_block_rounds
  simp only []
  rw [e, List.range'_succ, List.foldl_cons]
  simp only [Nat.reduceMul, Nat.reduceAdd, Nat.xor_zero] at h ⊢
  rw [h]
  rfl

theorem decrypt_loop_eq (Z : Nat) (DK MD : List Nat) (n : Nat) :
    ∀ inp, decrypt_loop Z DK MD n inp =
      ((List.range n).map (fun b => decrypt_one_block (inp.drop (16 * b)) Z DK MD)).flatten := by
  induction n with
  | zero => intro inp; rfl
  | succ n ih =>
    intro inp
    rw [flatten_map_range_succ, Nat.mul_zero, List.drop_zero]
    show decrypt_one_block inp Z DK MD ++ decrypt_loop Z DK MD n (inp.drop 16) = _
    have hf : (fun b => decrypt_one_block ((inp.drop 16).drop (16 * b)) Z DK MD) =
        (fun b => decrypt_one_block (inp.drop (16 * (b + 1))) Z DK MD) := by
      funext b
      rw [drop_drop_of_eq inp 16 (16 * b) (16 * (b + 1)) (by omega)]
    rw [ih, hf]

theorem enc_final_getD (S : Words4) (ME : List Nat) (c r : Nat) (hc : c < 4) (hr : r < 4) :
    (enc_final S ME).getD (4 * c + r) 0 =
      get_byte r (S.get ((c + r) % 4)) ^^^ ME.getD (4 * c + r) 0 := by
  interval_cases c <;> interval_cases r <;> rfl

theorem encrypt_one_block_eq_final (wbits : Nat) (inp : List Nat) (i : Nat) (EK ME : List Nat) :
    encrypt_one_block wbits inp i EK ME = enc_final (encrypt_final_words wbits inp i EK) ME := rfl

theorem encrypt_two_blocks_eq_final (wbits : Nat) (inp EK ME : List Nat) :
    encrypt_two_blocks wbits inp EK ME =
      enc_final (encrypt_final_words_x8 wbits inp EK).lo ME ++
        enc_final (encrypt_final_words_x8 wbits inp EK).hi ME := rfl

/-- The words of the two-block path are, block by block, those of the one-block path. -/
theorem encrypt_final_words_x8_eq (wbits : Nat) (hw : 32 ≤ wbits) (inp EK : List Nat) :
    (encrypt_final_words_x8 wbits inp EK).lo = encrypt_final_words wbits inp 0 EK ∧
    (encrypt_final_words_x8 wbits inp EK).hi = encrypt_final_words wbits inp 1 EK := by
  have h4 := load_be_drop inp 4
  simp only [Nat.reduceMul, Nat.reduceAdd] at h4
  unfold encrypt_final_words_x8 encrypt_final_words
  simp only [Nat.mul_zero, Nat.mul_one, List.drop_zero, h4]
  refine ⟨?_, ?_⟩
  · exact (SE_word_x8_lo wbits hw _).trans (by
      rw [enc_rounds_x8_lo wbits hw, aes_enc_r_x8_lo wbits hw]; rfl)
  · exact (SE_word_x8_hi wbits hw _).trans (by
      rw [enc_rounds_x8_hi wbits hw, aes_enc_r_x8_hi wbits hw]; rfl)

theorem getD_flatten_block (f : Nat → List Nat) (hf : ∀ i, (f i).length = 16) (n b k : Nat)
    (hb : b < n) (hk : k < 16) :
    ((List.range n).map f).flatten.getD (16 * b + k) 0 = (f b).getD k 0 := by
  rw [← flatten_map_range_block f hf n b hb, getD_take _ _ _ _ hk, getD_drop]

theorem getD_append_right_16 (l r : List Nat) (k : Nat) (hl : l.length = 16) :
    (l ++ r).getD (16 + k) 0 = r.getD k 0 := by
  rw [← getD_drop, ← hl, List.drop_left]

/-- The sizes of the four buffers after a key schedule that returned. -/
theorem key_schedule_ok_sizes (wbits cls : Nat) (key : List Nat) (length : Nat) (st : KeyData)
    (h : (aes_key_schedule_refs wbits cls key length st).1 = Except.ok ()) :
    (aes_key_schedule_refs wbits cls key length st).2.EK.length = length + 24 ∧
    (aes_key_schedule_refs wbits cls key length st).2.DK.length = length + 24 ∧
    (aes_key_schedule_refs wbits cls key length st).2.ME.length = 16 ∧
    (aes_key_schedule_refs wbits cls key length st).2.MD.length = 16 := by
  unfold aes_key_schedule_refs at h ⊢
  simp only [] at h ⊢
  split at h
  · cases h
  · rename_i hX
    rw [if_neg hX]
    cases hp : prefetch AES_TD (cls / 4) 257 0 0 with
    | none =>
      rw [hp] at h
      cases h
    | some Z =>
      rw [hp] at h
      simp only [] at h ⊢
      cases hx : xdk_sbox_loop wbits (length + 24) (length + 24) 4
          (xdk_reverse (key_expansion wbits key length (Z &&& AES_TD 99)) length) with
      | none =>
        rw [hx] at h
        cases h
      | some XDK =>
        simp only []
        refine ⟨?_, ?_, ?_, ?_⟩
        · rw [copy_mem_length, resize_length]
        · rw [copy_mem_length, resize_length]
        · rw [(store_masks_length _ _ _ _).1, resize_length]
        · rw [(store_masks_length _ _ _ _).2, resize_length]

theorem key_schedule_refs_ok (wbits cls : Nat) (hw : 16 ≤ wbits) (hc : 4 ≤ cls) (st : KeyData)
    (key : List Nat) (hk : key.length = 16 ∨ key.length = 24 ∨ key.length = 32) :
    (aes_key_schedule_refs wbits cls key key.length st).1 = Except.ok () := by
  rw [aes_key_schedule_refs_eq]
  rcases hk with h | h | h
  · rw [h, aes_key_schedule_16 wbits cls hw hc key]
  · rw [h, aes_key_schedule_24 wbits cls hw hc key]
  · rw [h, aes_key_schedule_32 wbits cls hw hc key]

/-! ## Outer round keys, the value of `Z`, the `xtime` family -/

theorem ME_16_eq (W : List Nat) : ME_16 W = round_key_bytes W 40 := rfl

theorem ME_24_eq (W : List Nat) : ME_24 W = round_key_bytes W 48 := rfl

theorem ME_32_eq (W : List Nat) : ME_32 W = round_key_bytes W 56 := rfl

theorem MD_of_eq (W : List Nat) : MD_of W = round_key_bytes W 0 := rfl

theorem DK_16_head (W : List Nat) (c : Nat) (hc : c < 4) :
    (DK_16 W).getD c 0 = W.getD (40 + c) 0 := by
  interval_cases c <;> rfl

theorem DK_24_head (W : List Nat) (c : Nat) (hc : c < 4) :
    (DK_24 W).getD c 0 = W.getD (48 + c) 0 := by
  interval_cases c <;> rfl

theorem DK_32_head (W : List Nat) (c : Nat) (hc : c < 4) :
    (DK_32 W).getD c 0 = W.getD (56 + c) 0 := by
  interval_cases c <;> rfl

/-- The mask `MD` is the first 16 bytes of the key. -/
theorem MD_of_key (wbits : Nat) (hw : 4 ≤ wbits) (key : List Nat)
    (hk : key.length = 16 ∨ key.length = 24 ∨ key.length = 32) (hb : ∀ b ∈ key, b < 256) :
    MD_of (key_expansion wbits key key.length 0) = key.take 16 := by
  obtain ⟨h1, -⟩ := key_expansion_spec wbits hw key key.length hk
  have hl : (key.take 16).length = 16 := by
    rw [List.length_take]
    omega
  have hbt : ∀ b ∈ key.take 16, b < 256 := fun b hm => hb b (List.mem_of_mem_take hm)
  have h := store_load_16 (key.take 16) hl hbt
  rw [load_be_take16 key 0 (by norm_num), load_be_take16 key 1 (by norm_num),
    load_be_take16 key 2 (by norm_num), load_be_take16 key 3 (by norm_num)] at h
  unfold MD_of
  rw [h1 0 (by omega), h1 1 (by omega), h1 2 (by omega), h1 3 (by omega)]
  exact h

theorem SD_99 : SD 99 = 0 := by decide!

theorem key_schedule_Z (cls : Nat) (hc : 4 ≤ cls) :
    (prefetch AES_TD (cls / 4) 257 0 0).map (fun Z => Z &&& AES_TD 99) = some 0 := by
  obtain ⟨Z1, h1⟩ := prefetch_some AES_TD (cls / 4) (by omega) 257 0 0 (by norm_num) (by norm_num)
  rw [h1, AES_TD_99]
  simp only [Option.map_some', Nat.and_zero]

theorem aes_key_schedule_cls (wbits cls : Nat) (hc : 4 ≤ cls) (key : List Nat) (length : Nat) :
    aes_key_schedule wbits cls key length = aes_key_schedule wbits 64 key length := by
  obtain ⟨Z1, h1⟩ := prefetch_some AES_TD (cls / 4) (by omega) 257 0 0 (by norm_num) (by norm_num)
  obtain ⟨Z2, h2⟩ := prefetch_some AES_TD (64 / 4) (by norm_num) 257 0 0 (by norm_num) (by norm_num)
  simp only [aes_key_schedule, h1, h2, AES_TD_99, Nat.and_zero]

theorem aes_decrypt_n_cls (cls : Nat) (hc : 4 ≤ cls) (inp : List Nat) (n : Nat)
    (DK MD : List Nat) :
    aes_decrypt_n cls inp n DK MD = aes_decrypt_n 64 inp n DK MD := by
  unfold aes_decrypt_n
  rw [decrypt_prefetch_eq cls hc, decrypt_prefetch_eq 64 (by norm_num)]

theorem gf256_mul_xtime_table_4_8 : ∀ s, s < 256 →
    gf256_mul 4 s = xtime4 s ∧ gf256_mul 8 s = xtime8 s := by
  decide!

/-- One `AES_T` expression, in the field of the specification. -/
theorem AES_T_eq_ref (K V0 V1 V2 V3 : Nat) :
    AES_T AES_TD K V0 V1 V2 V3 =
      K ^^^ word_of_column (gf256_mat_vec inv_mix_matrix
        [SD (get_byte 0 V0), SD (get_byte 1 V1), SD (get_byte 2 V2), SD (get_byte 3 V3)]) := by
  rw [AES_T_eq, inv_mix_column_eq_ref _ _ _ _ (SD_lt _) (SD_lt _) (SD_lt _) (SD_lt _)]

theorem inv_shift_sub_column_0 (T : Words4) : inv_shift_sub_column T 0 =
    [SD (get_byte 0 T.b0), SD (get_byte 1 T.b3), SD (get_byte 2 T.b2), SD (get_byte 3 T.b1)] := rfl

theorem inv_shift_sub_column_1 (T : Words4) : inv_shift_sub_column T 1 =
    [SD (get_byte 0 T.b1), SD (get_byte 1 T.b0), SD (get_byte 2 T.b3), SD (get_byte 3 T.b2)] := rfl

theorem inv_shift_sub_column_2 (T : Words4) : inv_shift_sub_column T 2 =
    [SD (get_byte 0 T.b2), SD (get_byte 1 T.b1), SD (get_byte 2 T.b0), SD (get_byte 3 T.b3)] := rfl

theorem inv_shift_sub_column_3 (T : Words4) : inv_shift_sub_column T 3 =
    [SD (get_byte 0 T.b3), SD (get_byte 1 T.b2), SD (get_byte 2 T.b1), SD (get_byte 3 T.b0)] := rfl

/-- The entries of `TD`, in the field of the specification. -/
theorem AES_TD_eq_ref (i : Nat) (hi : i < 256) :
    AES_TD i = make_uint32 (gf256_mul 14 (SD i)) (gf256_mul 9 (SD i)) (gf256_mul 13 (SD i))
      (gf256_mul 11 (SD i)) := by
  obtain ⟨-, -, -, h9, h11, h13, h14⟩ := gf256_mul_xtime_table (SD i) (SD_lt i)
  rw [AES_TD_eq i hi, h9, h11, h13, h14]

/-- The reads of `EK` of the one-block path, for the three schedule sizes. -/
theorem encrypt_one_block_shape_EK (base : Nat) :
    (encrypt_one_block_shape 40 base).filterMap Access.EK_index = List.range 40 ∧
    (encrypt_one_block_shape 48 base).filterMap Access.EK_index = List.range 48 ∧
    (encrypt_one_block_shape 56 base).filterMap Access.EK_index = List.range 56 :=
  ⟨rfl, rfl, rfl⟩

theorem high_bit_mask_div (k : Nat) (hk : 25 ≤ k) : 16843009 / 2 ^ k % 2 = 0 := by
  have h : 2 ^ 25 ≤ 2 ^ k := Nat.pow_le_pow_right (by norm_num) hk
  rw [Nat.div_eq_of_lt (by omega)]

theorem xtime_32_lt (w : Nat) : xtime_32 w < 2 ^ 32 := by
  apply Nat.lt_pow_two_of_testBit
  intro i hi
  have h1 : ¬ i < 32 := by omega
  simp [xtime_32, testBit_mod_2_32, h1, Nat.testBit_to_div_mod (x := 16843009),
    Nat.testBit_to_div_mod (x := 4278124286)]
  exact ⟨⟨⟨fun _ _ => high_bit_mask_div _ (by omega), fun _ _ => high_bit_mask_div _ (by omega)⟩,
    fun _ _ => high_bit_mask_div _ (by omega)⟩, fun _ => high_bit_mask_div _ (by omega)⟩

/-! ## The instrumented key schedule: outcome and steps -/

theorem Tr.forEach_eq {σ : Type} (body : σ → Nat → Tr σ) (f : σ → Nat → σ)
    (sh : σ → Nat → List Access)
    (hb : ∀ s i, body s i = Tr.mk (Except.ok (f s i)) (sh s i)) :
    ∀ (l : List Nat) (s : σ),
      Tr.forEach body l s = Tr.mk (Except.ok (l.foldl f s)) (forEach_shape f sh l s) := by
  intro l
  induction l with
  | nil => intro s; rfl
  | cons i l ih =>
    intro s
    simp only [Tr.forEach, Tr.bind_eq, hb, Tr.andThen_ok, ih, List.foldl_cons, forEach_shape]

theorem forEach_shape_const {σ : Type} (f : σ → Nat → σ) (g : Nat → List Access) :
    ∀ (l : List Nat) (s : σ), forEach_shape f (fun _ i => g i) l s = l.flatMap g := by
  intro l
  induction l with
  | nil => intro s; rfl
  | cons i l ih => intro s; simp only [forEach_shape, ih, List.flatMap_cons]

theorem xek_init_tr_eq (key : List Nat) (Z : Nat) (XEK : List Nat) (i : Nat) :
    xek_init_tr key Z XEK i =
      Tr.mk (Except.ok (XEK.set i (Z ^^^ load_be key i))) (xek_init_shape i) := by
  simp only [xek_init_tr, load_key_tr, Tr.bind_eq, Tr.pure_eq, Tr.index, Tr.assign, Tr.andThen_ok,
    load_be, xek_init_shape, List.cons_append, List.nil_append]

theorem expand_inner_tr_eq (wbits X i : Nat) (XEK : List Nat) (j : Nat) :
    expand_inner_tr wbits X i XEK j =
      Tr.mk (Except.ok (expand_inner wbits X i XEK j)) (expand_inner_shape X i j) := by
  by_cases h : X = 8 ∧ j = 4
  · simp only [expand_inner_tr, expand_inner, expand_inner_shape, Tr.bind_eq, Tr.index, Tr.assign,
      Tr.minus, Tr.test, Tr.andThen_ok, h, and_self, decide_True, if_true, List.cons_append,
      List.nil_append]
  · simp only [expand_inner_tr, expand_inner, expand_inner_shape, Tr.bind_eq, Tr.index, Tr.assign,
      Tr.minus, Tr.test, Tr.andThen_ok, h, decide_False, if_false, Bool.false_eq_true,
      List.cons_append, List.nil_append]

theorem expand_loop_tr_eq (wbits X bound : Nat) (fuel : Nat) :
    ∀ (i : Nat) (XEK : List Nat), bound ≤ i + fuel * X →
      expand_loop_tr wbits X bound (fuel + 1) i XEK =
        Tr.mk (Except.ok (expand_loop wbits X bound (fuel + 1) i XEK))
          (expand_loop_shape X bound (fuel + 1) i) := by
  induction fuel with
  | zero =>
    intro i XEK hb
    have h : ¬ i < bound := by omega
    simp only [expand_loop_tr, expand_loop, expand_loop_shape, Tr.bind_eq, Tr.test,
      Tr.andThen_ok, h, decide_False, if_false, Tr.pure_eq, Bool.false_eq_true, List.append_nil,
      List.cons_append, List.nil_append]
  | succ fuel ih =>
    intro i XEK hb
    by_cases h : i < bound
    · have hb2 : bound ≤ i + X + fuel * X := by rw [Nat.succ_mul] at hb; omega
      rw [expand_loop_tr, expand_loop, expand_loop_shape]
      simp only [Tr.bind_eq, Tr.test, Tr.index, Tr.lookup, Tr.minus, Tr.assign, Tr.andThen_ok, h,
        decide_True, if_true,
        Tr.forEach_eq _ _ _ (expand_inner_tr_eq wbits X i), forEach_shape_const,
        ih (i + X) _ hb2, List.cons_append, List.nil_append, List.append_assoc]
    · rw [expand_loop_tr, expand_loop, expand_loop_shape]
      simp only [Tr.bind_eq, Tr.test, Tr.andThen_ok, h, decide_False, if_false, Tr.pure_eq,
        Bool.false_eq_true, List.append_nil, List.cons_append, List.nil_append]

theorem xdk_reverse_word_tr_eq (rounds : Nat) (XEK : List Nat) (i : Nat) (XDK : List Nat)
    (k : Nat) :
    xdk_reverse_word_tr rounds XEK i XDK k =
      Tr.mk (Except.ok (XDK.set (i + k) (XEK.getD (4 * rounds - i + k) 0)))
        (xdk_reverse_word_shape rounds i k) := rfl

theorem xdk_reverse_tr_eq (rounds : Nat) (XEK : List Nat) (n : Nat) :
    ∀ (i : Nat) (XDK : List Nat), i + 4 * n = 4 * (rounds + 1) →
      xdk_reverse_tr rounds XEK (n + 1) i XDK =
        Tr.mk (Except.ok ((List.range' i n 4).foldl (fun (XDK : List Nat) (i : Nat) =>
          (((XDK.set i (XEK.getD (4 * rounds - i) 0)).set (i + 1)
            (XEK.getD (4 * rounds - i + 1) 0)).set (i + 2)
              (XEK.getD (4 * rounds - i + 2) 0)).set (i + 3)
                (XEK.getD (4 * rounds - i + 3) 0)) XDK))
          (xdk_reverse_shape rounds (n + 1) i) := by
  induction n with
  | zero =>
    intro i XDK hi
    have h : i = 4 * (rounds + 1) := by omega
    simp only [xdk_reverse_tr, xdk_reverse_shape, Tr.bind_eq, Tr.test, Tr.andThen_ok, h,
      ne_eq, not_true_eq_false, decide_False, if_false, Tr.pure_eq, Bool.false_eq_true,
      List.append_nil, List.range'_zero, List.foldl_nil, List.cons_append, List.nil_append]
  | succ n ih =>
    intro i XDK hi
    have h : i ≠ 4 * (rounds + 1) := by omega
    rw [xdk_reverse_tr, xdk_reverse_shape, List.range'_succ, List.foldl_cons]
    simp only [Tr.bind_eq, Tr.test, Tr.andThen_ok, h, ne_eq, not_false_eq_true, decide_True,
      if_true, xdk_reverse_word_tr_eq, ih (i + 4) _ (by omega), List.cons_append,
      List.nil_append, List.append_assoc, Nat.add_zero]

theorem xdk_sbox_loop_tr_eq (wbits stop : Nat) (fuel : Nat) :
    ∀ (i : Nat) (XDK : List Nat),
      xdk_sbox_loop_tr wbits stop fuel i XDK =
        Tr.mk (match xdk_sbox_loop wbits stop fuel i XDK with
          | none => Except.error AesError.nontermination
          | some R => Except.ok R) (xdk_sbox_loop_shape stop fuel i) := by
  induction fuel with
  | zero => intro i XDK; rfl
  | succ fuel ih =>
    intro i XDK
    by_cases h : i ≠ stop
    · rw [xdk_sbox_loop_tr, xdk_sbox_loop, xdk_sbox_loop_shape]
      simp only [Tr.bind_eq, Tr.test, Tr.index, Tr.assign, Tr.andThen_ok, h, ne_eq,
        not_false_eq_true, decide_True, if_true, ih, round_key_shape, List.cons_append,
        List.nil_append, List.append_assoc]
    · rw [xdk_sbox_loop_tr, xdk_sbox_loop, xdk_sbox_loop_shape]
      simp only [Tr.bind_eq, Tr.test, Tr.andThen_ok, h, decide_False, if_false, Tr.pure_eq,
        Bool.false_eq_true, List.append_nil, List.cons_append, List.nil_append]

theorem xdk_inv_mix_tr_eq (XDK : List Nat) (i : Nat) :
    xdk_inv_mix_tr XDK i =
      Tr.mk (Except.ok (XDK.set i (AES_T AES_TD 0 (XDK.getD i 0) (XDK.getD i 0) (XDK.getD i 0)
        (XDK.getD i 0)))) (xdk_inv_mix_shape XDK i) := rfl

theorem store_masks_tr_eq (XEK : List Nat) (rounds : Nat) (p : List Nat × List Nat) (i : Nat) :
    store_masks_tr XEK rounds p i =
      Tr.mk (Except.ok (store_be_at p.1 (4 * i) (XEK.getD (i + 4 * rounds) 0),
        store_be_at p.2 (4 * i) (XEK.getD i 0))) (store_masks_shape rounds i) := rfl

theorem prefetch_tr_eq (ev : Nat → Access) (T : Nat → Nat) (step fuel : Nat) :
    ∀ (i Z : Nat), prefetch_tr ev T step fuel i Z =
      Tr.mk (match prefetch T step fuel i Z with
        | none => Except.error AesError.nontermination
        | some z => Except.ok z) (prefetch_shape ev step fuel i) := by
  induction fuel with
  | zero => intro i Z; rfl
  | succ fuel ih =>
    intro i Z
    by_cases h : i < 256
    · simp only [prefetch_tr, prefetch, prefetch_shape, Tr.bind_eq, Tr.test, Tr.lookup,
        Tr.andThen_ok, h, decide_True, if_true, ih, List.cons_append, List.nil_append]
    · simp only [prefetch_tr, prefetch, prefetch_shape, Tr.bind_eq, Tr.test, Tr.andThen_ok, h,
        decide_False, if_false, Tr.pure_eq, Bool.false_eq_true, List.append_nil]

theorem expand_loop_tr_eq_pos (wbits X bound fuel : Nat) (i : Nat) (XEK : List Nat)
    (hf : 0 < fuel) (hb : bound ≤ i + (fuel - 1) * X) :
    expand_loop_tr wbits X bound fuel i XEK =
      Tr.mk (Except.ok (expand_loop wbits X bound fuel i XEK))
        (expand_loop_shape X bound fuel i) := by
  obtain ⟨m, rfl⟩ : ∃ m, fuel = m + 1 := ⟨fuel - 1, by omega⟩
  exact expand_loop_tr_eq wbits X bound m i XEK hb

theorem key_schedule_prefetch_tr_eq (cls : Nat) (hc : 4 ≤ cls) :
    key_schedule_prefetch_tr cls =
      Tr.mk (Except.ok 0) (prefetch_shape Access.read_TD (cls / 4) 257 0 ++ [Access.read_TD 99]) := by
  obtain ⟨Z1, h1⟩ := prefetch_some AES_TD (cls / 4) (by omega) 257 0 0 (by norm_num) (by norm_num)
  simp only [key_schedule_prefetch_tr, Tr.bind_eq, prefetch_tr_eq, h1, Tr.lookup, Tr.andThen_ok,
    Tr.pure_eq, AES_TD_99, Nat.and_zero, List.append_nil]

theorem store_masks_fold_eq (XEK : List Nat) (rounds : Nat) :
    (List.range 4).foldl (fun (p : List Nat × List Nat) (i : Nat) =>
      (store_be_at p.1 (4 * i) (XEK.getD (i + 4 * rounds) 0),
        store_be_at p.2 (4 * i) (XEK.getD i 0))) (List.replicate 16 0, List.replicate 16 0) =
      ((List.range 4).flatMap (fun i => store_be (XEK.getD (i + 4 * rounds) 0)),
        (List.range 4).flatMap (fun i => store_be (XEK.getD i 0))) :=
  store_masks_eq XEK rounds (List.replicate 16 0) (List.replicate 16 0) rfl rfl

theorem xdk_reverse_tr_start (rounds : Nat) (XEK XDK : List Nat) :
    xdk_reverse_tr rounds XEK (rounds + 2) 0 XDK =
      Tr.mk (Except.ok ((List.range' 0 (rounds + 1) 4).foldl (fun (XDK : List Nat) (i : Nat) =>
        (((XDK.set i (XEK.getD (4 * rounds - i) 0)).set (i + 1)
          (XEK.getD (4 * rounds - i + 1) 0)).set (i + 2)
            (XEK.getD (4 * rounds - i + 2) 0)).set (i + 3)
              (XEK.getD (4 * rounds - i + 3) 0)) XDK))
        (xdk_reverse_shape rounds (rounds + 2) 0) :=
  xdk_reverse_tr_eq rounds XEK (rounds + 1) 0 XDK (by omega)

set_option maxHeartbeats 1000000 in
theorem aes_key_schedule_tr_eq (wbits cls : Nat) (hc : 4 ≤ cls) (key : List Nat) (length : Nat)
    (hX : length / 4 = 4 ∨ length / 4 = 6 ∨ length / 4 = 8) :
    aes_key_schedule_tr wbits cls key length =
      Tr.mk (aes_key_schedule wbits cls key length)
        (key_schedule_head_shape cls length ++
          match xdk_sbox_loop wbits (length + 24) (length + 24) 4
            (xdk_reverse (key_expansion wbits key length 0) length) with
          | none => []
          | some XDK => key_schedule_tail_shape length XDK) := by
  obtain ⟨Z1, h1⟩ := prefetch_some AES_TD (cls / 4) (by omega) 257 0 0 (by norm_num) (by norm_num)
  have hb : 4 * (length / 4 + 6 + 1) ≤
      length / 4 + (4 * (length / 4 + 6 + 1) - 1) * (length / 4) := by
    rcases hX with h | h | h <;> rw [h] <;> norm_num
  unfold aes_key_schedule_tr aes_key_schedule key_schedule_head_shape key_schedule_tail_shape
    key_schedule_body_shape key_schedule_store_shape xdk_reverse key_expansion
  simp only [not_not.mpr hX, not_true_eq_false, if_false, h1, AES_TD_99, Nat.and_zero]
  simp only [Tr.bind_eq, key_schedule_prefetch_tr_eq cls hc, Tr.andThen_ok,
    Tr.forEach_eq _ _ _ (xek_init_tr_eq key 0), forEach_shape_const,
    expand_loop_tr_eq_pos wbits (length / 4) (4 * (length / 4 + 6 + 1))
      (4 * (length / 4 + 6 + 1)) _ _ (by omega) hb,
    xdk_reverse_tr_start, xdk_sbox_loop_tr_eq]
  generalize (List.foldl (fun (XDK : List Nat) (i : Nat) => _) _ (List.range' 0 _ 4)) = XDK0
  cases hs : xdk_sbox_loop wbits (length + 24) (length + 24) 4 XDK0 with
  | none =>
    simp only [Tr.andThen_error, List.append_nil, List.append_assoc, List.cons_append,
      List.nil_append]
  | some XDK1 =>
    simp only [Tr.andThen_ok, Tr.forEach_eq _ _ _ xdk_inv_mix_tr_eq,
      Tr.forEach_eq _ _ _ (store_masks_tr_eq _ _), forEach_shape_const, copy_mem_tr, Tr.pure_eq,
      store_masks_fold_eq, List.append_nil, List.append_assoc, List.cons_append, List.nil_append]

/-! ## The indices of the key schedule -/

theorem prefetch_shape_all (P : Access → Prop) (ev : Nat → Access) (hev : ∀ j, j < 256 → P (ev j))
    (hbr : ∀ b, P (Access.branch b)) (step fuel : Nat) :
    ∀ i, ∀ a ∈ prefetch_shape ev step fuel i, P a := by
  induction fuel with
  | zero => intro i a h; simp [prefetch_shape] at h
  | succ fuel ih =>
    intro i a h
    unfold prefetch_shape at h
    split at h
    · rename_i hi
      simp only [List.mem_cons] at h
      rcases h with rfl | rfl | h
      · exact hbr _
      · exact hev _ hi
      · exact ih _ a h
    · simp only [List.mem_singleton] at h
      subst h
      exact hbr _

theorem key_schedule_body_ok_16 :
    ∀ a ∈ key_schedule_body_shape 16, Access.key_schedule_ok 16 a = true := by decide!

theorem key_schedule_body_ok_24 :
    ∀ a ∈ key_schedule_body_shape 24, Access.key_schedule_ok 24 a = true := by decide!

theorem key_schedule_body_ok_32 :
    ∀ a ∈ key_schedule_body_shape 32, Access.key_schedule_ok 32 a = true := by decide!

theorem key_schedule_store_ok_16 :
    ∀ a ∈ key_schedule_store_shape 16, Access.key_schedule_ok 16 a = true := by decide!

theorem key_schedule_store_ok_24 :
    ∀ a ∈ key_schedule_store_shape 24, Access.key_schedule_ok 24 a = true := by decide!

theorem key_schedule_store_ok_32 :
    ∀ a ∈ key_schedule_store_shape 32, Access.key_schedule_ok 32 a = true := by decide!

theorem xdk_inv_mix_shape_ok (length : Nat) (f : List Nat → Nat → List Nat) :
    ∀ (l : List Nat) (XDK : List Nat), (∀ i ∈ l, i < length + 32) →
      ∀ a ∈ forEach_shape f xdk_inv_mix_shape l XDK, Access.key_schedule_ok length a = true := by
  intro l
  induction l with
  | nil => intro XDK _ a h; simp [forEach_shape] at h
  | cons i l ih =>
    intro XDK hl a h
    have hi : i < length + 32 := hl i (List.mem_cons_self _ _)
    simp only [forEach_shape, List.mem_append] at h
    rcases h with h | h
    · simp only [xdk_inv_mix_shape, List.mem_cons, List.mem_singleton, List.not_mem_nil,
        or_false] at h
      rcases h with rfl | rfl | rfl | rfl | rfl | rfl | rfl | rfl | rfl <;>
        simp [Access.key_schedule_ok, hi, get_byte_lt]
    · exact ih _ (fun j hj => hl j (List.mem_cons_of_mem _ hj)) a h

theorem key_schedule_tail_ok (length : Nat) (XDK : List Nat)
    (hs : ∀ a ∈ key_schedule_store_shape length, Access.key_schedule_ok length a = true) :
    ∀ a ∈ key_schedule_tail_shape length XDK, Access.key_schedule_ok length a = true := by
  intro a h
  simp only [key_schedule_tail_shape, List.mem_append] at h
  rcases h with h | h
  · refine xdk_inv_mix_shape_ok length _ _ XDK ?_ a h
    intro i hi
    rw [List.mem_range'_1] at hi
    omega
  · exact hs a h

theorem key_schedule_log_ok (wbits cls : Nat) (hc : 4 ≤ cls) (key : List Nat) (length : Nat)
    (hX : length / 4 = 4 ∨ length / 4 = 6 ∨ length / 4 = 8)
    (hb : ∀ a ∈ key_schedule_body_shape length, Access.key_schedule_ok length a = true)
    (hs : ∀ a ∈ key_schedule_store_shape length, Access.key_schedule_ok length a = true) :
    ∀ a ∈ (aes_key_schedule_tr wbits cls key length).log,
      Access.key_schedule_ok length a = true := by
  rw [aes_key_schedule_tr_eq wbits cls hc key length hX]
  intro a h
  simp only [key_schedule_head_shape, List.mem_append] at h
  rcases h with (h | h) | h
  · exact prefetch_shape_all (fun a => Access.key_schedule_ok length a = true) Access.read_TD
      (fun j hj => by simp [Access.key_schedule_ok, hj]) (fun b => rfl) _ _ _ a h
  · exact hb a h
  · cases hx : xdk_sbox_loop wbits (length + 24) (length + 24) 4
        (xdk_reverse (key_expansion wbits key length 0) length) with
    | none => rw [hx] at h; simp at h
    | some XDK => rw [hx] at h; exact key_schedule_tail_ok length XDK hs a h

theorem prefetch_shape_no_XEK_write (ev : Nat → Access)
    (hev : ∀ j, Access.XEK_write_index (ev j) = none) (step fuel : Nat) :
    ∀ i, (prefetch_shape ev step fuel i).filterMap Access.XEK_write_index = [] := by
  induction fuel with
  | zero => intro i; rfl
  | succ fuel ih =>
    intro i
    unfold prefetch_shape
    split
    · rw [List.filterMap_cons_none rfl, List.filterMap_cons_none (hev i), ih]
    · rfl

theorem xdk_inv_mix_shape_no_XEK_write (f : List Nat → Nat → List Nat) :
    ∀ (l : List Nat) (XDK : List Nat),
      (forEach_shape f xdk_inv_mix_shape l XDK).filterMap Access.XEK_write_index = [] := by
  intro l
  induction l with
  | nil => intro XDK; rfl
  | cons i l ih =>
    intro XDK
    rw [forEach_shape, List.filterMap_append, ih, List.append_nil]
    rfl

theorem key_schedule_XEK_writes (wbits cls : Nat) (hc : 4 ≤ cls) (key : List Nat) (length : Nat)
    (hX : length / 4 = 4 ∨ length / 4 = 6 ∨ length / 4 = 8)
    (hs : (key_schedule_store_shape length).filterMap Access.XEK_write_index = []) :
    (aes_key_schedule_tr wbits cls key length).log.filterMap Access.XEK_write_index =
      (key_schedule_body_shape length).filterMap Access.XEK_write_index := by
  rw [aes_key_schedule_tr_eq wbits cls hc key length hX]
  simp only [key_schedule_head_shape, List.filterMap_append,
    prefetch_shape_no_XEK_write Access.read_TD (fun _ => rfl), List.nil_append]
  cases xdk_sbox_loop wbits (length + 24) (length + 24) 4
      (xdk_reverse (key_expansion wbits key length 0) length) with
  | none => simp only [List.filterMap_nil, List.append_nil]
  | some XDK =>
    simp only [key_schedule_tail_shape, List.filterMap_append, xdk_inv_mix_shape_no_XEK_write, hs,
      List.append_nil]

theorem xdk_sbox_loop_some (wbits stop : Nat) (n : Nat) :
    ∀ (fuel i : Nat) (XDK : List Nat), i + 4 * n = stop → n < fuel →
      ∃ R, xdk_sbox_loop wbits stop fuel i XDK = some R := by
  induction n with
  | zero =>
    intro fuel i XDK hi hf
    obtain ⟨f, rfl⟩ : ∃ f, fuel = f + 1 := ⟨fuel - 1, by omega⟩
    have h : ¬ i ≠ stop := by omega
    exact ⟨XDK, by simp only [xdk_sbox_loop, h, if_false]⟩
  | succ n ih =>
    intro fuel i XDK hi hf
    obtain ⟨f, rfl⟩ : ∃ f, fuel = f + 1 := ⟨fuel - 1, by omega⟩
    have h : i ≠ stop := by omega
    simp only [xdk_sbox_loop, h, ne_eq, not_false_eq_true, if_true]
    exact ih f (i + 4) _ (by omega) (by omega)

theorem xdk_sbox_loop_none (wbits stop : Nat) (fuel : Nat) :
    ∀ (i : Nat) (XDK : List Nat), i % 4 ≠ stop % 4 →
      xdk_sbox_loop wbits stop fuel i XDK = none := by
  induction fuel with
  | zero => intro i XDK _; rfl
  | succ fuel ih =>
    intro i XDK hi
    have h : i ≠ stop := fun e => hi (by rw [e])
    simp only [xdk_sbox_loop, h, ne_eq, not_false_eq_true, if_true]
    exact ih (i + 4) _ (by omega)

theorem aes_key_schedule_returns (wbits cls : Nat) (hc : 4 ≤ cls) (key : List Nat) (length : Nat)
    (hl : length = 16 ∨ length = 24 ∨ length = 32) :
    ∃ kd, aes_key_schedule wbits cls key length = Except.ok kd := by
  obtain ⟨Z1, h1⟩ := prefetch_some AES_TD (cls / 4) (by omega) 257 0 0 (by norm_num) (by norm_num)
  have hX : length / 4 = 4 ∨ length / 4 = 6 ∨ length / 4 = 8 := by omega
  unfold aes_key_schedule
  simp only [not_not.mpr hX, not_true_eq_false, if_false, h1]
  generalize (List.foldl (fun (XDK : List Nat) (i : Nat) => _) _ (List.range' 0 _ 4)) = XDK0
  obtain ⟨R, hR⟩ := xdk_sbox_loop_some wbits (length + 24) (length / 4 + 5) (length + 24) 4 XDK0
    (by omega) (by omega)
  rw [hR]
  exact ⟨_, rfl⟩

theorem aes_key_schedule_stuck (wbits cls : Nat) (hc : 4 ≤ cls) (key : List Nat) (length : Nat)
    (hX : length / 4 = 4 ∨ length / 4 = 6 ∨ length / 4 = 8) (hl : length % 4 ≠ 0) :
    aes_key_schedule wbits cls key length = Except.error AesError.nontermination := by
  obtain ⟨Z1, h1⟩ := prefetch_some AES_TD (cls / 4) (by omega) 257 0 0 (by norm_num) (by norm_num)
  unfold aes_key_schedule
  simp only [not_not.mpr hX, not_true_eq_false, if_false, h1]
  generalize (List.foldl (fun (XDK : List Nat) (i : Nat) => _) _ (List.range' 0 _ 4)) = XDK0
  rw [xdk_sbox_loop_none wbits (length + 24) (length + 24) 4 XDK0 (by omega)]

theorem prefetch_stuck (T : Nat → Nat) (fuel : Nat) :
    ∀ (i Z : Nat), i < 256 → prefetch T 0 fuel i Z = none := by
  induction fuel with
  | zero => intro i Z _; rfl
  | succ fuel ih =>
    intro i Z hi
    simp only [prefetch, hi, if_true, Nat.add_zero]
    exact ih i _ hi

theorem aes_key_schedule_tr_val (wbits cls : Nat) (key : List Nat) (length : Nat) :
    (aes_key_schedule_tr wbits cls key length).val = aes_key_schedule wbits cls key length := by
  by_cases hX : length / 4 = 4 ∨ length / 4 = 6 ∨ length / 4 = 8
  · by_cases hc : 4 ≤ cls
    · rw [aes_key_schedule_tr_eq wbits cls hc key length hX]
    · have h0 : cls / 4 = 0 := by omega
      unfold aes_key_schedule_tr aes_key_schedule
      simp only [not_not.mpr hX, not_true_eq_false, if_false, h0, key_schedule_prefetch_tr,
        Tr.bind_eq, Tr.val_andThen, prefetch_tr_eq, prefetch_stuck AES_TD 257 0 0 (by norm_num)]
      rfl
  · unfold aes_key_schedule_tr aes_key_schedule
    simp only [hX, not_false_eq_true, if_true]
    rfl

theorem key_schedule_17_head : Access.read_XDK 49 ∈ key_schedule_head_shape 64 17 := by decide!

/-- The argument check alone does not bound the loops: with `length = 17` the
check passes, since `17 / 4 = 4`, but `length + 24 = 41` is not a multiple of
4, so the loop `for(i = 4; i != length + 24; i += 4)` steps over 41: the run
reads `XDK[49]` in a vector of `17 + 32 = 49` words and the loop does not exit.
The callers pass 16, 24 or 32. -/
theorem key_schedule_length_17_reads_past_XDK :
    (17 / 4 = 4 ∨ 17 / 4 = 6 ∨ 17 / 4 = 8) ∧ (17 + 24) % 4 ≠ 0 ∧
    Access.read_XDK 49 ∈ (aes_key_schedule_tr 32 64 (List.replicate 17 0) 17).log ∧
    Access.key_schedule_ok 17 (Access.read_XDK 49) = false ∧
    (aes_key_schedule_tr 32 64 (List.replicate 17 0) 17).val =
      Except.error AesError.nontermination := by
  refine ⟨by decide, by decide, ?_, by decide, ?_⟩
  · rw [aes_key_schedule_tr_eq 32 64 (by decide) _ 17 (by decide)]
    exact List.mem_append_left _ key_schedule_17_head
  · rw [aes_key_schedule_tr_val]
    exact aes_key_schedule_stuck 32 64 (by decide) _ 17 (by decide) (by decide)

/-! ## The round key indices of the block loops -/

theorem load_be_shape_key_ok (size base off : Nat) :
    ∀ a ∈ load_be_shape base off, Access.round_key_ok size 16 a = true := by
  simp [load_be_shape, Access.round_key_ok]

theorem round_key_shape_key_ok (size r : Nat) (h : r + 3 < size) :
    ∀ a ∈ round_key_shape Access.read_EK r, Access.round_key_ok size 16 a = true := by
  intro a ha
  simp only [round_key_shape, List.mem_cons, List.mem_singleton, List.not_mem_nil,
    or_false] at ha
  rcases ha with rfl | rfl | rfl | rfl <;> simp [Access.round_key_ok] <;> omega

theorem enc_final_shape_key_ok (size base : Nat) :
    ∀ a ∈ enc_final_shape base, Access.round_key_ok size 16 a = true := by
  intro a h
  simp only [enc_final_shape, List.mem_flatMap, List.mem_cons, List.mem_singleton,
    List.not_mem_nil, or_false, List.mem_range] at h
  obtain ⟨k, hk, ha⟩ := h
  rcases ha with rfl | rfl
  · simp [Access.round_key_ok, hk]
  · rfl

theorem enc_rounds_shape_key_ok (len : Nat) (hl : len % 8 = 0) (fuel : Nat) :
    ∀ r, r % 8 = 0 → ∀ a ∈ enc_rounds_shape len fuel r, Access.round_key_ok len 16 a = true := by
  induction fuel with
  | zero => intro r _ a h; simp [enc_rounds_shape] at h
  | succ fuel ih =>
    intro r hr a h
    unfold enc_rounds_shape at h
    split at h
    · simp only [List.mem_cons, List.mem_append] at h
      rcases h with rfl | h | h | h
      · rfl
      · exact round_key_shape_key_ok _ _ (by omega) a h
      · exact round_key_shape_key_ok _ _ (by omega) a h
      · exact ih _ (by omega) a h
    · simp only [List.mem_singleton] at h
      subst h
      rfl

theorem encrypt_one_block_shape_key_ok (len base : Nat) (hl : len % 8 = 0) (h0 : len ≠ 0) :
    ∀ a ∈ encrypt_one_block_shape len base, Access.round_key_ok len 16 a = true := by
  intro a h
  simp only [encrypt_one_block_shape, List.mem_append] at h
  rcases h with h | h | h | h | h | h | h | h
  · exact load_be_shape_key_ok _ _ _ a h
  · exact load_be_shape_key_ok _ _ _ a h
  · exact load_be_shape_key_ok _ _ _ a h
  · exact load_be_shape_key_ok _ _ _ a h
  · exact round_key_shape_key_ok _ _ (by omega) a h
  · exact round_key_shape_key_ok _ _ (by omega) a h
  · exact enc_rounds_shape_key_ok _ hl _ _ (by norm_num) a h
  · exact enc_final_shape_key_ok _ _ a h

theorem encrypt_two_blocks_shape_key_ok (len base : Nat) (hl : len % 8 = 0) (h0 : len ≠ 0) :
    ∀ a ∈ encrypt_two_blocks_shape len base, Access.round_key_ok len 16 a = true := by
  intro a h
  simp only [encrypt_two_blocks_shape, List.mem_append] at h
  rcases h with h | h | h | h | h | h | h | h | h | h | h | h | h | h
  · exact load_be_shape_key_ok _ _ _ a h
  · exact load_be_shape_key_ok _ _ _ a h
  · exact load_be_shape_key_ok _ _ _ a h
  · exact load_be_shape_key_ok _ _ _ a h
  · exact load_be_shape_key_ok _ _ _ a h
  · exact load_be_shape_key_ok _ _ _ a h
  · exact load_be_shape_key_ok _ _ _ a h
  · exact load_be_shape_key_ok _ _ _ a h
  · exact round_key_shape_key_ok _ _ (by omega) a h
  · exact round_key_shape_key_ok _ _ (by omega) a h
  · exact round_key_shape_key_ok _ _ (by omega) a h
  · exact enc_rounds_shape_key_ok _ hl _ _ (by norm_num) a h
  · exact enc_final_shape_key_ok _ _ a h
  · exact enc_final_shape_key_ok _ _ a h

theorem encrypt_tail_shape_key_ok (len base blocks : Nat) (hl : len % 8 = 0) (h0 : len ≠ 0)
    (fuel : Nat) :
    ∀ i, ∀ a ∈ encrypt_tail_shape len base blocks fuel i, Access.round_key_ok len 16 a = true := by
  induction fuel with
  | zero => intro i a h; simp [encrypt_tail_shape] at h
  | succ fuel ih =>
    intro i a h
    unfold encrypt_tail_shape at h
    split at h
    · simp only [List.mem_cons, List.mem_append] at h
      rcases h with rfl | h | h
      · rfl
      · exact encrypt_one_block_shape_key_ok _ _ hl h0 a h
      · exact ih _ a h
    · simp only [List.mem_singleton] at h
      subst h
      rfl

theorem encrypt_loop_shape_key_ok (len : Nat) (hl : len % 8 = 0) (h0 : len ≠ 0) (blocks : Nat) :
    ∀ base, ∀ a ∈ encrypt_loop_shape len blocks base, Access.round_key_ok len 16 a = true := by
  induction blocks using Nat.strong_induction_on with
  | _ blocks ih =>
    intro base a h
    match blocks, ih, h with
    | 0, _, h =>
      simp only [encrypt_loop_shape, List.mem_cons] at h
      rcases h with rfl | h
      · rfl
      · exact encrypt_tail_shape_key_ok _ _ _ hl h0 _ _ a h
    | 1, _, h =>
      simp only [encrypt_loop_shape, List.mem_cons] at h
      rcases h with rfl | h
      · rfl
      · exact encrypt_tail_shape_key_ok _ _ _ hl h0 _ _ a h
    | blocks + 2, ih, h =>
      simp only [encrypt_loop_shape, List.mem_cons, List.mem_append] at h
      rcases h with rfl | h | h
      · rfl
      · exact encrypt_two_blocks_shape_key_ok _ _ hl h0 a h
      · exact ih blocks (by omega) _ a h

theorem aes_encrypt_n_tr_key_ok (wbits : Nat) (inp : List Nat) (blocks : Nat) (EK ME : List Nat)
    (hl : EK.length % 8 = 0) (h0 : EK.length ≠ 0) :
    ∀ a ∈ (aes_encrypt_n_tr wbits inp blocks EK ME).log,
      Access.round_key_ok EK.length 16 a = true := by
  rw [aes_encrypt_n_tr_eq]
  intro a h
  simp only [aes_encrypt_n_shape] at h
  split at h
  · exact encrypt_loop_shape_key_ok _ hl h0 _ _ a h
  · simp at h

/-! The decryption: its steps depend on the data, so the bound is carried through
the sequencing. -/

theorem Tr.log_andThen_all {α β : Type} (P : Access → Prop) (x : Tr α) (f : α → Tr β)
    (hx : ∀ a ∈ x.log, P a) (hf : ∀ v, x.val = Except.ok v → ∀ a ∈ (f v).log, P a) :
    ∀ a ∈ (Tr.andThen x f).log, P a := by
  intro a h
  unfold Tr.andThen at h
  split at h
  · exact hx a h
  · rename_i v hv
    rcases List.mem_append.mp h with h | h
    · exact hx a h
    · exact hf v hv a h

theorem AES_T_tr_key_ok (size : Nat) (DK : List Nat) (r V0 V1 V2 V3 : Nat) (hr : r < size) :
    ∀ a ∈ (AES_T_tr DK r V0 V1 V2 V3).log, Access.round_key_ok size 16 a = true := by
  intro a h
  have e : (AES_T_tr DK r V0 V1 V2 V3).log = [Access.read_DK r,
      Access.read_TD (get_byte 0 V0), Access.read_TD (get_byte 1 V1),
      Access.read_TD (get_byte 2 V2), Access.read_TD (get_byte 3 V3)] := rfl
  rw [e] at h
  simp only [List.mem_cons, List.mem_singleton, List.not_mem_nil, or_false] at h
  rcases h with rfl | rfl | rfl | rfl | rfl <;> simp [Access.round_key_ok, hr]

theorem dec_round_tr_key_ok (size : Nat) (DK : List Nat) (r : Nat) (T : Words4)
    (hr : r + 3 < size) :
    ∀ a ∈ (dec_round_tr DK r T).log, Access.round_key_ok size 16 a = true := by
  unfold dec_round_tr
  simp only [Tr.bind_eq]
  refine Tr.log_andThen_all _ _ _ (AES_T_tr_key_ok size _ _ _ _ _ _ (by omega)) (fun _ _ => ?_)
  refine Tr.log_andThen_all _ _ _ (AES_T_tr_key_ok size _ _ _ _ _ _ (by omega)) (fun _ _ => ?_)
  refine Tr.log_andThen_all _ _ _ (AES_T_tr_key_ok size _ _ _ _ _ _ (by omega)) (fun _ _ => ?_)
  refine Tr.log_andThen_all _ _ _ (AES_T_tr_key_ok size _ _ _ _ _ _ (by omega)) (fun _ _ => ?_)
  intro a h
  simp [Tr.pure_eq] at h

theorem Tr.test_log_all (P : Access → Prop) (c : Bool) (hP : ∀ b, P (Access.branch b)) :
    ∀ a ∈ (Tr.test c).log, P a := by
  intro a h
  simp only [Tr.test, List.mem_singleton] at h
  subst h
  exact hP _

theorem Tr.pure_log_all {α : Type} (P : Access → Prop) (v : α) :
    ∀ a ∈ (pure v : Tr α).log, P a := by
  intro a h
  simp [Tr.pure_eq] at h

theorem dec_rounds_tr_key_ok (DK : List Nat) (hl : DK.length % 8 = 0) (fuel : Nat) :
    ∀ (r : Nat) (B : Words4), r % 8 = 0 →
      ∀ a ∈ (dec_rounds_tr DK fuel r B).log, Access.round_key_ok DK.length 16 a = true := by
  induction fuel with
  | zero => intro r B _; exact Tr.pure_log_all _ _
  | succ fuel ih =>
    intro r B hr
    unfold dec_rounds_tr
    simp only [Tr.bind_eq]
    refine Tr.log_andThen_all _ _ _ (Tr.test_log_all _ _ (fun _ => rfl)) (fun c hc => ?_)
    have hc2 : c = decide (r < DK.length) := by
      simp only [Tr.test, Except.ok.injEq] at hc
      exact hc.symm
    subst hc2
    by_cases h : r < DK.length
    · simp only [h, decide_True, if_true]
      refine Tr.log_andThen_all _ _ _ (dec_round_tr_key_ok _ _ _ _ (by omega)) (fun _ _ => ?_)
      refine Tr.log_andThen_all _ _ _ (dec_round_tr_key_ok _ _ _ _ (by omega)) (fun _ _ => ?_)
      exact ih _ _ (by omega)
    · simp only [h, decide_False, if_false, Bool.false_eq_true]
      exact Tr.pure_log_all _ _

theorem load_be_tr_key_ok (size : Nat) (inp : List Nat) (base off : Nat) :
    ∀ a ∈ (load_be_tr inp base off).log, Access.round_key_ok size 16 a = true := by
  rw [load_be_tr_eq]
  exact load_be_shape_key_ok size base off

theorem index_DK_key_ok (size : Nat) (DK : List Nat) (i : Nat) (hi : i < size) :
    ∀ a ∈ (Tr.index Access.read_DK DK i).log, Access.round_key_ok size 16 a = true := by
  intro a h
  simp only [Tr.index, List.mem_singleton] at h
  subst h
  simp [Access.round_key_ok, hi]

theorem dec_store_tr_key_ok (size : Nat) (MD : List Nat) (base k idx : Nat) (hk : k < 16) :
    ∀ a ∈ (dec_store_tr MD base k idx).log, Access.round_key_ok size 16 a = true := by
  intro a h
  have e : (dec_store_tr MD base k idx).log =
      [Access.read_SD idx, Access.read_MD k, Access.write_out (base + k)] := rfl
  rw [e] at h
  simp only [List.mem_cons, List.mem_singleton, List.not_mem_nil, or_false] at h
  rcases h with rfl | rfl | rfl <;> simp [Access.round_key_ok, hk]

theorem dec_final_tr_key_ok (size : Nat) (B : Words4) (MD : List Nat) (base : Nat) :
    ∀ a ∈ (dec_final_tr B MD base).log, Access.round_key_ok size 16 a = true := by
  unfold dec_final_tr
  simp only [Tr.bind_eq]
  iterate 16
    refine Tr.log_andThen_all _ _ _ (dec_store_tr_key_ok size _ _ _ _ (by norm_num))
      (fun _ _ => ?_)
  exact Tr.pure_log_all _ _

theorem decrypt_one_block_tr_key_ok (inp : List Nat) (base Z : Nat) (DK MD : List Nat)
    (hl : DK.length % 8 = 0) (h0 : DK.length ≠ 0) :
    ∀ a ∈ (decrypt_one_block_tr inp base Z DK MD).log,
      Access.round_key_ok DK.length 16 a = true := by
  unfold decrypt_one_block_tr
  simp only [Tr.bind_eq]
  iterate 4
    refine Tr.log_andThen_all _ _ _ (load_be_tr_key_ok _ _ _ _) (fun _ _ => ?_)
    refine Tr.log_andThen_all _ _ _ (index_DK_key_ok _ _ _ (by omega)) (fun _ _ => ?_)
  refine Tr.log_andThen_all _ _ _ (dec_round_tr_key_ok _ _ _ _ (by omega)) (fun _ _ => ?_)
  refine Tr.log_andThen_all _ _ _ (dec_rounds_tr_key_ok _ hl _ _ _ (by norm_num)) (fun _ _ => ?_)
  exact dec_final_tr_key_ok _ _ _ _

theorem decrypt_loop_tr_key_ok (inp : List Nat) (Z : Nat) (DK MD : List Nat)
    (hl : DK.length % 8 = 0) (h0 : DK.length ≠ 0) (blocks : Nat) :
    ∀ base, ∀ a ∈ (decrypt_loop_tr inp Z DK MD blocks base).log,
      Access.round_key_ok DK.length 16 a = true := by
  induction blocks with
  | zero =>
    intro base
    unfold decrypt_loop_tr
    simp only [Tr.bind_eq]
    refine Tr.log_andThen_all _ _ _ (Tr.test_log_all _ _ (fun _ => rfl)) (fun _ _ => ?_)
    exact Tr.pure_log_all _ _
  | succ blocks ih =>
    intro base
    unfold decrypt_loop_tr
    simp only [Tr.bind_eq]
    refine Tr.log_andThen_all _ _ _ (Tr.test_log_all _ _ (fun _ => rfl)) (fun _ _ => ?_)
    refine Tr.log_andThen_all _ _ _ (decrypt_one_block_tr_key_ok _ _ _ _ _ hl h0) (fun _ _ => ?_)
    refine Tr.log_andThen_all _ _ _ (ih _) (fun _ _ => ?_)
    exact Tr.pure_log_all _ _

theorem prefetch_tr_key_ok (size : Nat) (ev : Nat → Access)
    (hev : ∀ j, Access.round_key_ok size 16 (ev j) = true) (T : Nat → Nat) (step fuel i Z : Nat) :
    ∀ a ∈ (prefetch_tr ev T step fuel i Z).log, Access.round_key_ok size 16 a = true := by
  induction fuel generalizing i Z with
  | zero => intro a h; simp [prefetch_tr, Tr.fail] at h
  | succ fuel ih =>
    unfold prefetch_tr
    simp only [Tr.bind_eq]
    refine Tr.log_andThen_all _ _ _ (Tr.test_log_all _ _ (fun _ => rfl)) (fun c _ => ?_)
    cases c
    · simp only [Bool.false_eq_true, if_false]
      exact Tr.pure_log_all _ _
    · simp only [if_true]
      refine Tr.log_andThen_all _ _ _ ?_ (fun _ _ => ih _ _)
      intro a h
      simp only [Tr.lookup, List.mem_singleton] at h
      subst h
      exact hev _

theorem aes_decrypt_n_tr_key_ok (cls : Nat) (inp : List Nat) (blocks : Nat) (DK MD : List Nat)
    (hl : DK.length % 8 = 0) (h0 : DK.length ≠ 0) :
    ∀ a ∈ (aes_decrypt_n_tr cls inp blocks DK MD).log,
      Access.round_key_ok DK.length 16 a = true := by
  unfold aes_decrypt_n_tr
  split
  · simp only [Tr.bind_eq, decrypt_prefetch_tr]
    refine Tr.log_andThen_all _ _ _ ?_ (fun _ _ => decrypt_loop_tr_key_ok _ _ _ _ hl h0 _ _)
    refine Tr.log_andThen_all _ _ _
      (prefetch_tr_key_ok DK.length Access.read_TD (fun _ => rfl) _ _ _ _ _) (fun _ _ => ?_)
    refine Tr.log_andThen_all _ _ _
      (prefetch_tr_key_ok DK.length Access.read_SD (fun _ => rfl) _ _ _ _ _) (fun _ _ => ?_)
    refine Tr.log_andThen_all _ _ _ ?_ (fun _ _ => Tr.pure_log_all _ _)
    intro a h
    simp only [Tr.lookup, List.mem_singleton] at h
    subst h
    rfl
  · intro a h
    simp [Tr.fail] at h

/-! ## The prefetch loops -/

theorem ceil_step (i step : Nat) (hs : 0 < step) (hi : i < 256) :
    (256 - i + step - 1) / step = (256 - (i + step) + step - 1) / step + 1 := by
  have e : 256 - i + step - 1 = (256 - i - 1) + step := by omega
  rw [e, Nat.add_div_right _ hs]
  congr 1
  by_cases h : i + step ≤ 256
  · congr 1
    omega
  · rw [Nat.div_eq_of_lt (by omega), Nat.div_eq_of_lt (by omega)]

theorem prefetch_shape_reads (ev : Nat → Access) (idx : Access → Option Nat)
    (hev : ∀ j, idx (ev j) = some j) (hbr : ∀ b, idx (Access.branch b) = none)
    (step : Nat) (hs : 0 < step) (fuel : Nat) :
    ∀ i, (256 - i + step - 1) / step < fuel →
      (prefetch_shape ev step fuel i).filterMap idx =
        List.range' i ((256 - i + step - 1) / step) step := by
  induction fuel with
  | zero => intro i h; exact absurd h (Nat.not_lt_zero _)
  | succ fuel ih =>
    intro i hf
    unfold prefetch_shape
    by_cases hi : i < 256
    · rw [if_pos hi, List.filterMap_cons_none (hbr _), List.filterMap_cons_some (hev i)]
      rw [ceil_step i step hs hi] at hf ⊢
      rw [List.range'_succ, ih (i + step) (by omega)]
    · rw [if_neg hi]
      have e : (256 - i + step - 1) / step = 0 := Nat.div_eq_of_lt (by omega)
      rw [e, List.range'_zero, List.filterMap_cons_none (hbr _), List.filterMap_nil]

theorem prefetch_shape_other (ev : Nat → Access) (idx : Access → Option Nat)
    (hev : ∀ j, idx (ev j) = none) (hbr : ∀ b, idx (Access.branch b) = none)
    (step fuel : Nat) :
    ∀ i, (prefetch_shape ev step fuel i).filterMap idx = [] := by
  induction fuel with
  | zero => intro i; rfl
  | succ fuel ih =>
    intro i
    unfold prefetch_shape
    split
    · rw [List.filterMap_cons_none (hbr _), List.filterMap_cons_none (hev i), ih]
    · rw [List.filterMap_cons_none (hbr _), List.filterMap_nil]

theorem ceil_div_lt_257 (step : Nat) (hs : 0 < step) : ceil_div 256 step < 257 := by
  unfold ceil_div
  rw [Nat.div_lt_iff_lt_mul hs]
  omega

theorem ceil_div_spec (a b : Nat) (hb : 0 < b) (ha : 0 < a) :
    (ceil_div a b - 1) * b < a ∧ a ≤ ceil_div a b * b := by
  unfold ceil_div
  have h1 := Nat.div_add_mod (a + b - 1) b
  have h2 := Nat.mod_lt (a + b - 1) hb
  have h3 : 1 ≤ (a + b - 1) / b := (Nat.one_le_div_iff hb).mpr (by omega)
  have h4 : ((a + b - 1) / b - 1) * b + b = (a + b - 1) / b * b := by
    rw [Nat.sub_mul, Nat.one_mul]
    have : b ≤ (a + b - 1) / b * b := Nat.le_mul_of_pos_left b h3
    omega
  rw [Nat.mul_comm] at h1
  constructor <;> omega

theorem prefetch_indices_lt_256 (step : Nat) (hs : 0 < step) :
    ∀ i ∈ List.range' 0 (ceil_div 256 step) step, i < 256 := by
  intro i hi
  rw [List.mem_range'] at hi
  obtain ⟨k, hk, rfl⟩ := hi
  have h := (ceil_div_spec 256 step hs (by norm_num)).1
  have h2 : k * step ≤ (ceil_div 256 step - 1) * step := Nat.mul_le_mul_right _ (by omega)
  rw [Nat.mul_comm] at h2
  omega

theorem prefetch_TD_reads (cls : Nat) (hc : 4 ≤ cls) :
    (prefetch_shape Access.read_TD (cls / 4) 257 0).filterMap Access.TD_index =
      List.range' 0 (ceil_div 256 (cls / 4)) (cls / 4) := by
  have hs : 0 < cls / 4 := by omega
  have h := prefetch_shape_reads Access.read_TD Access.TD_index (fun _ => rfl) (fun _ => rfl)
    (cls / 4) hs 257 0
  rw [Nat.sub_zero] at h
  exact h (ceil_div_lt_257 _ hs)

theorem prefetch_SD_reads (cls : Nat) (hc : 4 ≤ cls) :
    (prefetch_shape Access.read_SD cls 257 0).filterMap Access.SD_index =
      List.range' 0 (ceil_div 256 cls) cls := by
  have hs : 0 < cls := by omega
  have h := prefetch_shape_reads Access.read_SD Access.SD_index (fun _ => rfl) (fun _ => rfl)
    cls hs 257 0
  rw [Nat.sub_zero] at h
  exact h (ceil_div_lt_257 _ hs)

theorem decrypt_prefetch_tr_eq (cls : Nat) (hc : 4 ≤ cls) :
    decrypt_prefetch_tr cls = Tr.mk (Except.ok 0)
      (prefetch_shape Access.read_TD (cls / 4) 257 0 ++
        (prefetch_shape Access.read_SD cls 257 0 ++ [Access.read_TD 99])) := by
  obtain ⟨Z1, h1⟩ := prefetch_some AES_TD (cls / 4) (by omega) 257 0 0 (by norm_num) (by norm_num)
  obtain ⟨Z2, h2⟩ := prefetch_some SD cls (by omega) 257 0 Z1 (by norm_num) (by norm_num)
  simp only [decrypt_prefetch_tr, Tr.bind_eq, prefetch_tr_eq, h1, h2, Tr.lookup, Tr.andThen_ok,
    Tr.pure_eq, AES_TD_99, Nat.and_zero, List.append_nil]

theorem prefetch_tr_stuck (ev : Nat → Access) (idx : Access → Option Nat)
    (hev : ∀ j, idx (ev j) = some j) (hbr : ∀ b, idx (Access.branch b) = none)
    (T : Nat → Nat) (fuel : Nat) :
    ∀ (i Z : Nat), i < 256 →
      (prefetch_tr ev T 0 fuel i Z).val = Except.error AesError.nontermination ∧
      (prefetch_tr ev T 0 fuel i Z).log.filterMap idx = List.replicate fuel i := by
  induction fuel with
  | zero => intro i Z _; exact ⟨rfl, rfl⟩
  | succ fuel ih =>
    intro i Z hi
    rw [prefetch_tr_eq, prefetch_stuck T _ i Z hi]
    refine ⟨rfl, ?_⟩
    have h := (ih i Z hi).2
    rw [prefetch_tr_eq] at h
    simp only at h ⊢
    rw [prefetch_shape, if_pos hi, List.filterMap_cons_none (hbr _),
      List.filterMap_cons_some (hev i), Nat.add_zero, h, List.replicate_succ]

/-! ## The S-box claims -/

/-- C7: the circuit `AES_SBOX` computes the S-box in every bit lane independently.
For every byte `b`, every lane `k` of the slice words (`k < wbits`), if bit `k`
of `V[j]` is bit `7 - j` of `b` for `j = 0..7` (this is `V.lane k = Lane.ofByte b`),
then bit `k` of the `j`-th output word is bit `7 - j` of `SE[b]`, whatever the
other lanes hold. -/
theorem AES_SBOX_computes_SE_in_each_lane (wbits : Nat) (V : Slices) (b k : Nat)
    (hb : b < 256) (hk : k < wbits) (h : V.lane k = Lane.ofByte b) :
    (AES_SBOX wbits V).lane k = Lane.ofByte (SE b) :=
  AES_SBOX_lane_byte wbits V k b hk hb h

theorem AES_SBOX_computes_SE_in_each_lane_witness :
    (0x53 : Nat) < 256 ∧ 5 < 32 ∧
    (Slices.mk 0 0xFFFFFFFF 0 32 0 0 0xFFFFFFFF 0xAAAAAAAA).lane 5 = Lane.ofByte 0x53 ∧
    (AES_SBOX 32 (Slices.mk 0 0xFFFFFFFF 0 32 0 0 0xFFFFFFFF 0xAAAAAAAA)).lane 5 =
      Lane.ofByte (SE 0x53) :=
  ⟨by decide, by decide, by decide,
    AES_SBOX_computes_SE_in_each_lane 32 (Slices.mk 0 0xFFFFFFFF 0 32 0 0 0xFFFFFFFF 0xAAAAAAAA)
      0x53 5 (by decide) (by decide) (by decide)⟩

/-- C6: for every 32-bit word `x`, the bitsliced `SE_word(x)` equals the table
reference `SE_word_ref(x)`, which is
`(SE[byte0(x)] << 24) | (SE[byte1(x)] << 16) | (SE[byte2(x)] << 8) | SE[byte3(x)]`
with `byte0` the most significant byte. -/
theorem SE_word_equals_SE_word_ref (wbits x : Nat) (hw : 32 ≤ wbits) (hx : x < 2 ^ 32) :
    SE_word wbits x = SE_word_ref x ∧
    SE_word_ref x =
      ((SE (get_byte 0 x) <<< 24) ||| (SE (get_byte 1 x) <<< 16) ||| (SE (get_byte 2 x) <<< 8)
        ||| SE (get_byte 3 x)) ∧
    get_byte 0 x = x / 2 ^ 24 := by
  refine ⟨SE_word_eq_ref wbits x (by omega), rfl, ?_⟩
  unfold get_byte
  rw [Nat.shiftRight_eq_div_pow]
  apply Nat.mod_eq_of_lt
  omega

theorem SE_word_equals_SE_word_ref_witness :
    32 ≤ 32 ∧ (0x00010203 : Nat) < 2 ^ 32 ∧
    (SE_word 32 0x00010203 = SE_word_ref 0x00010203 ∧
    SE_word_ref 0x00010203 =
      ((SE (get_byte 0 0x00010203) <<< 24) ||| (SE (get_byte 1 0x00010203) <<< 16) |||
        (SE (get_byte 2 0x00010203) <<< 8) ||| SE (get_byte 3 0x00010203)) ∧
    get_byte 0 0x00010203 = 0x00010203 / 2 ^ 24) :=
  ⟨by decide, by decide, SE_word_equals_SE_word_ref 32 0x00010203 (by decide) (by decide)⟩

/-- C8: `SE_word_x4` replaces each of `B0`, ..., `B3` by `SE_word` of that word:
the four outputs are four independent calls of `SE_word`, with no mixing or
reordering between the words or their bytes. -/
theorem SE_word_x4_is_four_SE_word (wbits : Nat) (hw : 16 ≤ wbits) (B : Words4) :
    SE_word_x4 wbits B =
      Words4.mk (SE_word wbits B.b0) (SE_word wbits B.b1) (SE_word wbits B.b2)
        (SE_word wbits B.b3) := by
  rw [SE_word_x4_eq_ref wbits hw B, SE_word_eq_ref wbits _ (by omega),
    SE_word_eq_ref wbits _ (by omega), SE_word_eq_ref wbits _ (by omega),
    SE_word_eq_ref wbits _ (by omega)]

theorem SE_word_x4_is_four_SE_word_witness :
    16 ≤ 32 ∧
    SE_word_x4 32 (Words4.mk 0x00112233 0x44556677 0x8899aabb 0xccddeeff) =
      Words4.mk (SE_word 32 0x00112233) (SE_word 32 0x44556677) (SE_word 32 0x8899aabb)
        (SE_word 32 0xccddeeff) :=
  ⟨by decide,
    SE_word_x4_is_four_SE_word 32 (by decide)
      (Words4.mk 0x00112233 0x44556677 0x8899aabb 0xccddeeff)⟩

/-- C9: with slice words of at least 32 bits, `SE_word_x8` replaces each of `B0`,
..., `B7` by `SE_word` of that word: the eight outputs are eight independent
calls of `SE_word`. -/
theorem SE_word_x8_is_eight_SE_word (wbits : Nat) (hw : 32 ≤ wbits) (B : Words8) :
    SE_word_x8 wbits B =
      Words8.mk (SE_word wbits B.b0) (SE_word wbits B.b1) (SE_word wbits B.b2)
        (SE_word wbits B.b3) (SE_word wbits B.b4) (SE_word wbits B.b5) (SE_word wbits B.b6)
        (SE_word wbits B.b7) := by
  rw [SE_word_x8_eq_ref wbits hw B, SE_word_eq_ref wbits _ (by omega),
    SE_word_eq_ref wbits _ (by omega), SE_word_eq_ref wbits _ (by omega),
    SE_word_eq_ref wbits _ (by omega), SE_word_eq_ref wbits _ (by omega),
    SE_word_eq_ref wbits _ (by omega), SE_word_eq_ref wbits _ (by omega),
    SE_word_eq_ref wbits _ (by omega)]

theorem SE_word_x8_is_eight_SE_word_witness :
    32 ≤ 64 ∧
    SE_word_x8 64 (Words8.mk 0x00112233 0x44556677 0x8899aabb 0xccddeeff 1 2 3 0xffffffff) =
      Words8.mk (SE_word 64 0x00112233) (SE_word 64 0x44556677) (SE_word 64 0x8899aabb)
        (SE_word 64 0xccddeeff) (SE_word 64 1) (SE_word 64 2) (SE_word 64 3)
        (SE_word 64 0xffffffff) :=
  ⟨by decide,
    SE_word_x8_is_eight_SE_word 64 (by decide)
      (Words8.mk 0x00112233 0x44556677 0x8899aabb 0xccddeeff 1 2 3 0xffffffff)⟩

/-! ## Independence of the blocks -/

/-- C10: ECB independence.  For every expanded key (`EK` non-empty, `ME` of 16
bytes, as the key schedule produces them) and any two 16-byte blocks `p` and `q`,
`aes_encrypt_n` on `p ++ q` (the two-block path through `SE_word_x8`) returns the
one-block encryption of `p` followed by the one-block encryption of `q` (the
one-block path through `SE_word_x4`); and for every `n`, block `i` of the output
of `aes_encrypt_n` on `n` blocks is the one-block encryption of input block `i`. -/
theorem aes_encrypt_n_blocks_independent (wbits : Nat) (hw : 32 ≤ wbits) (EK ME : List Nat)
    (hEK : EK.length ≠ 0) (hME : ME.length = 16) :
    (∀ p q : List Nat, p.length = 16 → q.length = 16 →
      ∃ cp cq, aes_encrypt_n wbits p 1 EK ME = Except.ok cp ∧
        aes_encrypt_n wbits q 1 EK ME = Except.ok cq ∧
        aes_encrypt_n wbits (p ++ q) 2 EK ME = Except.ok (cp ++ cq)) ∧
    (∀ (n : Nat) (inp : List Nat), inp.length = 16 * n →
      ∃ out, aes_encrypt_n wbits inp n EK ME = Except.ok out ∧ out.length = 16 * n ∧
        ∀ i < n, aes_encrypt_n wbits ((inp.drop (16 * i)).take 16) 1 EK ME =
          Except.ok ((out.drop (16 * i)).take 16)) := by
  constructor
  · intro p q hp hq
    refine ⟨_, _, aes_encrypt_n_one wbits p EK ME hEK hME, aes_encrypt_n_one wbits q EK ME hEK hME,
        ?_⟩
    rw [aes_encrypt_n_blocks wbits hw _ _ _ _ hEK hME]
    have h1 := encrypt_one_block_take wbits (p ++ q) 0 EK ME
    have h2 := encrypt_one_block_take wbits (p ++ q) 1 EK ME
    rw [Nat.mul_zero, List.drop_zero, List.take_left' hp] at h1
    rw [Nat.mul_one, List.drop_left' hp, List.take_of_length_le (by omega)] at h2
    simp only [List.range_succ, List.range_zero, List.nil_append, List.cons_append, List.map_cons,
      List.map_nil, List.flatten_cons, List.flatten_nil, List.append_nil, h1, h2]
  · intro n inp _
    refine ⟨_, aes_encrypt_n_blocks wbits hw _ _ _ _ hEK hME, ?_, ?_⟩
    · exact flatten_map_range_length _ (fun i => encrypt_one_block_length wbits inp i EK ME) n
    · intro i hi
      rw [aes_encrypt_n_one wbits _ EK ME hEK hME, encrypt_one_block_take,
        flatten_map_range_block _ (fun i => encrypt_one_block_length wbits inp i EK ME) n i hi]

theorem aes_encrypt_n_blocks_independent_witness :
    32 ≤ 32 ∧ (List.replicate 40 7).length ≠ 0 ∧ (List.replicate 16 9).length = 16 ∧
    (List.replicate 16 1).length = 16 ∧ (List.replicate 16 2).length = 16 ∧
    ∃ cp cq, aes_encrypt_n 32 (List.replicate 16 1) 1 (List.replicate 40 7) (List.replicate 16 9) =
        Except.ok cp ∧
      aes_encrypt_n 32 (List.replicate 16 2) 1 (List.replicate 40 7) (List.replicate 16 9) =
        Except.ok cq ∧
      aes_encrypt_n 32 (List.replicate 16 1 ++ List.replicate 16 2) 2 (List.replicate 40 7)
        (List.replicate 16 9) = Except.ok (cp ++ cq) :=
  ⟨by decide, by decide, by decide, by decide, by decide,
    (aes_encrypt_n_blocks_independent 32 (by decide) (List.replicate 40 7) (List.replicate 16 9)
      (by decide) (by decide)).1 (List.replicate 16 1) (List.replicate 16 2) (by decide)
      (by decide)⟩

/-! ## Round trip and the FIPS-197 vectors -/

/-- C1: decryption inverts encryption.  For every key of 16, 24 or 32 bytes, every
word width `wbits >= 32`, every cache line size `cls >= 4` and every input of `n`
whole blocks of bytes (`n >= 0`; one 16-byte block is `n = 1`), the key schedule
succeeds with some `(EK, DK, ME, MD)`, `aes_encrypt_n` succeeds with some
ciphertext, and `aes_decrypt_n` of that ciphertext returns the input. -/
theorem aes_decrypt_n_inverts_aes_encrypt_n (wbits cls : Nat) (hw : 32 ≤ wbits) (hc : 4 ≤ cls)
    (key : List Nat) (hk : key.length = 16 ∨ key.length = 24 ∨ key.length = 32)
    (n : Nat) (inp : List Nat) (hi : inp.length = 16 * n) (hb : ∀ b ∈ inp, b < 256) :
    ∃ kd ct, aes_key_schedule wbits cls key key.length = Except.ok kd ∧
      aes_encrypt_n wbits inp n kd.EK kd.ME = Except.ok ct ∧
      aes_decrypt_n cls ct n kd.DK kd.MD = Except.ok inp := by
  rcases hk with h | h | h
  · rw [h]
    exact aes_round_trip_16 wbits cls hw hc key n inp hi hb
  · rw [h]
    exact aes_round_trip_24 wbits cls hw hc key n inp hi hb
  · rw [h]
    exact aes_round_trip_32 wbits cls hw hc key n inp hi hb

theorem aes_decrypt_n_inverts_aes_encrypt_n_witness :
    32 ≤ 64 ∧ 4 ≤ 64 ∧
    (
      [0x2b, 0x7e, 0x15, 0x16, 0x28, 0xae, 0xd2, 0xa6, 0xab, 0xf7, 0x15, 0x88, 0x09, 0xcf, 0x4f,
          0x3c].length = 16 ∨
      
      [0x2b, 0x7e, 0x15, 0x16, 0x28, 0xae, 0xd2, 0xa6, 0xab, 0xf7, 0x15, 0x88, 0x09, 0xcf, 0x4f,
          0x3c].length = 24 ∨
      
      [0x2b, 0x7e, 0x15, 0x16, 0x28, 0xae, 0xd2, 0xa6, 0xab, 0xf7, 0x15, 0x88, 0x09, 0xcf, 0x4f,
          0x3c].length = 32) ∧
    
      [0x32, 0x43, 0xf6, 0xa8, 0x88, 0x5a, 0x30, 0x8d, 0x31, 0x31, 0x98, 0xa2, 0xe0, 0x37, 0x07,
          0x34].length = 16 * 1 ∧
    (∀ b ∈ 
      [0x32, 0x43, 0xf6, 0xa8, 0x88, 0x5a, 0x30, 0x8d, 0x31, 0x31, 0x98, 0xa2, 0xe0, 0x37, 0x07,
          0x34], b < 256) ∧
    ∃ kd ct, aes_key_schedule 64 64 
      [0x2b, 0x7e, 0x15, 0x16, 0x28, 0xae, 0xd2, 0xa6, 0xab, 0xf7, 0x15, 0x88, 0x09, 0xcf, 0x4f,
          0x3c]
        (
      [0x2b, 0x7e, 0x15, 0x16, 0x28, 0xae, 0xd2, 0xa6, 0xab, 0xf7, 0x15, 0x88, 0x09, 0xcf, 0x4f,
          0x3c]).length = Except.ok kd ∧
      aes_encrypt_n 64 
      [0x32, 0x43, 0xf6, 0xa8, 0x88, 0x5a, 0x30, 0x8d, 0x31, 0x31, 0x98, 0xa2, 0xe0, 0x37, 0x07,
          0x34] 1 kd.EK kd.ME = Except.ok ct ∧
      aes_decrypt_n 64 ct 1 kd.DK kd.MD = Except.ok 
      [0x32, 0x43, 0xf6, 0xa8, 0x88, 0x5a, 0x30, 0x8d, 0x31, 0x31, 0x98, 0xa2, 0xe0, 0x37, 0x07,
          0x34] :=
  ⟨by decide, by decide, by decide, by decide, by decide,
    aes_decrypt_n_inverts_aes_encrypt_n 64 64 (by decide) (by decide) 
      [0x2b, 0x7e, 0x15, 0x16, 0x28, 0xae, 0xd2, 0xa6, 0xab, 0xf7, 0x15, 0x88, 0x09, 0xcf, 0x4f,
          0x3c] (by decide) 1
      
      [0x32, 0x43, 0xf6, 0xa8, 0x88, 0x5a, 0x30, 0x8d, 0x31, 0x31, 0x98, 0xa2, 0xe0, 0x37, 0x07,
          0x34] (by decide) (by decide)⟩

/-- C2: FIPS-197 Appendix B (AES-128).  For every word width `wbits >= 32` and cache line size
`cls >= 4`, `aes_key_schedule` on the key `2b7e151628aed2a6abf7158809cf4f3c`
followed by `aes_encrypt_n` on the single block `3243f6a8885a308d313198a2e0370734` yields exactly
`3925841d02dc09fbdc118597196a0b32`. -/
theorem fips197_appendix_B (wbits cls : Nat) (hw : 32 ≤ wbits) (hc : 4 ≤ cls) :
    (aes_key_schedule wbits cls
        [0x2b, 0x7e, 0x15, 0x16, 0x28, 0xae, 0xd2, 0xa6,
         0xab, 0xf7, 0x15, 0x88, 0x09, 0xcf, 0x4f, 0x3c] 16).bind
      (fun kd => aes_encrypt_n wbits
        [0x32, 0x43, 0xf6, 0xa8, 0x88, 0x5a, 0x30, 0x8d,
         0x31, 0x31, 0x98, 0xa2, 0xe0, 0x37, 0x07, 0x34] 1 kd.EK kd.ME) =
    Except.ok
      [0x39, 0x25, 0x84, 0x1d, 0x02, 0xdc, 0x09, 0xfb,
         0xdc, 0x11, 0x85, 0x97, 0x19, 0x6a, 0x0b, 0x32] := by
  rw [aes_key_schedule_params wbits cls hw hc, aes_encrypt_n_wbits wbits hw]
  decide!

theorem fips197_appendix_B_witness :
    32 ≤ 64 ∧ 4 ≤ 128 ∧
    (aes_key_schedule 64 128
        [0x2b, 0x7e, 0x15, 0x16, 0x28, 0xae, 0xd2, 0xa6,
         0xab, 0xf7, 0x15, 0x88, 0x09, 0xcf, 0x4f, 0x3c] 16).bind
      (fun kd => aes_encrypt_n 64
        [0x32, 0x43, 0xf6, 0xa8, 0x88, 0x5a, 0x30, 0x8d,
         0x31, 0x31, 0x98, 0xa2, 0xe0, 0x37, 0x07, 0x34] 1 kd.EK kd.ME) =
    Except.ok
      [0x39, 0x25, 0x84, 0x1d, 0x02, 0xdc, 0x09, 0xfb,
         0xdc, 0x11, 0x85, 0x97, 0x19, 0x6a, 0x0b, 0x32] :=
  ⟨by decide, by decide, fips197_appendix_B 64 128 (by decide) (by decide)⟩

/-- C3: FIPS-197 Appendix C.1 (AES-128).  For every word width `wbits >= 32` and cache line size
`cls >= 4`, `aes_key_schedule` on the key `000102030405060708090a0b0c0d0e0f`
followed by `aes_encrypt_n` on the single block `00112233445566778899aabbccddeeff` yields exactly
`69c4e0d86a7b0430d8cdb78070b4c55a`. -/
theorem fips197_appendix_C1 (wbits cls : Nat) (hw : 32 ≤ wbits) (hc : 4 ≤ cls) :
    (aes_key_schedule wbits cls
        [0x00, 0x01, 0x02, 0x03, 0x04, 0x05, 0x06, 0x07,
         0x08, 0x09, 0x0a, 0x0b, 0x0c, 0x0d, 0x0e, 0x0f] 16).bind
      (fun kd => aes_encrypt_n wbits
        [0x00, 0x11, 0x22, 0x33, 0x44, 0x55, 0x66, 0x77,
         0x88, 0x99, 0xaa, 0xbb, 0xcc, 0xdd, 0xee, 0xff] 1 kd.EK kd.ME) =
    Except.ok
      [0x69, 0xc4, 0xe0, 0xd8, 0x6a, 0x7b, 0x04, 0x30,
         0xd8, 0xcd, 0xb7, 0x80, 0x70, 0xb4, 0xc5, 0x5a] := by
  rw [aes_key_schedule_params wbits cls hw hc, aes_encrypt_n_wbits wbits hw]
  decide!

theorem fips197_appendix_C1_witness :
    32 ≤ 64 ∧ 4 ≤ 128 ∧
    (aes_key_schedule 64 128
        [0x00, 0x01, 0x02, 0x03, 0x04, 0x05, 0x06, 0x07,
         0x08, 0x09, 0x0a, 0x0b, 0x0c, 0x0d, 0x0e, 0x0f] 16).bind
      (fun kd => aes_encrypt_n 64
        [0x00, 0x11, 0x22, 0x33, 0x44, 0x55, 0x66, 0x77,
         0x88, 0x99, 0xaa, 0xbb, 0xcc, 0xdd, 0xee, 0xff] 1 kd.EK kd.ME) =
    Except.ok
      [0x69, 0xc4, 0xe0, 0xd8, 0x6a, 0x7b, 0x04, 0x30,
         0xd8, 0xcd, 0xb7, 0x80, 0x70, 0xb4, 0xc5, 0x5a] :=
  ⟨by decide, by decide, fips197_appendix_C1 64 128 (by decide) (by decide)⟩

/-- C4: FIPS-197 Appendix C.2 (AES-192).  For every word width `wbits >= 32` and cache line size
`cls >= 4`, `aes_key_schedule` on the key `000102030405060708090a0b0c0d0e0f1011121314151617`
followed by `aes_encrypt_n` on the single block `00112233445566778899aabbccddeeff` yields exactly
`dda97ca4864cdfe06eaf70a0ec0d7191`. -/
theorem fips197_appendix_C2 (wbits cls : Nat) (hw : 32 ≤ wbits) (hc : 4 ≤ cls) :
    (aes_key_schedule wbits cls
        [0x00, 0x01, 0x02, 0x03, 0x04, 0x05, 0x06, 0x07,
         0x08, 0x09, 0x0a, 0x0b, 0x0c, 0x0d, 0x0e, 0x0f,
         0x10, 0x11, 0x12, 0x13, 0x14, 0x15, 0x16, 0x17] 24).bind
      (fun kd => aes_encrypt_n wbits
        [0x00, 0x11, 0x22, 0x33, 0x44, 0x55, 0x66, 0x77,
         0x88, 0x99, 0xaa, 0xbb, 0xcc, 0xdd, 0xee, 0xff] 1 kd.EK kd.ME) =
    Except.ok
      [0xdd, 0xa9, 0x7c, 0xa4, 0x86, 0x4c, 0xdf, 0xe0,
         0x6e, 0xaf, 0x70, 0xa0, 0xec, 0x0d, 0x71, 0x91] := by
  rw [aes_key_schedule_params wbits cls hw hc, aes_encrypt_n_wbits wbits hw]
  decide!

theorem fips197_appendix_C2_witness :
    32 ≤ 64 ∧ 4 ≤ 128 ∧
    (aes_key_schedule 64 128
        [0x00, 0x01, 0x02, 0x03, 0x04, 0x05, 0x06, 0x07,
         0x08, 0x09, 0x0a, 0x0b, 0x0c, 0x0d, 0x0e, 0x0f,
         0x10, 0x11, 0x12, 0x13, 0x14, 0x15, 0x16, 0x17] 24).bind
      (fun kd => aes_encrypt_n 64
        [0x00, 0x11, 0x22, 0x33, 0x44, 0x55, 0x66, 0x77,
         0x88, 0x99, 0xaa, 0xbb, 0xcc, 0xdd, 0xee, 0xff] 1 kd.EK kd.ME) =
    Except.ok
      [0xdd, 0xa9, 0x7c, 0xa4, 0x86, 0x4c, 0xdf, 0xe0,
         0x6e, 0xaf, 0x70, 0xa0, 0xec, 0x0d, 0x71, 0x91] :=
  ⟨by decide, by decide, fips197_appendix_C2 64 128 (by decide) (by decide)⟩

/-- C5: FIPS-197 Appendix C.3 (AES-256).  For every word width `wbits >= 32` and cache line size
`cls >= 4`, `aes_key_schedule` on the key `000102030405060708090a0b0c0d0e0f101112131415161718191a1b1c1d1e1f`
followed by `aes_encrypt_n` on the single block `00112233445566778899aabbccddeeff` yields exactly
`8ea2b7ca516745bfeafc49904b496089`. -/
theorem fips197_appendix_C3 (wbits cls : Nat) (hw : 32 ≤ wbits) (hc : 4 ≤ cls) :
    (aes_key_schedule wbits cls
        [0x00, 0x01, 0x02, 0x03, 0x04, 0x05, 0x06, 0x07,
         0x08, 0x09, 0x0a, 0x0b, 0x0c, 0x0d, 0x0e, 0x0f,
         0x10, 0x11, 0x12, 0x13, 0x14, 0x15, 0x16, 0x17,
         0x18, 0x19, 0x1a, 0x1b, 0x1c, 0x1d, 0x1e, 0x1f] 32).bind
      (fun kd => aes_encrypt_n wbits
        [0x00, 0x11, 0x22, 0x33, 0x44, 0x55, 0x66, 0x77,
         0x88, 0x99, 0xaa, 0xbb, 0xcc, 0xdd, 0xee, 0xff] 1 kd.EK kd.ME) =
    Except.ok
      [0x8e, 0xa2, 0xb7, 0xca, 0x51, 0x67, 0x45, 0xbf,
         0xea, 0xfc, 0x49, 0x90, 0x4b, 0x49, 0x60, 0x89] := by
  rw [aes_key_schedule_params wbits cls hw hc, aes_encrypt_n_wbits wbits hw]
  decide!

theorem fips197_appendix_C3_witness :
    32 ≤ 64 ∧ 4 ≤ 128 ∧
    (aes_key_schedule 64 128
        [0x00, 0x01, 0x02, 0x03, 0x04, 0x05, 0x06, 0x07,
         0x08, 0x09, 0x0a, 0x0b, 0x0c, 0x0d, 0x0e, 0x0f,
         0x10, 0x11, 0x12, 0x13, 0x14, 0x15, 0x16, 0x17,
         0x18, 0x19, 0x1a, 0x1b, 0x1c, 0x1d, 0x1e, 0x1f] 32).bind
      (fun kd => aes_encrypt_n 64
        [0x00, 0x11, 0x22, 0x33, 0x44, 0x55, 0x66, 0x77,
         0x88, 0x99, 0xaa, 0xbb, 0xcc, 0xdd, 0xee, 0xff] 1 kd.EK kd.ME) =
    Except.ok
      [0x8e, 0xa2, 0xb7, 0xca, 0x51, 0x67, 0x45, 0xbf,
         0xea, 0xfc, 0x49, 0x90, 0x4b, 0x49, 0x60, 0x89] :=
  ⟨by decide, by decide, fips197_appendix_C3 64 128 (by decide) (by decide)⟩

/-! ## The decryption schedule, key lengths, key state -/

/-- C11: InvMixColumns invariant.  For every key of 16, 24 or 32 bytes
(`Nr = length / 4 + 6` is 10, 12 or 14), every word width `wbits >= 16` and
cache line size `cls >= 4`, the key schedule succeeds, `EK` is the first `4 Nr`
words of the forward expanded key `W`, and for every interior round `r` with
`1 <= r <= Nr - 1` and every column `c < 4` the word `DK[4r + c]` is
InvMixColumns, the product with the matrix
`[0E 0B 0D 09; 09 0E 0B 0D; 0D 09 0E 0B; 0B 0D 09 0E]` over GF(2^8), of the
forward round-key column `W[4(Nr - r) + c]`. -/
theorem DK_is_InvMixColumns_of_forward_round_keys (wbits cls : Nat) (hw : 16 ≤ wbits)
    (hc : 4 ≤ cls) (key : List Nat)
    (hk : key.length = 16 ∨ key.length = 24 ∨ key.length = 32) :
    ∃ kd, aes_key_schedule wbits cls key key.length = Except.ok kd ∧
      kd.EK = (key_expansion wbits key key.length 0).take (4 * (key.length / 4 + 6)) ∧
      ∀ r c, 1 ≤ r → r ≤ key.length / 4 + 6 - 1 → c < 4 →
        kd.DK.getD (4 * r + c) 0 =
          InvMixColumns_word ((key_expansion wbits key key.length 0).getD
            (4 * (key.length / 4 + 6 - r) + c) 0) := by
  rcases hk with h | h | h
  · rw [h]
    have hks := aes_key_schedule_16 wbits cls hw hc key
    generalize key_expansion wbits key 16 0 = W at hks ⊢
    refine ⟨KeyData.mk (W.take 40) (DK_16 W) (ME_16 W) (MD_of W), hks, ?_, ?_⟩
    · show W.take 40 = W.take (4 * (16 / 4 + 6))
      norm_num
    · intro r c h1 h2 h3
      simp only [Nat.reduceDiv, Nat.reduceAdd, Nat.reduceSub] at h2 ⊢
      rw [DK_16_getD W r c h1 h2 h3, inv_mix_word_eq_ref]
  · rw [h]
    have hks := aes_key_schedule_24 wbits cls hw hc key
    generalize key_expansion wbits key 24 0 = W at hks ⊢
    refine ⟨KeyData.mk (W.take 48) (DK_24 W) (ME_24 W) (MD_of W), hks, ?_, ?_⟩
    · show W.take 48 = W.take (4 * (24 / 4 + 6))
      norm_num
    · intro r c h1 h2 h3
      simp only [Nat.reduceDiv, Nat.reduceAdd, Nat.reduceSub] at h2 ⊢
      rw [DK_24_getD W r c h1 h2 h3, inv_mix_word_eq_ref]
  · rw [h]
    have hks := aes_key_schedule_32 wbits cls hw hc key
    generalize key_expansion wbits key 32 0 = W at hks ⊢
    refine ⟨KeyData.mk (W.take 56) (DK_32 W) (ME_32 W) (MD_of W), hks, ?_, ?_⟩
    · show W.take 56 = W.take (4 * (32 / 4 + 6))
      norm_num
    · intro r c h1 h2 h3
      simp only [Nat.reduceDiv, Nat.reduceAdd, Nat.reduceSub] at h2 ⊢
      rw [DK_32_getD W r c h1 h2 h3, inv_mix_word_eq_ref]

theorem DK_is_InvMixColumns_of_forward_round_keys_witness :
    16 ≤ 32 ∧ 4 ≤ 64 ∧
    ((List.range 16).length = 16 ∨ (List.range 16).length = 24 ∨
      (List.range 16).length = 32) ∧
    ∃ kd, aes_key_schedule 32 64 (List.range 16) (List.range 16).length = Except.ok kd ∧
      kd.EK = (key_expansion 32 (List.range 16) (List.range 16).length 0).take
        (4 * ((List.range 16).length / 4 + 6)) ∧
      ∀ r c, 1 ≤ r → r ≤ (List.range 16).length / 4 + 6 - 1 → c < 4 →
        kd.DK.getD (4 * r + c) 0 =
          InvMixColumns_word ((key_expansion 32 (List.range 16) (List.range 16).length 0).getD
            (4 * ((List.range 16).length / 4 + 6 - r) + c) 0) :=
  ⟨by decide, by decide, by decide,
    DK_is_InvMixColumns_of_forward_round_keys 32 64 (by decide) (by decide) (List.range 16)
      (by decide)⟩

/-- C12: setting a key whose length is not 16, 24 or 32 bytes fails with
`Invalid_Key_Length` and leaves the object as it was; in particular so do keys
of 15, 17, 20, 25, 31 and 33 bytes.  The key schedule's own argument check is on
`X = length / 4`: it throws `Invalid_Argument` exactly when `X` is not 4, 6 or 8. -/
theorem set_key_rejects_other_key_lengths (wbits cls : Nat) (self : AES) (key : List Nat)
    (length : Nat) (h : ¬ (length = 16 ∨ length = 24 ∨ length = 32)) :
    AES.set_key wbits cls self key length = (Except.error AesError.invalid_key_length, self) ∧
    ((AES.key_schedule wbits cls self key length).1 = Except.error AesError.invalid_argument ↔
      ¬ (length / 4 = 4 ∨ length / 4 = 6 ∨ length / 4 = 8)) := by
  refine ⟨?_, ?_⟩
  · unfold AES.set_key
    rw [if_neg h]
  · unfold AES.key_schedule
    rw [aes_key_schedule_refs_eq]
    unfold aes_key_schedule
    simp only []
    by_cases hX : length / 4 = 4 ∨ length / 4 = 6 ∨ length / 4 = 8
    · rw [if_neg (not_not.mpr hX)]
      simp only [hX, not_true_eq_false, iff_false]
      cases prefetch AES_TD (cls / 4) 257 0 0 with
      | none => simp
      | some Z =>
        simp only []
        cases xdk_sbox_loop wbits (length + 24) (length + 24) 4 _ with
        | none => simp
        | some XDK => simp
    · rw [if_pos hX]
      simp only [hX, not_false_eq_true]

theorem set_key_rejects_other_key_lengths_witness :
    (¬ (15 = 16 ∨ 15 = 24 ∨ 15 = 32) ∧
      AES.set_key 32 64 AES.fresh (List.replicate 15 0) 15 =
        (Except.error AesError.invalid_key_length, AES.fresh)) ∧
    (¬ (17 = 16 ∨ 17 = 24 ∨ 17 = 32) ∧
      AES.set_key 32 64 AES.fresh (List.replicate 17 0) 17 =
        (Except.error AesError.invalid_key_length, AES.fresh)) ∧
    (¬ (20 = 16 ∨ 20 = 24 ∨ 20 = 32) ∧
      AES.set_key 32 64 AES.fresh (List.replicate 20 0) 20 =
        (Except.error AesError.invalid_key_length, AES.fresh)) ∧
    (¬ (25 = 16 ∨ 25 = 24 ∨ 25 = 32) ∧
      AES.set_key 32 64 AES.fresh (List.replicate 25 0) 25 =
        (Except.error AesError.invalid_key_length, AES.fresh)) ∧
    (¬ (31 = 16 ∨ 31 = 24 ∨ 31 = 32) ∧
      AES.set_key 32 64 AES.fresh (List.replicate 31 0) 31 =
        (Except.error AesError.invalid_key_length, AES.fresh)) ∧
    (¬ (33 = 16 ∨ 33 = 24 ∨ 33 = 32) ∧
      AES.set_key 32 64 AES.fresh (List.replicate 33 0) 33 =
        (Except.error AesError.invalid_key_length, AES.fresh)) :=
  ⟨⟨by decide, (set_key_rejects_other_key_lengths 32 64 AES.fresh _ 15 (by decide)).1⟩,
    ⟨by decide, (set_key_rejects_other_key_lengths 32 64 AES.fresh _ 17 (by decide)).1⟩,
    ⟨by decide, (set_key_rejects_other_key_lengths 32 64 AES.fresh _ 20 (by decide)).1⟩,
    ⟨by decide, (set_key_rejects_other_key_lengths 32 64 AES.fresh _ 25 (by decide)).1⟩,
    ⟨by decide, (set_key_rejects_other_key_lengths 32 64 AES.fresh _ 31 (by decide)).1⟩,
    ⟨by decide, (set_key_rejects_other_key_lengths 32 64 AES.fresh _ 33 (by decide)).1⟩⟩

/-- C13: atomicity of a rejected key.  Whenever the key schedule throws (as it
does on a key length that it rejects), `EK`, `DK`, `ME` and `MD` are what they
were before the call, so that `encrypt_n` and `decrypt_n` behave afterwards as
they did before: a keyed object keeps its old key and an object without key
stays without key. -/
theorem rejected_key_leaves_state_unchanged (wbits cls : Nat) (self : AES) (key : List Nat)
    (length : Nat) (e : AesError)
    (h : (AES.key_schedule wbits cls self key length).1 = Except.error e) :
    (AES.key_schedule wbits cls self key length).2 = self ∧
    (∀ inp n, AES.encrypt_n wbits (AES.key_schedule wbits cls self key length).2 inp n =
      AES.encrypt_n wbits self inp n) ∧
    (∀ inp n, AES.decrypt_n cls (AES.key_schedule wbits cls self key length).2 inp n =
      AES.decrypt_n cls self inp n) := by
  have hs : (AES.key_schedule wbits cls self key length).2 = self :=
    aes_key_schedule_refs_error wbits cls key length self e h
  refine ⟨hs, fun inp n => ?_, fun inp n => ?_⟩
  · rw [hs]
  · rw [hs]

theorem rejected_key_leaves_state_unchanged_witness :
    (AES.key_schedule 32 64 (KeyData.mk [1, 2, 3, 4] [5, 6, 7, 8] [9] [10])
      (List.replicate 15 0) 15).1 = Except.error AesError.invalid_argument ∧
    ((AES.key_schedule 32 64 (KeyData.mk [1, 2, 3, 4] [5, 6, 7, 8] [9] [10])
      (List.replicate 15 0) 15).2 = KeyData.mk [1, 2, 3, 4] [5, 6, 7, 8] [9] [10] ∧
    (∀ inp n, AES.encrypt_n 32 (AES.key_schedule 32 64
        (KeyData.mk [1, 2, 3, 4] [5, 6, 7, 8] [9] [10]) (List.replicate 15 0) 15).2 inp n =
      AES.encrypt_n 32 (KeyData.mk [1, 2, 3, 4] [5, 6, 7, 8] [9] [10]) inp n) ∧
    (∀ inp n, AES.decrypt_n 64 (AES.key_schedule 32 64
        (KeyData.mk [1, 2, 3, 4] [5, 6, 7, 8] [9] [10]) (List.replicate 15 0) 15).2 inp n =
      AES.decrypt_n 64 (KeyData.mk [1, 2, 3, 4] [5, 6, 7, 8] [9] [10]) inp n)) :=
  ⟨rfl, rejected_key_leaves_state_unchanged 32 64 _ _ 15 AesError.invalid_argument rfl⟩

/-- C14: `encrypt_n` and `decrypt_n` fail with `Key_Not_Set` whenever no key is
set: when `m_EK` (for `encrypt_n`) or `m_DK` (for `decrypt_n`) is empty, as on a
fresh object, and after `clear()`, which empties the four vectors.  After a key
schedule that returned normally they do not fail (for cache lines of at least
4 bytes, without which the prefetch loop of `aes_decrypt_n` does not advance). -/
theorem encrypt_n_decrypt_n_need_a_key (wbits cls : Nat) (hc : 4 ≤ cls) (self : AES)
    (inp : List Nat) (n : Nat) :
    (self.EK = [] → AES.encrypt_n wbits self inp n = Except.error AesError.key_not_set) ∧
    (self.DK = [] → AES.decrypt_n cls self inp n = Except.error AesError.key_not_set) ∧
    AES.encrypt_n wbits AES.fresh inp n = Except.error AesError.key_not_set ∧
    AES.decrypt_n cls AES.fresh inp n = Except.error AesError.key_not_set ∧
    AES.clear self = KeyData.mk [] [] [] [] ∧
    AES.encrypt_n wbits (AES.clear self) inp n = Except.error AesError.key_not_set ∧
    AES.decrypt_n cls (AES.clear self) inp n = Except.error AesError.key_not_set ∧
    (∀ key length, (AES.key_schedule wbits cls self key length).1 = Except.ok () →
      (∃ out, AES.encrypt_n wbits (AES.key_schedule wbits cls self key length).2 inp n =
        Except.ok out) ∧
      (∃ out, AES.decrypt_n cls (AES.key_schedule wbits cls self key length).2 inp n =
        Except.ok out)) := by
  refine ⟨?_, ?_, rfl, rfl, rfl, rfl, rfl, ?_⟩
  · intro h
    unfold AES.encrypt_n
    rw [h]
    rfl
  · intro h
    unfold AES.decrypt_n
    rw [h]
    rfl
  · intro key length hok
    unfold AES.key_schedule at hok ⊢
    have hEK := key_schedule_ok_lengths wbits cls key length self hok
    obtain ⟨h1, h2, h3, h4⟩ := hEK
    generalize (aes_key_schedule_refs wbits cls key length self).2 = st at h1 h2 h3 h4
    refine ⟨?_, ?_⟩
    · exact ⟨_, AES.encrypt_n_keyed wbits st inp n h1 h3⟩
    · exact ⟨_, AES.decrypt_n_keyed cls hc st inp n h2 h4⟩

theorem encrypt_n_decrypt_n_need_a_key_witness :
    4 ≤ 64 ∧
    AES.encrypt_n 32 AES.fresh (List.replicate 16 0) 1 = Except.error AesError.key_not_set ∧
    AES.decrypt_n 64 AES.fresh (List.replicate 16 0) 1 = Except.error AesError.key_not_set ∧
    AES.encrypt_n 32 (AES.clear (KeyData.mk [1, 2, 3, 4] [5, 6, 7, 8] [9] [10]))
      (List.replicate 16 0) 1 = Except.error AesError.key_not_set ∧
    ((AES.key_schedule 32 64 AES.fresh (List.range 16) 16).1 = Except.ok () ∧
      (∃ out, AES.encrypt_n 32 (AES.key_schedule 32 64 AES.fresh (List.range 16) 16).2
        (List.replicate 16 0) 1 = Except.ok out) ∧
      (∃ out, AES.decrypt_n 64 (AES.key_schedule 32 64 AES.fresh (List.range 16) 16).2
        (List.replicate 16 0) 1 = Except.ok out)) :=
  ⟨by decide,
    (encrypt_n_decrypt_n_need_a_key 32 64 (by decide) AES.fresh (List.replicate 16 0) 1).2.2.1,
    (encrypt_n_decrypt_n_need_a_key 32 64 (by decide) AES.fresh (List.replicate 16 0) 1).2.2.2.1,
    (encrypt_n_decrypt_n_need_a_key 32 64 (by decide) (KeyData.mk [1, 2, 3, 4] [5, 6, 7, 8] [9]
      [10]) (List.replicate 16 0) 1).2.2.2.2.2.1,
    key_schedule_16_ok 32 64 (by decide) (by decide) AES.fresh (List.range 16),
    (encrypt_n_decrypt_n_need_a_key 32 64 (by decide) AES.fresh (List.replicate 16 0)
      1).2.2.2.2.2.2.2 (List.range 16) 16
      (key_schedule_16_ok 32 64 (by decide) (by decide) AES.fresh (List.range 16))⟩

/-! ## Operation in place, the steps of a run, the parallelism hint -/

/-- C15: operation in place.  For every `n`, every buffer of at least `16 n`
bytes and every `EK`, `ME` (`DK`, `MD`), `aes_encrypt_n` (`aes_decrypt_n`) called
with `out == in` has the outcome of the call with a separate `out`, and on
success the first `16 n` bytes of the buffer are the bytes that the call with
a separate `out` writes; the bytes after them are untouched. -/
theorem aes_in_place_equals_separate_buffers (wbits cls : Nat) (buf : List Nat) (n : Nat)
    (EK ME DK MD : List Nat) (h : 16 * n ≤ buf.length) :
    aes_encrypt_n_inplace wbits buf n EK ME =
      (aes_encrypt_n wbits buf n EK ME).map (fun out => out ++ buf.drop (16 * n)) ∧
    aes_decrypt_n_inplace cls buf n DK MD =
      (aes_decrypt_n cls buf n DK MD).map (fun out => out ++ buf.drop (16 * n)) :=
  ⟨aes_encrypt_n_inplace_eq wbits buf n EK ME h, aes_decrypt_n_inplace_eq cls buf n DK MD h⟩

theorem aes_in_place_equals_separate_buffers_witness :
    16 * 3 ≤ (List.range 48).length ∧
    aes_encrypt_n_inplace 32 (List.range 48) 3 (List.range 44) (List.range 16) =
      (aes_encrypt_n 32 (List.range 48) 3 (List.range 44) (List.range 16)).map
        (fun out => out ++ (List.range 48).drop (16 * 3)) ∧
    aes_decrypt_n_inplace 64 (List.range 48) 3 (List.range 44) (List.range 16) =
      (aes_decrypt_n 64 (List.range 48) 3 (List.range 44) (List.range 16)).map
        (fun out => out ++ (List.range 48).drop (16 * 3)) :=
  ⟨by decide, aes_in_place_equals_separate_buffers 32 64 (List.range 48) 3 (List.range 44)
    (List.range 16) (List.range 44) (List.range 16) (by decide)⟩

/-- C16: constant-time encrypt path.  The instrumented `aes_encrypt_n` returns
what `aes_encrypt_n` returns; two runs with the same block count, the same size
of `EK` and the same size of `ME` (16 bytes on every keyed object) make the same
steps in the same order, whatever the plaintexts and the round keys: the same
indices of `in`, `EK` and `ME` are read, the same indices of `out` are written
and the loop tests have the same outcomes; and no step indexes `SE`, `SD` or
`TD`. -/
theorem aes_encrypt_n_steps_do_not_depend_on_data (wbits blocks : Nat)
    (inp inp2 EK EK2 ME ME2 : List Nat) (hEK : EK.length = EK2.length)
    (hME : ME.length = ME2.length) :
    (aes_encrypt_n_tr wbits inp blocks EK ME).val = aes_encrypt_n wbits inp blocks EK ME ∧
    (aes_encrypt_n_tr wbits inp blocks EK ME).log =
      (aes_encrypt_n_tr wbits inp2 blocks EK2 ME2).log ∧
    (∀ a ∈ (aes_encrypt_n_tr wbits inp blocks EK ME).log, Access.is_table a = false) := by
  rw [aes_encrypt_n_tr_eq, aes_encrypt_n_tr_eq, hEK, hME]
  exact ⟨rfl, rfl, aes_encrypt_n_shape_no_table _ _ _⟩

theorem aes_encrypt_n_steps_do_not_depend_on_data_witness :
    (List.range 44).length = (List.replicate 44 7).length ∧
    (List.range 16).length = (List.replicate 16 9).length ∧
    (aes_encrypt_n_tr 32 (List.range 48) 3 (List.range 44) (List.range 16)).val =
      aes_encrypt_n 32 (List.range 48) 3 (List.range 44) (List.range 16) ∧
    (aes_encrypt_n_tr 32 (List.range 48) 3 (List.range 44) (List.range 16)).log =
      (aes_encrypt_n_tr 32 (List.replicate 48 255) 3 (List.replicate 44 7)
        (List.replicate 16 9)).log ∧
    (∀ a ∈ (aes_encrypt_n_tr 32 (List.range 48) 3 (List.range 44) (List.range 16)).log,
      Access.is_table a = false) :=
  ⟨by decide, by decide, aes_encrypt_n_steps_do_not_depend_on_data 32 3 (List.range 48)
    (List.replicate 48 255) (List.range 44) (List.replicate 44 7) (List.range 16)
    (List.replicate 16 9) (by decide) (by decide)⟩

/-- C17: prefetch coverage.  For cache lines of 64 bytes, every call of the
instrumented `aes_decrypt_n` returns what `aes_decrypt_n` returns, and when it
passes the entry assertion its steps are those of the preamble followed by those
of the block loop (otherwise it makes no step).  The table reads of the
preamble do not depend on the input or the key: they are `TD[0]`, `TD[16]`, ...,
`TD[240]`, `SD[0]`, `SD[64]`, `SD[128]`, `SD[192]` and `TD[99]`, so one element of
each of the 16 segments of 16 words of `TD` and of each of the 4 segments of 64
bytes of `SD` is read before the first lookup of the block loop. -/
theorem aes_decrypt_n_prefetch_covers_TD_and_SD (inp : List Nat) (blocks : Nat)
    (DK MD : List Nat) :
    (aes_decrypt_n_tr 64 inp blocks DK MD).val = aes_decrypt_n 64 inp blocks DK MD ∧
    (aes_decrypt_n_tr 64 inp blocks DK MD).log =
      (if DK.length ≠ 0 ∧ MD.length = 16 then
        (decrypt_prefetch_tr 64).log ++ (decrypt_loop_tr inp 0 DK MD blocks 0).log
      else []) ∧
    (decrypt_prefetch_tr 64).log.filter Access.is_table = preamble_reads_64 ∧
    (∀ s, s < 16 → ∃ i, Access.read_TD i ∈ preamble_reads_64 ∧ i / 16 = s) ∧
    (∀ s, s < 4 → ∃ i, Access.read_SD i ∈ preamble_reads_64 ∧ i / 64 = s) :=
  ⟨aes_decrypt_n_tr_val 64 inp blocks DK MD, aes_decrypt_n_tr_log_64 inp blocks DK MD,
    decrypt_prefetch_tr_64_log, preamble_reads_64_TD, preamble_reads_64_SD⟩

theorem aes_decrypt_n_prefetch_covers_TD_and_SD_witness :
    (aes_decrypt_n_tr 64 (List.range 16) 1 (List.range 44) (List.range 16)).log =
      (decrypt_prefetch_tr 64).log ++
        (decrypt_loop_tr (List.range 16) 0 (List.range 44) (List.range 16) 1 0).log ∧
    (∃ i, Access.read_TD i ∈ preamble_reads_64 ∧ i / 16 = 15) ∧
    (∃ i, Access.read_SD i ∈ preamble_reads_64 ∧ i / 64 = 3) :=
  ⟨(aes_decrypt_n_prefetch_covers_TD_and_SD (List.range 16) 1 (List.range 44)
      (List.range 16)).2.1,
    (aes_decrypt_n_prefetch_covers_TD_and_SD (List.range 16) 1 (List.range 44)
      (List.range 16)).2.2.2.1 15 (by decide),
    (aes_decrypt_n_prefetch_covers_TD_and_SD (List.range 16) 1 (List.range 44)
      (List.range 16)).2.2.2.2 3 (by decide)⟩

/-- C18: `aes_parallelism` returns 2 exactly when vperm is the selected back end,
that is when `aes_provider` returns "vperm": vperm is compiled in and detected
and none of AES-NI, POWER8 crypto and ARMv8 AES is compiled in and detected.  In
every other case it returns 4, also on the bitsliced base path where no
hardware back end is detected. -/
theorem aes_parallelism_is_2_exactly_for_vperm (build : Build) (cpu : CPUID) :
    (aes_parallelism build cpu = 2 ↔ aes_provider build cpu = "vperm") ∧
    (aes_parallelism build cpu = 2 ↔
      (build.has_aes_vperm && cpu.has_vperm) = true ∧
      (build.has_aes_ni && cpu.has_aes_ni) = false ∧
      (build.has_aes_power8 && cpu.has_power_crypto) = false ∧
      (build.has_aes_armv8 && cpu.has_arm_aes) = false) ∧
    (aes_parallelism build cpu = 2 ∨ aes_parallelism build cpu = 4) ∧
    aes_parallelism build (CPUID.mk false false false false) = 4 ∧
    aes_provider build (CPUID.mk false false false false) = "base" := by
  rcases build with ⟨b1, b2, b3, b4⟩
  rcases cpu with ⟨c1, c2, c3, c4⟩
  cases b1 <;> cases b2 <;> cases b3 <;> cases b4 <;>
  cases c1 <;> cases c2 <;> cases c3 <;> cases c4 <;>
  simp [aes_parallelism, aes_provider]

theorem aes_parallelism_is_2_exactly_for_vperm_witness :
    aes_parallelism (Build.mk true true true true) (CPUID.mk false false false true) = 2 ∧
    aes_parallelism (Build.mk true true true true) (CPUID.mk true false false true) = 4 ∧
    aes_parallelism (Build.mk false false false false) (CPUID.mk true true true true) = 4 :=
  ⟨(aes_parallelism_is_2_exactly_for_vperm (Build.mk true true true true)
      (CPUID.mk false false false true)).2.1.mpr (by decide), by decide, by decide⟩

/-! ## The forward key expansion and the forward round -/

/-- C19: the forward expansion is the KeyExpansion of FIPS-197.  For every key
of `4 X` bytes with `X` in {4, 6, 8} (`Nr = X + 6`), every word width
`wbits >= 16` and cache line size `cls >= 4`, the key schedule succeeds and the
words `W` of its expanded key `XEK` satisfy: `W[i]` is the big-endian word `i` of
the key for `i < X`; for `X <= i < 4 (Nr + 1)`, `W[i]` is
`W[i-X] xor RC[i/X - 1] xor SubWord(rotl8(W[i-1]))` when `i mod X = 0`,
`W[i-X] xor SubWord(W[i-1])` when `X = 8` and `i mod X = 4`, and
`W[i-X] xor W[i-1]` otherwise; `EK` is `W[0 .. 4 Nr)`; and `RC[k]` has the byte
`{01, 02, 04, 08, 10, 20, 40, 80, 1B, 36}[k]` in its high byte and zeros below. -/
theorem key_expansion_is_FIPS197_KeyExpansion (wbits cls : Nat) (hw : 16 ≤ wbits) (hc : 4 ≤ cls)
    (key : List Nat) (hk : key.length = 16 ∨ key.length = 24 ∨ key.length = 32) :
    ∃ kd, aes_key_schedule wbits cls key key.length = Except.ok kd ∧
      (∀ i, i < key.length / 4 →
        (key_expansion wbits key key.length 0).getD i 0 = load_be key i) ∧
      (∀ i, key.length / 4 ≤ i → i < 4 * (key.length / 4 + 6 + 1) →
        (key_expansion wbits key key.length 0).getD i 0 =
          KeyExpansion_word (key.length / 4) (key_expansion wbits key key.length 0) i) ∧
      kd.EK = (key_expansion wbits key key.length 0).take (4 * (key.length / 4 + 6)) ∧
      (∀ k, k < 10 → RC k = Rcon_bytes.getD k 0 <<< 24 ∧
        get_byte 0 (RC k) = Rcon_bytes.getD k 0) := by
  obtain ⟨h1, h2⟩ := key_expansion_spec wbits (by omega) key key.length hk
  have hRC : ∀ k, k < 10 → RC k = Rcon_bytes.getD k 0 <<< 24 ∧
      get_byte 0 (RC k) = Rcon_bytes.getD k 0 := by decide
  rcases hk with h | h | h
  · rw [h] at h1 h2 ⊢
    have hks := aes_key_schedule_16 wbits cls hw hc key
    generalize key_expansion wbits key 16 0 = W at hks h1 h2 ⊢
    refine ⟨KeyData.mk (W.take 40) (DK_16 W) (ME_16 W) (MD_of W), hks, h1, h2, ?_, hRC⟩
    show W.take 40 = W.take (4 * (16 / 4 + 6))
    norm_num
  · rw [h] at h1 h2 ⊢
    have hks := aes_key_schedule_24 wbits cls hw hc key
    generalize key_expansion wbits key 24 0 = W at hks h1 h2 ⊢
    refine ⟨KeyData.mk (W.take 48) (DK_24 W) (ME_24 W) (MD_of W), hks, h1, h2, ?_, hRC⟩
    show W.take 48 = W.take (4 * (24 / 4 + 6))
    norm_num
  · rw [h] at h1 h2 ⊢
    have hks := aes_key_schedule_32 wbits cls hw hc key
    generalize key_expansion wbits key 32 0 = W at hks h1 h2 ⊢
    refine ⟨KeyData.mk (W.take 56) (DK_32 W) (ME_32 W) (MD_of W), hks, h1, h2, ?_, hRC⟩
    show W.take 56 = W.take (4 * (32 / 4 + 6))
    norm_num

theorem key_expansion_is_FIPS197_KeyExpansion_witness :
    16 ≤ 32 ∧ 4 ≤ 64 ∧
    ((List.range 32).length = 16 ∨ (List.range 32).length = 24 ∨
      (List.range 32).length = 32) ∧
    ∃ kd, aes_key_schedule 32 64 (List.range 32) (List.range 32).length = Except.ok kd ∧
      (∀ i, i < (List.range 32).length / 4 →
        (key_expansion 32 (List.range 32) (List.range 32).length 0).getD i 0 =
          load_be (List.range 32) i) ∧
      (∀ i, (List.range 32).length / 4 ≤ i → i < 4 * ((List.range 32).length / 4 + 6 + 1) →
        (key_expansion 32 (List.range 32) (List.range 32).length 0).getD i 0 =
          KeyExpansion_word ((List.range 32).length / 4)
            (key_expansion 32 (List.range 32) (List.range 32).length 0) i) ∧
      kd.EK = (key_expansion 32 (List.range 32) (List.range 32).length 0).take
        (4 * ((List.range 32).length / 4 + 6)) ∧
      (∀ k, k < 10 → RC k = Rcon_bytes.getD k 0 <<< 24 ∧
        get_byte 0 (RC k) = Rcon_bytes.getD k 0) :=
  ⟨by decide, by decide, by decide,
    key_expansion_is_FIPS197_KeyExpansion 32 64 (by decide) (by decide) (List.range 32)
      (by decide)⟩

/-- C20: one forward round.  For all words `B0`, ..., `B3` and `K0`, ..., `K3`,
every word width `wbits >= 16` and every column `c < 4`, the four-word `aes_enc_r`
leaves `B'_c = K_c xor M * (SE[byte0(B_c)], SE[byte1(B_{c+1})], SE[byte2(B_{c+2})],
SE[byte3(B_{c+3})])` with indices modulo 4 and `M = [2 3 1 1; 1 2 3 1; 1 1 2 3;
3 1 1 2]` over GF(2^8), the row `r` of the product being the byte `r` of the word:
AddRoundKey after MixColumns after ShiftRows after SubBytes on the column-major
state. -/
theorem aes_enc_r_is_one_forward_round (wbits : Nat) (hw : 16 ≤ wbits) (B : Words4)
    (K0 K1 K2 K3 : Nat) (c : Nat) (hc : c < 4) :
    (aes_enc_r wbits B K0 K1 K2 K3).get c =
      (Words4.mk K0 K1 K2 K3).get c ^^^
        word_of_column (gf256_mat_vec mix_matrix (sub_shift_column B c)) ∧
    (∀ r, r < 4 → get_byte r ((aes_enc_r wbits B K0 K1 K2 K3).get c) =
      get_byte r ((Words4.mk K0 K1 K2 K3).get c) ^^^
        (gf256_mat_vec mix_matrix (sub_shift_column B c)).getD r 0) := by
  refine ⟨aes_enc_r_column wbits hw B K0 K1 K2 K3 c hc, fun r hr => ?_⟩
  rw [aes_enc_r_column wbits hw B K0 K1 K2 K3 c hc, get_byte_xor,
    aes_enc_r_column_bytes B c hc r hr]

theorem aes_enc_r_is_one_forward_round_witness :
    16 ≤ 32 ∧ 2 < 4 ∧
    (aes_enc_r 32 (Words4.mk 0x00112233 0x44556677 0x8899aabb 0xccddeeff) 1 2 3 4).get 2 =
      (Words4.mk 1 2 3 4).get 2 ^^^ word_of_column (gf256_mat_vec mix_matrix
        (sub_shift_column (Words4.mk 0x00112233 0x44556677 0x8899aabb 0xccddeeff) 2)) ∧
    (∀ r, r < 4 → get_byte r ((aes_enc_r 32
        (Words4.mk 0x00112233 0x44556677 0x8899aabb 0xccddeeff) 1 2 3 4).get 2) =
      get_byte r ((Words4.mk 1 2 3 4).get 2) ^^^ (gf256_mat_vec mix_matrix
        (sub_shift_column (Words4.mk 0x00112233 0x44556677 0x8899aabb 0xccddeeff) 2)).getD r 0) :=
  ⟨by decide, by decide,
    aes_enc_r_is_one_forward_round 32 (by decide) _ 1 2 3 4 2 (by decide)⟩

/-! ## Rounds, their count, the final round, buffer sizes -/

/-- C21: one inverse T-table round.  For all words `T0`, ..., `T3`, every key word
`K` and every column `c < 4`, the expression `AES_T` as `aes_decrypt_n` uses it,
`K xor TD[byte0(T_c)] xor rotr8(TD[byte1(T_{c-1})]) xor rotr16(TD[byte2(T_{c-2})])
xor rotr24(TD[byte3(T_{c-3})])` with indices modulo 4, equals `K` xor
InvMixColumns (the matrix `[0E 0B 0D 09; 09 0E 0B 0D; 0D 09 0E 0B; 0B 0D 09 0E]`
over GF(2^8)) of the column `(SD[byte0(T_c)], SD[byte1(T_{c-1})],
SD[byte2(T_{c-2})], SD[byte3(T_{c-3})])`: InvShiftRows, InvSubBytes,
InvMixColumns, then the xor with the word of `DK`.  The four expressions of a
round of `aes_decrypt_n` are the columns 0, ..., 3, and `TD[i]` is the
concatenation of `14 SD[i]`, `9 SD[i]`, `13 SD[i]`, `11 SD[i]`. -/
theorem AES_T_is_one_inverse_round (T : Words4) (K : Nat) (c : Nat) (hc : c < 4) :
    AES_T AES_TD K (T.get (c % 4)) (T.get ((c + 3) % 4)) (T.get ((c + 2) % 4))
        (T.get ((c + 1) % 4)) =
      K ^^^ AES_TD (get_byte 0 (T.get (c % 4))) ^^^
        rotr 8 (AES_TD (get_byte 1 (T.get ((c + 3) % 4)))) ^^^
        rotr 16 (AES_TD (get_byte 2 (T.get ((c + 2) % 4)))) ^^^
        rotr 24 (AES_TD (get_byte 3 (T.get ((c + 1) % 4)))) ∧
    AES_T AES_TD K (T.get (c % 4)) (T.get ((c + 3) % 4)) (T.get ((c + 2) % 4))
        (T.get ((c + 1) % 4)) =
      K ^^^ word_of_column (gf256_mat_vec inv_mix_matrix (inv_shift_sub_column T c)) ∧
    (∀ D0 D1 D2 D3, (dec_round T D0 D1 D2 D3).get c =
      (Words4.mk D0 D1 D2 D3).get c ^^^
        word_of_column (gf256_mat_vec inv_mix_matrix (inv_shift_sub_column T c))) ∧
    (∀ i, i < 256 → AES_TD i = make_uint32 (gf256_mul 14 (SD i)) (gf256_mul 9 (SD i))
      (gf256_mul 13 (SD i)) (gf256_mul 11 (SD i))) := by
  refine ⟨rfl, AES_T_eq_ref K _ _ _ _, ?_, AES_TD_eq_ref⟩
  intro D0 D1 D2 D3
  interval_cases c
  · rw [inv_shift_sub_column_0]
    exact AES_T_eq_ref D0 T.b0 T.b3 T.b2 T.b1
  · rw [inv_shift_sub_column_1]
    exact AES_T_eq_ref D1 T.b1 T.b0 T.b3 T.b2
  · rw [inv_shift_sub_column_2]
    exact AES_T_eq_ref D2 T.b2 T.b1 T.b0 T.b3
  · rw [inv_shift_sub_column_3]
    exact AES_T_eq_ref D3 T.b3 T.b2 T.b1 T.b0

theorem AES_T_is_one_inverse_round_witness :
    1 < 4 ∧
    AES_T AES_TD 5 ((Words4.mk 0x00112233 0x44556677 0x8899aabb 0xccddeeff).get (1 % 4))
        ((Words4.mk 0x00112233 0x44556677 0x8899aabb 0xccddeeff).get ((1 + 3) % 4))
        ((Words4.mk 0x00112233 0x44556677 0x8899aabb 0xccddeeff).get ((1 + 2) % 4))
        ((Words4.mk 0x00112233 0x44556677 0x8899aabb 0xccddeeff).get ((1 + 1) % 4)) =
      5 ^^^ word_of_column (gf256_mat_vec inv_mix_matrix
        (inv_shift_sub_column (Words4.mk 0x00112233 0x44556677 0x8899aabb 0xccddeeff) 1)) :=
  ⟨by decide, (AES_T_is_one_inverse_round
    (Words4.mk 0x00112233 0x44556677 0x8899aabb 0xccddeeff) 5 1 (by decide)).2.1⟩

/-- C22: final forward round byte placement.  For every word width
`wbits >= 32`, every `EK`, every `ME` of 16 bytes, every block `b < n`, row `r < 4`
and column `c < 4`, the byte `out[16b + 4c + r]` written by `aes_encrypt_n` is
byte `r` of `S[(c + r) mod 4]` xor `ME[4c + r]`, where `S` are that block's four
words after the last `SE_word_x4`; the same placement holds in the body of the
one-block loop and, for both blocks, in the body of the two-block loop (where
`S` are the words after `SE_word_x8`, which are block by block those of the
one-block path). -/
theorem final_round_byte_placement (wbits : Nat) (hw : 32 ≤ wbits) (inp EK ME : List Nat)
    (hEK : EK.length ≠ 0) (hME : ME.length = 16) (n b r c : Nat) (hb : b < n) (hr : r < 4)
    (hc : c < 4) :
    (∃ out, aes_encrypt_n wbits inp n EK ME = Except.ok out ∧
      out.getD (16 * b + 4 * c + r) 0 =
        get_byte r ((encrypt_final_words wbits inp b EK).get ((c + r) % 4)) ^^^
          ME.getD (4 * c + r) 0) ∧
    (encrypt_one_block wbits inp b EK ME).getD (4 * c + r) 0 =
      get_byte r ((encrypt_final_words wbits inp b EK).get ((c + r) % 4)) ^^^
        ME.getD (4 * c + r) 0 ∧
    (encrypt_two_blocks wbits inp EK ME).getD (4 * c + r) 0 =
      get_byte r ((encrypt_final_words_x8 wbits inp EK).lo.get ((c + r) % 4)) ^^^
        ME.getD (4 * c + r) 0 ∧
    (encrypt_two_blocks wbits inp EK ME).getD (16 + (4 * c + r)) 0 =
      get_byte r ((encrypt_final_words_x8 wbits inp EK).hi.get ((c + r) % 4)) ^^^
        ME.getD (4 * c + r) 0 ∧
    (encrypt_final_words_x8 wbits inp EK).lo = encrypt_final_words wbits inp 0 EK ∧
    (encrypt_final_words_x8 wbits inp EK).hi = encrypt_final_words wbits inp 1 EK := by
  have h1 : (encrypt_one_block wbits inp b EK ME).getD (4 * c + r) 0 =
      get_byte r ((encrypt_final_words wbits inp b EK).get ((c + r) % 4)) ^^^
        ME.getD (4 * c + r) 0 := by
    rw [encrypt_one_block_eq_final]
    exact enc_final_getD _ ME c r hc hr
  refine ⟨⟨_, aes_encrypt_n_blocks wbits hw inp n EK ME hEK hME, ?_⟩, h1, ?_, ?_,
    (encrypt_final_words_x8_eq wbits hw inp EK).1, (encrypt_final_words_x8_eq wbits hw inp EK).2⟩
  · rw [Nat.add_assoc, getD_flatten_block _ (fun i => encrypt_one_block_length wbits inp i EK ME)
      n b (4 * c + r) hb (by omega)]
    exact h1
  · rw [encrypt_two_blocks_eq_final, getD_append_left _ _ _ _ (by
      show 4 * c + r < 16
      omega)]
    exact enc_final_getD _ ME c r hc hr
  · rw [encrypt_two_blocks_eq_final,
      getD_append_right_16 (enc_final (encrypt_final_words_x8 wbits inp EK).lo ME) _ _ rfl]
    exact enc_final_getD _ ME c r hc hr

theorem final_round_byte_placement_witness :
    32 ≤ 32 ∧ (List.range 40).length ≠ 0 ∧ (List.range 16).length = 16 ∧ 2 < 3 ∧ 3 < 4 ∧ 1 < 4 ∧
    ∃ out, aes_encrypt_n 32 (List.range 48) 3 (List.range 40) (List.range 16) = Except.ok out ∧
      out.getD (16 * 2 + 4 * 1 + 3) 0 =
        get_byte 3 ((encrypt_final_words 32 (List.range 48) 2 (List.range 40)).get
          ((1 + 3) % 4)) ^^^ (List.range 16).getD (4 * 1 + 3) 0 :=
  ⟨by decide, by decide, by decide, by decide, by decide, by decide,
    (final_round_byte_placement 32 (by decide) (List.range 48) (List.range 40) (List.range 16)
      (by decide) (by decide) 3 2 3 1 (by decide) (by decide) (by decide)).1⟩

/-- C23: round count.  For key lengths 16, 24 and 32 (`EK` and `DK` of
`key_len + 24` words, `Nr = key_len / 4 + 6`), every word width `wbits >= 32` and
cache line size `cls >= 4`, `aes_encrypt_n` writes for each block what the initial
xor with `EK[0..3]`, then the `Nr - 1` full rounds with the quartets
`EK[4k..4k+3]` for `k = 1, ..., Nr - 1` in increasing order, then the final round
give; `aes_decrypt_n` writes for each block what the xor with `DK[0..3]`, then
the `Nr - 1` T-table rounds with `DK[4k..4k+3]` for `k = 1, ..., Nr - 1` in
order, then the final round with `SD` give. -/
theorem aes_runs_Nr_minus_1_full_rounds (wbits cls : Nat) (hw : 32 ≤ wbits) (hc : 4 ≤ cls)
    (key_len : Nat) (hk : key_len = 16 ∨ key_len = 24 ∨ key_len = 32)
    (inp : List Nat) (n : Nat) (EK ME DK MD : List Nat)
    (hEK : EK.length = key_len + 24) (hME : ME.length = 16)
    (hDK : DK.length = key_len + 24) (hMD : MD.length = 16) :
    aes_encrypt_n wbits inp n EK ME =
      Except.ok ((List.range n).map (fun b =>
        encrypt_block_rounds wbits (key_len / 4 + 6) (inp.drop (16 * b)) EK ME)).flatten ∧
    aes_decrypt_n cls inp n DK MD =
      Except.ok ((List.range n).map (fun b =>
        decrypt_block_rounds (key_len / 4 + 6) (inp.drop (16 * b)) DK MD)).flatten := by
  obtain ⟨m, hm, hNr⟩ : ∃ m, key_len + 24 = 4 * (2 * m + 2) ∧ key_len / 4 + 6 = 2 * m + 2 := by
    rcases hk with h | h | h
    · exact ⟨4, by omega, by omega⟩
    · exact ⟨5, by omega, by omega⟩
    · exact ⟨6, by omega, by omega⟩
  rw [hNr]
  refine ⟨?_, ?_⟩
  · rw [aes_encrypt_n_blocks wbits hw inp n EK ME (by omega) hME]
    have hf : (fun i => encrypt_one_block wbits inp i EK ME) =
        (fun b => encrypt_block_rounds wbits (2 * m + 2) (inp.drop (16 * b)) EK ME) := by
      funext b
      exact encrypt_one_block_eq_rounds wbits inp b EK ME m (by omega)
    rw [hf]
  · unfold aes_decrypt_n
    rw [if_pos ⟨by omega, hMD⟩, decrypt_prefetch_eq cls hc]
    simp only []
    rw [decrypt_loop_eq]
    have hf : (fun b => decrypt_one_block (inp.drop (16 * b)) 0 DK MD) =
        (fun b => decrypt_block_rounds (2 * m + 2) (inp.drop (16 * b)) DK MD) := by
      funext b
      exact decrypt_one_block_eq_rounds _ DK MD m (by omega)
    rw [hf]

theorem aes_runs_Nr_minus_1_full_rounds_witness :
    32 ≤ 32 ∧ 4 ≤ 64 ∧ (24 = 16 ∨ 24 = 24 ∨ 24 = 32) ∧
    (List.range 48).length = 24 + 24 ∧ (List.range 16).length = 16 ∧
    aes_encrypt_n 32 (List.range 32) 2 (List.range 48) (List.range 16) =
      Except.ok ((List.range 2).map (fun b =>
        encrypt_block_rounds 32 (24 / 4 + 6) ((List.range 32).drop (16 * b)) (List.range 48)
          (List.range 16))).flatten ∧
    aes_decrypt_n 64 (List.range 32) 2 (List.range 48) (List.range 16) =
      Except.ok ((List.range 2).map (fun b =>
        decrypt_block_rounds (24 / 4 + 6) ((List.range 32).drop (16 * b)) (List.range 48)
          (List.range 16))).flatten :=
  ⟨by decide, by decide, by decide, by decide, by decide,
    aes_runs_Nr_minus_1_full_rounds 32 64 (by decide) (by decide) 24 (by decide) (List.range 32) 2
      (List.range 48) (List.range 16) (List.range 48) (List.range 16) (by decide) (by decide)
      (by decide) (by decide)⟩

/-- C24: buffer sizes after the key schedule.  For every key of 16, 24 or 32
bytes, every word width `wbits >= 16` and cache line size `cls >= 4`, and whatever
`EK`, `DK`, `ME` and `MD` held before the call, `aes_key_schedule` returns and
leaves `EK` and `DK` with exactly `key_len + 24` words and `ME` and `MD` with
exactly 16 bytes, so that the assertions at the head of `aes_encrypt_n` and
`aes_decrypt_n` hold and both return normally. -/
theorem key_schedule_sets_buffer_sizes (wbits cls : Nat) (hw : 16 ≤ wbits) (hc : 4 ≤ cls)
    (before : KeyData) (key : List Nat)
    (hk : key.length = 16 ∨ key.length = 24 ∨ key.length = 32) :
    (aes_key_schedule_refs wbits cls key key.length before).1 = Except.ok () ∧
    (aes_key_schedule_refs wbits cls key key.length before).2.EK.length = key.length + 24 ∧
    (aes_key_schedule_refs wbits cls key key.length before).2.DK.length = key.length + 24 ∧
    (aes_key_schedule_refs wbits cls key key.length before).2.ME.length = 16 ∧
    (aes_key_schedule_refs wbits cls key key.length before).2.MD.length = 16 ∧
    (∀ inp n, ∃ out, aes_encrypt_n wbits inp n
      (aes_key_schedule_refs wbits cls key key.length before).2.EK
      (aes_key_schedule_refs wbits cls key key.length before).2.ME = Except.ok out) ∧
    (∀ inp n, ∃ out, aes_decrypt_n cls inp n
      (aes_key_schedule_refs wbits cls key key.length before).2.DK
      (aes_key_schedule_refs wbits cls key key.length before).2.MD = Except.ok out) := by
  have hok := key_schedule_refs_ok wbits cls hw hc before key hk
  obtain ⟨h1, h2, h3, h4⟩ := key_schedule_ok_sizes wbits cls key key.length before hok
  generalize (aes_key_schedule_refs wbits cls key key.length before).2 = st at h1 h2 h3 h4
  refine ⟨hok, h1, h2, h3, h4, fun inp n => ?_, fun inp n => ?_⟩
  · refine ⟨encrypt_loop wbits st.EK st.ME n inp, ?_⟩
    unfold aes_encrypt_n
    rw [if_pos ⟨by omega, h3⟩]
  · refine ⟨decrypt_loop 0 st.DK st.MD n inp, ?_⟩
    unfold aes_decrypt_n
    rw [if_pos ⟨by omega, h4⟩, decrypt_prefetch_eq cls hc]

theorem key_schedule_sets_buffer_sizes_witness :
    16 ≤ 32 ∧ 4 ≤ 64 ∧
    ((List.range 24).length = 16 ∨ (List.range 24).length = 24 ∨
      (List.range 24).length = 32) ∧
    (aes_key_schedule_refs 32 64 (List.range 24) (List.range 24).length
      (KeyData.mk (List.range 100) [] [1, 2, 3] (List.range 40))).1 = Except.ok () ∧
    (aes_key_schedule_refs 32 64 (List.range 24) (List.range 24).length
      (KeyData.mk (List.range 100) [] [1, 2, 3] (List.range 40))).2.EK.length =
        (List.range 24).length + 24 ∧
    (aes_key_schedule_refs 32 64 (List.range 24) (List.range 24).length
      (KeyData.mk (List.range 100) [] [1, 2, 3] (List.range 40))).2.DK.length =
        (List.range 24).length + 24 ∧
    (aes_key_schedule_refs 32 64 (List.range 24) (List.range 24).length
      (KeyData.mk (List.range 100) [] [1, 2, 3] (List.range 40))).2.ME.length = 16 ∧
    (aes_key_schedule_refs 32 64 (List.range 24) (List.range 24).length
      (KeyData.mk (List.range 100) [] [1, 2, 3] (List.range 40))).2.MD.length = 16 :=
  ⟨by decide, by decide, by decide,
    (key_schedule_sets_buffer_sizes 32 64 (by decide) (by decide)
      (KeyData.mk (List.range 100) [] [1, 2, 3] (List.range 40)) (List.range 24) (by decide)).1,
    (key_schedule_sets_buffer_sizes 32 64 (by decide) (by decide)
      (KeyData.mk (List.range 100) [] [1, 2, 3] (List.range 40)) (List.range 24)
      (by decide)).2.1,
    (key_schedule_sets_buffer_sizes 32 64 (by decide) (by decide)
      (KeyData.mk (List.range 100) [] [1, 2, 3] (List.range 40)) (List.range 24)
      (by decide)).2.2.1,
    (key_schedule_sets_buffer_sizes 32 64 (by decide) (by decide)
      (KeyData.mk (List.range 100) [] [1, 2, 3] (List.range 40)) (List.range 24)
      (by decide)).2.2.2.1,
    (key_schedule_sets_buffer_sizes 32 64 (by decide) (by decide)
      (KeyData.mk (List.range 100) [] [1, 2, 3] (List.range 40)) (List.range 24)
      (by decide)).2.2.2.2.1⟩

/-- C25, as the claim states it, fails: for a key of 16 bytes (`Nr = 10`) the key
schedule leaves `EK` with 40 words, not with `4 * (10 + 1) - 16 = 28`. -/
theorem EK_length_is_not_4_Nr_plus_1_minus_16 :
    ∃ kd, aes_key_schedule 32 64 (List.range 16) 16 = Except.ok kd ∧
      kd.EK.length = 40 ∧ ¬ (kd.EK.length = 4 * (10 + 1) - 16) := by
  have hl : ((key_expansion 32 (List.range 16) 16 0).take 40).length = 40 := by
    rw [List.length_take, key_expansion_length]
    rfl
  refine ⟨_, aes_key_schedule_16 32 64 (by decide) (by decide) (List.range 16), hl, ?_⟩
  show ¬ (((key_expansion 32 (List.range 16) 16 0).take 40).length = 4 * (10 + 1) - 16)
  rw [hl]
  decide

/-- C25, amended: the expanded encryption key `EK` produced by the key schedule
has `4 * (Nr + 1) - 4 = 4 * Nr` words, the first `4 * Nr` words of the forward
expansion `W`, and the one-block path reads each of them once, in increasing
order; the 4 further words `W[4 Nr .. 4 Nr + 3]` are folded into the separate
final-round mask `ME` of 16 bytes; for `Nr = 10, 12, 14`. -/
theorem EK_length_is_4_Nr (wbits cls : Nat) (hw : 16 ≤ wbits) (hc : 4 ≤ cls) (key : List Nat)
    (hk : key.length = 16 ∨ key.length = 24 ∨ key.length = 32) :
    ∃ kd, aes_key_schedule wbits cls key key.length = Except.ok kd ∧
      kd.EK.length = 4 * (key.length / 4 + 6 + 1) - 4 ∧
      kd.EK = (key_expansion wbits key key.length 0).take (4 * (key.length / 4 + 6)) ∧
      kd.ME.length = 16 ∧
      kd.ME = round_key_bytes (key_expansion wbits key key.length 0)
        (4 * (key.length / 4 + 6)) ∧
      (∀ inp base, (encrypt_one_block_tr wbits inp base kd.EK kd.ME).log.filterMap
        Access.EK_index = List.range kd.EK.length) := by
  have hWl := key_expansion_length wbits key key.length 0
  rcases hk with h | h | h
  · rw [h] at hWl ⊢
    have hks := aes_key_schedule_16 wbits cls hw hc key
    generalize key_expansion wbits key 16 0 = W at hks hWl ⊢
    have hl : (W.take 40).length = 40 := by rw [List.length_take, hWl]; rfl
    refine ⟨KeyData.mk (W.take 40) (DK_16 W) (ME_16 W) (MD_of W), hks, hl, ?_, rfl, rfl, ?_⟩
    · show W.take 40 = W.take (4 * (16 / 4 + 6))
      norm_num
    · intro inp base
      show (encrypt_one_block_tr wbits inp base (W.take 40) (ME_16 W)).log.filterMap
        Access.EK_index = List.range (W.take 40).length
      rw [encrypt_one_block_tr_eq, hl]
      exact (encrypt_one_block_shape_EK base).1
  · rw [h] at hWl ⊢
    have hks := aes_key_schedule_24 wbits cls hw hc key
    generalize key_expansion wbits key 24 0 = W at hks hWl ⊢
    have hl : (W.take 48).length = 48 := by rw [List.length_take, hWl]; rfl
    refine ⟨KeyData.mk (W.take 48) (DK_24 W) (ME_24 W) (MD_of W), hks, hl, ?_, rfl, rfl, ?_⟩
    · show W.take 48 = W.take (4 * (24 / 4 + 6))
      norm_num
    · intro inp base
      show (encrypt_one_block_tr wbits inp base (W.take 48) (ME_24 W)).log.filterMap
        Access.EK_index = List.range (W.take 48).length
      rw [encrypt_one_block_tr_eq, hl]
      exact (encrypt_one_block_shape_EK base).2.1
  · rw [h] at hWl ⊢
    have hks := aes_key_schedule_32 wbits cls hw hc key
    generalize key_expansion wbits key 32 0 = W at hks hWl ⊢
    have hl : (W.take 56).length = 56 := by rw [List.length_take, hWl]; rfl
    refine ⟨KeyData.mk (W.take 56) (DK_32 W) (ME_32 W) (MD_of W), hks, hl, ?_, rfl, rfl, ?_⟩
    · show W.take 56 = W.take (4 * (32 / 4 + 6))
      norm_num
    · intro inp base
      show (encrypt_one_block_tr wbits inp base (W.take 56) (ME_32 W)).log.filterMap
        Access.EK_index = List.range (W.take 56).length
      rw [encrypt_one_block_tr_eq, hl]
      exact (encrypt_one_block_shape_EK base).2.2

theorem EK_length_is_4_Nr_witness :
    16 ≤ 32 ∧ 4 ≤ 64 ∧
    ((List.range 16).length = 16 ∨ (List.range 16).length = 24 ∨
      (List.range 16).length = 32) ∧
    ∃ kd, aes_key_schedule 32 64 (List.range 16) (List.range 16).length = Except.ok kd ∧
      kd.EK.length = 4 * ((List.range 16).length / 4 + 6 + 1) - 4 ∧
      kd.EK = (key_expansion 32 (List.range 16) (List.range 16).length 0).take
        (4 * ((List.range 16).length / 4 + 6)) ∧
      kd.ME.length = 16 ∧
      kd.ME = round_key_bytes (key_expansion 32 (List.range 16) (List.range 16).length 0)
        (4 * ((List.range 16).length / 4 + 6)) ∧
      (∀ inp base, (encrypt_one_block_tr 32 inp base kd.EK kd.ME).log.filterMap
        Access.EK_index = List.range kd.EK.length) :=
  ⟨by decide, by decide, by decide,
    EK_length_is_4_Nr 32 64 (by decide) (by decide) (List.range 16) (by decide)⟩

/-! ## Outer round keys, the double-width round, `Z`, the `xtime` family -/

/-- C26: the outer round keys are passed through unchanged.  For every key of
16, 24 or 32 bytes (each below 256), every word width `wbits >= 16` and cache
line size `cls >= 4`, with `W` the forward expansion and `Nr = key_len / 4 + 6`:
`ME` is the big-endian serialisation of `W[4 Nr .. 4 Nr + 3]`, `MD` is the
big-endian serialisation of `W[0..3]` and equals the first 16 bytes of the key,
and `DK[c] = W[4 Nr + c]` for `c < 4`; neither InvMixColumns nor the S-box is
applied to them. -/
theorem outer_round_keys_pass_unchanged (wbits cls : Nat) (hw : 16 ≤ wbits) (hc : 4 ≤ cls)
    (key : List Nat) (hk : key.length = 16 ∨ key.length = 24 ∨ key.length = 32)
    (hb : ∀ b ∈ key, b < 256) :
    ∃ kd, aes_key_schedule wbits cls key key.length = Except.ok kd ∧
      kd.ME = round_key_bytes (key_expansion wbits key key.length 0)
        (4 * (key.length / 4 + 6)) ∧
      kd.MD = round_key_bytes (key_expansion wbits key key.length 0) 0 ∧
      kd.MD = key.take 16 ∧
      (∀ c, c < 4 → kd.DK.getD c 0 =
        (key_expansion wbits key key.length 0).getD (4 * (key.length / 4 + 6) + c) 0) := by
  have hMD := MD_of_key wbits (by omega) key hk hb
  rcases hk with h | h | h
  · rw [h] at hMD ⊢
    have hks := aes_key_schedule_16 wbits cls hw hc key
    generalize key_expansion wbits key 16 0 = W at hks hMD ⊢
    exact ⟨KeyData.mk (W.take 40) (DK_16 W) (ME_16 W) (MD_of W), hks, ME_16_eq W, MD_of_eq W,
      hMD, fun c hc4 => DK_16_head W c hc4⟩
  · rw [h] at hMD ⊢
    have hks := aes_key_schedule_24 wbits cls hw hc key
    generalize key_expansion wbits key 24 0 = W at hks hMD ⊢
    exact ⟨KeyData.mk (W.take 48) (DK_24 W) (ME_24 W) (MD_of W), hks, ME_24_eq W, MD_of_eq W,
      hMD, fun c hc4 => DK_24_head W c hc4⟩
  · rw [h] at hMD ⊢
    have hks := aes_key_schedule_32 wbits cls hw hc key
    generalize key_expansion wbits key 32 0 = W at hks hMD ⊢
    exact ⟨KeyData.mk (W.take 56) (DK_32 W) (ME_32 W) (MD_of W), hks, ME_32_eq W, MD_of_eq W,
      hMD, fun c hc4 => DK_32_head W c hc4⟩

theorem outer_round_keys_pass_unchanged_witness :
    16 ≤ 32 ∧ 4 ≤ 64 ∧
    ((List.range 32).length = 16 ∨ (List.range 32).length = 24 ∨
      (List.range 32).length = 32) ∧
    (∀ b ∈ List.range 32, b < 256) ∧
    ∃ kd, aes_key_schedule 32 64 (List.range 32) (List.range 32).length = Except.ok kd ∧
      kd.ME = round_key_bytes (key_expansion 32 (List.range 32) (List.range 32).length 0)
        (4 * ((List.range 32).length / 4 + 6)) ∧
      kd.MD = round_key_bytes (key_expansion 32 (List.range 32) (List.range 32).length 0) 0 ∧
      kd.MD = (List.range 32).take 16 ∧
      (∀ c, c < 4 → kd.DK.getD c 0 =
        (key_expansion 32 (List.range 32) (List.range 32).length 0).getD
          (4 * ((List.range 32).length / 4 + 6) + c) 0) :=
  ⟨by decide, by decide, by decide, by decide,
    outer_round_keys_pass_unchanged 32 64 (by decide) (by decide) (List.range 32) (by decide)
      (by decide)⟩

/-- C27: double-width round.  For every word width `wbits >= 32`, all words
`B0`, ..., `B7` and `K0`, ..., `K3`, the eight-word `aes_enc_r` leaves in
`(B0, ..., B3)` what the four-word `aes_enc_r(B0, B1, B2, B3, K0, ..., K3)`
leaves and in `(B4, ..., B7)` what the four-word
`aes_enc_r(B4, B5, B6, B7, K0, ..., K3)` leaves. -/
theorem aes_enc_r_x8_is_two_aes_enc_r (wbits : Nat) (hw : 32 ≤ wbits) (B : Words8)
    (K0 K1 K2 K3 : Nat) :
    (aes_enc_r_x8 wbits B K0 K1 K2 K3).lo =
      aes_enc_r wbits (Words4.mk B.b0 B.b1 B.b2 B.b3) K0 K1 K2 K3 ∧
    (aes_enc_r_x8 wbits B K0 K1 K2 K3).hi =
      aes_enc_r wbits (Words4.mk B.b4 B.b5 B.b6 B.b7) K0 K1 K2 K3 :=
  ⟨aes_enc_r_x8_lo wbits hw B K0 K1 K2 K3, aes_enc_r_x8_hi wbits hw B K0 K1 K2 K3⟩

theorem aes_enc_r_x8_is_two_aes_enc_r_witness :
    32 ≤ 64 ∧
    (aes_enc_r_x8 64 (Words8.mk 1 2 3 4 0x00112233 0x44556677 0x8899aabb 0xccddeeff)
        5 6 7 8).lo = aes_enc_r 64 (Words4.mk 1 2 3 4) 5 6 7 8 ∧
    (aes_enc_r_x8 64 (Words8.mk 1 2 3 4 0x00112233 0x44556677 0x8899aabb 0xccddeeff)
        5 6 7 8).hi =
      aes_enc_r 64 (Words4.mk 0x00112233 0x44556677 0x8899aabb 0xccddeeff) 5 6 7 8 :=
  ⟨by decide, aes_enc_r_x8_is_two_aes_enc_r 64 (by decide)
    (Words8.mk 1 2 3 4 0x00112233 0x44556677 0x8899aabb 0xccddeeff) 5 6 7 8⟩

/-- C28: `TD[99] = 0`, because `SD[99] = 0`.  For every cache line size
`cls >= 4` the prefetch preamble of `aes_decrypt_n` and that of
`aes_key_schedule` leave `Z = 0`, and for every other cache line size
`cls2 >= 4` (and every word width) both functions return what they return for
`cls`. -/
theorem prefetch_leaves_Z_zero (wbits cls cls2 : Nat) (hc : 4 ≤ cls) (hc2 : 4 ≤ cls2) :
    SD 99 = 0 ∧ AES_TD 99 = 0 ∧
    decrypt_prefetch cls = some 0 ∧
    (prefetch AES_TD (cls / 4) 257 0 0).map (fun Z => Z &&& AES_TD 99) = some 0 ∧
    (∀ inp n DK MD, aes_decrypt_n cls inp n DK MD = aes_decrypt_n cls2 inp n DK MD) ∧
    (∀ key length, aes_key_schedule wbits cls key length =
      aes_key_schedule wbits cls2 key length) := by
  refine ⟨SD_99, AES_TD_99, decrypt_prefetch_eq cls hc, key_schedule_Z cls hc, ?_, ?_⟩
  · intro inp n DK MD
    rw [aes_decrypt_n_cls cls hc, aes_decrypt_n_cls cls2 hc2]
  · intro key length
    rw [aes_key_schedule_cls wbits cls hc, aes_key_schedule_cls wbits cls2 hc2]

theorem prefetch_leaves_Z_zero_witness :
    4 ≤ 32 ∧ 4 ≤ 128 ∧
    decrypt_prefetch 32 = some 0 ∧
    (prefetch AES_TD (32 / 4) 257 0 0).map (fun Z => Z &&& AES_TD 99) = some 0 ∧
    (∀ inp n DK MD, aes_decrypt_n 32 inp n DK MD = aes_decrypt_n 128 inp n DK MD) ∧
    (∀ key length, aes_key_schedule 64 32 key length = aes_key_schedule 64 128 key length) :=
  ⟨by decide, by decide,
    (prefetch_leaves_Z_zero 64 32 128 (by decide) (by decide)).2.2⟩

/-- C29: `xtime_32` is `xtime` applied to each byte.  For every word `w` and
every byte index `k < 4`, byte `k` of `xtime_32(w)` is `xtime` of byte `k` of `w`;
the result is a 32-bit word, the concatenation of the four `xtime` values: no
carry passes from a byte to its neighbour. -/
theorem xtime_32_is_xtime_on_each_byte (w k : Nat) (hk : k < 4) :
    get_byte k (xtime_32 w) = xtime (get_byte k w) ∧
    xtime_32 w < 2 ^ 32 ∧
    xtime_32 w = make_uint32 (xtime (get_byte 0 w)) (xtime (get_byte 1 w))
      (xtime (get_byte 2 w)) (xtime (get_byte 3 w)) := by
  refine ⟨get_byte_xtime_32 w k hk, xtime_32_lt w, ?_⟩
  have h := make_uint32_get_byte (xtime_32_lt w)
  rw [get_byte_xtime_32 w 0 (by norm_num), get_byte_xtime_32 w 1 (by norm_num),
    get_byte_xtime_32 w 2 (by norm_num), get_byte_xtime_32 w 3 (by norm_num)] at h
  exact h.symm

theorem xtime_32_is_xtime_on_each_byte_witness :
    2 < 4 ∧
    get_byte 2 (xtime_32 0x80ff7f01) = xtime (get_byte 2 0x80ff7f01) ∧
    xtime_32 0x80ff7f01 < 2 ^ 32 ∧
    xtime_32 0x80ff7f01 = make_uint32 (xtime (get_byte 0 0x80ff7f01))
      (xtime (get_byte 1 0x80ff7f01)) (xtime (get_byte 2 0x80ff7f01))
      (xtime (get_byte 3 0x80ff7f01)) :=
  ⟨by decide, xtime_32_is_xtime_on_each_byte 0x80ff7f01 2 (by decide)⟩

/-- C30: for every byte `s`, `xtime(s)`, `xtime3(s)`, `xtime4(s)`, `xtime8(s)`,
`xtime9(s)`, `xtime11(s)`, `xtime13(s)` and `xtime14(s)` are the products of `s`
by 2, 3, 4, 8, 9, 11, 13 and 14 in GF(2^8) with the reduction polynomial
`x^8 + x^4 + x^3 + x + 1` (`0x11B`), and each result is a byte. -/
theorem xtime_family_is_GF256_multiplication (s : Nat) (hs : s < 256) :
    (xtime s = gf256_mul 2 s ∧ xtime3 s = gf256_mul 3 s ∧ xtime4 s = gf256_mul 4 s ∧
      xtime8 s = gf256_mul 8 s ∧ xtime9 s = gf256_mul 9 s ∧ xtime11 s = gf256_mul 11 s ∧
      xtime13 s = gf256_mul 13 s ∧ xtime14 s = gf256_mul 14 s) ∧
    (xtime s < 256 ∧ xtime3 s < 256 ∧ xtime4 s < 256 ∧ xtime8 s < 256 ∧ xtime9 s < 256 ∧
      xtime11 s < 256 ∧ xtime13 s < 256 ∧ xtime14 s < 256) := by
  obtain ⟨-, h2, h3, h9, h11, h13, h14⟩ := gf256_mul_xtime_table s hs
  obtain ⟨h4, h8⟩ := gf256_mul_xtime_table_4_8 s hs
  exact ⟨⟨h2.symm, h3.symm, h4.symm, h8.symm, h9.symm, h11.symm, h13.symm, h14.symm⟩,
    xtime_lt hs, xtime3_lt hs, xtime4_lt hs, xtime8_lt hs, xtime9_lt hs, xtime11_lt hs,
    xtime13_lt hs, xtime14_lt hs⟩

theorem xtime_family_is_GF256_multiplication_witness :
    0x57 < 256 ∧
    (xtime 0x57 = gf256_mul 2 0x57 ∧ xtime3 0x57 = gf256_mul 3 0x57 ∧
      xtime4 0x57 = gf256_mul 4 0x57 ∧ xtime8 0x57 = gf256_mul 8 0x57 ∧
      xtime9 0x57 = gf256_mul 9 0x57 ∧ xtime11 0x57 = gf256_mul 11 0x57 ∧
      xtime13 0x57 = gf256_mul 13 0x57 ∧ xtime14 0x57 = gf256_mul 14 0x57) ∧
    (xtime 0x57 < 256 ∧ xtime3 0x57 < 256 ∧ xtime4 0x57 < 256 ∧ xtime8 0x57 < 256 ∧
      xtime9 0x57 < 256 ∧ xtime11 0x57 < 256 ∧ xtime13 0x57 < 256 ∧ xtime14 0x57 < 256) :=
  ⟨by decide, xtime_family_is_GF256_multiplication 0x57 (by decide)⟩

/-! ## The tables, the indices and the prefetch loops -/

/-- The tables `SE` and `SD` on all bytes, and the entries of `TD` at the values
of `SE`. -/
theorem SE_SD_table : ∀ x < 256, SD (SE x) = x ∧ SE (SD x) = x ∧ SE x < 256 ∧ SD x < 256 ∧
    AES_TD (SE x) = make_uint32 (xtime14 x) (xtime9 x) (xtime13 x) (xtime11 x) := by
  decide!

/-- C31: the tables `SE` and `SD` are mutually inverse permutations of the
bytes.  For every byte `x`: `SD[SE[x]] = x` and `SE[SD[x]] = x`, both tables
map bytes to bytes, and the entry of `TD` at `SE[x]` is the InvMixColumns
column of `x` itself, which is the cancellation that the key schedule uses
when it applies `SE_word_x4` before `AES_T`. -/
theorem SE_and_SD_are_mutually_inverse (x : Nat) (hx : x < 256) :
    SD (SE x) = x ∧ SE (SD x) = x ∧ SE x < 256 ∧ SD x < 256 ∧
    AES_TD (SE x) = make_uint32 (xtime14 x) (xtime9 x) (xtime13 x) (xtime11 x) :=
  SE_SD_table x hx

theorem SE_and_SD_are_mutually_inverse_witness :
    83 < 256 ∧ SD (SE 83) = 83 ∧ SE (SD 83) = 83 ∧ SE 83 < 256 ∧ SD 83 < 256 ∧
    AES_TD (SE 83) = make_uint32 (xtime14 83) (xtime9 83) (xtime13 83) (xtime11 83) :=
  ⟨by decide, SE_and_SD_are_mutually_inverse 83 (by decide)⟩

/-- C32: every index used by `aes_key_schedule` is in range for
`X = length / 4` in {4, 6, 8}, `length + 24` being a multiple of 4 (the key
lengths 16, 24 and 32), for every cache line size `cls >= 4`.  The instrumented
run returns what `aes_key_schedule` returns, and it returns normally, so every
loop exits; every step of the run is in range: reads and writes of `XEK` and
`XDK` are at indices below `length + 32`, every index into `RC` is below 10, no
subtraction goes below 0 (also reads of `key` are below `length`, reads of `TD`
below 256, writes of `ME` and `MD` below 16); the largest index of `XEK` written
is 53 for a key of 24 bytes and 63 for one of 32 bytes, past the `4 (Nr + 1)`
schedule words and inside the buffer; `4 (rounds + 1)` is a multiple of 4. -/
theorem key_schedule_indices_in_range (wbits cls : Nat) (hc : 4 ≤ cls) (key : List Nat)
    (length : Nat) (hX : length / 4 = 4 ∨ length / 4 = 6 ∨ length / 4 = 8)
    (h4 : (length + 24) % 4 = 0) :
    (aes_key_schedule_tr wbits cls key length).val = aes_key_schedule wbits cls key length ∧
    (∃ kd, (aes_key_schedule_tr wbits cls key length).val = Except.ok kd) ∧
    (∀ a ∈ (aes_key_schedule_tr wbits cls key length).log,
      Access.key_schedule_ok length a = true) ∧
    (length = 24 →
      53 ∈ (aes_key_schedule_tr wbits cls key length).log.filterMap Access.XEK_write_index ∧
      (∀ i ∈ (aes_key_schedule_tr wbits cls key length).log.filterMap Access.XEK_write_index,
        i ≤ 53) ∧
      4 * (length / 4 + 6 + 1) ≤ 53 ∧ 53 < length + 32) ∧
    (length = 32 →
      63 ∈ (aes_key_schedule_tr wbits cls key length).log.filterMap Access.XEK_write_index ∧
      (∀ i ∈ (aes_key_schedule_tr wbits cls key length).log.filterMap Access.XEK_write_index,
        i ≤ 63) ∧
      4 * (length / 4 + 6 + 1) ≤ 63 ∧ 63 < length + 32) ∧
    (4 * (length / 4 + 6 + 1)) % 4 = 0 := by
  have hl : length = 16 ∨ length = 24 ∨ length = 32 := by omega
  refine ⟨aes_key_schedule_tr_val wbits cls key length, ?_, ?_, ?_, ?_, by omega⟩
  · rw [aes_key_schedule_tr_val]
    exact aes_key_schedule_returns wbits cls hc key length hl
  · rcases hl with rfl | rfl | rfl
    · exact key_schedule_log_ok wbits cls hc key 16 (by decide) key_schedule_body_ok_16
        key_schedule_store_ok_16
    · exact key_schedule_log_ok wbits cls hc key 24 (by decide) key_schedule_body_ok_24
        key_schedule_store_ok_24
    · exact key_schedule_log_ok wbits cls hc key 32 (by decide) key_schedule_body_ok_32
        key_schedule_store_ok_32
  · intro h
    subst h
    rw [key_schedule_XEK_writes wbits cls hc key 24 (by decide) (by decide!)]
    exact ⟨by decide!, by decide!, by decide, by decide⟩
  · intro h
    subst h
    rw [key_schedule_XEK_writes wbits cls hc key 32 (by decide) (by decide!)]
    exact ⟨by decide!, by decide!, by decide, by decide⟩

theorem key_schedule_indices_in_range_witness :
    4 ≤ 64 ∧ (24 / 4 = 4 ∨ 24 / 4 = 6 ∨ 24 / 4 = 8) ∧ (24 + 24) % 4 = 0 ∧
    (aes_key_schedule_tr 32 64 (List.range 24) 24).val =
      aes_key_schedule 32 64 (List.range 24) 24 ∧
    (∃ kd, (aes_key_schedule_tr 32 64 (List.range 24) 24).val = Except.ok kd) ∧
    (∀ a ∈ (aes_key_schedule_tr 32 64 (List.range 24) 24).log,
      Access.key_schedule_ok 24 a = true) ∧
    ((24 : Nat) = 24 →
      53 ∈ (aes_key_schedule_tr 32 64 (List.range 24) 24).log.filterMap
        Access.XEK_write_index ∧
      (∀ i ∈ (aes_key_schedule_tr 32 64 (List.range 24) 24).log.filterMap
        Access.XEK_write_index, i ≤ 53) ∧
      4 * (24 / 4 + 6 + 1) ≤ 53 ∧ 53 < 24 + 32) ∧
    ((24 : Nat) = 32 →
      63 ∈ (aes_key_schedule_tr 32 64 (List.range 24) 24).log.filterMap
        Access.XEK_write_index ∧
      (∀ i ∈ (aes_key_schedule_tr 32 64 (List.range 24) 24).log.filterMap
        Access.XEK_write_index, i ≤ 63) ∧
      4 * (24 / 4 + 6 + 1) ≤ 63 ∧ 63 < 24 + 32) ∧
    (4 * (24 / 4 + 6 + 1)) % 4 = 0 :=
  ⟨by decide, by decide, by decide,
    key_schedule_indices_in_range 32 64 (by decide) (List.range 24) 24 (by decide) (by decide)⟩

/-- C33: every round-key index read by the block loops is in range.  For `EK`
(resp. `DK`) of size `key_len + 24` with `key_len` in {16, 24, 32} and a mask
`ME` (resp. `MD`) of 16 bytes, the size is a multiple of 8 and, for every input
and every number of blocks, every step of `aes_encrypt_n` and of
`aes_decrypt_n` that reads `EK` or `DK` does so at an index below the size, and
every step that reads `ME` or `MD` at an index below 16.  The multiple of 8
matters: with a schedule of 44 words the round loop of `aes_encrypt_n` reads
`EK[47]`. -/
theorem block_loops_read_round_keys_in_range (wbits cls : Nat) (inp : List Nat) (blocks : Nat)
    (key_len : Nat) (K M : List Nat) (hk : key_len = 16 ∨ key_len = 24 ∨ key_len = 32)
    (hK : K.length = key_len + 24) (hM : M.length = 16) :
    K.length % 8 = 0 ∧
    (∀ a ∈ (aes_encrypt_n_tr wbits inp blocks K M).log,
      Access.round_key_ok K.length M.length a = true) ∧
    (∀ a ∈ (aes_decrypt_n_tr cls inp blocks K M).log,
      Access.round_key_ok K.length M.length a = true) ∧
    Access.read_EK 47 ∈ (aes_encrypt_n_tr wbits inp 1 (List.replicate 44 0) M).log := by
  have h8 : K.length % 8 = 0 := by omega
  have h0 : K.length ≠ 0 := by omega
  rw [hM]
  refine ⟨h8, aes_encrypt_n_tr_key_ok wbits inp blocks K M h8 h0,
    aes_decrypt_n_tr_key_ok cls inp blocks K M h8 h0, ?_⟩
  rw [aes_encrypt_n_tr_eq, hM]
  show Access.read_EK 47 ∈ aes_encrypt_n_shape 1 (List.replicate 44 0).length 16
  decide!

theorem block_loops_read_round_keys_in_range_witness :
    ((16 : Nat) = 16 ∨ (16 : Nat) = 24 ∨ (16 : Nat) = 32) ∧
    (List.range 40).length = 16 + 24 ∧ (List.range 16).length = 16 ∧
    (List.range 40).length % 8 = 0 ∧
    (∀ a ∈ (aes_encrypt_n_tr 32 (List.range 48) 3 (List.range 40) (List.range 16)).log,
      Access.round_key_ok (List.range 40).length (List.range 16).length a = true) ∧
    (∀ a ∈ (aes_decrypt_n_tr 64 (List.range 48) 3 (List.range 40) (List.range 16)).log,
      Access.round_key_ok (List.range 40).length (List.range 16).length a = true) ∧
    Access.read_EK 47 ∈
      (aes_encrypt_n_tr 32 (List.range 48) 1 (List.replicate 44 0) (List.range 16)).log :=
  ⟨by decide, by decide, by decide,
    block_loops_read_round_keys_in_range 32 64 (List.range 48) 3 16 (List.range 40)
      (List.range 16) (by decide) (by decide) (by decide)⟩

/-- C34: the prefetch loops terminate exactly when the step is positive.  For
every cache line size `cls >= 4` the preambles of `aes_decrypt_n` and of
`aes_key_schedule` return (with `Z = 0`); the loop over `TD`, which both have,
reads `TD` at `0, s, 2 s, ...` with `s = cls / 4`, `ceil(256 / s)` times, and
the loop over `SD`, which `aes_decrypt_n` has, reads `SD` at `0, cls, 2 cls, ...`,
`ceil(256 / cls)` times, all at indices below 256; the only other read is that
of `TD[99]` after the loops.  For `cls < 4` the step `cls / 4` is 0: whatever
the number of iterations allowed, the loop over `TD` has not exited and has read
`TD[0]` each time, and neither preamble returns. -/
theorem prefetch_loops_terminate_for_cls_ge_4 (cls : Nat) :
    (4 ≤ cls →
      (decrypt_prefetch_tr cls).val = Except.ok 0 ∧
      (key_schedule_prefetch_tr cls).val = Except.ok 0 ∧
      (decrypt_prefetch_tr cls).log.filterMap Access.TD_index =
        List.range' 0 (ceil_div 256 (cls / 4)) (cls / 4) ++ [99] ∧
      (decrypt_prefetch_tr cls).log.filterMap Access.SD_index =
        List.range' 0 (ceil_div 256 cls) cls ∧
      (key_schedule_prefetch_tr cls).log.filterMap Access.TD_index =
        List.range' 0 (ceil_div 256 (cls / 4)) (cls / 4) ++ [99] ∧
      (key_schedule_prefetch_tr cls).log.filterMap Access.SD_index = [] ∧
      (List.range' 0 (ceil_div 256 (cls / 4)) (cls / 4)).length = ceil_div 256 (cls / 4) ∧
      (List.range' 0 (ceil_div 256 cls) cls).length = ceil_div 256 cls ∧
      ((ceil_div 256 (cls / 4) - 1) * (cls / 4) < 256 ∧
        256 ≤ ceil_div 256 (cls / 4) * (cls / 4)) ∧
      ((ceil_div 256 cls - 1) * cls < 256 ∧ 256 ≤ ceil_div 256 cls * cls) ∧
      (∀ i ∈ List.range' 0 (ceil_div 256 (cls / 4)) (cls / 4), i < 256) ∧
      (∀ i ∈ List.range' 0 (ceil_div 256 cls) cls, i < 256)) ∧
    (cls < 4 →
      cls / 4 = 0 ∧
      (∀ fuel, (prefetch_tr Access.read_TD AES_TD (cls / 4) fuel 0 0).val =
          Except.error AesError.nontermination ∧
        (prefetch_tr Access.read_TD AES_TD (cls / 4) fuel 0 0).log.filterMap Access.TD_index =
          List.replicate fuel 0) ∧
      (decrypt_prefetch_tr cls).val = Except.error AesError.nontermination ∧
      (key_schedule_prefetch_tr cls).val = Except.error AesError.nontermination) := by
  constructor
  · intro hc
    have hs : 0 < cls / 4 := by omega
    have hs2 : 0 < cls := by omega
    have eD : (decrypt_prefetch_tr cls).log = prefetch_shape Access.read_TD (cls / 4) 257 0 ++
        (prefetch_shape Access.read_SD cls 257 0 ++ [Access.read_TD 99]) := by
      rw [decrypt_prefetch_tr_eq cls hc]
    have eK : (key_schedule_prefetch_tr cls).log =
        prefetch_shape Access.read_TD (cls / 4) 257 0 ++ [Access.read_TD 99] := by
      rw [key_schedule_prefetch_tr_eq cls hc]
    have vD : (decrypt_prefetch_tr cls).val = Except.ok 0 := by
      rw [decrypt_prefetch_tr_eq cls hc]
    have vK : (key_schedule_prefetch_tr cls).val = Except.ok 0 := by
      rw [key_schedule_prefetch_tr_eq cls hc]
    refine ⟨vD, vK, ?_, ?_, ?_, ?_, List.length_range' _ _ _, List.length_range' _ _ _,
      ceil_div_spec 256 (cls / 4) hs (by norm_num), ceil_div_spec 256 cls hs2 (by norm_num),
      prefetch_indices_lt_256 (cls / 4) hs, prefetch_indices_lt_256 cls hs2⟩
    · rw [eD, List.filterMap_append, List.filterMap_append, prefetch_TD_reads cls hc,
        prefetch_shape_other Access.read_SD Access.TD_index (fun _ => rfl) (fun _ => rfl)]
      rfl
    · rw [eD, List.filterMap_append, List.filterMap_append, prefetch_SD_reads cls hc,
        prefetch_shape_other Access.read_TD Access.SD_index (fun _ => rfl) (fun _ => rfl)]
      exact List.append_nil _
    · rw [eK, List.filterMap_append, prefetch_TD_reads cls hc]
      rfl
    · rw [eK, List.filterMap_append,
        prefetch_shape_other Access.read_TD Access.SD_index (fun _ => rfl) (fun _ => rfl)]
      rfl
  · intro hc
    have h0 : cls / 4 = 0 := by omega
    refine ⟨h0, ?_, ?_, ?_⟩
    · intro fuel
      rw [h0]
      exact prefetch_tr_stuck Access.read_TD Access.TD_index (fun _ => rfl) (fun _ => rfl)
        AES_TD fuel 0 0 (by norm_num)
    · simp only [decrypt_prefetch_tr, Tr.bind_eq, Tr.val_andThen, h0,
        (prefetch_tr_stuck Access.read_TD Access.TD_index (fun _ => rfl) (fun _ => rfl)
          AES_TD 257 0 0 (by norm_num)).1]
      rfl
    · simp only [key_schedule_prefetch_tr, Tr.bind_eq, Tr.val_andThen, h0,
        (prefetch_tr_stuck Access.read_TD Access.TD_index (fun _ => rfl) (fun _ => rfl)
          AES_TD 257 0 0 (by norm_num)).1]
      rfl

theorem prefetch_loops_terminate_for_cls_ge_4_witness :
    (4 ≤ 64 ∧
      (decrypt_prefetch_tr 64).val = Except.ok 0 ∧
      (key_schedule_prefetch_tr 64).val = Except.ok 0 ∧
      (decrypt_prefetch_tr 64).log.filterMap Access.TD_index =
        List.range' 0 (ceil_div 256 (64 / 4)) (64 / 4) ++ [99] ∧
      (decrypt_prefetch_tr 64).log.filterMap Access.SD_index =
        List.range' 0 (ceil_div 256 64) 64 ∧
      (key_schedule_prefetch_tr 64).log.filterMap Access.TD_index =
        List.range' 0 (ceil_div 256 (64 / 4)) (64 / 4) ++ [99] ∧
      (key_schedule_prefetch_tr 64).log.filterMap Access.SD_index = [] ∧
      (List.range' 0 (ceil_div 256 (64 / 4)) (64 / 4)).length = ceil_div 256 (64 / 4) ∧
      (List.range' 0 (ceil_div 256 64) 64).length = ceil_div 256 64 ∧
      ((ceil_div 256 (64 / 4) - 1) * (64 / 4) < 256 ∧
        256 ≤ ceil_div 256 (64 / 4) * (64 / 4)) ∧
      ((ceil_div 256 64 - 1) * 64 < 256 ∧ 256 ≤ ceil_div 256 64 * 64) ∧
      (∀ i ∈ List.range' 0 (ceil_div 256 (64 / 4)) (64 / 4), i < 256) ∧
      (∀ i ∈ List.range' 0 (ceil_div 256 64) 64, i < 256)) ∧
    (2 < 4 ∧
      2 / 4 = 0 ∧
      (∀ fuel, (prefetch_tr Access.read_TD AES_TD (2 / 4) fuel 0 0).val =
          Except.error AesError.nontermination ∧
        (prefetch_tr Access.read_TD AES_TD (2 / 4) fuel 0 0).log.filterMap Access.TD_index =
          List.replicate fuel 0) ∧
      (decrypt_prefetch_tr 2).val = Except.error AesError.nontermination ∧
      (key_schedule_prefetch_tr 2).val = Except.error AesError.nontermination) :=
  ⟨⟨by decide, (prefetch_loops_terminate_for_cls_ge_4 64).1 (by decide)⟩,
    ⟨by decide, (prefetch_loops_terminate_for_cls_ge_4 2).2 (by decide)⟩⟩

end Botan
